import Mathlib

/-!
# Thread.cpp: semaphores, the monitor and the thread objects

A shallow embedding of `src/framework/base/Thread.cpp` (with `Thread.hpp`), and of the
names of the Unicode keys in `src/framework/gui/Keys.cpp`.

* `Semaphore` follows the two backends of the class: the `FW_QT` one, which wraps a
  `QSemaphore`, and the native one, which wraps a Win32 semaphore handle.  The platform
  primitives themselves (`QSemaphore`, `CreateSemaphore`, `ReleaseSemaphore`,
  `WaitForSingleObject`) are outside the repository and are modelled after their
  documented behaviour.
* `Monitor` is embedded as a small-step transition system: every statement of
  `enter`, `leave`, `wait`, `notify` and `notifyAll` is one program point, a thread
  executes one statement at a time and the threads interleave freely (each statement is
  atomic and all threads see the same memory).  A method call of a thread that runs
  alone (`Monitor.enter`, `Monitor.leave`, ...) is the run of its statements up to the
  return.
* The methods of `Thread` are state transformers on a world holding the thread objects
  by address, the static registry `s_threads` and the pointer `s_mainThread`; what the
  platform answers to a call (the id of the calling thread, the address `new` returns,
  the outcome of a wait) is an argument of the call.  `Thread::start` and the thread
  procedure it spawns are a small-step transition system of their own.
* The Qt priority normalisation `fwToQt`/`qtToFw` is computed on exact rationals, where
  the source uses `float`; the rounding `qRound` and the clamp `qBound` are those of Qt 4.
* `keyToUnicode` reads the characters of a C string; its `S32` accumulator wraps around
  explicitly.  `sprintf` of `base/String.hpp` is not among the sources.

The counters `m_enterCount`, `m_waitCount` and `m_refCount`, of type `S32` in the
source, are unbounded integers here: the overflow of a counter (2^31 nested entries or
references) is outside the model.
-/

namespace FW

/-! ## Results of a call -/

/-- Result of a call that may return, block for ever, or end the process through
`fail` (`failWin32Error`, `FW_ASSERT`).  Each case carries the state that is left. -/
inductive Res (σ : Type) (α : Type) where
  | ret (value : α) (state : σ)
  | blocks (state : σ)
  | fatal (state : σ)
  deriving DecidableEq, Repr

/-! ## Semaphore -/

/-- The two implementations selected by `#ifdef FW_QT`. -/
inductive Backend where
  | qt
  | win32
  deriving DecidableEq, Repr

/-- Value of the Win32 constant `INFINITE`. -/
def INFINITE : Nat := 0xFFFFFFFF

/-- Return values of `WaitForSingleObject`. -/
inductive WaitResult where
  | WAIT_OBJECT_0
  | WAIT_TIMEOUT
  | WAIT_FAILED
  deriving DecidableEq, Repr

/-- A semaphore object: the number of available units, and the `maxCount` it was
constructed with.  On the Qt backend `maxCount` is not part of the `QSemaphore`; it is
kept here only as a record of the constructor argument. -/
structure Semaphore where
  count : Nat
  maxCount : Nat
  deriving DecidableEq, Repr

/-- Waiting for one unit of a platform semaphore.  `timeout = none` waits for ever.
`arrival = some d` says that the first `release()` of another thread happens `d`
milliseconds after the wait began, `none` that no other thread ever releases.
The result is `none` when the wait never ends, otherwise whether a unit was taken and
the count that is left. -/
def waitForUnit (count : Nat) (timeout : Option Nat) (arrival : Option Nat) :
    Option (Bool × Nat) :=
  if 0 < count then some (true, count - 1)
  else
    match timeout, arrival with
    | none, none => none
    | none, some _ => some (true, 0)
    | some _, none => some (false, 0)
    | some limit, some d => if d < limit then some (true, 0) else some (false, 0)

/-- Qt: `QSemaphore::tryAcquire(1, timeout)`; a negative timeout waits for ever. -/
def QSemaphore.tryAcquire (avail : Nat) (timeout : Int) (arrival : Option Nat) :
    Option (Bool × Nat) :=
  waitForUnit avail (if timeout < 0 then none else some timeout.toNat) arrival

/-- Qt: `QSemaphore::release(1)`.  A `QSemaphore` has no upper limit: releasing
creates a resource. -/
def QSemaphore.release (avail : Nat) : Nat :=
  avail + 1

/-- Win32: `WaitForSingleObject` on a valid semaphore handle. -/
def WaitForSingleObject (count : Nat) (dwMilliseconds : Nat) (arrival : Option Nat) :
    Option (WaitResult × Nat) :=
  match waitForUnit count (if dwMilliseconds = INFINITE then none else some dwMilliseconds)
      arrival with
  | none => none
  | some (true, c) => some (WaitResult.WAIT_OBJECT_0, c)
  | some (false, c) => some (WaitResult.WAIT_TIMEOUT, c)

/-- Win32: `ReleaseSemaphore(h, 1, NULL)`.  It fails, changing nothing, when the count
would exceed the maximum of the object. -/
def ReleaseSemaphore (count maximum : Nat) : Bool × Nat :=
  if count + 1 ≤ maximum then (true, count + 1) else (false, count)

/-- The constructor `Semaphore::Semaphore(initCount, maxCount)`.
Qt: `m_semaphore(maxCount)` followed by `acquire(maxCount - initCount)` when
`initCount < maxCount`; the `QSemaphore` constructor requires a non-negative argument
and the `acquire` never returns when it asks for more than is available.
Win32: `CreateSemaphore(NULL, initCount, maxCount, NULL)`, which fails unless
`0 ≤ initCount ≤ maxCount` and `0 < maxCount`; failure is `failWin32Error`. -/
def Semaphore.new (b : Backend) (initCount maxCount : Int) : Res Unit Semaphore :=
  match b with
  | Backend.qt =>
    if maxCount < 0 then Res.fatal ()
    else if initCount < maxCount then
      if maxCount - initCount ≤ maxCount then
        Res.ret ⟨(maxCount - (maxCount - initCount)).toNat, maxCount.toNat⟩ ()
      else Res.blocks ()
    else Res.ret ⟨maxCount.toNat, maxCount.toNat⟩ ()
  | Backend.win32 =>
    if 0 ≤ initCount ∧ initCount ≤ maxCount ∧ 0 < maxCount then
      Res.ret ⟨initCount.toNat, maxCount.toNat⟩ ()
    else Res.fatal ()

/-- The method `Semaphore::acquire(millis)`.
Qt: `return m_semaphore.tryAcquire(1, millis);`
Win32: `WaitForSingleObject(m_handle, (millis >= 0) ? millis : INFINITE)`, then
`failWin32Error` on `WAIT_FAILED`, and the result is `res == WAIT_OBJECT_0`. -/
def Semaphore.acquire (b : Backend) (s : Semaphore) (millis : Int) (arrival : Option Nat) :
    Res Semaphore Bool :=
  match b with
  | Backend.qt =>
    match QSemaphore.tryAcquire s.count millis arrival with
    | none => Res.blocks s
    | some (r, c) => Res.ret r { s with count := c }
  | Backend.win32 =>
    match WaitForSingleObject s.count (if millis ≥ 0 then millis.toNat else INFINITE) arrival with
    | none => Res.blocks s
    | some (res, c) =>
      if res = WaitResult.WAIT_FAILED then Res.fatal s
      else Res.ret (decide (res = WaitResult.WAIT_OBJECT_0)) { s with count := c }

/-- The method `Semaphore::release()`.
Qt: `m_semaphore.release();`
Win32: `if (!ReleaseSemaphore(m_handle, 1, NULL)) failWin32Error("ReleaseSemaphore");` -/
def Semaphore.release (b : Backend) (s : Semaphore) : Res Semaphore Unit :=
  match b with
  | Backend.qt => Res.ret () { s with count := QSemaphore.release s.count }
  | Backend.win32 =>
    match ReleaseSemaphore s.count s.maxCount with
    | (true, c) => Res.ret () { s with count := c }
    | (false, _) => Res.fatal s

/-! ## Monitor -/

/-- The shared fields of `class Monitor`.  `m_lock` is the state of the `Spinlock`
(held or not); the three semaphores are `Semaphore` objects. -/
structure Monitor where
  m_lock : Bool
  m_ownerSem : Semaphore
  m_waitSem : Semaphore
  m_notifySem : Semaphore
  m_ownerThread : Nat
  m_enterCount : Int
  m_waitCount : Int
  deriving DecidableEq, Repr

/-- The constructor `Monitor::Monitor`: `m_ownerSem(1, 1)`, `m_waitSem(0, 1)`,
`m_notifySem(0, 1)`, `m_ownerThread(0)`, `m_enterCount(0)`, `m_waitCount(0)`. -/
def Monitor.new (b : Backend) : Res Unit Monitor :=
  match Semaphore.new b 1 1, Semaphore.new b 0 1, Semaphore.new b 0 1 with
  | Res.ret ownerSem _, Res.ret waitSem _, Res.ret notifySem _ =>
    Res.ret ⟨false, ownerSem, waitSem, notifySem, 0, 0, 0⟩ ()
  | Res.blocks _, _, _ => Res.blocks ()
  | Res.ret _ _, Res.blocks _, _ => Res.blocks ()
  | Res.ret _ _, Res.ret _ _, Res.blocks _ => Res.blocks ()
  | _, _, _ => Res.fatal ()

/-- The five methods of `Monitor`. -/
inductive Op where
  | enter
  | leave
  | wait
  | notify
  | notifyAll
  deriving DecidableEq, Repr

/-- Program points of a thread that uses the monitor: one per statement of the five
methods, named after the statement that is executed next.  `idle` is a thread outside
any method, `assertFailed` a thread stopped by `FW_ASSERT`, `fatalError` a thread
stopped by `failWin32Error`. -/
inductive PC where
  | idle
  | assertFailed
  | fatalError
  | enter_lock
  | enter_test
  | enter_unlock
  | enter_acquire
  | enter_relock
  | enter_setOwner
  | enter_incr
  | enter_ret
  | leave_assert
  | leave_decr
  | leave_test
  | leave_release
  | wait_assert
  | wait_saveThread
  | wait_saveCount
  | wait_incrWait
  | wait_zeroEnter
  | wait_releaseOwner
  | wait_acquireWait
  | wait_decrWait
  | wait_releaseNotify
  | wait_acquireOwner
  | wait_lock
  | wait_setOwner
  | wait_setEnter
  | wait_ret
  | notify_assert
  | notify_test
  | notify_releaseWait
  | notify_acquireNotify
  | all_assert
  | all_test
  | all_releaseWait
  | all_acquireNotify
  deriving DecidableEq, Repr

/-- The local variables of a thread inside a method: the program point, `currThread`
(of `enter` and `wait`) and `enterCount` (of `wait`). -/
structure Local where
  pc : PC
  currThread : Nat
  enterCount : Int
  deriving DecidableEq, Repr

/-- A monitor together with the threads that use it; a thread is named by the value
`Thread::getID()` returns in it. -/
structure Sys where
  mon : Monitor
  loc : Nat → Local

/-- Thread `t` moves to the state `l`, the monitor becomes `m`. -/
def Sys.put (s : Sys) (t : Nat) (m : Monitor) (l : Local) : Sys :=
  ⟨m, Function.update s.loc t l⟩

/-- Thread `t` moves to the program point `p`, the monitor becomes `m`. -/
def Sys.goto (s : Sys) (t : Nat) (m : Monitor) (p : PC) : Sys :=
  s.put t m { s.loc t with pc := p }

/-- Modelled from the spec: the macro `FW_ASSERT` of `base/Defs.hpp`, which is not
among the sources.  A violated assertion is a fatal failure that ends execution; it
touches no state. -/
def FW_ASSERT (cond : Bool) (s : Sys) (t : Nat) (next : PC) : Sys :=
  if cond then s.goto t s.mon next else s.goto t s.mon PC.assertFailed

/-- A blocking `acquire()` (default `millis = -1`) inside the monitor: the step is not
enabled while the count is zero; releases of other threads are steps of their own. -/
def acquireThen (b : Backend) (sem : Semaphore) (s : Sys) (t : Nat)
    (k : Semaphore → Sys) : Option Sys :=
  match Semaphore.acquire b sem (-1) none with
  | Res.ret _ sem1 => some (k sem1)
  | Res.blocks _ => none
  | Res.fatal _ => some (s.goto t s.mon PC.fatalError)

/-- A `release()` inside the monitor; a failed release stops the thread. -/
def releaseThen (b : Backend) (sem : Semaphore) (s : Sys) (t : Nat)
    (k : Semaphore → Sys) : Option Sys :=
  match Semaphore.release b sem with
  | Res.ret _ sem1 => some (k sem1)
  | Res.blocks _ => none
  | Res.fatal _ => some (s.goto t s.mon PC.fatalError)

/-- One statement of thread `t`.  `none`: the thread is outside a method, stopped, or
the statement blocks in the current state. -/
def Monitor.step (b : Backend) (t : Nat) (s : Sys) : Option Sys :=
  let m := s.mon
  let l := s.loc t
  match l.pc with
  | PC.idle => none
  | PC.assertFailed => none
  | PC.fatalError => none
  -- Monitor::enter
  | PC.enter_lock =>          -- m_lock.enter();
    if m.m_lock then none else some (s.goto t { m with m_lock := true } PC.enter_test)
  | PC.enter_test =>          -- if (m_ownerThread != currThread || !m_enterCount)
    if m.m_ownerThread ≠ l.currThread ∨ m.m_enterCount = 0
    then some (s.goto t m PC.enter_unlock)
    else some (s.goto t m PC.enter_setOwner)
  | PC.enter_unlock =>        -- m_lock.leave();
    some (s.goto t { m with m_lock := false } PC.enter_acquire)
  | PC.enter_acquire =>       -- m_ownerSem.acquire();
    acquireThen b m.m_ownerSem s t
      (fun sem => s.goto t { m with m_ownerSem := sem } PC.enter_relock)
  | PC.enter_relock =>        -- m_lock.enter();
    if m.m_lock then none else some (s.goto t { m with m_lock := true } PC.enter_setOwner)
  | PC.enter_setOwner =>      -- m_ownerThread = currThread;
    some (s.goto t { m with m_ownerThread := l.currThread } PC.enter_incr)
  | PC.enter_incr =>          -- m_enterCount++;
    some (s.goto t { m with m_enterCount := m.m_enterCount + 1 } PC.enter_ret)
  | PC.enter_ret =>           -- m_lock.leave();
    some (s.goto t { m with m_lock := false } PC.idle)
  -- Monitor::leave
  | PC.leave_assert =>        -- FW_ASSERT(m_ownerThread == Thread::getID() && m_enterCount);
    some (FW_ASSERT (decide (m.m_ownerThread = t) && decide (m.m_enterCount ≠ 0)) s t
      PC.leave_decr)
  | PC.leave_decr =>          -- m_enterCount--;
    some (s.goto t { m with m_enterCount := m.m_enterCount - 1 } PC.leave_test)
  | PC.leave_test =>          -- if (!m_enterCount)
    if m.m_enterCount = 0 then some (s.goto t m PC.leave_release)
    else some (s.goto t m PC.idle)
  | PC.leave_release =>       -- m_ownerSem.release();
    releaseThen b m.m_ownerSem s t (fun sem => s.goto t { m with m_ownerSem := sem } PC.idle)
  -- Monitor::wait
  | PC.wait_assert =>         -- FW_ASSERT(m_ownerThread == Thread::getID() && m_enterCount);
    some (FW_ASSERT (decide (m.m_ownerThread = t) && decide (m.m_enterCount ≠ 0)) s t
      PC.wait_saveThread)
  | PC.wait_saveThread =>     -- U32 currThread = m_ownerThread;
    some (s.put t m { l with pc := PC.wait_saveCount, currThread := m.m_ownerThread })
  | PC.wait_saveCount =>      -- int enterCount = m_enterCount;
    some (s.put t m { l with pc := PC.wait_incrWait, enterCount := m.m_enterCount })
  | PC.wait_incrWait =>       -- m_waitCount++;
    some (s.goto t { m with m_waitCount := m.m_waitCount + 1 } PC.wait_zeroEnter)
  | PC.wait_zeroEnter =>      -- m_enterCount = 0;
    some (s.goto t { m with m_enterCount := 0 } PC.wait_releaseOwner)
  | PC.wait_releaseOwner =>   -- m_ownerSem.release();
    releaseThen b m.m_ownerSem s t
      (fun sem => s.goto t { m with m_ownerSem := sem } PC.wait_acquireWait)
  | PC.wait_acquireWait =>    -- m_waitSem.acquire();
    acquireThen b m.m_waitSem s t
      (fun sem => s.goto t { m with m_waitSem := sem } PC.wait_decrWait)
  | PC.wait_decrWait =>       -- m_waitCount--;
    some (s.goto t { m with m_waitCount := m.m_waitCount - 1 } PC.wait_releaseNotify)
  | PC.wait_releaseNotify =>  -- m_notifySem.release();
    releaseThen b m.m_notifySem s t
      (fun sem => s.goto t { m with m_notifySem := sem } PC.wait_acquireOwner)
  | PC.wait_acquireOwner =>   -- m_ownerSem.acquire();
    acquireThen b m.m_ownerSem s t
      (fun sem => s.goto t { m with m_ownerSem := sem } PC.wait_lock)
  | PC.wait_lock =>           -- m_lock.enter();
    if m.m_lock then none else some (s.goto t { m with m_lock := true } PC.wait_setOwner)
  | PC.wait_setOwner =>       -- m_ownerThread = currThread;
    some (s.goto t { m with m_ownerThread := l.currThread } PC.wait_setEnter)
  | PC.wait_setEnter =>       -- m_enterCount = enterCount;
    some (s.goto t { m with m_enterCount := l.enterCount } PC.wait_ret)
  | PC.wait_ret =>            -- m_lock.leave();
    some (s.goto t { m with m_lock := false } PC.idle)
  -- Monitor::notify
  | PC.notify_assert =>       -- FW_ASSERT(m_ownerThread == Thread::getID() && m_enterCount);
    some (FW_ASSERT (decide (m.m_ownerThread = t) && decide (m.m_enterCount ≠ 0)) s t
      PC.notify_test)
  | PC.notify_test =>         -- if (m_waitCount)
    if m.m_waitCount ≠ 0 then some (s.goto t m PC.notify_releaseWait)
    else some (s.goto t m PC.idle)
  | PC.notify_releaseWait =>  -- m_waitSem.release();
    releaseThen b m.m_waitSem s t
      (fun sem => s.goto t { m with m_waitSem := sem } PC.notify_acquireNotify)
  | PC.notify_acquireNotify => -- m_notifySem.acquire();
    acquireThen b m.m_notifySem s t
      (fun sem => s.goto t { m with m_notifySem := sem } PC.idle)
  -- Monitor::notifyAll
  | PC.all_assert =>          -- FW_ASSERT(m_ownerThread == Thread::getID() && m_enterCount);
    some (FW_ASSERT (decide (m.m_ownerThread = t) && decide (m.m_enterCount ≠ 0)) s t
      PC.all_test)
  | PC.all_test =>            -- while (m_waitCount)
    if m.m_waitCount ≠ 0 then some (s.goto t m PC.all_releaseWait)
    else some (s.goto t m PC.idle)
  | PC.all_releaseWait =>     -- m_waitSem.release();
    releaseThen b m.m_waitSem s t
      (fun sem => s.goto t { m with m_waitSem := sem } PC.all_acquireNotify)
  | PC.all_acquireNotify =>   -- m_notifySem.acquire();
    acquireThen b m.m_notifySem s t
      (fun sem => s.goto t { m with m_notifySem := sem } PC.all_test)

/-- First program point of a method. -/
def Op.entry : Op → PC
  | Op.enter => PC.enter_lock
  | Op.leave => PC.leave_assert
  | Op.wait => PC.wait_assert
  | Op.notify => PC.notify_assert
  | Op.notifyAll => PC.all_assert

/-- Thread `t`, outside any method, calls `op`.  `enter` begins with
`U32 currThread = Thread::getID();`. -/
def Monitor.call (op : Op) (t : Nat) (s : Sys) : Option Sys :=
  if (s.loc t).pc = PC.idle then
    match op with
    | Op.enter => some (s.put t s.mon { s.loc t with pc := PC.enter_lock, currThread := t })
    | _ => some (s.goto t s.mon op.entry)
  else none

/-- What a thread does in one transition: call a method, or execute the statement at
a program point. -/
inductive Act where
  | call (op : Op)
  | exec (pc : PC)
  deriving DecidableEq, Repr

/-- A transition of the system: the thread and what it does. -/
structure Label where
  tid : Nat
  act : Act
  deriving DecidableEq, Repr

/-- The transition with a given label, if it is enabled. -/
def Monitor.next (b : Backend) (lab : Label) (s : Sys) : Option Sys :=
  match lab.act with
  | Act.call op => Monitor.call op lab.tid s
  | Act.exec pc => if (s.loc lab.tid).pc = pc then Monitor.step b lab.tid s else none

/-- An execution: the transitions of a trace one after the other. -/
def Monitor.run (b : Backend) : List Label → Sys → Option Sys
  | [], s => some s
  | lab :: rest, s =>
    match Monitor.next b lab s with
    | none => none
    | some s1 => Monitor.run b rest s1

/-- All threads outside the monitor, around the monitor `m`. -/
def Sys.start (m : Monitor) : Sys :=
  ⟨m, fun _ => ⟨PC.idle, 0, 0⟩⟩

/-- The states that the threads of `T` can reach from a freshly constructed monitor. -/
def Reachable (b : Backend) (T : Finset Nat) (s : Sys) : Prop :=
  ∃ m tr, Monitor.new b = Res.ret m () ∧ (∀ lab ∈ tr, lab.tid ∈ T) ∧
    Monitor.run b tr (Sys.start m) = some s

/-- How a method call of a thread that runs alone ends. -/
inductive Outcome where
  | returned
  | blocked
  | assertFailed
  | fatalError
  | running
  deriving DecidableEq, Repr

/-- A call seen from the caller: how it ended, the statements that were executed, and
the state that is left. -/
structure CallResult where
  outcome : Outcome
  trace : List PC
  final : Sys

/-- Thread `t` runs alone until its method returns, stops or blocks. -/
def Monitor.runSolo (b : Backend) (t : Nat) : Nat → Sys → List PC → CallResult
  | 0, s, tr => ⟨Outcome.running, tr, s⟩
  | fuel + 1, s, tr =>
    match (s.loc t).pc with
    | PC.idle => ⟨Outcome.returned, tr, s⟩
    | PC.assertFailed => ⟨Outcome.assertFailed, tr, s⟩
    | PC.fatalError => ⟨Outcome.fatalError, tr, s⟩
    | pc =>
      match Monitor.step b t s with
      | none => ⟨Outcome.blocked, tr, s⟩
      | some s1 => Monitor.runSolo b t fuel s1 (tr ++ [pc])

/-- A whole call of `op` by thread `t` with no other thread running meanwhile.  No
method executes more than thirteen statements before it returns or blocks. -/
def Monitor.invoke (b : Backend) (op : Op) (t : Nat) (s : Sys) : CallResult :=
  match Monitor.call op t s with
  | none => ⟨Outcome.running, [], s⟩
  | some s1 => Monitor.runSolo b t 16 s1 []

/-- The method `Monitor::enter`, called by `t` with no other thread running. -/
def Monitor.enter (b : Backend) (t : Nat) (s : Sys) : CallResult :=
  Monitor.invoke b Op.enter t s

/-- The method `Monitor::leave`, called by `t` with no other thread running. -/
def Monitor.leave (b : Backend) (t : Nat) (s : Sys) : CallResult :=
  Monitor.invoke b Op.leave t s

/-- The method `Monitor::wait`, called by `t` with no other thread running. -/
def Monitor.wait (b : Backend) (t : Nat) (s : Sys) : CallResult :=
  Monitor.invoke b Op.wait t s

/-- The method `Monitor::notify`, called by `t` with no other thread running. -/
def Monitor.notify (b : Backend) (t : Nat) (s : Sys) : CallResult :=
  Monitor.invoke b Op.notify t s

/-- The method `Monitor::notifyAll`, called by `t` with no other thread running. -/
def Monitor.notifyAll (b : Backend) (t : Nat) (s : Sys) : CallResult :=
  Monitor.invoke b Op.notifyAll t s

/-- Calls of thread `t`, one after the other, each of which has to return. -/
def Monitor.calls (b : Backend) (t : Nat) : List Op → Sys → Option Sys
  | [], s => some s
  | op :: rest, s =>
    let r := Monitor.invoke b op t s
    if r.outcome = Outcome.returned then Monitor.calls b t rest r.final else none

/-- The statements that operate on a semaphore. -/
def PC.isSemOp : PC → Bool
  | PC.enter_acquire => true
  | PC.leave_release => true
  | PC.wait_releaseOwner => true
  | PC.wait_acquireWait => true
  | PC.wait_releaseNotify => true
  | PC.wait_acquireOwner => true
  | PC.notify_releaseWait => true
  | PC.notify_acquireNotify => true
  | PC.all_releaseWait => true
  | PC.all_acquireNotify => true
  | _ => false

/-! ## Thread: the objects, the registry and the reference-count protocol -/

/-- Modelled from the spec: the template `Hash<K, V>` of `base/Hash.hpp`, which is not
among the sources; the spec calls it a generic keyed mapping container.  It is the list
of its slots, each a pair of a key and a value, with at most one slot per key as long as
`add` is only used on absent keys. -/
abbrev Hash (K V : Type) := List (K × V)

/-- Modelled from the spec: `Hash::contains`. -/
def Hash.contains {K V : Type} [DecidableEq K] (h : Hash K V) (key : K) : Bool :=
  h.any (fun e => decide (e.1 = key))

/-- Modelled from the spec: `Hash::remove`, which drops the entry of the key. -/
def Hash.remove {K V : Type} [DecidableEq K] (h : Hash K V) (key : K) : Hash K V :=
  h.filter (fun e => !decide (e.1 = key))

/-- Modelled from the spec: `Hash::getSize`. -/
def Hash.getSize {K V : Type} (h : Hash K V) : Nat :=
  h.length

/-- Modelled from the spec: `Hash::reset`, which empties the container and frees its
storage. -/
def Hash.reset {K V : Type} (_h : Hash K V) : Hash K V :=
  []

/-- Modelled from the spec: `Hash::search`, a pointer to the value stored for the key,
or `NULL` (`none`) when the key has no slot.  The result here is the value found. -/
def Hash.search {K V : Type} [DecidableEq K] (h : Hash K V) (key : K) : Option V :=
  (h.find? (fun e => decide (e.1 = key))).map Prod.snd

/-- Modelled from the spec: `Hash::add`, which stores a value for a key that has no
slot yet. -/
def Hash.add {K V : Type} (h : Hash K V) (key : K) (value : V) : Hash K V :=
  h ++ [(key, value)]

/-- Modelled from the spec: the assignment `*found = value` through the pointer that
`Hash::search` returned for the key; it overwrites the value of the slot found. -/
def Hash.assign {K V : Type} [DecidableEq K] : Hash K V → K → V → Hash K V
  | [], _, _ => []
  | e :: rest, key, value =>
    if e.1 = key then (e.1, value) :: rest else e :: Hash.assign rest key value

/-- The struct `Thread::UserData`: a data pointer and a deinit callback, either of
which may be `NULL` (`none`). -/
structure UserData where
  data : Option Nat
  deinitFunc : Option Nat
  deriving DecidableEq, Repr

/-- The fields of a `Thread` object; `m_handle = none` is the `NULL` handle.  The two
spinlocks `m_lock` and `m_startLock` have no field here: a method body that runs under
`m_lock` is one transition. -/
structure Thread where
  m_refCount : Int
  m_exited : Bool
  m_id : Nat
  m_handle : Option Nat
  m_priority : Int
  m_userData : Hash String UserData
  deriving DecidableEq, Repr

/-- Calls that are recorded while the program runs. -/
inductive Event where
  | exited (obj : Nat)
  | closeHandle (handle : Nat)
  -- WaitForSingleObject(m_handle, INFINITE); Qt: m_handle->wait()
  | wait (handle : Nat)
  -- SetThreadPriority(m_handle, priority); Qt: m_handle->setPriority(fwToQt(priority))
  | setPriority (handle : Nat) (priority : Int)
  -- a call deinitFunc(data) of a user-data callback
  | deinit (deinitFunc : Nat) (data : Option Nat)
  -- a violated assertion, with the text of its condition
  | assertFailed (cond : String)
  -- a call of fail, as made by failWin32Error and failIfError
  | fail (what : String)
  -- SuspendThread(m_handle)
  | suspend (handle : Nat)
  -- a call of setError, which notes an error and returns
  | setError (what : String)
  deriving DecidableEq, Repr

/-- The `Thread` objects by address, the statics `s_threads` and `s_mainThread`, and
the record of calls. -/
structure World where
  objs : Nat → Thread
  s_threads : Hash Nat Nat
  s_mainThread : Option Nat
  log : List Event

/-- Store the fields `th` into the object at address `self`. -/
def World.setObj (w : World) (self : Nat) (th : Thread) : World :=
  { w with objs := Function.update w.objs self th }

/-- The method `Thread::exited` of the object at address `self`. -/
def Thread.exited (self : Nat) (w : World) : World :=
  let w := { w with log := w.log ++ [Event.exited self] }
  let th := w.objs self
  match th.m_handle with
  | none => w                                   -- if (!m_handle) return;
  | some handle =>
    -- if (this == s_mainThread) s_mainThread = NULL;
    let main := if w.s_mainThread = some self then none else w.s_mainThread
    -- if (s_threads.contains(m_id)) s_threads.remove(m_id);
    let threads := if Hash.contains w.s_threads th.m_id then Hash.remove w.s_threads th.m_id
      else w.s_threads
    -- if (!s_threads.getSize()) s_threads.reset();
    let threads := if Hash.getSize threads = 0 then Hash.reset threads else threads
    -- if (m_handle) CloseHandle(m_handle);   (Qt: m_handle->deleteLater();)
    -- m_id = 0; m_handle = NULL;
    { objs := Function.update w.objs self { th with m_id := 0, m_handle := none }
      s_threads := threads
      s_mainThread := main
      log := w.log ++ [Event.closeHandle handle] }

/-- The method `Thread::refer`: `m_refCount++` under `m_lock`. -/
def Thread.refer (self : Nat) (w : World) : World :=
  let th := w.objs self
  w.setObj self { th with m_refCount := th.m_refCount + 1 }

/-- The method `Thread::unrefer`: under `m_lock`,
`if (--m_refCount == 0 && m_exited) { m_exited = false; exited(); }`. -/
def Thread.unrefer (self : Nat) (w : World) : World :=
  let th := w.objs self
  let th1 := { th with m_refCount := th.m_refCount - 1 }
  if th1.m_refCount = 0 ∧ th1.m_exited = true then
    Thread.exited self (w.setObj self { th1 with m_exited := false })
  else w.setObj self th1

/-- Number of times `exited()` was invoked on the object at `self`. -/
def World.exitedCalls (w : World) (self : Nat) : Nat :=
  w.log.count (Event.exited self)

/-- The state in which thread `t` is outside any method and holds the monitor of `s`
`n` levels deep: `m_ownerSem` is taken, `t` is the owner, the enter-count is `n`. -/
def Sys.heldBy (s : Sys) (t : Nat) (n : Int) : Sys :=
  ⟨{ s.mon with m_ownerSem := ⟨0, 1⟩, m_ownerThread := t, m_enterCount := n },
    Function.update s.loc t ⟨PC.idle, t, (s.loc t).enterCount⟩⟩

/-- The program points from which no `FW_ASSERT` is reached before the method ends:
all of them except the points of `enter`, the assertions themselves and the stop
after a failed assertion.  (`enter` has no assertion; it is left out because a
thread leaves these points only by returning.) -/
def PC.pastAssert : PC → Bool
  | PC.assertFailed => false
  | PC.leave_assert => false
  | PC.wait_assert => false
  | PC.notify_assert => false
  | PC.all_assert => false
  | _ => true

/-! ## Monitor: the invariant of the reachable states -/

/-- Program points at which the thread has acquired `m_ownerSem` and not released it. -/
def PC.inside : PC → Bool
  | PC.enter_relock => true
  | PC.enter_setOwner => true
  | PC.enter_incr => true
  | PC.enter_ret => true
  | PC.leave_decr => true
  | PC.leave_test => true
  | PC.leave_release => true
  | PC.wait_saveThread => true
  | PC.wait_saveCount => true
  | PC.wait_incrWait => true
  | PC.wait_zeroEnter => true
  | PC.wait_releaseOwner => true
  | PC.wait_lock => true
  | PC.wait_setOwner => true
  | PC.wait_setEnter => true
  | PC.wait_ret => true
  | PC.notify_test => true
  | PC.notify_releaseWait => true
  | PC.notify_acquireNotify => true
  | PC.all_test => true
  | PC.all_releaseWait => true
  | PC.all_acquireNotify => true
  | _ => false

/-- Program points at which the thread does not hold `m_ownerSem`: between the test of
`enter` and its `acquire`, and between the `release` of `wait` and its re-`acquire`. -/
def PC.outside : PC → Bool
  | PC.enter_unlock => true
  | PC.enter_acquire => true
  | PC.wait_acquireWait => true
  | PC.wait_decrWait => true
  | PC.wait_releaseNotify => true
  | PC.wait_acquireOwner => true
  | _ => false

/-- Thread `t` holds the monitor: it is at a program point inside, or it is at one of
the remaining points (outside any method, at the start of a method) and the fields
say that it is the owner. -/
def Sys.holds (s : Sys) (t : Nat) : Prop :=
  (s.loc t).pc.inside = true ∨
    ((s.loc t).pc.outside = false ∧ s.mon.m_ownerThread = t ∧ s.mon.m_enterCount ≠ 0)

/-- Program points at which `m_ownerThread` is the thread itself. -/
def PC.ownerSelf : PC → Bool
  | PC.enter_incr => true
  | PC.enter_ret => true
  | PC.leave_decr => true
  | PC.leave_test => true
  | PC.leave_release => true
  | PC.wait_saveThread => true
  | PC.wait_saveCount => true
  | PC.wait_incrWait => true
  | PC.wait_zeroEnter => true
  | PC.wait_setEnter => true
  | PC.wait_ret => true
  | PC.notify_test => true
  | PC.notify_releaseWait => true
  | PC.notify_acquireNotify => true
  | PC.all_test => true
  | PC.all_releaseWait => true
  | PC.all_acquireNotify => true
  | _ => false

/-- Program points at which `m_enterCount` is zero. -/
def PC.countZero : PC → Bool
  | PC.enter_relock => true
  | PC.leave_release => true
  | PC.wait_releaseOwner => true
  | PC.wait_lock => true
  | PC.wait_setOwner => true
  | PC.wait_setEnter => true
  | _ => false

/-- Program points at which `m_enterCount` is not zero. -/
def PC.countPos : PC → Bool
  | PC.enter_ret => true
  | PC.leave_decr => true
  | PC.wait_saveThread => true
  | PC.wait_saveCount => true
  | PC.wait_incrWait => true
  | PC.wait_zeroEnter => true
  | PC.wait_ret => true
  | PC.notify_test => true
  | PC.notify_releaseWait => true
  | PC.notify_acquireNotify => true
  | PC.all_test => true
  | PC.all_releaseWait => true
  | PC.all_acquireNotify => true
  | _ => false

/-- Program points of `enter`, at which the local `currThread` is `Thread::getID()`. -/
def PC.inEnter : PC → Bool
  | PC.enter_lock => true
  | PC.enter_test => true
  | PC.enter_unlock => true
  | PC.enter_acquire => true
  | PC.enter_relock => true
  | PC.enter_setOwner => true
  | PC.enter_incr => true
  | PC.enter_ret => true
  | _ => false

/-- Program points of `wait` after `U32 currThread = m_ownerThread;`. -/
def PC.hasSavedThread : PC → Bool
  | PC.wait_saveCount => true
  | PC.wait_incrWait => true
  | PC.wait_zeroEnter => true
  | PC.wait_releaseOwner => true
  | PC.wait_acquireWait => true
  | PC.wait_decrWait => true
  | PC.wait_releaseNotify => true
  | PC.wait_acquireOwner => true
  | PC.wait_lock => true
  | PC.wait_setOwner => true
  | PC.wait_setEnter => true
  | PC.wait_ret => true
  | _ => false

/-- Program points of `wait` after `int enterCount = m_enterCount;`. -/
def PC.hasSavedCount : PC → Bool
  | PC.wait_incrWait => true
  | PC.wait_zeroEnter => true
  | PC.wait_releaseOwner => true
  | PC.wait_acquireWait => true
  | PC.wait_decrWait => true
  | PC.wait_releaseNotify => true
  | PC.wait_acquireOwner => true
  | PC.wait_lock => true
  | PC.wait_setOwner => true
  | PC.wait_setEnter => true
  | PC.wait_ret => true
  | _ => false

/-- Program points of a waiter that has taken `m_waitSem` and not yet released
`m_notifySem`: it is acknowledging a notification. -/
def PC.acking : PC → Bool
  | PC.wait_decrWait => true
  | PC.wait_releaseNotify => true
  | _ => false

/-- Program points of a notifier that has released `m_waitSem` and not yet taken
`m_notifySem`. -/
def PC.notifying : PC → Bool
  | PC.notify_acquireNotify => true
  | PC.all_acquireNotify => true
  | _ => false

/-- Program points of `wait` between `m_waitCount++` and `m_waitCount--`: the threads
counted by `m_waitCount`. -/
def PC.waiting : PC → Bool
  | PC.wait_zeroEnter => true
  | PC.wait_releaseOwner => true
  | PC.wait_acquireWait => true
  | PC.wait_decrWait => true
  | _ => false

/-- Ownership part of the invariant of the monitor.  `m_ownerSem` is binary; at most
one thread holds the monitor and then `m_ownerSem` is taken; `m_enterCount` is never
negative and is zero while `m_ownerSem` is free; at each program point the fields and
the locals have the values the code relies on. -/
structure OwnInv (s : Sys) : Prop where
  ownerMax : s.mon.m_ownerSem.maxCount = 1
  ownerLe : s.mon.m_ownerSem.count ≤ 1
  countNonneg : 0 ≤ s.mon.m_enterCount
  freeZero : s.mon.m_ownerSem.count = 1 → s.mon.m_enterCount = 0
  holdsSem : ∀ t, s.holds t → s.mon.m_ownerSem.count = 0
  holdsUnique : ∀ t u, s.holds t → s.holds u → t = u
  ownerSelf : ∀ t, (s.loc t).pc.ownerSelf = true → s.mon.m_ownerThread = t
  countZero : ∀ t, (s.loc t).pc.countZero = true → s.mon.m_enterCount = 0
  countPos : ∀ t, (s.loc t).pc.countPos = true → s.mon.m_enterCount ≠ 0
  setOwner : ∀ t, (s.loc t).pc = PC.enter_setOwner →
    s.mon.m_ownerThread = t ∨ s.mon.m_enterCount = 0
  currEnter : ∀ t, (s.loc t).pc.inEnter = true → (s.loc t).currThread = t
  savedThread : ∀ t, (s.loc t).pc.hasSavedThread = true → (s.loc t).currThread = t
  savedCount : ∀ t, (s.loc t).pc.hasSavedCount = true → 0 < (s.loc t).enterCount
  savedEq : ∀ t, (s.loc t).pc = PC.wait_incrWait → (s.loc t).enterCount = s.mon.m_enterCount
  restored : ∀ t, (s.loc t).pc = PC.wait_ret → s.mon.m_enterCount = (s.loc t).enterCount

/-- Handshake part of the invariant of the monitor.  `m_waitSem` and `m_notifySem` are
binary; at most one unit of the wake/acknowledge handshake is in flight, as a unit of
`m_waitSem`, as a waiter that is acknowledging, or as a unit of `m_notifySem`, and only
while a notifier is between its `release` and its `acquire`; no thread has been stopped
by a failed `release()`. -/
structure ShakeInv (s : Sys) : Prop where
  waitMax : s.mon.m_waitSem.maxCount = 1
  notifyMax : s.mon.m_notifySem.maxCount = 1
  waitLe : s.mon.m_waitSem.count ≤ 1
  notifyLe : s.mon.m_notifySem.count ≤ 1
  noFatal : ∀ t, (s.loc t).pc ≠ PC.fatalError
  waitOne : s.mon.m_waitSem.count = 1 →
    s.mon.m_notifySem.count = 0 ∧ ∀ w, (s.loc w).pc.acking = false
  notifyOne : s.mon.m_notifySem.count = 1 → ∀ w, (s.loc w).pc.acking = false
  ackUnique : ∀ w w1, (s.loc w).pc.acking = true → (s.loc w1).pc.acking = true → w = w1
  quiet : (∀ o, (s.loc o).pc.notifying = false) →
    s.mon.m_waitSem.count = 0 ∧ s.mon.m_notifySem.count = 0 ∧
      ∀ w, (s.loc w).pc.acking = false

/-- The invariant of the monitor. -/
structure MInv (s : Sys) : Prop where
  own : OwnInv s
  shake : ShakeInv s

/-- The count kept in `m_waitCount`: the threads of `T` that are between the increment
and the decrement of `wait`; the threads outside `T` never call the monitor. -/
structure WaitInv (T : Finset Nat) (s : Sys) : Prop where
  count : s.mon.m_waitCount = ((T.filter (fun t => (s.loc t).pc.waiting = true)).card : Int)
  others : ∀ t, t ∉ T → (s.loc t).pc = PC.idle

/-- Program points of the waiter's side of the handshake: taking `m_waitSem`,
decrementing `m_waitCount`, releasing `m_notifySem`. -/
def PC.shaking : PC → Bool
  | PC.wait_acquireWait => true
  | PC.wait_decrWait => true
  | PC.wait_releaseNotify => true
  | _ => false

/-- The transitions of the waiter's side of the handshake. -/
def Label.isShake (lab : Label) : Bool :=
  match lab.act with
  | Act.exec pc => pc.shaking
  | Act.call _ => false

/-- Progress of a call of `enter` by thread `t` that began in the state `s0`, after the
transitions `tr`.  On the reentrant path (`t` owned the monitor in `s0`) the thread
never reaches `m_ownerSem.acquire()`, and the semaphore and the owner stay as they
were; on the other path it acquires `m_ownerSem` once, while the enter-count is 0. -/
def Monitor.enterPhase (t : Nat) (s0 : Sys) (tr : List Label) (s : Sys) : Prop :=
  if s0.mon.m_ownerThread = t ∧ 0 < s0.mon.m_enterCount then
    ⟨t, Act.exec PC.enter_acquire⟩ ∉ tr ∧ s.mon.m_ownerSem = s0.mon.m_ownerSem ∧
    s.mon.m_ownerThread = t ∧
    ((((s.loc t).pc = PC.enter_lock ∨ (s.loc t).pc = PC.enter_test ∨
        (s.loc t).pc = PC.enter_setOwner ∨ (s.loc t).pc = PC.enter_incr) ∧
        s.mon.m_enterCount = s0.mon.m_enterCount) ∨
      ((s.loc t).pc = PC.enter_ret ∧ s.mon.m_enterCount = s0.mon.m_enterCount + 1))
  else
    (((s.loc t).pc = PC.enter_lock ∨ (s.loc t).pc = PC.enter_test) ∧ ¬ s.holds t ∧
        tr.count ⟨t, Act.exec PC.enter_acquire⟩ = 0) ∨
      (((s.loc t).pc = PC.enter_unlock ∨ (s.loc t).pc = PC.enter_acquire) ∧
        tr.count ⟨t, Act.exec PC.enter_acquire⟩ = 0) ∨
      (((s.loc t).pc = PC.enter_relock ∨ (s.loc t).pc = PC.enter_setOwner ∨
        (s.loc t).pc = PC.enter_incr) ∧ s.mon.m_enterCount = 0 ∧
        tr.count ⟨t, Act.exec PC.enter_acquire⟩ = 1) ∨
      ((s.loc t).pc = PC.enter_ret ∧ s.mon.m_enterCount = 1 ∧
        tr.count ⟨t, Act.exec PC.enter_acquire⟩ = 1)

/-! ## Monitor: example executions -/

/-- The statements of `enter` on the path through `m_ownerSem.acquire()`, as transitions
of thread `t`. -/
def Monitor.enterSlow (t : Nat) : List Label :=
  [⟨t, Act.call Op.enter⟩, ⟨t, Act.exec PC.enter_lock⟩, ⟨t, Act.exec PC.enter_test⟩,
    ⟨t, Act.exec PC.enter_unlock⟩, ⟨t, Act.exec PC.enter_acquire⟩,
    ⟨t, Act.exec PC.enter_relock⟩, ⟨t, Act.exec PC.enter_setOwner⟩,
    ⟨t, Act.exec PC.enter_incr⟩, ⟨t, Act.exec PC.enter_ret⟩]

/-- The fresh monitor on which the example executions run. -/
def Monitor.exampleStart : Sys :=
  Sys.start ⟨false, ⟨1, 1⟩, ⟨0, 1⟩, ⟨0, 1⟩, 0, 0, 0⟩

/-- The state reached from the fresh monitor by the trace `tr` (the fresh monitor
itself if the trace is not an execution). -/
def Monitor.exampleAfter (b : Backend) (tr : List Label) : Sys :=
  (Monitor.run b tr Monitor.exampleStart).getD Monitor.exampleStart

/-- The statements of `Monitor::wait` in program order. -/
def Monitor.waitPath : List PC :=
  [PC.wait_assert, PC.wait_saveThread, PC.wait_saveCount, PC.wait_incrWait, PC.wait_zeroEnter,
    PC.wait_releaseOwner, PC.wait_acquireWait, PC.wait_decrWait, PC.wait_releaseNotify,
    PC.wait_acquireOwner, PC.wait_lock, PC.wait_setOwner, PC.wait_setEnter, PC.wait_ret]

/-- The statements of `Monitor::wait` that remain to be executed at a program point of
`wait`, this one included; empty outside `wait`. -/
def PC.waitRest : PC → List PC
  | PC.wait_assert => Monitor.waitPath
  | PC.wait_saveThread => Monitor.waitPath.drop 1
  | PC.wait_saveCount => Monitor.waitPath.drop 2
  | PC.wait_incrWait => Monitor.waitPath.drop 3
  | PC.wait_zeroEnter => Monitor.waitPath.drop 4
  | PC.wait_releaseOwner => Monitor.waitPath.drop 5
  | PC.wait_acquireWait => Monitor.waitPath.drop 6
  | PC.wait_decrWait => Monitor.waitPath.drop 7
  | PC.wait_releaseNotify => Monitor.waitPath.drop 8
  | PC.wait_acquireOwner => Monitor.waitPath.drop 9
  | PC.wait_lock => Monitor.waitPath.drop 10
  | PC.wait_setOwner => Monitor.waitPath.drop 11
  | PC.wait_setEnter => Monitor.waitPath.drop 12
  | PC.wait_ret => Monitor.waitPath.drop 13
  | _ => []

/-- The transitions of thread `t` in a trace. -/
def Label.ofThread (t : Nat) (tr : List Label) : List Label :=
  tr.filter (fun lab => decide (lab.tid = t))

/-- Progress of a call of `wait` by thread `t`, which held the monitor `n` levels deep,
after the transitions `tr`: the thread has executed the statements of `wait` in program
order up to its program point, the enter-count is still `n` until it has been saved,
and the saved value is `n` afterwards. -/
def Monitor.waitPhase (t : Nat) (n : Int) (tr : List Label) (s : Sys) : Prop :=
  (s.loc t).pc.waitRest ≠ [] ∧
  Label.ofThread t tr ++ (s.loc t).pc.waitRest.map (fun p => (⟨t, Act.exec p⟩ : Label)) =
    Monitor.waitPath.map (fun p => (⟨t, Act.exec p⟩ : Label)) ∧
  ((s.loc t).pc.hasSavedCount = false → s.mon.m_ownerThread = t ∧ s.mon.m_enterCount = n) ∧
  ((s.loc t).pc.hasSavedCount = true → (s.loc t).enterCount = n)

/-- The statements `pcs` as transitions of thread `t`. -/
def Label.execs (t : Nat) (pcs : List PC) : List Label :=
  pcs.map (fun p => (⟨t, Act.exec p⟩ : Label))

/-- Example: thread 1 enters the fresh monitor, calls `wait()` and runs up to
`m_waitSem.acquire()`; thread 2 enters. -/
def Monitor.exampleWaiting : List Label :=
  Monitor.enterSlow 1 ++ [⟨1, Act.call Op.wait⟩] ++
    Label.execs 1 [PC.wait_assert, PC.wait_saveThread, PC.wait_saveCount, PC.wait_incrWait,
      PC.wait_zeroEnter, PC.wait_releaseOwner] ++
    Monitor.enterSlow 2

/-- Example: the handshake of a `notify()` of thread 2 with the waiter 1, up to the
acknowledgement. -/
def Monitor.exampleShake : List Label :=
  Label.execs 2 [PC.notify_assert, PC.notify_test, PC.notify_releaseWait] ++
    Label.execs 1 [PC.wait_acquireWait, PC.wait_decrWait, PC.wait_releaseNotify]

/-- Example: thread 2 leaves the monitor and the waiter 1 takes it back, up to the last
statement of `wait`. -/
def Monitor.exampleResume : List Label :=
  [⟨2, Act.call Op.leave⟩] ++
    Label.execs 2 [PC.leave_assert, PC.leave_decr, PC.leave_test, PC.leave_release] ++
    Label.execs 1 [PC.wait_acquireOwner, PC.wait_lock, PC.wait_setOwner, PC.wait_setEnter]

/-- Example: everything between the call of `wait()` by thread 1 and the last statement
of that call: thread 1 releases the monitor, thread 2 enters, notifies, is acknowledged
and leaves, thread 1 takes the monitor back. -/
def Monitor.exampleWaitRun : List Label :=
  Label.execs 1 [PC.wait_assert, PC.wait_saveThread, PC.wait_saveCount, PC.wait_incrWait,
      PC.wait_zeroEnter, PC.wait_releaseOwner] ++
    Monitor.enterSlow 2 ++ [⟨2, Act.call Op.notify⟩] ++ Monitor.exampleShake ++
    [⟨2, Act.exec PC.notify_acquireNotify⟩] ++ Monitor.exampleResume

/-- The handshake of a notifier `o` that has released `m_waitSem`, after the transitions
`tr` of its call: the unit is still in `m_waitSem`, or one waiter `w` has taken it, or
`w` has also decremented `m_waitCount`, or `w` has also released `m_notifySem`; the
waiter's transitions of the trace are exactly those of `w`. -/
def Monitor.shakePhase (o : Nat) (tr : List Label) (s : Sys) : Prop :=
  (s.mon.m_waitSem.count = 1 ∧ tr.filter Label.isShake = []) ∨
  (∃ w, w ≠ o ∧ (s.loc w).pc = PC.wait_decrWait ∧
    tr.filter Label.isShake = [⟨w, Act.exec PC.wait_acquireWait⟩]) ∨
  (∃ w, w ≠ o ∧ (s.loc w).pc = PC.wait_releaseNotify ∧
    tr.filter Label.isShake =
      [⟨w, Act.exec PC.wait_acquireWait⟩, ⟨w, Act.exec PC.wait_decrWait⟩]) ∨
  (∃ w, w ≠ o ∧ s.mon.m_notifySem.count = 1 ∧
    tr.filter Label.isShake =
      [⟨w, Act.exec PC.wait_acquireWait⟩, ⟨w, Act.exec PC.wait_decrWait⟩,
        ⟨w, Act.exec PC.wait_releaseNotify⟩])

/-- Progress of a call of `notify` by the owner `o`, made with wait-count `k`, after the
transitions `tr`: up to the test the wait-count is still `k` and no waiter has moved;
after `m_waitSem.release()` the handshake is under way. -/
def Monitor.notifyPhase (o : Nat) (k : Int) (tr : List Label) (s : Sys) : Prop :=
  (s.loc o).pc = PC.idle ∨
  (((s.loc o).pc = PC.notify_assert ∨ (s.loc o).pc = PC.notify_test) ∧
    s.mon.m_ownerThread = o ∧ s.mon.m_enterCount ≠ 0 ∧ s.mon.m_waitCount = k ∧
    tr.filter Label.isShake = []) ∨
  ((s.loc o).pc = PC.notify_releaseWait ∧ tr.filter Label.isShake = []) ∨
  ((s.loc o).pc = PC.notify_acquireNotify ∧ Monitor.shakePhase o tr s)

/-- How far a waiter is through being woken: 0 before `m_waitSem.acquire()`, 1 before
`m_waitCount--`, 2 before `m_notifySem.release()`, 3 before `m_ownerSem.acquire()`;
4 at every other program point. -/
def PC.stage : PC → Nat
  | PC.wait_acquireWait => 0
  | PC.wait_decrWait => 1
  | PC.wait_releaseNotify => 2
  | PC.wait_acquireOwner => 3
  | _ => 4

/-- Thread `w` during a `notifyAll` that was called in the state `s0`: a thread that was
waiting in `s0` has made the first transitions of being woken, once each, as far as its
program point says; any other thread is not at a waiter's program point and has made
none of these transitions. -/
def Monitor.wokenPhase (s0 : Sys) (tr : List Label) (s : Sys) (w : Nat) : Prop :=
  if (s0.loc w).pc = PC.wait_acquireWait then
    (s.loc w).pc.stage ≤ 3 ∧
    tr.count ⟨w, Act.exec PC.wait_acquireWait⟩ = (if 1 ≤ (s.loc w).pc.stage then 1 else 0) ∧
    tr.count ⟨w, Act.exec PC.wait_decrWait⟩ = (if 2 ≤ (s.loc w).pc.stage then 1 else 0) ∧
    tr.count ⟨w, Act.exec PC.wait_releaseNotify⟩ = (if 3 ≤ (s.loc w).pc.stage then 1 else 0)
  else
    (s.loc w).pc.shaking = false ∧
    tr.count ⟨w, Act.exec PC.wait_acquireWait⟩ = 0 ∧
    tr.count ⟨w, Act.exec PC.wait_decrWait⟩ = 0 ∧
    tr.count ⟨w, Act.exec PC.wait_releaseNotify⟩ = 0

/-- The handshake under way in a `notifyAll` that began with wait-count `k` and has
completed `a` handshakes: the unit is in `m_waitSem`, or a waiter has taken it, or the
waiter has decremented `m_waitCount`, or it has released `m_notifySem`. -/
def Monitor.allShake (k : Int) (a : Nat) (s : Sys) : Prop :=
  (s.mon.m_waitSem.count = 1 ∧ s.mon.m_waitCount = k - a) ∨
  (∃ w, (s.loc w).pc = PC.wait_decrWait ∧ s.mon.m_waitCount = k - a) ∨
  (∃ w, (s.loc w).pc = PC.wait_releaseNotify ∧ s.mon.m_waitCount = k - a - 1) ∨
  (s.mon.m_notifySem.count = 1 ∧ s.mon.m_waitCount = k - a - 1)

/-- Progress of a call of `notifyAll` by the owner `o`, made in the state `s0`, after
the transitions `tr`: the waiters of `s0` are being woken one at a time, the number of
`m_waitSem.release()` and of `m_notifySem.acquire()` of `o` and the wait-count add up
to the wait-count of `s0`. -/
def Monitor.allPhase (o : Nat) (s0 : Sys) (tr : List Label) (s : Sys) : Prop :=
  (s.loc o).pc = PC.idle ∨
  ((∀ w, w ≠ o → Monitor.wokenPhase s0 tr s w) ∧
    (∀ p : PC, p.shaking = true → tr.count ⟨o, Act.exec p⟩ = 0) ∧
    ((((s.loc o).pc = PC.all_assert ∨ (s.loc o).pc = PC.all_test ∨
        (s.loc o).pc = PC.all_releaseWait) ∧
        s.mon.m_ownerThread = o ∧ s.mon.m_enterCount ≠ 0 ∧
        tr.count ⟨o, Act.exec PC.all_acquireNotify⟩ =
          tr.count ⟨o, Act.exec PC.all_releaseWait⟩ ∧
        s.mon.m_waitCount = s0.mon.m_waitCount - tr.count ⟨o, Act.exec PC.all_releaseWait⟩) ∨
      ((s.loc o).pc = PC.all_acquireNotify ∧
        tr.count ⟨o, Act.exec PC.all_releaseWait⟩ =
          tr.count ⟨o, Act.exec PC.all_acquireNotify⟩ + 1 ∧
        Monitor.allShake s0.mon.m_waitCount
          (tr.count ⟨o, Act.exec PC.all_acquireNotify⟩) s)))

/-- Example: threads 1 and 2 in turn enter the fresh monitor, call `wait()` and run up
to `m_waitSem.acquire()`; thread 3 enters. -/
def Monitor.exampleTwoWaiting : List Label :=
  Monitor.enterSlow 1 ++ [⟨1, Act.call Op.wait⟩] ++
    Label.execs 1 [PC.wait_assert, PC.wait_saveThread, PC.wait_saveCount, PC.wait_incrWait,
      PC.wait_zeroEnter, PC.wait_releaseOwner] ++
    Monitor.enterSlow 2 ++ [⟨2, Act.call Op.wait⟩] ++
    Label.execs 2 [PC.wait_assert, PC.wait_saveThread, PC.wait_saveCount, PC.wait_incrWait,
      PC.wait_zeroEnter, PC.wait_releaseOwner] ++
    Monitor.enterSlow 3

/-- Example: the statements of a `notifyAll()` of thread 3 that wakes the waiters 1 and
2, without the last test of the loop. -/
def Monitor.exampleWakeAll : List Label :=
  Label.execs 3 [PC.all_assert, PC.all_test, PC.all_releaseWait] ++
    Label.execs 1 [PC.wait_acquireWait, PC.wait_decrWait, PC.wait_releaseNotify] ++
    Label.execs 3 [PC.all_acquireNotify, PC.all_test, PC.all_releaseWait] ++
    Label.execs 2 [PC.wait_acquireWait, PC.wait_decrWait, PC.wait_releaseNotify] ++
    Label.execs 3 [PC.all_acquireNotify]

/-! ## Thread: construction, registration and lookup -/

/-- Continue a call with the value and state it returned; a call that blocks or ends
the process is final. -/
def Res.bind {σ α β : Type} (r : Res σ α) (k : α → σ → Res σ β) : Res σ β :=
  match r with
  | Res.ret value state => k value state
  | Res.blocks state => Res.blocks state
  | Res.fatal state => Res.fatal state

/-- The state a call leaves. -/
def Res.state {σ α : Type} : Res σ α → σ
  | Res.ret _ state => state
  | Res.blocks state => state
  | Res.fatal state => state

/-- Whether the call returned. -/
def Res.returned {σ α : Type} : Res σ α → Bool
  | Res.ret _ _ => true
  | _ => false

/-- Append a call to the record. -/
def World.record (w : World) (e : Event) : World :=
  { w with log := w.log ++ [e] }

/-- The enumerator `Thread::Priority_Normal`. -/
def Priority_Normal : Int := 0

/-- What the platform answers to the thread that executes a call: `id` is the value of
`getID()` (`GetCurrentThreadId()`, Qt: `QThread::currentThreadId()`), `fresh` the
address that `new Thread` returns should the call allocate, and `handle` the result of
`OpenThread(THREAD_ALL_ACCESS, FALSE, m_id)` (Qt: `QThread::currentThread()`), where
`none` is `NULL`. -/
structure Caller where
  id : Nat
  fresh : Nat
  handle : Option Nat
  deriving DecidableEq, Repr

/-- The constructor `Thread::Thread`, run on the memory at address `self`: it
initialises `m_refCount`, `m_id`, `m_handle` and `m_priority`, the member `m_userData`
is default-constructed empty, and `m_exited` has no initialiser, so it keeps what the
memory held. -/
def Thread.new (self : Nat) (w : World) : World :=
  w.setObj self { w.objs self with
    m_refCount := 0, m_id := 0, m_handle := none, m_priority := Priority_Normal,
    m_userData := [] }

/-- The method `Thread::started`, executed by the thread `c` on the object at `self`.
A `NULL` handle ends the process: `failWin32Error("OpenThread")`, Qt:
`assert(m_handle)`. -/
def Thread.started (b : Backend) (c : Caller) (self : Nat) (w : World) : Res World Unit :=
  -- m_id = getID(); m_handle = OpenThread(...);
  let w1 := w.setObj self { w.objs self with m_id := c.id, m_handle := c.handle }
  match c.handle with
  | none =>
    match b with
    | Backend.qt => Res.fatal (w1.record (Event.assertFailed "m_handle"))
    | Backend.win32 => Res.fatal (w1.record (Event.fail "OpenThread"))
  | some _ =>
    -- if (!s_mainThread) s_mainThread = this;
    let main := if w1.s_mainThread = none then some self else w1.s_mainThread
    -- if (!s_threads.contains(m_id)) s_threads.add(m_id, this);
    let threads := if Hash.contains w1.s_threads c.id then w1.s_threads
      else Hash.add w1.s_threads c.id self
    Res.ret () { w1 with s_threads := threads, s_mainThread := main }

/-- The static method `Thread::getCurrent`, called by the thread `c`. -/
def Thread.getCurrent (b : Backend) (c : Caller) (w : World) : Res World Nat :=
  -- Thread** found = s_threads.search(getID()); Thread* thread = (found) ? *found : NULL;
  match Hash.search w.s_threads c.id with
  | some thread => Res.ret thread w
  | none =>
    -- thread = new Thread; thread->started();
    (Thread.started b c c.fresh (Thread.new c.fresh w)).bind fun _ w1 => Res.ret c.fresh w1

/-- The static method `Thread::getMain`: `getCurrent(); return s_mainThread;`. -/
def Thread.getMain (b : Backend) (c : Caller) (w : World) : Res World (Option Nat) :=
  (Thread.getCurrent b c w).bind fun _ w1 => Res.ret w1.s_mainThread w1

/-- The static method `Thread::isMain`:
`Thread* curr = getCurrent(); return (curr == s_mainThread);`. -/
def Thread.isMain (b : Backend) (c : Caller) (w : World) : Res World Bool :=
  (Thread.getCurrent b c w).bind fun curr w1 =>
    Res.ret (decide (some curr = w1.s_mainThread)) w1

/-! ## Thread: join -/

/-- Modelled from the spec: the macro `FW_ASSERT` of `base/Defs.hpp`, on the state of
the thread objects.  A violated assertion is a fatal failure that ends execution; it is
recorded with the text of its condition and touches nothing else. -/
def World.FW_ASSERT (cond : Bool) (text : String) (w : World)
    (k : World → Res World Unit) : Res World Unit :=
  if cond then k w else Res.fatal (w.record (Event.assertFailed text))

/-- The part of `Thread::join` after its assertions, on the object at `self`.
`res` is what the wait on the native handle gives, when there is a handle: `none` when
the native thread never terminates, otherwise the value `WaitForSingleObject` returns
(Qt: `QThread::wait()` returns, and its result is not used).

    refer();
    if (m_handle && WaitForSingleObject(m_handle, INFINITE) == WAIT_FAILED)
        failWin32Error("WaitForSingleObject");
    m_exited = true;
    unrefer();                                                                     -/
def Thread.joinBody (b : Backend) (res : Option WaitResult) (self : Nat) (w : World) :
    Res World Unit :=
  let w1 := Thread.refer self w
  let finish := fun (w2 : World) =>
    Res.ret () (Thread.unrefer self (w2.setObj self { w2.objs self with m_exited := true }))
  match (w1.objs self).m_handle with
  | none => finish w1
  | some handle =>
    match res with
    | none => Res.blocks (w1.record (Event.wait handle))
    | some r =>
      if b = Backend.win32 ∧ r = WaitResult.WAIT_FAILED then
        Res.fatal ((w1.record (Event.wait handle)).record (Event.fail "WaitForSingleObject"))
      else finish (w1.record (Event.wait handle))

/-- The method `Thread::join` of the object at `self`, called by the thread `c`; the
two backends differ only in the wait.

    FW_ASSERT(this != getMain());
    FW_ASSERT(this != getCurrent());                                               -/
def Thread.join (b : Backend) (c : Caller) (res : Option WaitResult) (self : Nat)
    (w : World) : Res World Unit :=
  (Thread.getMain b c w).bind fun main w1 =>
    World.FW_ASSERT (decide (some self ≠ main)) "this != getMain()" w1 fun w1 =>
      (Thread.getCurrent b c w1).bind fun curr w2 =>
        World.FW_ASSERT (decide (self ≠ curr)) "this != getCurrent()" w2 fun w2 =>
          Thread.joinBody b res self w2

/-- The state in which `getCurrent()` leaves the world when the calling thread had no
registry entry and the platform gives the handle `handle`: a new wrapper at `c.fresh`,
registered under the caller's id, and main if no main was recorded. -/
def World.wrap (c : Caller) (handle : Nat) (w : World) : World :=
  { objs := Function.update w.objs c.fresh
      { w.objs c.fresh with m_refCount := 0, m_id := c.id, m_handle := some handle,
                            m_priority := Priority_Normal, m_userData := [] }
    s_threads := Hash.add w.s_threads c.id c.fresh
    s_mainThread := if w.s_mainThread = none then some c.fresh else w.s_mainThread
    log := w.log }

/-- The state after `refer(); m_exited = true;` on the object at `self`. -/
def World.referExited (self : Nat) (w : World) : World :=
  w.setObj self { w.objs self with m_refCount := (w.objs self).m_refCount + 1, m_exited := true }

/-- The object at `self` has been started: it has a live handle, and the registry holds
it under its own native thread id only, which is how `started()` enters it. -/
def World.started (w : World) (self : Nat) : Bool :=
  (w.objs self).m_handle.isSome &&
    w.s_threads.all (fun e => decide (e.2 = self → e.1 = (w.objs self).m_id))

/-- The modelled part of the state: the objects, the registry and the main pointer,
without the record of calls. -/
def World.same (w1 w2 : World) : Prop :=
  w1.objs = w2.objs ∧ w1.s_threads = w2.s_threads ∧ w1.s_mainThread = w2.s_mainThread

/-! ## Thread: the main-thread designation -/

/-- The operations that read or write the registry and the main pointer: `started()`
run by the thread `c` on an object, a lookup `getCurrent()` of the thread `c` (which
`getMain()` and `isMain()` begin with), and the cleanup `exited()` of an object. -/
inductive RegOp where
  | started (c : Caller) (obj : Nat)
  | getCurrent (c : Caller)
  | exited (obj : Nat)
  deriving DecidableEq, Repr

/-- One operation; `none` when it does not return. -/
def World.regStep (b : Backend) (w : World) : RegOp → Option World
  | RegOp.started c obj =>
    match Thread.started b c obj w with
    | Res.ret _ w1 => some w1
    | _ => none
  | RegOp.getCurrent c =>
    match Thread.getCurrent b c w with
    | Res.ret _ w1 => some w1
    | _ => none
  | RegOp.exited obj => some (Thread.exited obj w)

/-- A sequence of operations, each of which returns. -/
def World.regRun (b : Backend) : List RegOp → World → Option World
  | [], w => some w
  | op :: rest, w =>
    match w.regStep b op with
    | some w1 => World.regRun b rest w1
    | none => none

/-- The operation is not run on the object at `a`: it is neither `started()` on it, nor
its cleanup, nor the construction of a wrapper at its address. -/
def RegOp.spares (a : Nat) : RegOp → Bool
  | RegOp.started _ obj => decide (obj ≠ a)
  | RegOp.getCurrent c => decide (c.fresh ≠ a)
  | RegOp.exited obj => decide (obj ≠ a)

/-! ## Thread: user data -/

/-- The method `Thread::getUserData`. -/
def Thread.getUserData (self : Nat) (id : String) (w : World) : Option Nat :=
  -- UserData* found = m_userData.search(id); void* data = (found) ? found->data : NULL;
  match Hash.search (w.objs self).m_userData id with
  | some found => found.data
  | none => none

/-- The method `Thread::setUserData`.  The call of the old deinit callback is recorded;
what the callback itself does is user code and not part of this state. -/
def Thread.setUserData (self : Nat) (id : String) (data deinitFunc : Option Nat)
    (w : World) : World :=
  let newData : UserData := ⟨data, deinitFunc⟩
  let found := Hash.search (w.objs self).m_userData id
  -- if (found) { oldData = *found; *found = newData; }
  let oldData : UserData := match found with
    | some old => old
    | none => ⟨none, none⟩
  let m1 := match found with
    | some _ => Hash.assign (w.objs self).m_userData id newData
    | none => (w.objs self).m_userData
  -- if ((found != NULL) != (data != NULL || deinitFunc != NULL))
  let m2 := if found.isSome != (data.isSome || deinitFunc.isSome) then
      (if found.isSome then Hash.remove m1 id else Hash.add m1 id newData)
    else m1
  let w1 := w.setObj self { w.objs self with m_userData := m2 }
  -- if (oldData.deinitFunc) oldData.deinitFunc(oldData.data);
  match oldData.deinitFunc with
  | some f => w1.record (Event.deinit f oldData.data)
  | none => w1

/-- A call `setUserData(id, data, deinitFunc)`. -/
structure SetCall where
  id : String
  data : Option Nat
  deinitFunc : Option Nat
  deriving DecidableEq, Repr

/-- A sequence of `setUserData` calls on the object at `self`. -/
def Thread.setAll (self : Nat) (calls : List SetCall) (w : World) : World :=
  calls.foldl (fun w s => Thread.setUserData self s.id s.data s.deinitFunc w) w

/-- Number of calls `deinitFunc(data)` on record. -/
def World.deinitCalls (w : World) (deinitFunc : Nat) (data : Option Nat) : Nat :=
  w.log.count (Event.deinit deinitFunc data)

/-! ## Thread: the destructor -/

/-- Modelled from the spec: `failIfError` of the process-wide fatal-error facility,
which is not among the sources; it ends the process when an error has been set. -/
def failIfError (hasError : Bool) (w : World) (k : World → Res World Unit) : Res World Unit :=
  if hasError then Res.fatal (w.record (Event.fail "failIfError")) else k w

/-- The first block of `Thread::~Thread`, "Wait and exit":

    if (this != getCurrent()) join();
    else { failIfError(); refer(); m_exited = true; unrefer(); }                   -/
def Thread.waitAndExit (b : Backend) (c : Caller) (res : Option WaitResult)
    (hasError : Bool) (self : Nat) (w : World) : Res World Unit :=
  (Thread.getCurrent b c w).bind fun curr w1 =>
    if self ≠ curr then Thread.join b c res self w1
    else failIfError hasError w1 fun w1 =>
      let w2 := Thread.refer self w1
      Res.ret () (Thread.unrefer self (w2.setObj self { w2.objs self with m_exited := true }))

/-- The second block of `Thread::~Thread`, "Deinit user data": the loop over the slots
of `m_userData` (`firstSlot`, `nextSlot`, `getSlot`), which calls every non-`NULL`
`deinitFunc` with the data of its slot. -/
def Thread.deinitUserData (self : Nat) (w : World) : World :=
  (w.objs self).m_userData.foldl (fun w slot =>
    match slot.2.deinitFunc with
    | some f => w.record (Event.deinit f slot.2.data)
    | none => w) w

/-- The destructor `Thread::~Thread` of the object at `self`, run by the thread `c`. -/
def Thread.destructor (b : Backend) (c : Caller) (res : Option WaitResult)
    (hasError : Bool) (self : Nat) (w : World) : Res World Unit :=
  (Thread.waitAndExit b c res hasError self w).bind fun _ w1 =>
    Res.ret () (Thread.deinitUserData self w1)

/-- Whether the call stores the pair of the data `d` and the callback `f`. -/
def SetCall.stores (f : Nat) (d : Option Nat) (s : SetCall) : Bool :=
  decide (s.deinitFunc = some f ∧ s.data = d)

/-- Number of slots of the user-data map of the object at `self` that hold the data
`d` with the callback `f`. -/
def Thread.slotsWith (self : Nat) (w : World) (f : Nat) (d : Option Nat) : Nat :=
  ((w.objs self).m_userData.map Prod.snd).count ⟨d, some f⟩

/-- The calls that the loop of the destructor makes for a list of slots. -/
def Thread.deinitEvents (slots : Hash String UserData) : List Event :=
  slots.filterMap fun slot => slot.2.deinitFunc.map fun f => Event.deinit f slot.2.data

/-! ## Thread: `start` and the thread procedure -/

/-- The method `Thread::setPriority`.  `ok` is the result of `SetThreadPriority`; the
Qt call `m_handle->setPriority(fwToQt(priority))` returns nothing.

    refer();
    m_priority = priority;
    if (m_handle && !SetThreadPriority(m_handle, priority))
        failWin32Error("SetThreadPriority");
    unrefer();                                                                     -/
def Thread.setPriority (b : Backend) (ok : Bool) (self : Nat) (priority : Int) (w : World) :
    Res World Unit :=
  let w1 := Thread.refer self w
  let w2 := w1.setObj self { w1.objs self with m_priority := priority }
  match (w2.objs self).m_handle with
  | none => Res.ret () (Thread.unrefer self w2)
  | some handle =>
    let w3 := w2.record (Event.setPriority handle priority)
    if b = Backend.win32 ∧ ok = false then
      Res.fatal (w3.record (Event.fail "SetThreadPriority"))
    else Res.ret () (Thread.unrefer self w3)

/-- The program points of `Thread::start`, in the thread that calls it. -/
inductive StartPC where
  | lock        -- m_startLock.enter();
  | join        -- join();
  | params      -- StartParams params; params.thread = this; ...
  | acquire1    -- params.ready.acquire();
  | spawn       -- CreateThread(NULL, 0, threadProc, &params, 0, NULL); Qt: handle->start();
  | acquire2    -- params.ready.acquire();
  | unlock      -- m_startLock.leave();
  | ret         -- the return of start()
  | done        -- start() has returned
  | failed      -- the process has ended in a fatal error
  deriving DecidableEq, Repr

/-- The program points of `Thread::threadProc` (Qt: `ThreadWrapper::run`), in the
spawned thread.  At `userFunc` the thread is past the release of `ready`: the user
function and the deinitialisation that follows it act on the thread objects and the
registry, and do not use `params` any more. -/
inductive ProcPC where
  | started       -- thread->started();
  | setPriority   -- thread->setPriority(thread->m_priority);
  | release       -- params->ready.release();
  | userFunc      -- userFunc(userParam); and the rest of the procedure
  | failed        -- the process has ended in a fatal error
  deriving DecidableEq, Repr

/-- What the platform answers during one call of `start()` on the object `self`:
`caller` to the calling thread, `joined` to the wait inside `join()`, `spawned` whether
the native thread is created, `child` to the spawned thread (its id, the handle
`OpenThread` gives it), `priorityOk` the result of `SetThreadPriority`. -/
structure StartEnv where
  b : Backend
  self : Nat
  caller : Caller
  joined : Option WaitResult
  spawned : Bool
  child : Caller
  priorityOk : Bool

/-- The state while `start()` runs: the thread objects and the registry, the semaphore
`params.ready` once `params` is constructed, the lock `m_startLock`, and where the
calling thread and the spawned thread are. -/
structure StartSys where
  world : World
  ready : Option Semaphore
  startLock : Bool
  caller : StartPC
  child : Option ProcPC

/-- A transition: a statement of the calling thread, a statement of the spawned thread
up to the release, a step of the rest of the thread procedure (user code), or a step
of any other thread.  The last two may change the thread objects and the registry in
any way, and have no access to `params`. -/
inductive StartLabel where
  | caller (pc : StartPC)
  | child (pc : ProcPC)
  | rest (w : World)
  | other (w : World)

/-- The state in which `start()` is called. -/
def StartSys.init (w : World) : StartSys :=
  ⟨w, none, false, StartPC.lock, none⟩

/-- A blocking `params.ready.acquire()` of the calling thread: not enabled while the
count is zero. -/
def StartSys.acquire (env : StartEnv) (s : StartSys) (next : StartPC) : Option StartSys :=
  match s.ready with
  | none => none
  | some sem =>
    match Semaphore.acquire env.b sem (-1) none with
    | Res.ret _ sem1 => some { s with ready := some sem1, caller := next }
    | Res.blocks _ => none
    | Res.fatal _ => some { s with caller := StartPC.failed }

/-- One statement of the calling thread. -/
def StartSys.callerStep (env : StartEnv) (s : StartSys) : Option StartSys :=
  match s.caller with
  | StartPC.lock =>
    if s.startLock then none else some { s with startLock := true, caller := StartPC.join }
  | StartPC.join =>
    match Thread.join env.b env.caller env.joined env.self s.world with
    | Res.ret _ w => some { s with world := w, caller := StartPC.params }
    | Res.blocks _ => none
    | Res.fatal w => some { s with world := w, caller := StartPC.failed }
  | StartPC.params =>
    -- the member `Semaphore ready` is constructed with the defaults (1, 1)
    match Semaphore.new env.b 1 1 with
    | Res.ret sem _ => some { s with ready := some sem, caller := StartPC.acquire1 }
    | _ => some { s with caller := StartPC.failed }
  | StartPC.acquire1 => s.acquire env StartPC.spawn
  | StartPC.spawn =>
    if env.spawned then
      some { s with child := some ProcPC.started, caller := StartPC.acquire2 }
    else
      match env.b with
      | Backend.qt => some { s with caller := StartPC.acquire2 }
      | Backend.win32 =>
        some { s with world := s.world.record (Event.fail "CreateThread"),
                      caller := StartPC.failed }
  | StartPC.acquire2 => s.acquire env StartPC.unlock
  | StartPC.unlock => some { s with startLock := false, caller := StartPC.ret }
  | StartPC.ret => some { s with caller := StartPC.done }
  | StartPC.done => none
  | StartPC.failed => none

/-- One statement of the spawned thread, up to the release of `ready`. -/
def StartSys.childStep (env : StartEnv) (s : StartSys) : Option StartSys :=
  match s.child with
  | some ProcPC.started =>
    match Thread.started env.b env.child env.self s.world with
    | Res.ret _ w => some { s with world := w, child := some ProcPC.setPriority }
    | Res.blocks _ => none
    | Res.fatal w => some { s with world := w, child := some ProcPC.failed }
  | some ProcPC.setPriority =>
    match Thread.setPriority env.b env.priorityOk env.self (s.world.objs env.self).m_priority
        s.world with
    | Res.ret _ w => some { s with world := w, child := some ProcPC.release }
    | Res.blocks _ => none
    | Res.fatal w => some { s with world := w, child := some ProcPC.failed }
  | some ProcPC.release =>
    match s.ready with
    | none => none
    | some sem =>
      match Semaphore.release env.b sem with
      | Res.ret _ sem1 => some { s with ready := some sem1, child := some ProcPC.userFunc }
      | Res.blocks _ => none
      | Res.fatal _ => some { s with child := some ProcPC.failed }
  | _ => none

/-- Whether the process has ended in a fatal error; no thread runs after that. -/
def StartSys.ended (s : StartSys) : Bool :=
  decide (s.caller = StartPC.failed) || decide (s.child = some ProcPC.failed)

/-- One transition; `none` when it is not enabled. -/
def StartSys.next (env : StartEnv) (lab : StartLabel) (s : StartSys) : Option StartSys :=
  if s.ended then none
  else
    match lab with
    | StartLabel.caller pc => if s.caller = pc then s.callerStep env else none
    | StartLabel.child pc => if s.child = some pc then s.childStep env else none
    | StartLabel.rest w =>
      if s.child = some ProcPC.userFunc then some { s with world := w } else none
    | StartLabel.other w => some { s with world := w }

/-- A trace of transitions. -/
def StartSys.run (env : StartEnv) : List StartLabel → StartSys → Option StartSys
  | [], s => some s
  | lab :: rest, s =>
    match StartSys.next env lab s with
    | some s1 => StartSys.run env rest s1
    | none => none

/-- The transitions of the handshake between `start()` and the thread procedure. -/
def StartLabel.isKey : StartLabel → Bool
  | StartLabel.caller StartPC.acquire1 => true
  | StartLabel.caller StartPC.spawn => true
  | StartLabel.caller StartPC.acquire2 => true
  | StartLabel.caller StartPC.ret => true
  | StartLabel.child ProcPC.started => true
  | StartLabel.child ProcPC.setPriority => true
  | StartLabel.child ProcPC.release => true
  | _ => false

/-- The handshake in the order in which every returning `start()` goes through it. -/
def StartSys.handshake : List StartLabel :=
  [StartLabel.caller StartPC.acquire1, StartLabel.caller StartPC.spawn,
   StartLabel.child ProcPC.started, StartLabel.child ProcPC.setPriority,
   StartLabel.child ProcPC.release, StartLabel.caller StartPC.acquire2,
   StartLabel.caller StartPC.ret]

/-- Number of handshake transitions that lie behind a state with these program
points, and the count of `ready` there; `none` for program points that do not occur
together. -/
def StartSys.progress : StartPC → Option ProcPC → Option (Nat × Option Semaphore)
  | StartPC.lock, none => some (0, none)
  | StartPC.join, none => some (0, none)
  | StartPC.params, none => some (0, none)
  | StartPC.acquire1, none => some (0, some ⟨1, 1⟩)
  | StartPC.spawn, none => some (1, some ⟨0, 1⟩)
  | StartPC.acquire2, none => some (2, some ⟨0, 1⟩)
  | StartPC.acquire2, some ProcPC.started => some (2, some ⟨0, 1⟩)
  | StartPC.acquire2, some ProcPC.setPriority => some (3, some ⟨0, 1⟩)
  | StartPC.acquire2, some ProcPC.release => some (4, some ⟨0, 1⟩)
  | StartPC.acquire2, some ProcPC.userFunc => some (5, some ⟨1, 1⟩)
  | StartPC.unlock, some ProcPC.userFunc => some (6, some ⟨0, 1⟩)
  | StartPC.ret, some ProcPC.userFunc => some (6, some ⟨0, 1⟩)
  | StartPC.done, some ProcPC.userFunc => some (7, some ⟨0, 1⟩)
  | _, _ => none

/-- The invariant of the handshake: in a state that has not ended in a fatal error,
the handshake transitions made so far are an initial part of `StartSys.handshake`, as
long as the program points say, and `ready` has the count they say. -/
def StartSys.phase (tr : List StartLabel) (s : StartSys) : Prop :=
  s.ended = false →
    ∃ n, StartSys.progress s.caller s.child = some (n, s.ready) ∧
      tr.filter StartLabel.isKey = StartSys.handshake.take n

/-- The state after a prefix of a trace from the call of `start()` in the world `w`. -/
def StartSys.after (env : StartEnv) (w : World) (pre : List StartLabel) : StartSys :=
  (StartSys.run env pre (StartSys.init w)).getD (StartSys.init w)

/-- An example: the thread with id 1, whose wrapper at 50 is the main object, calls
`start()` on the object at 100, and the platform gives the new thread the id 7. -/
def StartSys.exampleEnv : StartEnv :=
  ⟨Backend.win32, 100, ⟨1, 60, some 2⟩, none, true, ⟨7, 0, some 3⟩, true⟩

/-- An example world: the object at 100 has never been started; the registry holds the
wrapper 50 of the thread 1. -/
def StartSys.exampleWorld : World :=
  ⟨fun o => if o = 100 then ⟨0, false, 0, none, 0, []⟩ else ⟨0, false, 1, some 2, 0, []⟩,
    [(1, 50)], some 50, []⟩

/-- An example world in which the registry also still holds the wrapper 70 that a
thread with id 7 made for itself with `getCurrent()`; that thread has ended since, and
its wrapper, which nothing unregisters, has stayed. -/
def StartSys.exampleStale : World :=
  ⟨fun o => if o = 100 then ⟨0, false, 0, none, 0, []⟩
      else if o = 70 then ⟨0, false, 7, some 4, 0, []⟩ else ⟨0, false, 1, some 2, 0, []⟩,
    [(1, 50), (7, 70)], some 50, []⟩

/-- An example trace: `start()` runs up to the spawn, the new thread runs up to the
release, `start()` returns. -/
def StartSys.exampleTrace : List StartLabel :=
  [StartLabel.caller StartPC.lock, StartLabel.caller StartPC.join,
   StartLabel.caller StartPC.params, StartLabel.caller StartPC.acquire1,
   StartLabel.caller StartPC.spawn, StartLabel.child ProcPC.started,
   StartLabel.child ProcPC.setPriority, StartLabel.child ProcPC.release,
   StartLabel.caller StartPC.acquire2, StartLabel.caller StartPC.unlock,
   StartLabel.caller StartPC.ret]

/-! ## Thread: the Qt priority normalisation -/

/-- The enumerator `Thread::Priority_Min`. -/
def Priority_Min : Int := -15

/-- The enumerator `Thread::Priority_Max`. -/
def Priority_Max : Int := 15

/-- Qt: the enumerator `QThread::IdlePriority`. -/
def QThread.IdlePriority : Int := 0

/-- Qt: the enumerator `QThread::TimeCriticalPriority`. -/
def QThread.TimeCriticalPriority : Int := 6

/-- The constant `s_priorityX`,
`float(QThread::TimeCriticalPriority-QThread::IdlePriority)/float(Thread::Priority_Max-Thread::Priority_Min)`.
The source computes it in `float`; here it is the exact quotient. -/
def s_priorityX : ℚ :=
  ((QThread.TimeCriticalPriority - QThread.IdlePriority : Int) : ℚ) /
    ((Priority_Max - Priority_Min : Int) : ℚ)

/-- The constant `s_priorityY`, `QThread::IdlePriority-Thread::Priority_Min*s_priorityX`,
exact as well. -/
def s_priorityY : ℚ :=
  (QThread.IdlePriority : ℚ) - (Priority_Min : ℚ) * s_priorityX

/-- The conversion `int(x)` of C++, which drops the fraction (rounds toward zero). -/
def truncToInt (x : ℚ) : Int :=
  if 0 ≤ x then ⌊x⌋ else ⌈x⌉

/-- Qt: `qRound(qreal d)`, which is
`d >= 0.0 ? int(d + 0.5) : int(d - int(d-1) + 0.5) + int(d-1)`. -/
def qRound (d : ℚ) : Int :=
  if d ≥ 0 then truncToInt (d + 1 / 2)
  else truncToInt (d - (truncToInt (d - 1) : ℚ) + 1 / 2) + truncToInt (d - 1)

/-- Qt: `qBound(min, val, max)`, which is `qMax(min, qMin(max, val))`. -/
def qBound (min val max : Int) : Int :=
  Max.max min (Min.min max val)

/-- The function `fwToQt`: the Qt priority for a priority of `Thread`. -/
def fwToQt (priority : Int) : Int :=
  qBound QThread.IdlePriority (qRound (s_priorityX * (priority : ℚ) + s_priorityY))
    QThread.TimeCriticalPriority

/-- The function `qtToFw`: the priority of `Thread` for a Qt priority. -/
def qtToFw (priority : Int) : Int :=
  qBound Priority_Min (qRound (((priority : ℚ) - s_priorityY) / s_priorityX)) Priority_Max

/-! ## Thread: priority, liveness and suspension -/

/-- Value of the Win32 constant `THREAD_PRIORITY_ERROR_RETURN` (`MAXLONG`). -/
def THREAD_PRIORITY_ERROR_RETURN : Int := 0x7FFFFFFF

/-- Value of the Win32 constant `STILL_ACTIVE`. -/
def STILL_ACTIVE : Nat := 259

/-- The method `Thread::getPriority`.  `native` is what the platform reports for the
handle: the result of `GetThreadPriority(m_handle)`, Qt: of `m_handle->priority()`.

    refer();
    if (m_handle)
        m_priority = GetThreadPriority(m_handle);      Qt: qtToFw(m_handle->priority())
    unrefer();
    if (m_priority == THREAD_PRIORITY_ERROR_RETURN)   (not on Qt)
        failWin32Error("GetThreadPriority");
    return m_priority;                                                             -/
def Thread.getPriority (b : Backend) (native : Int) (self : Nat) (w : World) :
    Res World Int :=
  let w1 := Thread.refer self w
  let w2 := match (w1.objs self).m_handle with
    | some _ =>
      w1.setObj self { w1.objs self with
        m_priority := match b with
          | Backend.qt => qtToFw native
          | Backend.win32 => native }
    | none => w1
  let w3 := Thread.unrefer self w2
  match b with
  | Backend.qt => Res.ret (w3.objs self).m_priority w3
  | Backend.win32 =>
    if (w3.objs self).m_priority = THREAD_PRIORITY_ERROR_RETURN then
      Res.fatal (w3.record (Event.fail "GetThreadPriority"))
    else Res.ret (w3.objs self).m_priority w3

/-- Whether the platform reports the thread of a handle as still running: Win32
`GetExitCodeThread` gives the exit code `STILL_ACTIVE`, Qt `isFinished()` is false. -/
def stillRunning (b : Backend) (exitCode : Option Nat) (finished : Bool) : Bool :=
  match b with
  | Backend.qt => !finished
  | Backend.win32 => decide (exitCode = some STILL_ACTIVE)

/-- The method `Thread::isAlive`.  `exitCode` is what `GetExitCodeThread(m_handle, ..)`
stores, `none` when the call fails; `finished` is the result of Qt's
`m_handle->isFinished()`.

    bool alive = false;
    refer();
    if (m_handle) {
        if (!GetExitCodeThread(m_handle, &exitCode)) failWin32Error("GetExitCodeThread");
        if (exitCode == STILL_ACTIVE) alive = true; else m_exited = true;
    }                          Qt: if (m_handle->isFinished()) m_exited = true; else alive = true;
    unrefer();
    return alive;                                                                  -/
def Thread.isAlive (b : Backend) (exitCode : Option Nat) (finished : Bool) (self : Nat)
    (w : World) : Res World Bool :=
  let w1 := Thread.refer self w
  match (w1.objs self).m_handle with
  | none => Res.ret false (Thread.unrefer self w1)
  | some _ =>
    if b = Backend.win32 ∧ exitCode = none then
      Res.fatal (w1.record (Event.fail "GetExitCodeThread"))
    else if stillRunning b exitCode finished then Res.ret true (Thread.unrefer self w1)
    else
      Res.ret false (Thread.unrefer self (w1.setObj self { w1.objs self with m_exited := true }))

/-- The call `thread->unrefer()` inside `Thread::suspendAll`, which holds `s_lock`.

    m_lock.enter();
    if (--m_refCount == 0 && m_exited) { m_exited = false; exited(); }
    m_lock.leave();

The cleanup `exited()` returns at once when the object has no handle, and enters
`s_lock` otherwise.  On the native backend the lock is a critical section, which the
thread that holds it enters again.  On the Qt backend it is a `QMutex`, which is not
recursive: the thread waits for the lock it holds itself, and the call never returns;
the state left is the one in which `exited()` has been called. -/
def Thread.unreferLocked (b : Backend) (self : Nat) (w : World) : Res World Unit :=
  let th := w.objs self
  let th1 := { th with m_refCount := th.m_refCount - 1 }
  if th1.m_refCount = 0 ∧ th1.m_exited = true then
    let w1 := w.setObj self { th1 with m_exited := false }
    match b, th1.m_handle with
    | Backend.qt, some _ => Res.blocks { w1 with log := w1.log ++ [Event.exited self] }
    | _, _ => Res.ret () (Thread.exited self w1)
  else Res.ret () (w.setObj self th1)

/-- One pass of the loop of `Thread::suspendAll`, for the slot value `thread`, in the
thread with the id `id`, which holds `s_lock`.

    thread->refer();
    if (thread->m_handle && thread->m_id != getID())
        SuspendThread(thread->m_handle);       Qt: setError("Thread::suspendAll isn't ...");
    thread->unrefer();                                                             -/
def Thread.suspendOne (b : Backend) (id : Nat) (thread : Nat) (w : World) : Res World Unit :=
  let w1 := Thread.refer thread w
  let w2 := match (w1.objs thread).m_handle with
    | some handle =>
      if (w1.objs thread).m_id ≠ id then
        match b with
        | Backend.qt =>
          w1.record (Event.setError "Thread::suspendAll isn't implemented with FW_QT")
        | Backend.win32 => w1.record (Event.suspend handle)
      else w1
    | none => w1
  Thread.unreferLocked b thread w2

/-- The loop of `Thread::suspendAll` over the slots that remain to be visited. -/
def Thread.suspendLoop (b : Backend) (id : Nat) : Hash Nat Nat → World → Res World Unit
  | [], w => Res.ret () w
  | slot :: rest, w =>
    (Thread.suspendOne b id slot.2 w).bind fun _ w1 => Thread.suspendLoop b id rest w1

/-- The static method `Thread::suspendAll`, called by the thread with the id `id`:
`s_lock.enter()`, the loop over the registry, `s_lock.leave()`.
Modelled from the spec: the iteration `firstSlot`/`nextSlot`/`getSlot` of the `Hash`
visits the slots in their order; here these are the slots the registry has when the
loop begins. -/
def Thread.suspendAll (b : Backend) (id : Nat) (w : World) : Res World Unit :=
  Thread.suspendLoop b id w.s_threads w

/-- No cleanup is pending on the object at `a`: its exited flag is not set while its
reference count is 0. -/
def World.settled (w : World) (a : Nat) : Bool :=
  !(decide ((w.objs a).m_refCount = 0) && (w.objs a).m_exited)

/-- What `suspendAll` does to an object in the thread `id`: the event for a registered
object with a handle whose id is not `id`, nothing for the others. -/
def Thread.suspendEvents (b : Backend) (id : Nat) (w : World) : List Event :=
  w.s_threads.filterMap fun slot =>
    match (w.objs slot.2).m_handle with
    | some handle =>
      if (w.objs slot.2).m_id ≠ id then
        some (match b with
          | Backend.qt => Event.setError "Thread::suspendAll isn't implemented with FW_QT"
          | Backend.win32 => Event.suspend handle)
      else none
    | none => none

/-! ## Keys: names of Unicode keys -/

/-- The value of an `S32` after an arithmetic result `x`: the two's-complement
representative in `[-2^31, 2^31)`. -/
def wrapS32 (x : Int) : Int := (x + 2 ^ 31) % 2 ^ 32 - 2 ^ 31

/-- Modelled from the spec: the digit that the conversion `%X` of `sprintf`
(`base/String.hpp`, not among the sources) prints for a value below 16: an upper-case
hexadecimal digit. -/
def hexChar (d : Nat) : Char := "0123456789ABCDEF".toList.getD d '0'

/-- Modelled from the spec: the text that `sprintf` of `base/String.hpp`, which is
not among the sources, gives for the conversion `%04X` of a value that is not
negative: its upper-case hexadecimal digits, most significant first, padded with
zeros on the left to at least four digits. -/
def sprintf04X (n : Nat) : List Char :=
  List.replicate (4 - (Nat.digits 16 n).length) '0' ++ (Nat.digits 16 n).reverse.map hexChar

/-- The function `unicodeToKey` of `gui/Keys.cpp`; `none` when the assertion
`FW_ASSERT(cp >= 0 && cp <= 0x10FFFF)` fails, which ends the process.

    FW_ASSERT(cp >= 0 && cp <= 0x10FFFF);
    return sprintf("U+%04X", cp);                                                  -/
def unicodeToKey (cp : Int) : Option (List Char) :=
  if cp ≥ 0 ∧ cp ≤ 0x10FFFF then some ('U' :: '+' :: sprintf04X cp.toNat) else none

/-- The loop of `keyToUnicode`, with `ptr` one before the characters `key` and the
accumulator `cp`.  The characters are read as a C string: the list ends with the
terminator, and a character `'\0'` in the list is a terminator as well.

    while (*++ptr)
    {
        cp <<= 4;
        if (*ptr >= '0' && *ptr <= '9')      cp += *ptr - '0';
        else if (*ptr >= 'A' && *ptr <= 'F') cp += *ptr - ('A' - 10);
        else                                 return 0;
        if (cp > 0x10FFFF)                   return 0;
    }
    return cp;                                                                     -/
def keyToUnicode.loop : List Char → Int → Int
  | [], cp => cp
  | c :: rest, cp =>
    if c.toNat = 0 then cp
    else
      let cp1 := wrapS32 (cp * 16)
      if '0'.toNat ≤ c.toNat ∧ c.toNat ≤ '9'.toNat then
        let cp2 := wrapS32 (cp1 + ((c.toNat : Int) - ('0'.toNat : Int)))
        if cp2 > 0x10FFFF then 0 else keyToUnicode.loop rest cp2
      else if 'A'.toNat ≤ c.toNat ∧ c.toNat ≤ 'F'.toNat then
        let cp2 := wrapS32 (cp1 + ((c.toNat : Int) - (('A'.toNat : Int) - 10)))
        if cp2 > 0x10FFFF then 0 else keyToUnicode.loop rest cp2
      else 0

/-- The function `keyToUnicode` of `gui/Keys.cpp` on the characters of `key`.

    const char* ptr = key.getPtr();
    S32 cp = 0;
    if (*ptr != 'U' || *++ptr != '+')
        return 0;
    ... the loop ...                                                               -/
def keyToUnicode (key : List Char) : Int :=
  match key with
  | [] => 0
  | c :: rest =>
    if c ≠ 'U' then 0
    else
      match rest with
      | [] => 0
      | c1 :: rest1 => if c1 ≠ '+' then 0 else keyToUnicode.loop rest1 0

/-- A character that `keyToUnicode` accepts as a digit: `0`-`9` or `A`-`F`. -/
def isKeyDigit (c : Char) : Bool :=
  decide (('0'.toNat ≤ c.toNat ∧ c.toNat ≤ '9'.toNat) ∨ ('A'.toNat ≤ c.toNat ∧ c.toNat ≤ 'F'.toNat))

/-! ## Thread: user data and the private lock -/

/-- What a call does with the private lock `m_lock` of the object and with user code,
in the order in which it happens. -/
inductive LockEvent where
  | enter                                       -- m_lock.enter();
  | leave                                       -- m_lock.leave();
  | call (deinitFunc : Nat) (data : Option Nat) -- oldData.deinitFunc(oldData.data);
  deriving DecidableEq, Repr

/-- The thread objects together with the state of the lock `m_lock` of the object that
is operated on (held or not) and the events so far. -/
structure Locked where
  world : World
  m_lock : Bool
  trace : List LockEvent

/-- The method `Thread::getUserData`, statement by statement; `none` when the call
cannot proceed because `m_lock` is held.

    m_lock.enter();
    UserData* found = m_userData.search(id);
    void* data = (found) ? found->data : NULL;
    m_lock.leave();
    return data;                                                                   -/
def Locked.getUserData (self : Nat) (id : String) (s : Locked) : Option (Option Nat × Locked) :=
  if s.m_lock then none
  else
    let s1 : Locked := { s with m_lock := true, trace := s.trace ++ [LockEvent.enter] }
    let data := match Hash.search (s1.world.objs self).m_userData id with
      | some found => found.data
      | none => none
    some (data, { s1 with m_lock := false, trace := s1.trace ++ [LockEvent.leave] })

/-- The method `Thread::setUserData`, statement by statement; `none` when the call
cannot proceed because `m_lock` is held.  `callback f data s` is what the user
function at the address `f` does when it is called with `data` in the state `s`; it
may call methods of the object.

    m_lock.enter();
    UserData* found = m_userData.search(id);
    if (found) { oldData = *found; *found = newData; }
    if ((found != NULL) != (data != NULL || deinitFunc != NULL))
    {
        if (found) m_userData.remove(id);
        else       m_userData.add(id, newData);
    }
    m_lock.leave();
    if (oldData.deinitFunc)
        oldData.deinitFunc(oldData.data);                                          -/
def Locked.setUserData (callback : Nat → Option Nat → Locked → Option Locked) (self : Nat)
    (id : String) (data deinitFunc : Option Nat) (s : Locked) : Option Locked :=
  let newData : UserData := ⟨data, deinitFunc⟩
  if s.m_lock then none
  else
    let s1 : Locked := { s with m_lock := true, trace := s.trace ++ [LockEvent.enter] }
    let found := Hash.search (s1.world.objs self).m_userData id
    let oldData : UserData := match found with
      | some old => old
      | none => ⟨none, none⟩
    let m1 := match found with
      | some _ => Hash.assign (s1.world.objs self).m_userData id newData
      | none => (s1.world.objs self).m_userData
    let m2 := if found.isSome != (data.isSome || deinitFunc.isSome) then
        (if found.isSome then Hash.remove m1 id else Hash.add m1 id newData)
      else m1
    let s2 : Locked :=
      { s1 with world := s1.world.setObj self { s1.world.objs self with m_userData := m2 } }
    let s3 : Locked := { s2 with m_lock := false, trace := s2.trace ++ [LockEvent.leave] }
    match oldData.deinitFunc with
    | some f =>
      callback f oldData.data
        { s3 with world := s3.world.record (Event.deinit f oldData.data),
                  trace := s3.trace ++ [LockEvent.call f oldData.data] }
    | none => some s3

/-! ## Monitor: who has acquired `m_ownerSem` -/

/-- The threads that have acquired `m_ownerSem` and not released it, after a transition
of thread `t` from `s` to `s1`: a transition that takes a unit of `m_ownerSem` adds `t`,
one that gives a unit back removes `t`. -/
def Monitor.acquired (s s1 : Sys) (t : Nat) (acq : Nat → Bool) : Nat → Bool :=
  if s1.mon.m_ownerSem.count < s.mon.m_ownerSem.count then Function.update acq t true
  else if s.mon.m_ownerSem.count < s1.mon.m_ownerSem.count then Function.update acq t false
  else acq

/-- The threads that have acquired `m_ownerSem` and not released it at the end of an
execution that starts in `s` with the threads `acq`. -/
def Monitor.holders (b : Backend) : List Label → Sys → (Nat → Bool) → Nat → Bool
  | [], _, acq => acq
  | lab :: rest, s, acq =>
    match Monitor.next b lab s with
    | none => acq
    | some s1 => Monitor.holders b rest s1 (Monitor.acquired s s1 lab.tid acq)

/-! ## Thread: the operations on the thread objects as a transition system -/

/-- The operations on the thread objects: the constructor on the memory at an address,
`started()` run by a thread on an object, `refer()`, `unrefer()`, `exited()`, a call
`join()` of a thread on an object, `isAlive()`, and a lookup `getCurrent()`. -/
inductive ObjOp where
  | construct (a : Nat)
  | started (c : Caller) (a : Nat)
  | refer (a : Nat)
  | unrefer (a : Nat)
  | exited (a : Nat)
  | join (c : Caller) (res : Option WaitResult) (a : Nat)
  | isAlive (exitCode : Option Nat) (finished : Bool) (a : Nat)
  | getCurrent (c : Caller)
  deriving DecidableEq, Repr

/-- The thread objects with two records about them: `made` lists the addresses at which
an object has been constructed, and `up a` says that `started()` has run on the object
at `a` and that no cleanup has been completed on it since. -/
structure ObjSys where
  world : World
  made : List Nat
  up : Nat → Bool

/-- The record of a closed handle: the last statement group of a cleanup, which
`exited()` reaches only when the object has a handle. -/
def Event.isClose : Event → Bool
  | Event.closeHandle _ => true
  | _ => false

/-- Number of cleanups completed so far. -/
def World.closes (w : World) : Nat :=
  w.log.countP Event.isClose

/-- The state after an operation on the object at `a` that leaves the world `w1`: when
the operation has completed a cleanup, the object is no longer up. -/
def ObjSys.after (s : ObjSys) (a : Nat) (w1 : World) : ObjSys :=
  { s with world := w1,
           up := if s.world.closes < w1.closes then Function.update s.up a false else s.up }

/-- The records after a `getCurrent()` of the thread `c`: when the thread has no registry
entry, a wrapper is constructed at `c.fresh` and `started()` runs on it. -/
def ObjSys.wrapped (s : ObjSys) (c : Caller) : ObjSys :=
  if Hash.search s.world.s_threads c.id = none then
    { s with made := c.fresh :: s.made, up := Function.update s.up c.fresh true }
  else s

/-- The state in which no object has been constructed: `mem` is what the memory holds,
the registry is empty and no main thread is recorded. -/
def ObjSys.init (mem : Nat → Thread) : ObjSys :=
  ⟨⟨mem, [], none, []⟩, [], fun _ => false⟩

/-- One operation; `none` when it is not possible or does not return.  An object is
constructed at an address that holds no object, `new` returns such an address, and the
methods are called on objects that have been constructed.  With `strict`, `started()`
runs only on an object that has no handle. -/
def ObjSys.step (b : Backend) (strict : Bool) (s : ObjSys) : ObjOp → Option ObjSys
  | ObjOp.construct a =>
    if a ∈ s.made then none
    else some ⟨Thread.new a s.world, a :: s.made, Function.update s.up a false⟩
  | ObjOp.started c a =>
    if a ∈ s.made ∧ (strict = true → (s.world.objs a).m_handle = none) then
      match Thread.started b c a s.world with
      | Res.ret _ w1 => some ⟨w1, s.made, Function.update s.up a true⟩
      | _ => none
    else none
  | ObjOp.refer a =>
    if a ∈ s.made then some (s.after a (Thread.refer a s.world)) else none
  | ObjOp.unrefer a =>
    if a ∈ s.made then some (s.after a (Thread.unrefer a s.world)) else none
  | ObjOp.exited a =>
    if a ∈ s.made then some (s.after a (Thread.exited a s.world)) else none
  | ObjOp.join c res a =>
    if a ∈ s.made ∧ c.fresh ∉ s.made then
      match Thread.join b c res a s.world with
      | Res.ret _ w1 => some ((s.wrapped c).after a w1)
      | _ => none
    else none
  | ObjOp.isAlive exitCode finished a =>
    if a ∈ s.made then
      match Thread.isAlive b exitCode finished a s.world with
      | Res.ret _ w1 => some (s.after a w1)
      | _ => none
    else none
  | ObjOp.getCurrent c =>
    if c.fresh ∉ s.made then
      match Thread.getCurrent b c s.world with
      | Res.ret _ w1 => some { s.wrapped c with world := w1 }
      | _ => none
    else none

/-- A sequence of operations. -/
def ObjSys.run (b : Backend) (strict : Bool) : List ObjOp → ObjSys → Option ObjSys
  | [], s => some s
  | op :: rest, s =>
    match ObjSys.step b strict s op with
    | some s1 => ObjSys.run b strict rest s1
    | none => none

/-- Every constructed object has a handle exactly when it is up. -/
def ObjSys.handlesOk (s : ObjSys) : Prop :=
  ∀ a ∈ s.made, s.up a = true ↔ (s.world.objs a).m_handle ≠ none

/-- Every registry entry leads to a constructed object that has the id of the entry and
a handle. -/
def ObjSys.entriesOk (s : ObjSys) : Prop :=
  ∀ e ∈ s.world.s_threads, e.2 ∈ s.made ∧ (s.world.objs e.2).m_id = e.1 ∧
    (s.world.objs e.2).m_handle ≠ none

/-- What an operation on the object at `a` can do to the world: it leaves the other
objects alone, and either keeps the handle and the id of the object and the registry
and completes no cleanup, or completes one cleanup of the object, which had a handle
and has none afterwards, and which leaves in the registry only entries that were there
and do not have the id of the object. -/
def World.touched (a : Nat) (w w1 : World) : Prop :=
  (∀ o, o ≠ a → w1.objs o = w.objs o) ∧
  (((w1.objs a).m_handle = (w.objs a).m_handle ∧ (w1.objs a).m_id = (w.objs a).m_id ∧
      w1.s_threads = w.s_threads ∧ w1.closes = w.closes) ∨
    ((w.objs a).m_handle ≠ none ∧ (w1.objs a).m_handle = none ∧
      (∀ e ∈ w1.s_threads, e ∈ w.s_threads ∧ e.1 ≠ (w.objs a).m_id) ∧
      w1.closes = w.closes + 1))

/-- Example: the memory before any object is constructed. -/
def ObjSys.exampleMem : Nat → Thread :=
  fun _ => ⟨0, false, 0, none, 0, []⟩

/-- The state reached from the state without objects by the operations `ops` (that
state itself if one of them is not possible). -/
def ObjSys.exampleAfter (b : Backend) (strict : Bool) (ops : List ObjOp) : ObjSys :=
  (ObjSys.run b strict ops (ObjSys.init ObjSys.exampleMem)).getD (ObjSys.init ObjSys.exampleMem)

/-- Example: the thread 1 looks itself up and gets a wrapper at 50; an object is
constructed at 100 and `started()` runs on it in the thread 7; while a reference is
held, `isAlive()` finds the thread terminated; the last `unrefer()` cleans up. -/
def ObjSys.exampleOps : List ObjOp :=
  [ObjOp.getCurrent ⟨1, 50, some 2⟩, ObjOp.construct 100, ObjOp.started ⟨7, 0, some 3⟩ 100,
    ObjOp.refer 100, ObjOp.isAlive (some 0) true 100, ObjOp.unrefer 100]

/-- Example: as before up to the reference; then the thread 1 joins the object, whose
cleanup is put off because of the reference, `started()` runs on the object again in
the thread 9, and the reference is given back. -/
def ObjSys.exampleRestart : List ObjOp :=
  [ObjOp.getCurrent ⟨1, 50, some 2⟩, ObjOp.construct 100, ObjOp.started ⟨7, 0, some 3⟩ 100,
    ObjOp.refer 100, ObjOp.join ⟨1, 60, some 2⟩ (some WaitResult.WAIT_OBJECT_0) 100,
    ObjOp.started ⟨9, 0, some 4⟩ 100, ObjOp.unrefer 100]

/-- A cleanup with a handle to release is pending on the object at `a`: the reference
count is 0 and the exited flag is set, so that the `unrefer()` after the next `refer()`
runs `exited()`, and the object has a handle. -/
def World.doomed (w : World) (a : Nat) : Bool :=
  decide ((w.objs a).m_refCount = 0) && (w.objs a).m_exited && (w.objs a).m_handle.isSome

/-- The object at `a` has a handle and a native thread id other than `id`: the condition
of `suspendAll` for the thread with the id `id`. -/
def World.foreign (id : Nat) (w : World) (a : Nat) : Bool :=
  (w.objs a).m_handle.isSome && decide ((w.objs a).m_id ≠ id)

/-- The slots up to and including the first one that leads to an object for which
`stop` holds; all slots when there is none. -/
def Thread.suspendReach (stop : Nat → Bool) : Hash Nat Nat → Hash Nat Nat
  | [] => []
  | slot :: rest => if stop slot.2 then [slot] else slot :: Thread.suspendReach stop rest

/-! ## Thread: the life of an object and its user data -/

/-- The record of a call of a deinit callback. -/
def Event.isDeinit : Event → Bool
  | Event.deinit _ _ => true
  | _ => false

/-- A step in the life of an object: a call `setUserData` on it, or anything else that
happens, which leaves the world `w`. -/
inductive LifeStep where
  | set (s : SetCall)
  | other (w : World)

/-- The change from `w` to `w1` keeps the user-data map of the object at `self` and
calls no deinit callback. -/
def World.keepsData (self : Nat) (w w1 : World) : Bool :=
  decide ((w1.objs self).m_userData = (w.objs self).m_userData) &&
    decide (w1.log.filter Event.isDeinit = w.log.filter Event.isDeinit)

/-- One step in the life of the object at `self`.  A step other than `setUserData` on
the object is any change of the world that keeps the user-data map of the object and
calls no deinit callback: `started()`, `refer()`, `unrefer()`, the cleanup, `join()`,
`isAlive()`, `getCurrent()` and the construction of other objects are such changes. -/
def Thread.lifeStep (self : Nat) (w : World) : LifeStep → Option World
  | LifeStep.set s => some (Thread.setUserData self s.id s.data s.deinitFunc w)
  | LifeStep.other w1 => if World.keepsData self w w1 then some w1 else none

/-- The life of the object at `self`: a sequence of steps. -/
def Thread.life (self : Nat) : List LifeStep → World → Option World
  | [], w => some w
  | st :: rest, w =>
    match Thread.lifeStep self w st with
    | some w1 => Thread.life self rest w1
    | none => none

/-- Whether the step is a `setUserData` that stores the data `d` with the callback
`f`. -/
def LifeStep.stores (f : Nat) (d : Option Nat) : LifeStep → Bool
  | LifeStep.set s => s.stores f d
  | LifeStep.other _ => false

/-- Example: the wrapper of the main thread 1 is at 50; the memory at 100 holds an
object as the constructor leaves it. -/
def Thread.exampleBorn : World :=
  ⟨fun o => if o = 50 then ⟨0, false, 1, some 2, 0, []⟩ else ⟨0, false, 0, none, 0, []⟩,
    [(1, 50)], some 50, []⟩

/-- Example: the life of the object at 100.  The key "a" is set; `started()` runs on the
object in the thread 7; the key "b" is set, "a" is replaced and "b" is removed. -/
def Thread.exampleLife : List LifeStep :=
  [LifeStep.set ⟨"a", some 1, some 2⟩,
    LifeStep.other (Res.state (Thread.started Backend.win32 ⟨7, 0, some 3⟩ 100
      (Thread.setUserData 100 "a" (some 1) (some 2) Thread.exampleBorn))),
    LifeStep.set ⟨"b", some 5, some 6⟩, LifeStep.set ⟨"a", some 3, some 4⟩,
    LifeStep.set ⟨"b", none, none⟩]

/-- Example: the world at the end of the life of the object at 100. -/
def Thread.exampleLived : World :=
  (Thread.life 100 Thread.exampleLife Thread.exampleBorn).getD Thread.exampleBorn

/-! # Theorems -/

/-! ## Semaphore -/

theorem Semaphore.acquire_forever (b : Backend) (s : Semaphore) :
    Semaphore.acquire b s (-1) none =
      if 0 < s.count then Res.ret true ⟨s.count - 1, s.maxCount⟩ else Res.blocks s := by
  cases b <;> by_cases h : 0 < s.count <;>
    simp [Semaphore.acquire, QSemaphore.tryAcquire, WaitForSingleObject, waitForUnit, h, INFINITE]

theorem Semaphore.release_eq (b : Backend) (s : Semaphore) :
    Semaphore.release b s =
      if b = Backend.qt ∨ s.count + 1 ≤ s.maxCount then Res.ret () ⟨s.count + 1, s.maxCount⟩
      else Res.fatal s := by
  cases b
  · simp [Semaphore.release, QSemaphore.release]
  · by_cases h : s.count + 1 ≤ s.maxCount <;> simp [Semaphore.release, ReleaseSemaphore, h]

theorem Semaphore.new_ok (b : Backend) (initCount maxCount : Int) (h0 : 0 ≤ initCount)
    (h1 : initCount ≤ maxCount) (h2 : 0 < maxCount) :
    Semaphore.new b initCount maxCount = Res.ret ⟨initCount.toNat, maxCount.toNat⟩ () := by
  cases b
  · unfold Semaphore.new
    have h3 : ¬ maxCount < 0 := by omega
    by_cases h4 : initCount < maxCount
    · have h5 : maxCount - initCount ≤ maxCount := by omega
      have h6 : maxCount - (maxCount - initCount) = initCount := by omega
      simp [h3, h4, h6, h0]
    · have h5 : initCount = maxCount := by omega
      simp [h5]
      omega
  · simp [Semaphore.new, h0, h1, h2]

/-- C8. `Semaphore::acquire` on a semaphore with count `c`, on either backend: when
`c > 0` it returns true and the count becomes `c - 1`; when `c = 0`, the timeout is
finite (`0 ≤ millis`, within the range of `int`) and no other thread releases before
the timeout has elapsed, it returns false and the count is still 0.  In particular
`Semaphore(0, 1).acquire(100)` with no concurrent release returns false. -/
theorem Semaphore.acquire_spec (b : Backend) (s : Semaphore) (millis : Int)
    (arrival : Option Nat) :
    (0 < s.count →
      Semaphore.acquire b s millis arrival = Res.ret true { s with count := s.count - 1 }) ∧
    (s.count = 0 → 0 ≤ millis → millis < 2 ^ 31 →
      (∀ d, arrival = some d → millis.toNat ≤ d) →
      Semaphore.acquire b s millis arrival = Res.ret false { s with count := 0 }) ∧
    (Semaphore.new b 0 1 = Res.ret ⟨0, 1⟩ () ∧
      Semaphore.acquire b ⟨0, 1⟩ 100 none = Res.ret false ⟨0, 1⟩) := by
  refine ⟨?_, ?_, ?_, ?_⟩
  · intro h
    cases b <;>
      simp [Semaphore.acquire, QSemaphore.tryAcquire, WaitForSingleObject, waitForUnit, h]
  · intro h hm hi hr
    have hne : millis.toNat ≠ INFINITE := by
      unfold INFINITE
      omega
    have hlt : ¬ millis < 0 := by omega
    cases arrival with
    | none =>
      cases b <;>
        simp [Semaphore.acquire, QSemaphore.tryAcquire, WaitForSingleObject, waitForUnit, h,
          hm, hne, hlt]
    | some d =>
      have hd : ¬ d < millis.toNat := by
        have := hr d rfl
        omega
      cases b <;>
        simp [Semaphore.acquire, QSemaphore.tryAcquire, WaitForSingleObject, waitForUnit, h,
          hm, hne, hlt, hd]
  · cases b <;> decide
  · cases b <;> decide

/-- Witness of C8: a semaphore with two units, and an empty semaphore asked with a
timeout of 100 ms where the only release comes after 250 ms. -/
theorem Semaphore.acquire_spec_witness :
    Semaphore.acquire Backend.win32 ⟨2, 3⟩ 100 none = Res.ret true ⟨1, 3⟩ ∧
    Semaphore.acquire Backend.qt ⟨0, 1⟩ 100 (some 250) = Res.ret false ⟨0, 1⟩ :=
  ⟨(Semaphore.acquire_spec Backend.win32 ⟨2, 3⟩ 100 none).1 (by decide),
   (Semaphore.acquire_spec Backend.qt ⟨0, 1⟩ 100 (some 250)).2.1 rfl (by decide) (by decide)
     (by intro d hd; cases hd; decide)⟩

/-- On the Win32 backend `release()` adds one unit below the maximum, and at the
maximum it is the fatal error and the count stays. -/
theorem Semaphore.release_win32 (s : Semaphore) :
    (s.count < s.maxCount →
      Semaphore.release Backend.win32 s = Res.ret () { s with count := s.count + 1 }) ∧
    (s.count = s.maxCount → Semaphore.release Backend.win32 s = Res.fatal s) := by
  constructor
  · intro h
    have : s.count + 1 ≤ s.maxCount := h
    simp [Semaphore.release_eq, this]
  · intro h
    simp [Semaphore.release_eq, h]

/-- On the Qt backend `release()` always adds one unit and never fails. -/
theorem Semaphore.release_qt (s : Semaphore) :
    Semaphore.release Backend.qt s = Res.ret () { s with count := s.count + 1 } := by
  simp [Semaphore.release_eq]

/-- C9, at the failing input.  On the Qt backend the semaphore `Semaphore(1, 1)`, whose
count equals its maximum, accepts `release()`: there is no fatal error and its count
becomes 2, above the maximum 1.  The Win32 backend raises the fatal error on the same
input and keeps the count at 1. -/
theorem Semaphore.release_qt_exceeds_max :
    Semaphore.new Backend.qt 1 1 = Res.ret ⟨1, 1⟩ () ∧
    Semaphore.release Backend.qt ⟨1, 1⟩ = Res.ret () ⟨2, 1⟩ ∧
    Semaphore.new Backend.win32 1 1 = Res.ret ⟨1, 1⟩ () ∧
    Semaphore.release Backend.win32 ⟨1, 1⟩ = Res.fatal ⟨1, 1⟩ := by
  decide

/-! ## The reference-count protocol -/

theorem Thread.exited_refCount (self : Nat) (w : World) :
    ((Thread.exited self w).objs self).m_refCount = (w.objs self).m_refCount ∧
    ((Thread.exited self w).objs self).m_exited = (w.objs self).m_exited ∧
    (Thread.exited self w).exitedCalls self = w.exitedCalls self + 1 := by
  unfold Thread.exited World.exitedCalls
  cases h : (w.objs self).m_handle <;> simp [h, List.count_append]

theorem Thread.unrefer_eq (self : Nat) (w : World) :
    Thread.unrefer self w =
      if (w.objs self).m_refCount - 1 = 0 ∧ (w.objs self).m_exited = true then
        Thread.exited self (w.setObj self
          { w.objs self with m_refCount := (w.objs self).m_refCount - 1, m_exited := false })
      else w.setObj self { w.objs self with m_refCount := (w.objs self).m_refCount - 1 } := by
  rfl

theorem acquireThen_eq (b : Backend) (sem : Semaphore) (s : Sys) (t : Nat)
    (k : Semaphore → Sys) :
    acquireThen b sem s t k =
      if 0 < sem.count then some (k ⟨sem.count - 1, sem.maxCount⟩) else none := by
  unfold acquireThen
  rw [Semaphore.acquire_forever]
  split_ifs <;> rfl

theorem releaseThen_eq (b : Backend) (sem : Semaphore) (s : Sys) (t : Nat)
    (k : Semaphore → Sys) :
    releaseThen b sem s t k =
      if b = Backend.qt ∨ sem.count + 1 ≤ sem.maxCount then some (k ⟨sem.count + 1, sem.maxCount⟩)
      else some (s.goto t s.mon PC.fatalError) := by
  unfold releaseThen
  rw [Semaphore.release_eq]
  split_ifs <;> rfl

theorem Monitor.enter_free (b : Backend) (t : Nat) (s : Sys) (hlock : s.mon.m_lock = false)
    (hidle : (s.loc t).pc = PC.idle) (hsem : s.mon.m_ownerSem = ⟨1, 1⟩)
    (hcount : s.mon.m_enterCount = 0) :
    (Monitor.enter b t s).outcome = Outcome.returned ∧
    (Monitor.enter b t s).final.mon =
      { s.mon with m_ownerSem := ⟨0, 1⟩, m_ownerThread := t, m_enterCount := 1 } ∧
    (Monitor.enter b t s).final.loc = Function.update s.loc t ⟨PC.idle, t, (s.loc t).enterCount⟩ := by
  simp [Monitor.enter, Monitor.invoke, Monitor.call, hidle, Monitor.runSolo, Monitor.step,
    Sys.goto, Sys.put, acquireThen_eq, releaseThen_eq, hlock, hsem, hcount]

theorem Monitor.enter_owned (b : Backend) (t : Nat) (s : Sys) (hlock : s.mon.m_lock = false)
    (hidle : (s.loc t).pc = PC.idle) (howner : s.mon.m_ownerThread = t)
    (hcount : s.mon.m_enterCount ≠ 0) :
    (Monitor.enter b t s).outcome = Outcome.returned ∧
    (Monitor.enter b t s).final.mon =
      { s.mon with m_enterCount := s.mon.m_enterCount + 1 } ∧
    (Monitor.enter b t s).final.loc = Function.update s.loc t ⟨PC.idle, t, (s.loc t).enterCount⟩ ∧
    (Monitor.enter b t s).trace =
      [PC.enter_lock, PC.enter_test, PC.enter_setOwner, PC.enter_incr, PC.enter_ret] := by
  simp [Monitor.enter, Monitor.invoke, Monitor.call, hidle, Monitor.runSolo, Monitor.step,
    Sys.goto, Sys.put, acquireThen_eq, releaseThen_eq, hlock, howner, hcount]

theorem Monitor.enter_free_heldBy (b : Backend) (t : Nat) (s : Sys)
    (hlock : s.mon.m_lock = false) (hidle : (s.loc t).pc = PC.idle)
    (hsem : s.mon.m_ownerSem = ⟨1, 1⟩) (hcount : s.mon.m_enterCount = 0) :
    (Monitor.enter b t s).outcome = Outcome.returned ∧
    (Monitor.enter b t s).final = s.heldBy t 1 := by
  simp [Monitor.enter, Monitor.invoke, Monitor.call, hidle, Monitor.runSolo, Monitor.step,
    Sys.goto, Sys.put, acquireThen_eq, releaseThen_eq, hlock, hsem, hcount, Sys.heldBy]

theorem Monitor.enter_heldBy (b : Backend) (t : Nat) (s : Sys) (n : Int)
    (hlock : s.mon.m_lock = false) (hn : n ≠ 0) :
    (Monitor.enter b t (s.heldBy t n)).outcome = Outcome.returned ∧
    (Monitor.enter b t (s.heldBy t n)).final = s.heldBy t (n + 1) := by
  simp [Monitor.enter, Monitor.invoke, Monitor.call, Monitor.runSolo, Monitor.step,
    Sys.goto, Sys.put, acquireThen_eq, releaseThen_eq, hlock, hn, Sys.heldBy]

theorem Monitor.leave_heldBy (b : Backend) (t : Nat) (s : Sys) (n : Int)
    (hn : n ≠ 0) (hn1 : n ≠ 1) :
    (Monitor.leave b t (s.heldBy t n)).outcome = Outcome.returned ∧
    (Monitor.leave b t (s.heldBy t n)).final = s.heldBy t (n - 1) := by
  have h : n - 1 ≠ 0 := by omega
  simp [Monitor.leave, Monitor.invoke, Monitor.call, Monitor.runSolo, Monitor.step,
    Sys.goto, Sys.put, acquireThen_eq, releaseThen_eq, hn, h, Sys.heldBy, FW_ASSERT, Op.entry]

theorem Monitor.leave_heldBy_last (b : Backend) (t : Nat) (s : Sys) :
    (Monitor.leave b t (s.heldBy t 1)).outcome = Outcome.returned ∧
    (Monitor.leave b t (s.heldBy t 1)).final.mon =
      { s.mon with m_ownerSem := ⟨1, 1⟩, m_ownerThread := t, m_enterCount := 0 } ∧
    (Monitor.leave b t (s.heldBy t 1)).final.loc =
      Function.update s.loc t ⟨PC.idle, t, (s.loc t).enterCount⟩ := by
  simp [Monitor.leave, Monitor.invoke, Monitor.call, Monitor.runSolo, Monitor.step,
    Sys.goto, Sys.put, acquireThen_eq, releaseThen_eq, Sys.heldBy, FW_ASSERT, Op.entry]

theorem Monitor.enter_blocked_heldBy (b : Backend) (t u : Nat) (s : Sys) (n : Int)
    (hlock : s.mon.m_lock = false) (hu : u ≠ t) (hidle : (s.loc u).pc = PC.idle) :
    (Monitor.enter b u (s.heldBy t n)).outcome = Outcome.blocked ∧
    ((Monitor.enter b u (s.heldBy t n)).final.loc u).pc = PC.enter_acquire := by
  have hu2 : t ≠ u := fun h => hu h.symm
  simp [Monitor.enter, Monitor.invoke, Monitor.call, Monitor.runSolo, Monitor.step,
    Sys.goto, Sys.put, acquireThen_eq, releaseThen_eq, Sys.heldBy, hlock, hu, hu2, hidle]
theorem Monitor.calls_append (b : Backend) (t : Nat) (ops1 ops2 : List Op) (s : Sys) :
    Monitor.calls b t (ops1 ++ ops2) s =
      (Monitor.calls b t ops1 s).bind (Monitor.calls b t ops2) := by
  induction ops1 generalizing s with
  | nil => rfl
  | cons op rest ih =>
    simp only [List.cons_append, Monitor.calls]
    split_ifs
    · exact ih _
    · rfl

theorem Monitor.calls_enter_heldBy (b : Backend) (t : Nat) (s : Sys)
    (hlock : s.mon.m_lock = false) (N : Nat) (n : Int) (hn : 0 < n) :
    Monitor.calls b t (List.replicate N Op.enter) (s.heldBy t n) = some (s.heldBy t (n + N)) := by
  induction N generalizing n with
  | zero => simp [Monitor.calls]
  | succ N ih =>
    have h := Monitor.enter_heldBy b t s n hlock (by omega)
    unfold Monitor.enter at h
    simp only [List.replicate_succ, Monitor.calls, h.1, h.2, if_true]
    rw [ih (n + 1) (by omega)]
    congr 2
    push_cast
    ring

theorem Monitor.calls_leave_heldBy (b : Backend) (t : Nat) (s : Sys) (k : Nat) (n : Int)
    (hk : (k : Int) < n) :
    Monitor.calls b t (List.replicate k Op.leave) (s.heldBy t n) = some (s.heldBy t (n - k)) := by
  induction k generalizing n with
  | zero => simp [Monitor.calls]
  | succ k ih =>
    have h := Monitor.leave_heldBy b t s n (by omega) (by omega)
    unfold Monitor.leave at h
    simp only [List.replicate_succ, Monitor.calls, h.1, h.2, if_true]
    rw [ih (n - 1) (by omega)]
    congr 2
    push_cast
    ring

/-- C1. Balance of `enter`/`leave`.  From a free monitor (`m_ownerSem` at count 1,
enter-count 0, nobody inside), for every `N ≥ 1` and `k ≤ N`: the `N` calls of
`enter()` followed by `k` calls of `leave()` of one thread all return, after them the
enter-count is `N - k`, the count of `m_ownerSem` is 0 when `k < N` and 1 when `k = N`,
and while `k < N` the `enter()` of any other thread stops at `m_ownerSem.acquire()`. -/
theorem Monitor.enter_leave_balance (b : Backend) (t : Nat) (s : Sys) (N k : Nat)
    (hlock : s.mon.m_lock = false) (hidle : (s.loc t).pc = PC.idle)
    (hsem : s.mon.m_ownerSem = ⟨1, 1⟩) (hcount : s.mon.m_enterCount = 0)
    (hN : 1 ≤ N) (hk : k ≤ N) :
    ∃ r, Monitor.calls b t (List.replicate N Op.enter ++ List.replicate k Op.leave) s = some r ∧
      r.mon.m_enterCount = (N : Int) - k ∧
      r.mon.m_ownerSem.count = (if k < N then 0 else 1) ∧
      (k < N → ∀ u, u ≠ t → (s.loc u).pc = PC.idle →
        (Monitor.enter b u r).outcome = Outcome.blocked ∧
        ((Monitor.enter b u r).final.loc u).pc = PC.enter_acquire) := by
  obtain ⟨M, rfl⟩ : ∃ M, N = M + 1 := ⟨N - 1, by omega⟩
  have h1 := Monitor.enter_free_heldBy b t s hlock hidle hsem hcount
  unfold Monitor.enter at h1
  have hN1 : Monitor.calls b t (List.replicate (M + 1) Op.enter) s =
      some (s.heldBy t ((M : Int) + 1)) := by
    simp only [List.replicate_succ, Monitor.calls, h1.1, h1.2, if_true]
    rw [Monitor.calls_enter_heldBy b t s hlock M 1 (by omega)]
    congr 2
    ring
  rw [Monitor.calls_append, hN1, Option.some_bind]
  by_cases hlt : k < M + 1
  · refine ⟨s.heldBy t ((M : Int) + 1 - k), ?_, ?_, ?_, ?_⟩
    · exact Monitor.calls_leave_heldBy b t s k _ (by omega)
    · simp [Sys.heldBy]
    · simp [Sys.heldBy, hlt]
    · intro _ u hu hui
      exact Monitor.enter_blocked_heldBy b t u s _ hlock hu hui
  · have hkM : k = M + 1 := by omega
    subst hkM
    have h2 := Monitor.leave_heldBy_last b t s
    unfold Monitor.leave at h2
    refine ⟨(Monitor.invoke b Op.leave t (s.heldBy t 1)).final, ?_, ?_, ?_, ?_⟩
    · rw [List.replicate_succ', Monitor.calls_append,
        Monitor.calls_leave_heldBy b t s M _ (by omega), Option.some_bind]
      have : (M : Int) + 1 - M = 1 := by ring
      rw [this]
      simp [Monitor.calls, h2.1]
    · rw [h2.2.1]
      simp
    · rw [h2.2.1]
      simp
    · intro h
      omega

/-- Witness of C1: three `enter()` and two `leave()` by thread 5 on a fresh monitor. -/
theorem Monitor.enter_leave_balance_witness :
    ∃ r, Monitor.calls Backend.win32 5
        (List.replicate 3 Op.enter ++ List.replicate 2 Op.leave)
        (Sys.start ⟨false, ⟨1, 1⟩, ⟨0, 1⟩, ⟨0, 1⟩, 0, 0, 0⟩) = some r ∧
      r.mon.m_enterCount = ((3 : Nat) : Int) - (2 : Nat) ∧
      r.mon.m_ownerSem.count = (if 2 < 3 then 0 else 1) ∧
      (2 < 3 → ∀ u, u ≠ 5 →
        ((Sys.start ⟨false, ⟨1, 1⟩, ⟨0, 1⟩, ⟨0, 1⟩, 0, 0, 0⟩).loc u).pc = PC.idle →
        (Monitor.enter Backend.win32 u r).outcome = Outcome.blocked ∧
        ((Monitor.enter Backend.win32 u r).final.loc u).pc = PC.enter_acquire) :=
  Monitor.enter_leave_balance Backend.win32 5 (Sys.start ⟨false, ⟨1, 1⟩, ⟨0, 1⟩, ⟨0, 1⟩, 0, 0, 0⟩)
    3 2 rfl rfl rfl rfl (by decide) (by decide)

theorem Monitor.new_eq (b : Backend) :
    Monitor.new b = Res.ret ⟨false, ⟨1, 1⟩, ⟨0, 1⟩, ⟨0, 1⟩, 0, 0, 0⟩ () := by
  cases b <;> rfl

theorem Monitor.step_pastAssert (b : Backend) (t : Nat) (s s1 : Sys)
    (hp : (s.loc t).pc.pastAssert = true) (hs : Monitor.step b t s = some s1) :
    (s1.loc t).pc.pastAssert = true := by
  cases h : (s.loc t).pc <;>
    simp [Monitor.step, h, PC.pastAssert, acquireThen_eq, releaseThen_eq] at hp hs
  all_goals try split_ifs at hs
  all_goals try simp only [Option.some.injEq] at hs
  all_goals first | subst hs | (obtain ⟨_, rfl⟩ := hs)
  all_goals simp [Sys.goto, Sys.put, PC.pastAssert]

theorem Monitor.runSolo_pastAssert (b : Backend) (t : Nat) (fuel : Nat) (s : Sys) (tr : List PC)
    (hp : (s.loc t).pc.pastAssert = true) :
    (Monitor.runSolo b t fuel s tr).outcome ≠ Outcome.assertFailed := by
  induction fuel generalizing s tr with
  | zero => simp [Monitor.runSolo]
  | succ fuel ih =>
    cases hstep : Monitor.step b t s with
    | none =>
      cases h : (s.loc t).pc <;> simp [Monitor.runSolo, h, hstep, PC.pastAssert] at hp ⊢
    | some s1 =>
      have h1 := Monitor.step_pastAssert b t s s1 hp hstep
      cases h : (s.loc t).pc <;> simp [Monitor.runSolo, h, hstep, PC.pastAssert] at hp ⊢ <;>
        exact ih s1 _ h1

theorem Monitor.invoke_assert (b : Backend) (op : Op) (t : Nat) (s : Sys)
    (hop : op ≠ Op.enter) (hidle : (s.loc t).pc = PC.idle) :
    Monitor.invoke b op t s =
      if s.mon.m_ownerThread = t ∧ s.mon.m_enterCount ≠ 0 then
        Monitor.runSolo b t 15 (FW_ASSERT true (s.goto t s.mon op.entry) t
          (match op with
            | Op.leave => PC.leave_decr
            | Op.wait => PC.wait_saveThread
            | Op.notify => PC.notify_test
            | _ => PC.all_test)) [op.entry]
      else ⟨Outcome.assertFailed, [op.entry], (s.goto t s.mon op.entry).goto t s.mon PC.assertFailed⟩ := by
  by_cases hc : s.mon.m_ownerThread = t ∧ s.mon.m_enterCount ≠ 0
  · have hcond : (decide (s.mon.m_ownerThread = t) && decide (s.mon.m_enterCount ≠ 0)) = true := by
      simp [hc.1, hc.2]
    rw [if_pos hc]
    cases op
    · exact absurd rfl hop
    all_goals
      simp only [Monitor.invoke, Monitor.call, hidle, Op.entry, if_true]
      rw [Monitor.runSolo]
      simp only [Sys.goto, Sys.put, Function.update_same, Monitor.step, hcond, List.nil_append]
  · have hcond : (decide (s.mon.m_ownerThread = t) && decide (s.mon.m_enterCount ≠ 0)) = false := by
      by_cases h1 : s.mon.m_ownerThread = t
      · have : s.mon.m_enterCount = 0 := by
          by_contra h2
          exact hc ⟨h1, h2⟩
        simp [this]
      · simp [h1]
    rw [if_neg hc]
    cases op
    · exact absurd rfl hop
    all_goals
      simp only [Monitor.invoke, Monitor.call, hidle, Op.entry, if_true]
      rw [Monitor.runSolo]
      simp only [Sys.goto, Sys.put, Function.update_same, Monitor.step, hcond, List.nil_append,
        FW_ASSERT, Bool.false_eq_true, if_false]
      rw [Monitor.runSolo]
      simp only [Function.update_same]

/-- C3. Each of `leave`, `wait`, `notify` and `notifyAll`, called by a thread `t`, fails
its assertion if and only if `t` differs from the owning-thread-id or the enter-count
is 0; a call that fails its assertion has executed the assertion only, changed no
field of the monitor and operated on no semaphore; and all four fail on a freshly
constructed monitor. -/
theorem Monitor.assert_iff_not_owner (b : Backend) (op : Op) (t : Nat) (s : Sys)
    (hop : op ≠ Op.enter) (hidle : (s.loc t).pc = PC.idle) :
    ((Monitor.invoke b op t s).outcome = Outcome.assertFailed ↔
      (s.mon.m_ownerThread ≠ t ∨ s.mon.m_enterCount = 0)) ∧
    ((Monitor.invoke b op t s).outcome = Outcome.assertFailed →
      (Monitor.invoke b op t s).final.mon = s.mon ∧
      (Monitor.invoke b op t s).trace = [op.entry] ∧
      ∀ pc ∈ (Monitor.invoke b op t s).trace, pc.isSemOp = false) ∧
    (∃ m, Monitor.new b = Res.ret m () ∧
      (Monitor.invoke b op t (Sys.start m)).outcome = Outcome.assertFailed) := by
  have hfail : (s.mon.m_ownerThread ≠ t ∨ s.mon.m_enterCount = 0) →
      (Monitor.invoke b op t s).outcome = Outcome.assertFailed ∧
      (Monitor.invoke b op t s).final.mon = s.mon ∧
      (Monitor.invoke b op t s).trace = [op.entry] := by
    intro hc
    have hn : ¬ (s.mon.m_ownerThread = t ∧ s.mon.m_enterCount ≠ 0) := by
      rintro ⟨h1, h2⟩
      rcases hc with hc | hc
      · exact hc h1
      · exact h2 hc
    rw [Monitor.invoke_assert b op t s hop hidle, if_neg hn]
    exact ⟨rfl, rfl, rfl⟩
  have hpass : ¬ (s.mon.m_ownerThread ≠ t ∨ s.mon.m_enterCount = 0) →
      (Monitor.invoke b op t s).outcome ≠ Outcome.assertFailed := by
    intro hc
    have hp : s.mon.m_ownerThread = t ∧ s.mon.m_enterCount ≠ 0 := by
      push_neg at hc
      exact hc
    rw [Monitor.invoke_assert b op t s hop hidle, if_pos hp]
    apply Monitor.runSolo_pastAssert
    cases op <;> simp [FW_ASSERT, Sys.goto, Sys.put, PC.pastAssert]
  refine ⟨⟨fun h => by_contra fun hc => hpass hc h, fun h => (hfail h).1⟩, ?_, ?_⟩
  · intro h
    have hc : s.mon.m_ownerThread ≠ t ∨ s.mon.m_enterCount = 0 := by
      by_contra hc
      exact hpass hc h
    obtain ⟨-, h2, h3⟩ := hfail hc
    refine ⟨h2, h3, ?_⟩
    rw [h3]
    cases op <;> simp [Op.entry, PC.isSemOp]
  · refine ⟨_, Monitor.new_eq b, ?_⟩
    rw [Monitor.invoke_assert b op t _ hop rfl, if_neg]
    · simp [Sys.start]

/-- Witness of C3: thread 2 calls `leave()` while thread 1 holds the monitor. -/
theorem Monitor.assert_iff_not_owner_witness :
    ((Monitor.invoke Backend.qt Op.leave 2
        ((Sys.start ⟨false, ⟨1, 1⟩, ⟨0, 1⟩, ⟨0, 1⟩, 0, 0, 0⟩).heldBy 1 1)).outcome =
      Outcome.assertFailed ↔
      ((1 : Nat) ≠ 2 ∨ (1 : Int) = 0)) ∧
    ((Monitor.invoke Backend.qt Op.leave 2
        ((Sys.start ⟨false, ⟨1, 1⟩, ⟨0, 1⟩, ⟨0, 1⟩, 0, 0, 0⟩).heldBy 1 1)).outcome =
      Outcome.assertFailed →
      (Monitor.invoke Backend.qt Op.leave 2
        ((Sys.start ⟨false, ⟨1, 1⟩, ⟨0, 1⟩, ⟨0, 1⟩, 0, 0, 0⟩).heldBy 1 1)).final.mon =
        ((Sys.start ⟨false, ⟨1, 1⟩, ⟨0, 1⟩, ⟨0, 1⟩, 0, 0, 0⟩).heldBy 1 1).mon ∧
      (Monitor.invoke Backend.qt Op.leave 2
        ((Sys.start ⟨false, ⟨1, 1⟩, ⟨0, 1⟩, ⟨0, 1⟩, 0, 0, 0⟩).heldBy 1 1)).trace =
        [Op.leave.entry] ∧
      ∀ pc ∈ (Monitor.invoke Backend.qt Op.leave 2
        ((Sys.start ⟨false, ⟨1, 1⟩, ⟨0, 1⟩, ⟨0, 1⟩, 0, 0, 0⟩).heldBy 1 1)).trace,
        pc.isSemOp = false) ∧
    (∃ m, Monitor.new Backend.qt = Res.ret m () ∧
      (Monitor.invoke Backend.qt Op.leave 2 (Sys.start m)).outcome = Outcome.assertFailed) :=
  Monitor.assert_iff_not_owner Backend.qt Op.leave 2
    ((Sys.start ⟨false, ⟨1, 1⟩, ⟨0, 1⟩, ⟨0, 1⟩, 0, 0, 0⟩).heldBy 1 1) (by decide) rfl

/-- C5. In every state in which the caller owns the monitor and the wait-count is 0,
`notify()`, and likewise `notifyAll()`, returns after its assertion and its test,
performs no semaphore operation, and leaves every field of the monitor unchanged:
the owning-thread-id, the enter-count, the wait-count and the three semaphores. -/
theorem Monitor.notify_no_waiters (b : Backend) (t : Nat) (s : Sys)
    (hidle : (s.loc t).pc = PC.idle) (howner : s.mon.m_ownerThread = t)
    (hcount : s.mon.m_enterCount ≠ 0) (hwait : s.mon.m_waitCount = 0) :
    ((Monitor.notify b t s).outcome = Outcome.returned ∧
      (Monitor.notify b t s).trace = [PC.notify_assert, PC.notify_test] ∧
      (∀ pc ∈ (Monitor.notify b t s).trace, pc.isSemOp = false) ∧
      (Monitor.notify b t s).final.mon = s.mon ∧
      (Monitor.notify b t s).final.loc = s.loc) ∧
    ((Monitor.notifyAll b t s).outcome = Outcome.returned ∧
      (Monitor.notifyAll b t s).trace = [PC.all_assert, PC.all_test] ∧
      (∀ pc ∈ (Monitor.notifyAll b t s).trace, pc.isSemOp = false) ∧
      (Monitor.notifyAll b t s).final.mon = s.mon ∧
      (Monitor.notifyAll b t s).final.loc = s.loc) := by
  have hl : Function.update s.loc t { s.loc t with pc := PC.idle } = s.loc := by
    rw [← hidle]
    exact Function.update_eq_self t s.loc
  constructor
  · have h : Monitor.notify b t s = ⟨Outcome.returned, [PC.notify_assert, PC.notify_test], s⟩ := by
      unfold Monitor.notify
      rw [Monitor.invoke_assert b Op.notify t s (by decide) hidle, if_pos ⟨howner, hcount⟩]
      rw [Monitor.runSolo]
      simp only [FW_ASSERT, Sys.goto, Sys.put, Function.update_same, Monitor.step, hwait,
        Op.entry, if_true, ne_eq, not_true_eq_false, if_false, Function.update_idem]
      rw [Monitor.runSolo]
      simp [hl]
    rw [h]
    simp [PC.isSemOp]
  · have h : Monitor.notifyAll b t s = ⟨Outcome.returned, [PC.all_assert, PC.all_test], s⟩ := by
      unfold Monitor.notifyAll
      rw [Monitor.invoke_assert b Op.notifyAll t s (by decide) hidle, if_pos ⟨howner, hcount⟩]
      rw [Monitor.runSolo]
      simp only [FW_ASSERT, Sys.goto, Sys.put, Function.update_same, Monitor.step, hwait,
        Op.entry, if_true, ne_eq, not_true_eq_false, if_false, Function.update_idem]
      rw [Monitor.runSolo]
      simp [hl]
    rw [h]
    simp [PC.isSemOp]

/-- Witness of C5: thread 1 holds a fresh monitor one level deep and nobody waits. -/
theorem Monitor.notify_no_waiters_witness :
    (Monitor.notify Backend.win32 1
        ((Sys.start ⟨false, ⟨1, 1⟩, ⟨0, 1⟩, ⟨0, 1⟩, 0, 0, 0⟩).heldBy 1 1)).outcome =
      Outcome.returned ∧
    (Monitor.notifyAll Backend.win32 1
        ((Sys.start ⟨false, ⟨1, 1⟩, ⟨0, 1⟩, ⟨0, 1⟩, 0, 0, 0⟩).heldBy 1 1)).final.mon =
      ((Sys.start ⟨false, ⟨1, 1⟩, ⟨0, 1⟩, ⟨0, 1⟩, 0, 0, 0⟩).heldBy 1 1).mon :=
  ⟨(Monitor.notify_no_waiters Backend.win32 1
      ((Sys.start ⟨false, ⟨1, 1⟩, ⟨0, 1⟩, ⟨0, 1⟩, 0, 0, 0⟩).heldBy 1 1) rfl rfl (by decide) rfl).1.1,
   (Monitor.notify_no_waiters Backend.win32 1
      ((Sys.start ⟨false, ⟨1, 1⟩, ⟨0, 1⟩, ⟨0, 1⟩, 0, 0, 0⟩).heldBy 1 1) rfl rfl (by decide)
      rfl).2.2.2.2.1⟩

/-! ## Monitor: the invariant is kept by every transition -/

theorem Sys.put_loc_self (s : Sys) (t : Nat) (m : Monitor) (l : Local) :
    (s.put t m l).loc t = l := by
  simp [Sys.put]

theorem Sys.put_loc_ne (s : Sys) (t u : Nat) (m : Monitor) (l : Local) (h : u ≠ t) :
    (s.put t m l).loc u = s.loc u := by
  simp [Sys.put, Function.update_noteq h]

theorem Sys.put_mon (s : Sys) (t : Nat) (m : Monitor) (l : Local) :
    (s.put t m l).mon = m :=
  rfl

theorem PC.inside_of_ownerSelf (p : PC) (h : p.ownerSelf = true) : p.inside = true := by
  cases p <;> simp_all [PC.ownerSelf, PC.inside]

theorem PC.inside_of_countZero (p : PC) (h : p.countZero = true) : p.inside = true := by
  cases p <;> simp_all [PC.countZero, PC.inside]

theorem PC.inside_of_countPos (p : PC) (h : p.countPos = true) : p.inside = true := by
  cases p <;> simp_all [PC.countPos, PC.inside]

theorem PC.inside_of_notifying (p : PC) (h : p.notifying = true) : p.inside = true := by
  cases p <;> simp_all [PC.notifying, PC.inside]

theorem PC.outside_of_inside (p : PC) (h : p.inside = true) : p.outside = false := by
  cases p <;> simp_all [PC.outside, PC.inside]

theorem Sys.holds_of_inside (s : Sys) (t : Nat) (h : (s.loc t).pc.inside = true) : s.holds t :=
  Or.inl h

theorem OwnInv.not_inside {s : Sys} (inv : OwnInv s) (t u : Nat)
    (ht : (s.loc t).pc.inside = true) (hu : u ≠ t) : (s.loc u).pc.inside = false := by
  by_contra h
  have h1 : (s.loc u).pc.inside = true := by simpa using h
  exact hu (inv.holdsUnique u t (Or.inl h1) (Or.inl ht))

/-- The facts at the program points after a transition of thread `t` that changes the
owner fields only from inside. -/
theorem OwnInv.frame_core {s : Sys} (inv : OwnInv s) (t : Nat) (m1 : Monitor) (l1 : Local)
    (hOmax : m1.m_ownerSem.maxCount = 1) (hOle : m1.m_ownerSem.count ≤ 1)
    (hnn : 0 ≤ m1.m_enterCount)
    (hfree : m1.m_ownerSem.count = 1 → m1.m_enterCount = 0)
    (hsem : ∀ u, (s.put t m1 l1).holds u → m1.m_ownerSem.count = 0)
    (huniq : ∀ u v, (s.put t m1 l1).holds u → (s.put t m1 l1).holds v → u = v)
    (hfield : (m1.m_ownerThread = s.mon.m_ownerThread ∧ m1.m_enterCount = s.mon.m_enterCount) ∨
      ((s.loc t).pc.inside = true ∧ (m1.m_ownerThread = t ∨ m1.m_enterCount = 0)))
    (f1 : l1.pc.ownerSelf = true → m1.m_ownerThread = t)
    (f2 : l1.pc.countZero = true → m1.m_enterCount = 0)
    (f3 : l1.pc.countPos = true → m1.m_enterCount ≠ 0)
    (f4 : l1.pc = PC.enter_setOwner → m1.m_ownerThread = t ∨ m1.m_enterCount = 0)
    (f5 : l1.pc.inEnter = true → l1.currThread = t)
    (f6 : l1.pc.hasSavedThread = true → l1.currThread = t)
    (f7 : l1.pc.hasSavedCount = true → 0 < l1.enterCount)
    (f8 : l1.pc = PC.wait_incrWait → l1.enterCount = m1.m_enterCount)
    (f9 : l1.pc = PC.wait_ret → m1.m_enterCount = l1.enterCount) :
    OwnInv (s.put t m1 l1) := by
  have other : ∀ u, u ≠ t → (s.loc u).pc.inside = true →
      m1.m_ownerThread = s.mon.m_ownerThread ∧ m1.m_enterCount = s.mon.m_enterCount := by
    intro u hut hin
    rcases hfield with e | ⟨hint, _⟩
    · exact e
    · exact absurd (inv.holdsUnique u t (Or.inl hin) (Or.inl hint)) hut
  refine ⟨hOmax, hOle, hnn, hfree, hsem, huniq, ?_, ?_, ?_, ?_, ?_, ?_, ?_, ?_, ?_⟩
  · intro u hu
    by_cases hut : u = t
    · subst hut
      exact f1 (by simpa [Sys.put_loc_self] using hu)
    · rw [Sys.put_loc_ne s t u m1 l1 hut] at hu
      rw [Sys.put_mon, (other u hut (PC.inside_of_ownerSelf _ hu)).1]
      exact inv.ownerSelf u hu
  · intro u hu
    by_cases hut : u = t
    · subst hut
      exact f2 (by simpa [Sys.put_loc_self] using hu)
    · rw [Sys.put_loc_ne s t u m1 l1 hut] at hu
      rw [Sys.put_mon, (other u hut (PC.inside_of_countZero _ hu)).2]
      exact inv.countZero u hu
  · intro u hu
    by_cases hut : u = t
    · subst hut
      exact f3 (by simpa [Sys.put_loc_self] using hu)
    · rw [Sys.put_loc_ne s t u m1 l1 hut] at hu
      rw [Sys.put_mon, (other u hut (PC.inside_of_countPos _ hu)).2]
      exact inv.countPos u hu
  · intro u hu
    by_cases hut : u = t
    · subst hut
      exact f4 (by simpa [Sys.put_loc_self] using hu)
    · rw [Sys.put_loc_ne s t u m1 l1 hut] at hu
      have hin : (s.loc u).pc.inside = true := by rw [hu]; rfl
      rw [Sys.put_mon, (other u hut hin).1, (other u hut hin).2]
      exact inv.setOwner u hu
  · intro u hu
    by_cases hut : u = t
    · subst hut
      rw [Sys.put_loc_self] at hu ⊢
      exact f5 hu
    · rw [Sys.put_loc_ne s t u m1 l1 hut] at hu ⊢
      exact inv.currEnter u hu
  · intro u hu
    by_cases hut : u = t
    · subst hut
      rw [Sys.put_loc_self] at hu ⊢
      exact f6 hu
    · rw [Sys.put_loc_ne s t u m1 l1 hut] at hu ⊢
      exact inv.savedThread u hu
  · intro u hu
    by_cases hut : u = t
    · subst hut
      rw [Sys.put_loc_self] at hu ⊢
      exact f7 hu
    · rw [Sys.put_loc_ne s t u m1 l1 hut] at hu ⊢
      exact inv.savedCount u hu
  · intro u hu
    by_cases hut : u = t
    · subst hut
      rw [Sys.put_loc_self] at hu ⊢
      exact f8 hu
    · rw [Sys.put_loc_ne s t u m1 l1 hut] at hu ⊢
      have hin : (s.loc u).pc.inside = true := by rw [hu]; rfl
      rw [Sys.put_mon, (other u hut hin).2]
      exact inv.savedEq u hu
  · intro u hu
    by_cases hut : u = t
    · subst hut
      rw [Sys.put_loc_self] at hu ⊢
      exact f9 hu
    · rw [Sys.put_loc_ne s t u m1 l1 hut] at hu ⊢
      have hin : (s.loc u).pc.inside = true := by rw [hu]; rfl
      rw [Sys.put_mon, (other u hut hin).2]
      exact inv.restored u hu

/-- A transition of thread `t` that leaves `m_ownerSem` alone keeps the ownership
invariant, when `t` does not begin to hold the monitor by it, changes the owner fields
only from inside, and arrives at a program point whose facts are true. -/
theorem OwnInv.own_frame {s : Sys} (inv : OwnInv s) (t : Nat) (m1 : Monitor) (l1 : Local)
    (hO : m1.m_ownerSem = s.mon.m_ownerSem) (hnn : 0 ≤ m1.m_enterCount)
    (hfield : (m1.m_ownerThread = s.mon.m_ownerThread ∧ m1.m_enterCount = s.mon.m_enterCount) ∨
      ((s.loc t).pc.inside = true ∧ (m1.m_ownerThread = t ∨ m1.m_enterCount = 0)))
    (hholds : (l1.pc.inside = true ∨
      (l1.pc.outside = false ∧ m1.m_ownerThread = t ∧ m1.m_enterCount ≠ 0)) → s.holds t)
    (f1 : l1.pc.ownerSelf = true → m1.m_ownerThread = t)
    (f2 : l1.pc.countZero = true → m1.m_enterCount = 0)
    (f3 : l1.pc.countPos = true → m1.m_enterCount ≠ 0)
    (f4 : l1.pc = PC.enter_setOwner → m1.m_ownerThread = t ∨ m1.m_enterCount = 0)
    (f5 : l1.pc.inEnter = true → l1.currThread = t)
    (f6 : l1.pc.hasSavedThread = true → l1.currThread = t)
    (f7 : l1.pc.hasSavedCount = true → 0 < l1.enterCount)
    (f8 : l1.pc = PC.wait_incrWait → l1.enterCount = m1.m_enterCount)
    (f9 : l1.pc = PC.wait_ret → m1.m_enterCount = l1.enterCount) :
    OwnInv (s.put t m1 l1) := by
  have hold : ∀ u, (s.put t m1 l1).holds u → s.holds u := by
    intro u hu
    by_cases hut : u = t
    · subst hut
      apply hholds
      simpa [Sys.holds, Sys.put_loc_self, Sys.put_mon] using hu
    · simp only [Sys.holds, Sys.put_loc_ne s t u m1 l1 hut, Sys.put_mon] at hu
      rcases hu with hu | ⟨hu1, hu2, hu3⟩
      · exact Or.inl hu
      · rcases hfield with ⟨e1, e2⟩ | ⟨hin, e⟩
        · exact Or.inr ⟨hu1, e1 ▸ hu2, e2 ▸ hu3⟩
        · rcases e with e | e
          · exact absurd (e.symm.trans hu2).symm hut
          · exact absurd e hu3
  refine OwnInv.frame_core inv t m1 l1 (by rw [hO]; exact inv.ownerMax)
    (by rw [hO]; exact inv.ownerLe) hnn ?_ ?_ ?_ hfield f1 f2 f3 f4 f5 f6 f7 f8 f9
  · intro h
    rw [hO] at h
    rcases hfield with ⟨_, e2⟩ | ⟨hin, _⟩
    · rw [e2]
      exact inv.freeZero h
    · have := inv.holdsSem t (Or.inl hin)
      omega
  · intro u hu
    rw [hO]
    exact inv.holdsSem u (hold u hu)
  · intro u v hu hv
    exact inv.holdsUnique u v (hold u hu) (hold v hv)

/-- Taking `m_ownerSem` keeps the ownership invariant: nobody held the monitor, and the
thread arrives inside. -/
theorem OwnInv.acquire {s : Sys} (inv : OwnInv s) (t : Nat) (m1 : Monitor) (l1 : Local)
    (hpos : 0 < s.mon.m_ownerSem.count)
    (hO : m1.m_ownerSem = ⟨s.mon.m_ownerSem.count - 1, s.mon.m_ownerSem.maxCount⟩)
    (e1 : m1.m_ownerThread = s.mon.m_ownerThread) (e2 : m1.m_enterCount = s.mon.m_enterCount)
    (f1 : l1.pc.ownerSelf = true → m1.m_ownerThread = t)
    (f2 : l1.pc.countZero = true → m1.m_enterCount = 0)
    (f3 : l1.pc.countPos = true → m1.m_enterCount ≠ 0)
    (f4 : l1.pc = PC.enter_setOwner → m1.m_ownerThread = t ∨ m1.m_enterCount = 0)
    (f5 : l1.pc.inEnter = true → l1.currThread = t)
    (f6 : l1.pc.hasSavedThread = true → l1.currThread = t)
    (f7 : l1.pc.hasSavedCount = true → 0 < l1.enterCount)
    (f8 : l1.pc = PC.wait_incrWait → l1.enterCount = m1.m_enterCount)
    (f9 : l1.pc = PC.wait_ret → m1.m_enterCount = l1.enterCount) :
    OwnInv (s.put t m1 l1) := by
  have hle := inv.ownerLe
  have nobody : ∀ u, ¬ s.holds u := by
    intro u hu
    have := inv.holdsSem u hu
    omega
  have hold : ∀ u, u ≠ t → ¬ (s.put t m1 l1).holds u := by
    intro u hut hu
    apply nobody u
    simp only [Sys.holds, Sys.put_loc_ne s t u m1 l1 hut, Sys.put_mon, e1, e2] at hu
    exact hu
  refine OwnInv.frame_core inv t m1 l1 (by rw [hO]; exact inv.ownerMax)
    (by rw [hO]; show s.mon.m_ownerSem.count - 1 ≤ 1; omega) (by rw [e2]; exact inv.countNonneg)
    ?_ ?_ ?_ (Or.inl ⟨e1, e2⟩) f1 f2 f3 f4 f5 f6 f7 f8 f9
  · intro h
    rw [hO] at h
    have : s.mon.m_ownerSem.count - 1 = 1 := h
    omega
  · intro u _
    rw [hO]
    show s.mon.m_ownerSem.count - 1 = 0
    omega
  · intro u v hu hv
    by_cases hut : u = t
    · by_cases hvt : v = t
      · rw [hut, hvt]
      · exact absurd hv (hold v hvt)
    · exact absurd hu (hold u hut)

/-- Releasing `m_ownerSem` keeps the ownership invariant: the thread was inside with
`m_enterCount` at zero, and it arrives at a point where it does not hold. -/
theorem OwnInv.release {s : Sys} (inv : OwnInv s) (t : Nat) (m1 : Monitor) (l1 : Local)
    (hin : (s.loc t).pc.inside = true) (hz : s.mon.m_enterCount = 0)
    (hO : m1.m_ownerSem = ⟨s.mon.m_ownerSem.count + 1, s.mon.m_ownerSem.maxCount⟩)
    (e1 : m1.m_ownerThread = s.mon.m_ownerThread) (e2 : m1.m_enterCount = s.mon.m_enterCount)
    (hout : l1.pc.inside = false)
    (f5 : l1.pc.inEnter = true → l1.currThread = t)
    (f6 : l1.pc.hasSavedThread = true → l1.currThread = t)
    (f7 : l1.pc.hasSavedCount = true → 0 < l1.enterCount) :
    OwnInv (s.put t m1 l1) := by
  have h0 := inv.holdsSem t (Or.inl hin)
  have hold : ∀ u, ¬ (s.put t m1 l1).holds u := by
    intro u hu
    by_cases hut : u = t
    · subst hut
      simp only [Sys.holds, Sys.put_loc_self, Sys.put_mon, hout, e2, hz] at hu
      simp at hu
    · simp only [Sys.holds, Sys.put_loc_ne s t u m1 l1 hut, Sys.put_mon, e2, hz] at hu
      rcases hu with hu | hu
      · exact hut (inv.holdsUnique u t (Or.inl hu) (Or.inl hin))
      · simp at hu
  have hni : ∀ c : PC → Bool, (∀ p, c p = true → p.inside = true) → c l1.pc = true → False := by
    intro c hc h
    have := hc _ h
    rw [hout] at this
    exact Bool.false_ne_true this
  refine OwnInv.frame_core inv t m1 l1 (by rw [hO]; exact inv.ownerMax)
    (by rw [hO]; show s.mon.m_ownerSem.count + 1 ≤ 1; omega) (by rw [e2]; exact inv.countNonneg)
    (fun _ => by rw [e2]; exact hz) (fun u hu => absurd hu (hold u))
    (fun u v hu _ => absurd hu (hold u)) (Or.inl ⟨e1, e2⟩)
    (fun h => (hni _ PC.inside_of_ownerSelf h).elim)
    (fun _ => by rw [e2]; exact hz)
    (fun h => (hni _ PC.inside_of_countPos h).elim)
    (fun h => by rw [h] at hout; exact absurd hout (by decide))
    f5 f6 f7
    (fun h => by rw [h] at hout; exact absurd hout (by decide))
    (fun h => by rw [h] at hout; exact absurd hout (by decide))
theorem PC.acking_of_inside (p : PC) (h : p.inside = true) : p.acking = false := by
  cases p <;> simp_all [PC.acking, PC.inside]

theorem PC.notifying_of_acking (p : PC) (h : p.acking = true) : p.notifying = false := by
  cases p <;> simp_all [PC.acking, PC.notifying]

theorem Sys.put_class (s : Sys) (t : Nat) (m1 : Monitor) (l1 : Local) (c : PC → Bool)
    (h : c l1.pc = c (s.loc t).pc) (u : Nat) :
    c ((s.put t m1 l1).loc u).pc = c (s.loc u).pc := by
  by_cases hut : u = t
  · subst hut
    rw [Sys.put_loc_self, h]
  · rw [Sys.put_loc_ne s t u m1 l1 hut]

/-- A transition that touches neither `m_waitSem` nor `m_notifySem` and moves between
program points of the same handshake role keeps the handshake invariant. -/
theorem ShakeInv.shake_frame {s : Sys} (inv : ShakeInv s) (t : Nat) (m1 : Monitor) (l1 : Local)
    (hW : m1.m_waitSem = s.mon.m_waitSem) (hN : m1.m_notifySem = s.mon.m_notifySem)
    (hfat : l1.pc ≠ PC.fatalError)
    (hack : l1.pc.acking = (s.loc t).pc.acking)
    (hnot : l1.pc.notifying = (s.loc t).pc.notifying) :
    ShakeInv (s.put t m1 l1) := by
  have ha := Sys.put_class s t m1 l1 PC.acking hack
  have hn := Sys.put_class s t m1 l1 PC.notifying hnot
  refine ⟨?_, ?_, ?_, ?_, ?_, ?_, ?_, ?_, ?_⟩
  · rw [Sys.put_mon, hW]; exact inv.waitMax
  · rw [Sys.put_mon, hN]; exact inv.notifyMax
  · rw [Sys.put_mon, hW]; exact inv.waitLe
  · rw [Sys.put_mon, hN]; exact inv.notifyLe
  · intro u
    by_cases hut : u = t
    · subst hut
      rw [Sys.put_loc_self]
      exact hfat
    · rw [Sys.put_loc_ne s t u m1 l1 hut]
      exact inv.noFatal u
  · simp only [Sys.put_mon, hW, hN, ha]
    exact inv.waitOne
  · simp only [Sys.put_mon, hN, ha]
    exact inv.notifyOne
  · simp only [ha]
    exact inv.ackUnique
  · simp only [Sys.put_mon, hW, hN, ha, hn]
    exact inv.quiet

/-- While the thread inside the monitor is not between the `release` and the `acquire`
of a notification, no handshake is in flight. -/
theorem MInv.quiet_inside {s : Sys} (inv : MInv s) (t : Nat)
    (hin : (s.loc t).pc.inside = true) (hnn : (s.loc t).pc.notifying = false) :
    s.mon.m_waitSem.count = 0 ∧ s.mon.m_notifySem.count = 0 ∧
      ∀ w, (s.loc w).pc.acking = false := by
  apply inv.shake.quiet
  intro o
  by_cases hot : o = t
  · rw [hot]; exact hnn
  · by_contra h
    have h1 : (s.loc o).pc.notifying = true := by simpa using h
    exact hot (inv.own.holdsUnique o t (Or.inl (PC.inside_of_notifying _ h1)) (Or.inl hin))

/-- The notifier releases `m_waitSem`. -/
theorem ShakeInv.wake {s : Sys} (inv : MInv s) (t : Nat) (m1 : Monitor) (l1 : Local)
    (hin : (s.loc t).pc.inside = true) (hnn : (s.loc t).pc.notifying = false)
    (hW : m1.m_waitSem = ⟨s.mon.m_waitSem.count + 1, s.mon.m_waitSem.maxCount⟩)
    (hN : m1.m_notifySem = s.mon.m_notifySem)
    (hfat : l1.pc ≠ PC.fatalError) (hack : l1.pc.acking = false)
    (hnot : l1.pc.notifying = true) :
    ShakeInv (s.put t m1 l1) := by
  obtain ⟨q1, q2, q3⟩ := MInv.quiet_inside inv t hin hnn
  have ha : ∀ u, ((s.put t m1 l1).loc u).pc.acking = false := by
    intro u
    rw [Sys.put_class s t m1 l1 PC.acking (by rw [hack, q3 t]) u]
    exact q3 u
  refine ⟨?_, ?_, ?_, ?_, ?_, ?_, ?_, ?_, ?_⟩
  · rw [Sys.put_mon, hW]; exact inv.shake.waitMax
  · rw [Sys.put_mon, hN]; exact inv.shake.notifyMax
  · rw [Sys.put_mon, hW]; show s.mon.m_waitSem.count + 1 ≤ 1; omega
  · rw [Sys.put_mon, hN]; exact inv.shake.notifyLe
  · intro u
    by_cases hut : u = t
    · subst hut
      rw [Sys.put_loc_self]
      exact hfat
    · rw [Sys.put_loc_ne s t u m1 l1 hut]
      exact inv.shake.noFatal u
  · intro _
    exact ⟨by rw [Sys.put_mon, hN]; exact q2, ha⟩
  · intro _
    exact ha
  · intro w w1 hw
    rw [ha w] at hw
    exact absurd hw (by decide)
  · intro h
    have := h t
    rw [Sys.put_loc_self, hnot] at this
    exact absurd this (by decide)

/-- A waiter takes `m_waitSem`. -/
theorem ShakeInv.taken {s : Sys} (inv : ShakeInv s) (t : Nat) (m1 : Monitor) (l1 : Local)
    (hpos : 0 < s.mon.m_waitSem.count)
    (hW : m1.m_waitSem = ⟨s.mon.m_waitSem.count - 1, s.mon.m_waitSem.maxCount⟩)
    (hN : m1.m_notifySem = s.mon.m_notifySem)
    (hfat : l1.pc ≠ PC.fatalError) (hnot : l1.pc.notifying = false)
    (hnot0 : (s.loc t).pc.notifying = false) :
    ShakeInv (s.put t m1 l1) := by
  have hle := inv.waitLe
  have h1 : s.mon.m_waitSem.count = 1 := by omega
  obtain ⟨q2, q3⟩ := inv.waitOne h1
  have hn := Sys.put_class s t m1 l1 PC.notifying (hnot.trans hnot0.symm)
  have ha : ∀ u, u ≠ t → ((s.put t m1 l1).loc u).pc.acking = false := by
    intro u hut
    rw [Sys.put_loc_ne s t u m1 l1 hut]
    exact q3 u
  have hex : ¬ ∀ o, ((s.put t m1 l1).loc o).pc.notifying = false := by
    intro h
    simp only [hn] at h
    have := (inv.quiet h).1
    omega
  refine ⟨?_, ?_, ?_, ?_, ?_, ?_, ?_, ?_, ?_⟩
  · rw [Sys.put_mon, hW]; exact inv.waitMax
  · rw [Sys.put_mon, hN]; exact inv.notifyMax
  · rw [Sys.put_mon, hW]; show s.mon.m_waitSem.count - 1 ≤ 1; omega
  · rw [Sys.put_mon, hN]; exact inv.notifyLe
  · intro u
    by_cases hut : u = t
    · subst hut
      rw [Sys.put_loc_self]
      exact hfat
    · rw [Sys.put_loc_ne s t u m1 l1 hut]
      exact inv.noFatal u
  · intro h
    rw [Sys.put_mon, hW] at h
    have : s.mon.m_waitSem.count - 1 = 1 := h
    omega
  · intro h
    rw [Sys.put_mon, hN] at h
    omega
  · intro w w1 hw hw1
    by_cases hwt : w = t
    · by_cases hw1t : w1 = t
      · rw [hwt, hw1t]
      · rw [ha w1 hw1t] at hw1
        exact absurd hw1 (by decide)
    · rw [ha w hwt] at hw
      exact absurd hw (by decide)
  · intro h
    exact absurd h hex

/-- A waiter releases `m_notifySem`: the acknowledgement. -/
theorem ShakeInv.acked {s : Sys} (inv : ShakeInv s) (t : Nat) (m1 : Monitor) (l1 : Local)
    (hack0 : (s.loc t).pc.acking = true)
    (hW : m1.m_waitSem = s.mon.m_waitSem)
    (hN : m1.m_notifySem = ⟨s.mon.m_notifySem.count + 1, s.mon.m_notifySem.maxCount⟩)
    (hfat : l1.pc ≠ PC.fatalError) (hack : l1.pc.acking = false)
    (hnot : l1.pc.notifying = false) :
    ShakeInv (s.put t m1 l1) := by
  have hw0 : s.mon.m_waitSem.count = 0 := by
    have hle := inv.waitLe
    by_contra h
    have h1 : s.mon.m_waitSem.count = 1 := by omega
    have := (inv.waitOne h1).2 t
    rw [hack0] at this
    exact absurd this (by decide)
  have hn0 : s.mon.m_notifySem.count = 0 := by
    have hle := inv.notifyLe
    by_contra h
    have h1 : s.mon.m_notifySem.count = 1 := by omega
    have := inv.notifyOne h1 t
    rw [hack0] at this
    exact absurd this (by decide)
  have hn := Sys.put_class s t m1 l1 PC.notifying
    (hnot.trans (PC.notifying_of_acking _ hack0).symm)
  have ha : ∀ u, ((s.put t m1 l1).loc u).pc.acking = false := by
    intro u
    by_cases hut : u = t
    · subst hut
      rw [Sys.put_loc_self]
      exact hack
    · rw [Sys.put_loc_ne s t u m1 l1 hut]
      by_contra h
      have h1 : (s.loc u).pc.acking = true := by simpa using h
      exact hut (inv.ackUnique u t h1 hack0)
  have hex : ¬ ∀ o, ((s.put t m1 l1).loc o).pc.notifying = false := by
    intro h
    simp only [hn] at h
    have := (inv.quiet h).2.2 t
    rw [hack0] at this
    exact absurd this (by decide)
  refine ⟨?_, ?_, ?_, ?_, ?_, ?_, ?_, ?_, ?_⟩
  · rw [Sys.put_mon, hW]; exact inv.waitMax
  · rw [Sys.put_mon, hN]; exact inv.notifyMax
  · rw [Sys.put_mon, hW]; exact inv.waitLe
  · rw [Sys.put_mon, hN]; show s.mon.m_notifySem.count + 1 ≤ 1; omega
  · intro u
    by_cases hut : u = t
    · subst hut
      rw [Sys.put_loc_self]
      exact hfat
    · rw [Sys.put_loc_ne s t u m1 l1 hut]
      exact inv.noFatal u
  · intro h
    rw [Sys.put_mon, hW] at h
    omega
  · intro _
    exact ha
  · intro w w1 hw
    rw [ha w] at hw
    exact absurd hw (by decide)
  · intro h
    exact absurd h hex

/-- The notifier takes `m_notifySem`: the handshake is over. -/
theorem ShakeInv.done {s : Sys} (inv : ShakeInv s) (t : Nat) (m1 : Monitor) (l1 : Local)
    (hpos : 0 < s.mon.m_notifySem.count)
    (hW : m1.m_waitSem = s.mon.m_waitSem)
    (hN : m1.m_notifySem = ⟨s.mon.m_notifySem.count - 1, s.mon.m_notifySem.maxCount⟩)
    (hfat : l1.pc ≠ PC.fatalError) (hack : l1.pc.acking = false) :
    ShakeInv (s.put t m1 l1) := by
  have hle := inv.notifyLe
  have h1 : s.mon.m_notifySem.count = 1 := by omega
  have q3 := inv.notifyOne h1
  have hw0 : s.mon.m_waitSem.count = 0 := by
    have hle := inv.waitLe
    by_contra h
    have h2 : s.mon.m_waitSem.count = 1 := by omega
    have := (inv.waitOne h2).1
    omega
  have ha : ∀ u, ((s.put t m1 l1).loc u).pc.acking = false := by
    intro u
    rw [Sys.put_class s t m1 l1 PC.acking (by rw [hack, q3 t]) u]
    exact q3 u
  refine ⟨?_, ?_, ?_, ?_, ?_, ?_, ?_, ?_, ?_⟩
  · rw [Sys.put_mon, hW]; exact inv.waitMax
  · rw [Sys.put_mon, hN]; exact inv.notifyMax
  · rw [Sys.put_mon, hW]; exact inv.waitLe
  · rw [Sys.put_mon, hN]; show s.mon.m_notifySem.count - 1 ≤ 1; omega
  · intro u
    by_cases hut : u = t
    · subst hut
      rw [Sys.put_loc_self]
      exact hfat
    · rw [Sys.put_loc_ne s t u m1 l1 hut]
      exact inv.noFatal u
  · intro h
    rw [Sys.put_mon, hW] at h
    omega
  · intro _
    exact ha
  · intro w w1 hw
    rw [ha w] at hw
    exact absurd hw (by decide)
  · intro _
    refine ⟨by rw [Sys.put_mon, hW]; exact hw0, ?_, ha⟩
    rw [Sys.put_mon, hN]
    show s.mon.m_notifySem.count - 1 = 0
    omega

set_option linter.unusedTactic false
set_option linter.unreachableTactic false

theorem MInv.step_enter_lock {b : Backend} {t : Nat} {s s1 : Sys} (inv : MInv s)
    (h : (s.loc t).pc = PC.enter_lock) (hs : Monitor.step b t s = some s1) : MInv s1 := by
  have g1 := inv.own.ownerSelf t
  have g2 := inv.own.countZero t
  have g3 := inv.own.countPos t
  have g4 := inv.own.setOwner t
  have g5 := inv.own.currEnter t
  have g6 := inv.own.savedThread t
  have g7 := inv.own.savedCount t
  have g8 := inv.own.savedEq t
  have g9 := inv.own.restored t
  have g10 := inv.own.countNonneg
  simp only [h, PC.ownerSelf, PC.countZero, PC.countPos, PC.inEnter, PC.hasSavedThread,
    PC.hasSavedCount] at g1 g2 g3 g4 g5 g6 g7 g8 g9
  simp [Monitor.step, h, acquireThen_eq, releaseThen_eq, FW_ASSERT, Sys.goto] at hs
  obtain ⟨hc, rfl⟩ := hs
  refine ⟨OwnInv.own_frame inv.own t _ _ rfl ?_ ?_ ?_ ?_ ?_ ?_ ?_ ?_ ?_ ?_ ?_ ?_,
    ShakeInv.shake_frame inv.shake t _ _ rfl rfl ?_ ?_ ?_⟩
  all_goals (first | omega | (simp_all [Sys.holds, PC.inside, PC.outside, PC.ownerSelf, PC.countZero, PC.countPos, PC.inEnter, PC.hasSavedThread, PC.hasSavedCount, PC.acking, PC.notifying] <;> omega) | simp_all [Sys.holds, PC.inside, PC.outside, PC.ownerSelf, PC.countZero, PC.countPos, PC.inEnter, PC.hasSavedThread, PC.hasSavedCount, PC.acking, PC.notifying])

theorem MInv.step_enter_test {b : Backend} {t : Nat} {s s1 : Sys} (inv : MInv s)
    (h : (s.loc t).pc = PC.enter_test) (hs : Monitor.step b t s = some s1) : MInv s1 := by
  have g1 := inv.own.ownerSelf t
  have g2 := inv.own.countZero t
  have g3 := inv.own.countPos t
  have g4 := inv.own.setOwner t
  have g5 := inv.own.currEnter t
  have g6 := inv.own.savedThread t
  have g7 := inv.own.savedCount t
  have g8 := inv.own.savedEq t
  have g9 := inv.own.restored t
  have g10 := inv.own.countNonneg
  simp only [h, PC.ownerSelf, PC.countZero, PC.countPos, PC.inEnter, PC.hasSavedThread,
    PC.hasSavedCount] at g1 g2 g3 g4 g5 g6 g7 g8 g9
  simp [Monitor.step, h, acquireThen_eq, releaseThen_eq, FW_ASSERT, Sys.goto] at hs
  split_ifs at hs with hc <;> (try simp only [Option.some.injEq] at hs) <;> subst hs
  all_goals refine ⟨OwnInv.own_frame inv.own t _ _ rfl ?_ ?_ ?_ ?_ ?_ ?_ ?_ ?_ ?_ ?_ ?_ ?_,
    ShakeInv.shake_frame inv.shake t _ _ rfl rfl ?_ ?_ ?_⟩
  all_goals (first | omega | (simp_all [Sys.holds, PC.inside, PC.outside, PC.ownerSelf, PC.countZero, PC.countPos, PC.inEnter, PC.hasSavedThread, PC.hasSavedCount, PC.acking, PC.notifying] <;> omega) | simp_all [Sys.holds, PC.inside, PC.outside, PC.ownerSelf, PC.countZero, PC.countPos, PC.inEnter, PC.hasSavedThread, PC.hasSavedCount, PC.acking, PC.notifying])

theorem MInv.step_enter_unlock {b : Backend} {t : Nat} {s s1 : Sys} (inv : MInv s)
    (h : (s.loc t).pc = PC.enter_unlock) (hs : Monitor.step b t s = some s1) : MInv s1 := by
  have g1 := inv.own.ownerSelf t
  have g2 := inv.own.countZero t
  have g3 := inv.own.countPos t
  have g4 := inv.own.setOwner t
  have g5 := inv.own.currEnter t
  have g6 := inv.own.savedThread t
  have g7 := inv.own.savedCount t
  have g8 := inv.own.savedEq t
  have g9 := inv.own.restored t
  have g10 := inv.own.countNonneg
  simp only [h, PC.ownerSelf, PC.countZero, PC.countPos, PC.inEnter, PC.hasSavedThread,
    PC.hasSavedCount] at g1 g2 g3 g4 g5 g6 g7 g8 g9
  simp [Monitor.step, h, acquireThen_eq, releaseThen_eq, FW_ASSERT, Sys.goto] at hs
  subst hs
  refine ⟨OwnInv.own_frame inv.own t _ _ rfl ?_ ?_ ?_ ?_ ?_ ?_ ?_ ?_ ?_ ?_ ?_ ?_,
    ShakeInv.shake_frame inv.shake t _ _ rfl rfl ?_ ?_ ?_⟩
  all_goals (first | omega | (simp_all [Sys.holds, PC.inside, PC.outside, PC.ownerSelf, PC.countZero, PC.countPos, PC.inEnter, PC.hasSavedThread, PC.hasSavedCount, PC.acking, PC.notifying] <;> omega) | simp_all [Sys.holds, PC.inside, PC.outside, PC.ownerSelf, PC.countZero, PC.countPos, PC.inEnter, PC.hasSavedThread, PC.hasSavedCount, PC.acking, PC.notifying])

theorem MInv.step_enter_acquire {b : Backend} {t : Nat} {s s1 : Sys} (inv : MInv s)
    (h : (s.loc t).pc = PC.enter_acquire) (hs : Monitor.step b t s = some s1) : MInv s1 := by
  have g1 := inv.own.ownerSelf t
  have g2 := inv.own.countZero t
  have g3 := inv.own.countPos t
  have g4 := inv.own.setOwner t
  have g5 := inv.own.currEnter t
  have g6 := inv.own.savedThread t
  have g7 := inv.own.savedCount t
  have g8 := inv.own.savedEq t
  have g9 := inv.own.restored t
  have g10 := inv.own.countNonneg
  simp only [h, PC.ownerSelf, PC.countZero, PC.countPos, PC.inEnter, PC.hasSavedThread,
    PC.hasSavedCount] at g1 g2 g3 g4 g5 g6 g7 g8 g9
  simp [Monitor.step, h, acquireThen_eq, releaseThen_eq, FW_ASSERT, Sys.goto] at hs
  obtain ⟨hc, rfl⟩ := hs
  have hfz := inv.own.freeZero (by have := inv.own.ownerLe; omega)
  refine ⟨OwnInv.acquire inv.own t _ _ hc rfl rfl rfl ?_ ?_ ?_ ?_ ?_ ?_ ?_ ?_ ?_,
    ShakeInv.shake_frame inv.shake t _ _ rfl rfl ?_ ?_ ?_⟩
  all_goals (first | omega | (simp_all [Sys.holds, PC.inside, PC.outside, PC.ownerSelf, PC.countZero, PC.countPos, PC.inEnter, PC.hasSavedThread, PC.hasSavedCount, PC.acking, PC.notifying] <;> omega) | simp_all [Sys.holds, PC.inside, PC.outside, PC.ownerSelf, PC.countZero, PC.countPos, PC.inEnter, PC.hasSavedThread, PC.hasSavedCount, PC.acking, PC.notifying])

theorem MInv.step_enter_relock {b : Backend} {t : Nat} {s s1 : Sys} (inv : MInv s)
    (h : (s.loc t).pc = PC.enter_relock) (hs : Monitor.step b t s = some s1) : MInv s1 := by
  have g1 := inv.own.ownerSelf t
  have g2 := inv.own.countZero t
  have g3 := inv.own.countPos t
  have g4 := inv.own.setOwner t
  have g5 := inv.own.currEnter t
  have g6 := inv.own.savedThread t
  have g7 := inv.own.savedCount t
  have g8 := inv.own.savedEq t
  have g9 := inv.own.restored t
  have g10 := inv.own.countNonneg
  simp only [h, PC.ownerSelf, PC.countZero, PC.countPos, PC.inEnter, PC.hasSavedThread,
    PC.hasSavedCount] at g1 g2 g3 g4 g5 g6 g7 g8 g9
  simp [Monitor.step, h, acquireThen_eq, releaseThen_eq, FW_ASSERT, Sys.goto] at hs
  obtain ⟨hc, rfl⟩ := hs
  refine ⟨OwnInv.own_frame inv.own t _ _ rfl ?_ ?_ ?_ ?_ ?_ ?_ ?_ ?_ ?_ ?_ ?_ ?_,
    ShakeInv.shake_frame inv.shake t _ _ rfl rfl ?_ ?_ ?_⟩
  all_goals (first | omega | (simp_all [Sys.holds, PC.inside, PC.outside, PC.ownerSelf, PC.countZero, PC.countPos, PC.inEnter, PC.hasSavedThread, PC.hasSavedCount, PC.acking, PC.notifying] <;> omega) | simp_all [Sys.holds, PC.inside, PC.outside, PC.ownerSelf, PC.countZero, PC.countPos, PC.inEnter, PC.hasSavedThread, PC.hasSavedCount, PC.acking, PC.notifying])

theorem MInv.step_enter_setOwner {b : Backend} {t : Nat} {s s1 : Sys} (inv : MInv s)
    (h : (s.loc t).pc = PC.enter_setOwner) (hs : Monitor.step b t s = some s1) : MInv s1 := by
  have g1 := inv.own.ownerSelf t
  have g2 := inv.own.countZero t
  have g3 := inv.own.countPos t
  have g4 := inv.own.setOwner t
  have g5 := inv.own.currEnter t
  have g6 := inv.own.savedThread t
  have g7 := inv.own.savedCount t
  have g8 := inv.own.savedEq t
  have g9 := inv.own.restored t
  have g10 := inv.own.countNonneg
  simp only [h, PC.ownerSelf, PC.countZero, PC.countPos, PC.inEnter, PC.hasSavedThread,
    PC.hasSavedCount] at g1 g2 g3 g4 g5 g6 g7 g8 g9
  simp [Monitor.step, h, acquireThen_eq, releaseThen_eq, FW_ASSERT, Sys.goto] at hs
  subst hs
  refine ⟨OwnInv.own_frame inv.own t _ _ rfl ?_ ?_ ?_ ?_ ?_ ?_ ?_ ?_ ?_ ?_ ?_ ?_,
    ShakeInv.shake_frame inv.shake t _ _ rfl rfl ?_ ?_ ?_⟩
  all_goals (first | omega | (simp_all [Sys.holds, PC.inside, PC.outside, PC.ownerSelf, PC.countZero, PC.countPos, PC.inEnter, PC.hasSavedThread, PC.hasSavedCount, PC.acking, PC.notifying] <;> omega) | simp_all [Sys.holds, PC.inside, PC.outside, PC.ownerSelf, PC.countZero, PC.countPos, PC.inEnter, PC.hasSavedThread, PC.hasSavedCount, PC.acking, PC.notifying])

theorem MInv.step_enter_incr {b : Backend} {t : Nat} {s s1 : Sys} (inv : MInv s)
    (h : (s.loc t).pc = PC.enter_incr) (hs : Monitor.step b t s = some s1) : MInv s1 := by
  have g1 := inv.own.ownerSelf t
  have g2 := inv.own.countZero t
  have g3 := inv.own.countPos t
  have g4 := inv.own.setOwner t
  have g5 := inv.own.currEnter t
  have g6 := inv.own.savedThread t
  have g7 := inv.own.savedCount t
  have g8 := inv.own.savedEq t
  have g9 := inv.own.restored t
  have g10 := inv.own.countNonneg
  simp only [h, PC.ownerSelf, PC.countZero, PC.countPos, PC.inEnter, PC.hasSavedThread,
    PC.hasSavedCount] at g1 g2 g3 g4 g5 g6 g7 g8 g9
  simp [Monitor.step, h, acquireThen_eq, releaseThen_eq, FW_ASSERT, Sys.goto] at hs
  subst hs
  refine ⟨OwnInv.own_frame inv.own t _ _ rfl ?_ ?_ ?_ ?_ ?_ ?_ ?_ ?_ ?_ ?_ ?_ ?_,
    ShakeInv.shake_frame inv.shake t _ _ rfl rfl ?_ ?_ ?_⟩
  all_goals (first | omega | (simp_all [Sys.holds, PC.inside, PC.outside, PC.ownerSelf, PC.countZero, PC.countPos, PC.inEnter, PC.hasSavedThread, PC.hasSavedCount, PC.acking, PC.notifying] <;> omega) | simp_all [Sys.holds, PC.inside, PC.outside, PC.ownerSelf, PC.countZero, PC.countPos, PC.inEnter, PC.hasSavedThread, PC.hasSavedCount, PC.acking, PC.notifying])

theorem MInv.step_enter_ret {b : Backend} {t : Nat} {s s1 : Sys} (inv : MInv s)
    (h : (s.loc t).pc = PC.enter_ret) (hs : Monitor.step b t s = some s1) : MInv s1 := by
  have g1 := inv.own.ownerSelf t
  have g2 := inv.own.countZero t
  have g3 := inv.own.countPos t
  have g4 := inv.own.setOwner t
  have g5 := inv.own.currEnter t
  have g6 := inv.own.savedThread t
  have g7 := inv.own.savedCount t
  have g8 := inv.own.savedEq t
  have g9 := inv.own.restored t
  have g10 := inv.own.countNonneg
  simp only [h, PC.ownerSelf, PC.countZero, PC.countPos, PC.inEnter, PC.hasSavedThread,
    PC.hasSavedCount] at g1 g2 g3 g4 g5 g6 g7 g8 g9
  simp [Monitor.step, h, acquireThen_eq, releaseThen_eq, FW_ASSERT, Sys.goto] at hs
  subst hs
  refine ⟨OwnInv.own_frame inv.own t _ _ rfl ?_ ?_ ?_ ?_ ?_ ?_ ?_ ?_ ?_ ?_ ?_ ?_,
    ShakeInv.shake_frame inv.shake t _ _ rfl rfl ?_ ?_ ?_⟩
  all_goals (first | omega | (simp_all [Sys.holds, PC.inside, PC.outside, PC.ownerSelf, PC.countZero, PC.countPos, PC.inEnter, PC.hasSavedThread, PC.hasSavedCount, PC.acking, PC.notifying] <;> omega) | simp_all [Sys.holds, PC.inside, PC.outside, PC.ownerSelf, PC.countZero, PC.countPos, PC.inEnter, PC.hasSavedThread, PC.hasSavedCount, PC.acking, PC.notifying])

theorem MInv.step_leave_assert {b : Backend} {t : Nat} {s s1 : Sys} (inv : MInv s)
    (h : (s.loc t).pc = PC.leave_assert) (hs : Monitor.step b t s = some s1) : MInv s1 := by
  have g1 := inv.own.ownerSelf t
  have g2 := inv.own.countZero t
  have g3 := inv.own.countPos t
  have g4 := inv.own.setOwner t
  have g5 := inv.own.currEnter t
  have g6 := inv.own.savedThread t
  have g7 := inv.own.savedCount t
  have g8 := inv.own.savedEq t
  have g9 := inv.own.restored t
  have g10 := inv.own.countNonneg
  simp only [h, PC.ownerSelf, PC.countZero, PC.countPos, PC.inEnter, PC.hasSavedThread,
    PC.hasSavedCount] at g1 g2 g3 g4 g5 g6 g7 g8 g9
  simp [Monitor.step, h, acquireThen_eq, releaseThen_eq, FW_ASSERT, Sys.goto] at hs
  split_ifs at hs with hc <;> (try simp only [Option.some.injEq] at hs) <;> subst hs
  all_goals refine ⟨OwnInv.own_frame inv.own t _ _ rfl ?_ ?_ ?_ ?_ ?_ ?_ ?_ ?_ ?_ ?_ ?_ ?_,
    ShakeInv.shake_frame inv.shake t _ _ rfl rfl ?_ ?_ ?_⟩
  all_goals (first | omega | (simp_all [Sys.holds, PC.inside, PC.outside, PC.ownerSelf, PC.countZero, PC.countPos, PC.inEnter, PC.hasSavedThread, PC.hasSavedCount, PC.acking, PC.notifying] <;> omega) | simp_all [Sys.holds, PC.inside, PC.outside, PC.ownerSelf, PC.countZero, PC.countPos, PC.inEnter, PC.hasSavedThread, PC.hasSavedCount, PC.acking, PC.notifying])

theorem MInv.step_leave_decr {b : Backend} {t : Nat} {s s1 : Sys} (inv : MInv s)
    (h : (s.loc t).pc = PC.leave_decr) (hs : Monitor.step b t s = some s1) : MInv s1 := by
  have g1 := inv.own.ownerSelf t
  have g2 := inv.own.countZero t
  have g3 := inv.own.countPos t
  have g4 := inv.own.setOwner t
  have g5 := inv.own.currEnter t
  have g6 := inv.own.savedThread t
  have g7 := inv.own.savedCount t
  have g8 := inv.own.savedEq t
  have g9 := inv.own.restored t
  have g10 := inv.own.countNonneg
  simp only [h, PC.ownerSelf, PC.countZero, PC.countPos, PC.inEnter, PC.hasSavedThread,
    PC.hasSavedCount] at g1 g2 g3 g4 g5 g6 g7 g8 g9
  simp [Monitor.step, h, acquireThen_eq, releaseThen_eq, FW_ASSERT, Sys.goto] at hs
  subst hs
  refine ⟨OwnInv.own_frame inv.own t _ _ rfl ?_ ?_ ?_ ?_ ?_ ?_ ?_ ?_ ?_ ?_ ?_ ?_,
    ShakeInv.shake_frame inv.shake t _ _ rfl rfl ?_ ?_ ?_⟩
  all_goals (first | omega | (simp_all [Sys.holds, PC.inside, PC.outside, PC.ownerSelf, PC.countZero, PC.countPos, PC.inEnter, PC.hasSavedThread, PC.hasSavedCount, PC.acking, PC.notifying] <;> omega) | simp_all [Sys.holds, PC.inside, PC.outside, PC.ownerSelf, PC.countZero, PC.countPos, PC.inEnter, PC.hasSavedThread, PC.hasSavedCount, PC.acking, PC.notifying])

theorem MInv.step_leave_test {b : Backend} {t : Nat} {s s1 : Sys} (inv : MInv s)
    (h : (s.loc t).pc = PC.leave_test) (hs : Monitor.step b t s = some s1) : MInv s1 := by
  have g1 := inv.own.ownerSelf t
  have g2 := inv.own.countZero t
  have g3 := inv.own.countPos t
  have g4 := inv.own.setOwner t
  have g5 := inv.own.currEnter t
  have g6 := inv.own.savedThread t
  have g7 := inv.own.savedCount t
  have g8 := inv.own.savedEq t
  have g9 := inv.own.restored t
  have g10 := inv.own.countNonneg
  simp only [h, PC.ownerSelf, PC.countZero, PC.countPos, PC.inEnter, PC.hasSavedThread,
    PC.hasSavedCount] at g1 g2 g3 g4 g5 g6 g7 g8 g9
  simp [Monitor.step, h, acquireThen_eq, releaseThen_eq, FW_ASSERT, Sys.goto] at hs
  split_ifs at hs with hc <;> (try simp only [Option.some.injEq] at hs) <;> subst hs
  all_goals refine ⟨OwnInv.own_frame inv.own t _ _ rfl ?_ ?_ ?_ ?_ ?_ ?_ ?_ ?_ ?_ ?_ ?_ ?_,
    ShakeInv.shake_frame inv.shake t _ _ rfl rfl ?_ ?_ ?_⟩
  all_goals (first | omega | (simp_all [Sys.holds, PC.inside, PC.outside, PC.ownerSelf, PC.countZero, PC.countPos, PC.inEnter, PC.hasSavedThread, PC.hasSavedCount, PC.acking, PC.notifying] <;> omega) | simp_all [Sys.holds, PC.inside, PC.outside, PC.ownerSelf, PC.countZero, PC.countPos, PC.inEnter, PC.hasSavedThread, PC.hasSavedCount, PC.acking, PC.notifying])

theorem MInv.step_leave_release {b : Backend} {t : Nat} {s s1 : Sys} (inv : MInv s)
    (h : (s.loc t).pc = PC.leave_release) (hs : Monitor.step b t s = some s1) : MInv s1 := by
  have g1 := inv.own.ownerSelf t
  have g2 := inv.own.countZero t
  have g3 := inv.own.countPos t
  have g4 := inv.own.setOwner t
  have g5 := inv.own.currEnter t
  have g6 := inv.own.savedThread t
  have g7 := inv.own.savedCount t
  have g8 := inv.own.savedEq t
  have g9 := inv.own.restored t
  have g10 := inv.own.countNonneg
  simp only [h, PC.ownerSelf, PC.countZero, PC.countPos, PC.inEnter, PC.hasSavedThread,
    PC.hasSavedCount] at g1 g2 g3 g4 g5 g6 g7 g8 g9
  have hin : (s.loc t).pc.inside = true := by rw [h]; rfl
  have hz := inv.own.holdsSem t (Or.inl hin)
  have hm := inv.own.ownerMax
  simp [Monitor.step, h, acquireThen_eq, releaseThen_eq, FW_ASSERT, Sys.goto] at hs
  split_ifs at hs with hc
  · simp only [Option.some.injEq] at hs
    subst hs
    refine ⟨OwnInv.release inv.own t _ _ hin (g2 trivial) rfl rfl rfl ?_ ?_ ?_ ?_,
      ShakeInv.shake_frame inv.shake t _ _ rfl rfl ?_ ?_ ?_⟩
    all_goals (first | omega | (simp_all [Sys.holds, PC.inside, PC.outside, PC.ownerSelf, PC.countZero, PC.countPos, PC.inEnter, PC.hasSavedThread, PC.hasSavedCount, PC.acking, PC.notifying] <;> omega) | simp_all [Sys.holds, PC.inside, PC.outside, PC.ownerSelf, PC.countZero, PC.countPos, PC.inEnter, PC.hasSavedThread, PC.hasSavedCount, PC.acking, PC.notifying])
  · exact absurd (Or.inr (by omega)) hc

theorem MInv.step_wait_assert {b : Backend} {t : Nat} {s s1 : Sys} (inv : MInv s)
    (h : (s.loc t).pc = PC.wait_assert) (hs : Monitor.step b t s = some s1) : MInv s1 := by
  have g1 := inv.own.ownerSelf t
  have g2 := inv.own.countZero t
  have g3 := inv.own.countPos t
  have g4 := inv.own.setOwner t
  have g5 := inv.own.currEnter t
  have g6 := inv.own.savedThread t
  have g7 := inv.own.savedCount t
  have g8 := inv.own.savedEq t
  have g9 := inv.own.restored t
  have g10 := inv.own.countNonneg
  simp only [h, PC.ownerSelf, PC.countZero, PC.countPos, PC.inEnter, PC.hasSavedThread,
    PC.hasSavedCount] at g1 g2 g3 g4 g5 g6 g7 g8 g9
  simp [Monitor.step, h, acquireThen_eq, releaseThen_eq, FW_ASSERT, Sys.goto] at hs
  split_ifs at hs with hc <;> (try simp only [Option.some.injEq] at hs) <;> subst hs
  all_goals refine ⟨OwnInv.own_frame inv.own t _ _ rfl ?_ ?_ ?_ ?_ ?_ ?_ ?_ ?_ ?_ ?_ ?_ ?_,
    ShakeInv.shake_frame inv.shake t _ _ rfl rfl ?_ ?_ ?_⟩
  all_goals (first | omega | (simp_all [Sys.holds, PC.inside, PC.outside, PC.ownerSelf, PC.countZero, PC.countPos, PC.inEnter, PC.hasSavedThread, PC.hasSavedCount, PC.acking, PC.notifying] <;> omega) | simp_all [Sys.holds, PC.inside, PC.outside, PC.ownerSelf, PC.countZero, PC.countPos, PC.inEnter, PC.hasSavedThread, PC.hasSavedCount, PC.acking, PC.notifying])

theorem MInv.step_wait_saveThread {b : Backend} {t : Nat} {s s1 : Sys} (inv : MInv s)
    (h : (s.loc t).pc = PC.wait_saveThread) (hs : Monitor.step b t s = some s1) : MInv s1 := by
  have g1 := inv.own.ownerSelf t
  have g2 := inv.own.countZero t
  have g3 := inv.own.countPos t
  have g4 := inv.own.setOwner t
  have g5 := inv.own.currEnter t
  have g6 := inv.own.savedThread t
  have g7 := inv.own.savedCount t
  have g8 := inv.own.savedEq t
  have g9 := inv.own.restored t
  have g10 := inv.own.countNonneg
  simp only [h, PC.ownerSelf, PC.countZero, PC.countPos, PC.inEnter, PC.hasSavedThread,
    PC.hasSavedCount] at g1 g2 g3 g4 g5 g6 g7 g8 g9
  simp [Monitor.step, h, acquireThen_eq, releaseThen_eq, FW_ASSERT, Sys.goto] at hs
  subst hs
  refine ⟨OwnInv.own_frame inv.own t _ _ rfl ?_ ?_ ?_ ?_ ?_ ?_ ?_ ?_ ?_ ?_ ?_ ?_,
    ShakeInv.shake_frame inv.shake t _ _ rfl rfl ?_ ?_ ?_⟩
  all_goals (first | omega | (simp_all [Sys.holds, PC.inside, PC.outside, PC.ownerSelf, PC.countZero, PC.countPos, PC.inEnter, PC.hasSavedThread, PC.hasSavedCount, PC.acking, PC.notifying] <;> omega) | simp_all [Sys.holds, PC.inside, PC.outside, PC.ownerSelf, PC.countZero, PC.countPos, PC.inEnter, PC.hasSavedThread, PC.hasSavedCount, PC.acking, PC.notifying])

theorem MInv.step_wait_saveCount {b : Backend} {t : Nat} {s s1 : Sys} (inv : MInv s)
    (h : (s.loc t).pc = PC.wait_saveCount) (hs : Monitor.step b t s = some s1) : MInv s1 := by
  have g1 := inv.own.ownerSelf t
  have g2 := inv.own.countZero t
  have g3 := inv.own.countPos t
  have g4 := inv.own.setOwner t
  have g5 := inv.own.currEnter t
  have g6 := inv.own.savedThread t
  have g7 := inv.own.savedCount t
  have g8 := inv.own.savedEq t
  have g9 := inv.own.restored t
  have g10 := inv.own.countNonneg
  simp only [h, PC.ownerSelf, PC.countZero, PC.countPos, PC.inEnter, PC.hasSavedThread,
    PC.hasSavedCount] at g1 g2 g3 g4 g5 g6 g7 g8 g9
  simp [Monitor.step, h, acquireThen_eq, releaseThen_eq, FW_ASSERT, Sys.goto] at hs
  subst hs
  refine ⟨OwnInv.own_frame inv.own t _ _ rfl ?_ ?_ ?_ ?_ ?_ ?_ ?_ ?_ ?_ ?_ ?_ ?_,
    ShakeInv.shake_frame inv.shake t _ _ rfl rfl ?_ ?_ ?_⟩
  all_goals (first | omega | (simp_all [Sys.holds, PC.inside, PC.outside, PC.ownerSelf, PC.countZero, PC.countPos, PC.inEnter, PC.hasSavedThread, PC.hasSavedCount, PC.acking, PC.notifying] <;> omega) | simp_all [Sys.holds, PC.inside, PC.outside, PC.ownerSelf, PC.countZero, PC.countPos, PC.inEnter, PC.hasSavedThread, PC.hasSavedCount, PC.acking, PC.notifying])

theorem MInv.step_wait_incrWait {b : Backend} {t : Nat} {s s1 : Sys} (inv : MInv s)
    (h : (s.loc t).pc = PC.wait_incrWait) (hs : Monitor.step b t s = some s1) : MInv s1 := by
  have g1 := inv.own.ownerSelf t
  have g2 := inv.own.countZero t
  have g3 := inv.own.countPos t
  have g4 := inv.own.setOwner t
  have g5 := inv.own.currEnter t
  have g6 := inv.own.savedThread t
  have g7 := inv.own.savedCount t
  have g8 := inv.own.savedEq t
  have g9 := inv.own.restored t
  have g10 := inv.own.countNonneg
  simp only [h, PC.ownerSelf, PC.countZero, PC.countPos, PC.inEnter, PC.hasSavedThread,
    PC.hasSavedCount] at g1 g2 g3 g4 g5 g6 g7 g8 g9
  simp [Monitor.step, h, acquireThen_eq, releaseThen_eq, FW_ASSERT, Sys.goto] at hs
  subst hs
  refine ⟨OwnInv.own_frame inv.own t _ _ rfl ?_ ?_ ?_ ?_ ?_ ?_ ?_ ?_ ?_ ?_ ?_ ?_,
    ShakeInv.shake_frame inv.shake t _ _ rfl rfl ?_ ?_ ?_⟩
  all_goals (first | omega | (simp_all [Sys.holds, PC.inside, PC.outside, PC.ownerSelf, PC.countZero, PC.countPos, PC.inEnter, PC.hasSavedThread, PC.hasSavedCount, PC.acking, PC.notifying] <;> omega) | simp_all [Sys.holds, PC.inside, PC.outside, PC.ownerSelf, PC.countZero, PC.countPos, PC.inEnter, PC.hasSavedThread, PC.hasSavedCount, PC.acking, PC.notifying])

theorem MInv.step_wait_zeroEnter {b : Backend} {t : Nat} {s s1 : Sys} (inv : MInv s)
    (h : (s.loc t).pc = PC.wait_zeroEnter) (hs : Monitor.step b t s = some s1) : MInv s1 := by
  have g1 := inv.own.ownerSelf t
  have g2 := inv.own.countZero t
  have g3 := inv.own.countPos t
  have g4 := inv.own.setOwner t
  have g5 := inv.own.currEnter t
  have g6 := inv.own.savedThread t
  have g7 := inv.own.savedCount t
  have g8 := inv.own.savedEq t
  have g9 := inv.own.restored t
  have g10 := inv.own.countNonneg
  simp only [h, PC.ownerSelf, PC.countZero, PC.countPos, PC.inEnter, PC.hasSavedThread,
    PC.hasSavedCount] at g1 g2 g3 g4 g5 g6 g7 g8 g9
  simp [Monitor.step, h, acquireThen_eq, releaseThen_eq, FW_ASSERT, Sys.goto] at hs
  subst hs
  refine ⟨OwnInv.own_frame inv.own t _ _ rfl ?_ ?_ ?_ ?_ ?_ ?_ ?_ ?_ ?_ ?_ ?_ ?_,
    ShakeInv.shake_frame inv.shake t _ _ rfl rfl ?_ ?_ ?_⟩
  all_goals (first | omega | (simp_all [Sys.holds, PC.inside, PC.outside, PC.ownerSelf, PC.countZero, PC.countPos, PC.inEnter, PC.hasSavedThread, PC.hasSavedCount, PC.acking, PC.notifying] <;> omega) | simp_all [Sys.holds, PC.inside, PC.outside, PC.ownerSelf, PC.countZero, PC.countPos, PC.inEnter, PC.hasSavedThread, PC.hasSavedCount, PC.acking, PC.notifying])

theorem MInv.step_wait_releaseOwner {b : Backend} {t : Nat} {s s1 : Sys} (inv : MInv s)
    (h : (s.loc t).pc = PC.wait_releaseOwner) (hs : Monitor.step b t s = some s1) : MInv s1 := by
  have g1 := inv.own.ownerSelf t
  have g2 := inv.own.countZero t
  have g3 := inv.own.countPos t
  have g4 := inv.own.setOwner t
  have g5 := inv.own.currEnter t
  have g6 := inv.own.savedThread t
  have g7 := inv.own.savedCount t
  have g8 := inv.own.savedEq t
  have g9 := inv.own.restored t
  have g10 := inv.own.countNonneg
  simp only [h, PC.ownerSelf, PC.countZero, PC.countPos, PC.inEnter, PC.hasSavedThread,
    PC.hasSavedCount] at g1 g2 g3 g4 g5 g6 g7 g8 g9
  have hin : (s.loc t).pc.inside = true := by rw [h]; rfl
  have hz := inv.own.holdsSem t (Or.inl hin)
  have hm := inv.own.ownerMax
  simp [Monitor.step, h, acquireThen_eq, releaseThen_eq, FW_ASSERT, Sys.goto] at hs
  split_ifs at hs with hc
  · simp only [Option.some.injEq] at hs
    subst hs
    refine ⟨OwnInv.release inv.own t _ _ hin (g2 trivial) rfl rfl rfl ?_ ?_ ?_ ?_,
      ShakeInv.shake_frame inv.shake t _ _ rfl rfl ?_ ?_ ?_⟩
    all_goals (first | omega | (simp_all [Sys.holds, PC.inside, PC.outside, PC.ownerSelf, PC.countZero, PC.countPos, PC.inEnter, PC.hasSavedThread, PC.hasSavedCount, PC.acking, PC.notifying] <;> omega) | simp_all [Sys.holds, PC.inside, PC.outside, PC.ownerSelf, PC.countZero, PC.countPos, PC.inEnter, PC.hasSavedThread, PC.hasSavedCount, PC.acking, PC.notifying])
  · exact absurd (Or.inr (by omega)) hc

theorem MInv.step_wait_acquireWait {b : Backend} {t : Nat} {s s1 : Sys} (inv : MInv s)
    (h : (s.loc t).pc = PC.wait_acquireWait) (hs : Monitor.step b t s = some s1) : MInv s1 := by
  have g1 := inv.own.ownerSelf t
  have g2 := inv.own.countZero t
  have g3 := inv.own.countPos t
  have g4 := inv.own.setOwner t
  have g5 := inv.own.currEnter t
  have g6 := inv.own.savedThread t
  have g7 := inv.own.savedCount t
  have g8 := inv.own.savedEq t
  have g9 := inv.own.restored t
  have g10 := inv.own.countNonneg
  simp only [h, PC.ownerSelf, PC.countZero, PC.countPos, PC.inEnter, PC.hasSavedThread,
    PC.hasSavedCount] at g1 g2 g3 g4 g5 g6 g7 g8 g9
  simp [Monitor.step, h, acquireThen_eq, releaseThen_eq, FW_ASSERT, Sys.goto] at hs
  obtain ⟨hc, rfl⟩ := hs
  refine ⟨OwnInv.own_frame inv.own t _ _ rfl ?_ ?_ ?_ ?_ ?_ ?_ ?_ ?_ ?_ ?_ ?_ ?_,
    ShakeInv.taken inv.shake t _ _ hc rfl rfl ?_ ?_ ?_⟩
  all_goals (first | omega | (simp_all [Sys.holds, PC.inside, PC.outside, PC.ownerSelf, PC.countZero, PC.countPos, PC.inEnter, PC.hasSavedThread, PC.hasSavedCount, PC.acking, PC.notifying] <;> omega) | simp_all [Sys.holds, PC.inside, PC.outside, PC.ownerSelf, PC.countZero, PC.countPos, PC.inEnter, PC.hasSavedThread, PC.hasSavedCount, PC.acking, PC.notifying])

theorem MInv.step_wait_decrWait {b : Backend} {t : Nat} {s s1 : Sys} (inv : MInv s)
    (h : (s.loc t).pc = PC.wait_decrWait) (hs : Monitor.step b t s = some s1) : MInv s1 := by
  have g1 := inv.own.ownerSelf t
  have g2 := inv.own.countZero t
  have g3 := inv.own.countPos t
  have g4 := inv.own.setOwner t
  have g5 := inv.own.currEnter t
  have g6 := inv.own.savedThread t
  have g7 := inv.own.savedCount t
  have g8 := inv.own.savedEq t
  have g9 := inv.own.restored t
  have g10 := inv.own.countNonneg
  simp only [h, PC.ownerSelf, PC.countZero, PC.countPos, PC.inEnter, PC.hasSavedThread,
    PC.hasSavedCount] at g1 g2 g3 g4 g5 g6 g7 g8 g9
  simp [Monitor.step, h, acquireThen_eq, releaseThen_eq, FW_ASSERT, Sys.goto] at hs
  subst hs
  refine ⟨OwnInv.own_frame inv.own t _ _ rfl ?_ ?_ ?_ ?_ ?_ ?_ ?_ ?_ ?_ ?_ ?_ ?_,
    ShakeInv.shake_frame inv.shake t _ _ rfl rfl ?_ ?_ ?_⟩
  all_goals (first | omega | (simp_all [Sys.holds, PC.inside, PC.outside, PC.ownerSelf, PC.countZero, PC.countPos, PC.inEnter, PC.hasSavedThread, PC.hasSavedCount, PC.acking, PC.notifying] <;> omega) | simp_all [Sys.holds, PC.inside, PC.outside, PC.ownerSelf, PC.countZero, PC.countPos, PC.inEnter, PC.hasSavedThread, PC.hasSavedCount, PC.acking, PC.notifying])

theorem MInv.step_wait_releaseNotify {b : Backend} {t : Nat} {s s1 : Sys} (inv : MInv s)
    (h : (s.loc t).pc = PC.wait_releaseNotify) (hs : Monitor.step b t s = some s1) : MInv s1 := by
  have g1 := inv.own.ownerSelf t
  have g2 := inv.own.countZero t
  have g3 := inv.own.countPos t
  have g4 := inv.own.setOwner t
  have g5 := inv.own.currEnter t
  have g6 := inv.own.savedThread t
  have g7 := inv.own.savedCount t
  have g8 := inv.own.savedEq t
  have g9 := inv.own.restored t
  have g10 := inv.own.countNonneg
  simp only [h, PC.ownerSelf, PC.countZero, PC.countPos, PC.inEnter, PC.hasSavedThread,
    PC.hasSavedCount] at g1 g2 g3 g4 g5 g6 g7 g8 g9
  have hack0 : (s.loc t).pc.acking = true := by rw [h]; rfl
  have hz : s.mon.m_notifySem.count = 0 := by
    have hle := inv.shake.notifyLe
    by_contra hne
    have := inv.shake.notifyOne (by omega) t
    rw [hack0] at this
    exact absurd this (by decide)
  have hm := inv.shake.notifyMax
  simp [Monitor.step, h, acquireThen_eq, releaseThen_eq, FW_ASSERT, Sys.goto] at hs
  split_ifs at hs with hc
  · simp only [Option.some.injEq] at hs
    subst hs
    refine ⟨OwnInv.own_frame inv.own t _ _ rfl ?_ ?_ ?_ ?_ ?_ ?_ ?_ ?_ ?_ ?_ ?_ ?_,
      ShakeInv.acked inv.shake t _ _ hack0 rfl rfl ?_ ?_ ?_⟩
    all_goals (first | omega | (simp_all [Sys.holds, PC.inside, PC.outside, PC.ownerSelf, PC.countZero, PC.countPos, PC.inEnter, PC.hasSavedThread, PC.hasSavedCount, PC.acking, PC.notifying] <;> omega) | simp_all [Sys.holds, PC.inside, PC.outside, PC.ownerSelf, PC.countZero, PC.countPos, PC.inEnter, PC.hasSavedThread, PC.hasSavedCount, PC.acking, PC.notifying])
  · exact absurd (Or.inr (by omega)) hc

theorem MInv.step_wait_acquireOwner {b : Backend} {t : Nat} {s s1 : Sys} (inv : MInv s)
    (h : (s.loc t).pc = PC.wait_acquireOwner) (hs : Monitor.step b t s = some s1) : MInv s1 := by
  have g1 := inv.own.ownerSelf t
  have g2 := inv.own.countZero t
  have g3 := inv.own.countPos t
  have g4 := inv.own.setOwner t
  have g5 := inv.own.currEnter t
  have g6 := inv.own.savedThread t
  have g7 := inv.own.savedCount t
  have g8 := inv.own.savedEq t
  have g9 := inv.own.restored t
  have g10 := inv.own.countNonneg
  simp only [h, PC.ownerSelf, PC.countZero, PC.countPos, PC.inEnter, PC.hasSavedThread,
    PC.hasSavedCount] at g1 g2 g3 g4 g5 g6 g7 g8 g9
  simp [Monitor.step, h, acquireThen_eq, releaseThen_eq, FW_ASSERT, Sys.goto] at hs
  obtain ⟨hc, rfl⟩ := hs
  have hfz := inv.own.freeZero (by have := inv.own.ownerLe; omega)
  refine ⟨OwnInv.acquire inv.own t _ _ hc rfl rfl rfl ?_ ?_ ?_ ?_ ?_ ?_ ?_ ?_ ?_,
    ShakeInv.shake_frame inv.shake t _ _ rfl rfl ?_ ?_ ?_⟩
  all_goals (first | omega | (simp_all [Sys.holds, PC.inside, PC.outside, PC.ownerSelf, PC.countZero, PC.countPos, PC.inEnter, PC.hasSavedThread, PC.hasSavedCount, PC.acking, PC.notifying] <;> omega) | simp_all [Sys.holds, PC.inside, PC.outside, PC.ownerSelf, PC.countZero, PC.countPos, PC.inEnter, PC.hasSavedThread, PC.hasSavedCount, PC.acking, PC.notifying])

theorem MInv.step_wait_lock {b : Backend} {t : Nat} {s s1 : Sys} (inv : MInv s)
    (h : (s.loc t).pc = PC.wait_lock) (hs : Monitor.step b t s = some s1) : MInv s1 := by
  have g1 := inv.own.ownerSelf t
  have g2 := inv.own.countZero t
  have g3 := inv.own.countPos t
  have g4 := inv.own.setOwner t
  have g5 := inv.own.currEnter t
  have g6 := inv.own.savedThread t
  have g7 := inv.own.savedCount t
  have g8 := inv.own.savedEq t
  have g9 := inv.own.restored t
  have g10 := inv.own.countNonneg
  simp only [h, PC.ownerSelf, PC.countZero, PC.countPos, PC.inEnter, PC.hasSavedThread,
    PC.hasSavedCount] at g1 g2 g3 g4 g5 g6 g7 g8 g9
  simp [Monitor.step, h, acquireThen_eq, releaseThen_eq, FW_ASSERT, Sys.goto] at hs
  obtain ⟨hc, rfl⟩ := hs
  refine ⟨OwnInv.own_frame inv.own t _ _ rfl ?_ ?_ ?_ ?_ ?_ ?_ ?_ ?_ ?_ ?_ ?_ ?_,
    ShakeInv.shake_frame inv.shake t _ _ rfl rfl ?_ ?_ ?_⟩
  all_goals (first | omega | (simp_all [Sys.holds, PC.inside, PC.outside, PC.ownerSelf, PC.countZero, PC.countPos, PC.inEnter, PC.hasSavedThread, PC.hasSavedCount, PC.acking, PC.notifying] <;> omega) | simp_all [Sys.holds, PC.inside, PC.outside, PC.ownerSelf, PC.countZero, PC.countPos, PC.inEnter, PC.hasSavedThread, PC.hasSavedCount, PC.acking, PC.notifying])

theorem MInv.step_wait_setOwner {b : Backend} {t : Nat} {s s1 : Sys} (inv : MInv s)
    (h : (s.loc t).pc = PC.wait_setOwner) (hs : Monitor.step b t s = some s1) : MInv s1 := by
  have g1 := inv.own.ownerSelf t
  have g2 := inv.own.countZero t
  have g3 := inv.own.countPos t
  have g4 := inv.own.setOwner t
  have g5 := inv.own.currEnter t
  have g6 := inv.own.savedThread t
  have g7 := inv.own.savedCount t
  have g8 := inv.own.savedEq t
  have g9 := inv.own.restored t
  have g10 := inv.own.countNonneg
  simp only [h, PC.ownerSelf, PC.countZero, PC.countPos, PC.inEnter, PC.hasSavedThread,
    PC.hasSavedCount] at g1 g2 g3 g4 g5 g6 g7 g8 g9
  simp [Monitor.step, h, acquireThen_eq, releaseThen_eq, FW_ASSERT, Sys.goto] at hs
  subst hs
  refine ⟨OwnInv.own_frame inv.own t _ _ rfl ?_ ?_ ?_ ?_ ?_ ?_ ?_ ?_ ?_ ?_ ?_ ?_,
    ShakeInv.shake_frame inv.shake t _ _ rfl rfl ?_ ?_ ?_⟩
  all_goals (first | omega | (simp_all [Sys.holds, PC.inside, PC.outside, PC.ownerSelf, PC.countZero, PC.countPos, PC.inEnter, PC.hasSavedThread, PC.hasSavedCount, PC.acking, PC.notifying] <;> omega) | simp_all [Sys.holds, PC.inside, PC.outside, PC.ownerSelf, PC.countZero, PC.countPos, PC.inEnter, PC.hasSavedThread, PC.hasSavedCount, PC.acking, PC.notifying])

theorem MInv.step_wait_setEnter {b : Backend} {t : Nat} {s s1 : Sys} (inv : MInv s)
    (h : (s.loc t).pc = PC.wait_setEnter) (hs : Monitor.step b t s = some s1) : MInv s1 := by
  have g1 := inv.own.ownerSelf t
  have g2 := inv.own.countZero t
  have g3 := inv.own.countPos t
  have g4 := inv.own.setOwner t
  have g5 := inv.own.currEnter t
  have g6 := inv.own.savedThread t
  have g7 := inv.own.savedCount t
  have g8 := inv.own.savedEq t
  have g9 := inv.own.restored t
  have g10 := inv.own.countNonneg
  simp only [h, PC.ownerSelf, PC.countZero, PC.countPos, PC.inEnter, PC.hasSavedThread,
    PC.hasSavedCount] at g1 g2 g3 g4 g5 g6 g7 g8 g9
  simp [Monitor.step, h, acquireThen_eq, releaseThen_eq, FW_ASSERT, Sys.goto] at hs
  subst hs
  refine ⟨OwnInv.own_frame inv.own t _ _ rfl ?_ ?_ ?_ ?_ ?_ ?_ ?_ ?_ ?_ ?_ ?_ ?_,
    ShakeInv.shake_frame inv.shake t _ _ rfl rfl ?_ ?_ ?_⟩
  all_goals (first | omega | (simp_all [Sys.holds, PC.inside, PC.outside, PC.ownerSelf, PC.countZero, PC.countPos, PC.inEnter, PC.hasSavedThread, PC.hasSavedCount, PC.acking, PC.notifying] <;> omega) | simp_all [Sys.holds, PC.inside, PC.outside, PC.ownerSelf, PC.countZero, PC.countPos, PC.inEnter, PC.hasSavedThread, PC.hasSavedCount, PC.acking, PC.notifying])

theorem MInv.step_wait_ret {b : Backend} {t : Nat} {s s1 : Sys} (inv : MInv s)
    (h : (s.loc t).pc = PC.wait_ret) (hs : Monitor.step b t s = some s1) : MInv s1 := by
  have g1 := inv.own.ownerSelf t
  have g2 := inv.own.countZero t
  have g3 := inv.own.countPos t
  have g4 := inv.own.setOwner t
  have g5 := inv.own.currEnter t
  have g6 := inv.own.savedThread t
  have g7 := inv.own.savedCount t
  have g8 := inv.own.savedEq t
  have g9 := inv.own.restored t
  have g10 := inv.own.countNonneg
  simp only [h, PC.ownerSelf, PC.countZero, PC.countPos, PC.inEnter, PC.hasSavedThread,
    PC.hasSavedCount] at g1 g2 g3 g4 g5 g6 g7 g8 g9
  simp [Monitor.step, h, acquireThen_eq, releaseThen_eq, FW_ASSERT, Sys.goto] at hs
  subst hs
  refine ⟨OwnInv.own_frame inv.own t _ _ rfl ?_ ?_ ?_ ?_ ?_ ?_ ?_ ?_ ?_ ?_ ?_ ?_,
    ShakeInv.shake_frame inv.shake t _ _ rfl rfl ?_ ?_ ?_⟩
  all_goals (first | omega | (simp_all [Sys.holds, PC.inside, PC.outside, PC.ownerSelf, PC.countZero, PC.countPos, PC.inEnter, PC.hasSavedThread, PC.hasSavedCount, PC.acking, PC.notifying] <;> omega) | simp_all [Sys.holds, PC.inside, PC.outside, PC.ownerSelf, PC.countZero, PC.countPos, PC.inEnter, PC.hasSavedThread, PC.hasSavedCount, PC.acking, PC.notifying])

theorem MInv.step_notify_assert {b : Backend} {t : Nat} {s s1 : Sys} (inv : MInv s)
    (h : (s.loc t).pc = PC.notify_assert) (hs : Monitor.step b t s = some s1) : MInv s1 := by
  have g1 := inv.own.ownerSelf t
  have g2 := inv.own.countZero t
  have g3 := inv.own.countPos t
  have g4 := inv.own.setOwner t
  have g5 := inv.own.currEnter t
  have g6 := inv.own.savedThread t
  have g7 := inv.own.savedCount t
  have g8 := inv.own.savedEq t
  have g9 := inv.own.restored t
  have g10 := inv.own.countNonneg
  simp only [h, PC.ownerSelf, PC.countZero, PC.countPos, PC.inEnter, PC.hasSavedThread,
    PC.hasSavedCount] at g1 g2 g3 g4 g5 g6 g7 g8 g9
  simp [Monitor.step, h, acquireThen_eq, releaseThen_eq, FW_ASSERT, Sys.goto] at hs
  split_ifs at hs with hc <;> (try simp only [Option.some.injEq] at hs) <;> subst hs
  all_goals refine ⟨OwnInv.own_frame inv.own t _ _ rfl ?_ ?_ ?_ ?_ ?_ ?_ ?_ ?_ ?_ ?_ ?_ ?_,
    ShakeInv.shake_frame inv.shake t _ _ rfl rfl ?_ ?_ ?_⟩
  all_goals (first | omega | (simp_all [Sys.holds, PC.inside, PC.outside, PC.ownerSelf, PC.countZero, PC.countPos, PC.inEnter, PC.hasSavedThread, PC.hasSavedCount, PC.acking, PC.notifying] <;> omega) | simp_all [Sys.holds, PC.inside, PC.outside, PC.ownerSelf, PC.countZero, PC.countPos, PC.inEnter, PC.hasSavedThread, PC.hasSavedCount, PC.acking, PC.notifying])

theorem MInv.step_notify_test {b : Backend} {t : Nat} {s s1 : Sys} (inv : MInv s)
    (h : (s.loc t).pc = PC.notify_test) (hs : Monitor.step b t s = some s1) : MInv s1 := by
  have g1 := inv.own.ownerSelf t
  have g2 := inv.own.countZero t
  have g3 := inv.own.countPos t
  have g4 := inv.own.setOwner t
  have g5 := inv.own.currEnter t
  have g6 := inv.own.savedThread t
  have g7 := inv.own.savedCount t
  have g8 := inv.own.savedEq t
  have g9 := inv.own.restored t
  have g10 := inv.own.countNonneg
  simp only [h, PC.ownerSelf, PC.countZero, PC.countPos, PC.inEnter, PC.hasSavedThread,
    PC.hasSavedCount] at g1 g2 g3 g4 g5 g6 g7 g8 g9
  simp [Monitor.step, h, acquireThen_eq, releaseThen_eq, FW_ASSERT, Sys.goto] at hs
  split_ifs at hs with hc <;> (try simp only [Option.some.injEq] at hs) <;> subst hs
  all_goals refine ⟨OwnInv.own_frame inv.own t _ _ rfl ?_ ?_ ?_ ?_ ?_ ?_ ?_ ?_ ?_ ?_ ?_ ?_,
    ShakeInv.shake_frame inv.shake t _ _ rfl rfl ?_ ?_ ?_⟩
  all_goals (first | omega | (simp_all [Sys.holds, PC.inside, PC.outside, PC.ownerSelf, PC.countZero, PC.countPos, PC.inEnter, PC.hasSavedThread, PC.hasSavedCount, PC.acking, PC.notifying] <;> omega) | simp_all [Sys.holds, PC.inside, PC.outside, PC.ownerSelf, PC.countZero, PC.countPos, PC.inEnter, PC.hasSavedThread, PC.hasSavedCount, PC.acking, PC.notifying])

theorem MInv.step_notify_releaseWait {b : Backend} {t : Nat} {s s1 : Sys} (inv : MInv s)
    (h : (s.loc t).pc = PC.notify_releaseWait) (hs : Monitor.step b t s = some s1) : MInv s1 := by
  have g1 := inv.own.ownerSelf t
  have g2 := inv.own.countZero t
  have g3 := inv.own.countPos t
  have g4 := inv.own.setOwner t
  have g5 := inv.own.currEnter t
  have g6 := inv.own.savedThread t
  have g7 := inv.own.savedCount t
  have g8 := inv.own.savedEq t
  have g9 := inv.own.restored t
  have g10 := inv.own.countNonneg
  simp only [h, PC.ownerSelf, PC.countZero, PC.countPos, PC.inEnter, PC.hasSavedThread,
    PC.hasSavedCount] at g1 g2 g3 g4 g5 g6 g7 g8 g9
  have hin : (s.loc t).pc.inside = true := by rw [h]; rfl
  have hnn : (s.loc t).pc.notifying = false := by rw [h]; rfl
  obtain ⟨q1, q2, q3⟩ := MInv.quiet_inside inv t hin hnn
  have hm := inv.shake.waitMax
  simp [Monitor.step, h, acquireThen_eq, releaseThen_eq, FW_ASSERT, Sys.goto] at hs
  split_ifs at hs with hc
  · simp only [Option.some.injEq] at hs
    subst hs
    refine ⟨OwnInv.own_frame inv.own t _ _ rfl ?_ ?_ ?_ ?_ ?_ ?_ ?_ ?_ ?_ ?_ ?_ ?_,
      ShakeInv.wake inv t _ _ hin hnn rfl rfl ?_ ?_ ?_⟩
    all_goals (first | omega | (simp_all [Sys.holds, PC.inside, PC.outside, PC.ownerSelf, PC.countZero, PC.countPos, PC.inEnter, PC.hasSavedThread, PC.hasSavedCount, PC.acking, PC.notifying] <;> omega) | simp_all [Sys.holds, PC.inside, PC.outside, PC.ownerSelf, PC.countZero, PC.countPos, PC.inEnter, PC.hasSavedThread, PC.hasSavedCount, PC.acking, PC.notifying])
  · exact absurd (Or.inr (by omega)) hc

theorem MInv.step_notify_acquireNotify {b : Backend} {t : Nat} {s s1 : Sys} (inv : MInv s)
    (h : (s.loc t).pc = PC.notify_acquireNotify) (hs : Monitor.step b t s = some s1) : MInv s1 := by
  have g1 := inv.own.ownerSelf t
  have g2 := inv.own.countZero t
  have g3 := inv.own.countPos t
  have g4 := inv.own.setOwner t
  have g5 := inv.own.currEnter t
  have g6 := inv.own.savedThread t
  have g7 := inv.own.savedCount t
  have g8 := inv.own.savedEq t
  have g9 := inv.own.restored t
  have g10 := inv.own.countNonneg
  simp only [h, PC.ownerSelf, PC.countZero, PC.countPos, PC.inEnter, PC.hasSavedThread,
    PC.hasSavedCount] at g1 g2 g3 g4 g5 g6 g7 g8 g9
  simp [Monitor.step, h, acquireThen_eq, releaseThen_eq, FW_ASSERT, Sys.goto] at hs
  obtain ⟨hc, rfl⟩ := hs
  refine ⟨OwnInv.own_frame inv.own t _ _ rfl ?_ ?_ ?_ ?_ ?_ ?_ ?_ ?_ ?_ ?_ ?_ ?_,
    ShakeInv.done inv.shake t _ _ hc rfl rfl ?_ ?_⟩
  all_goals (first | omega | (simp_all [Sys.holds, PC.inside, PC.outside, PC.ownerSelf, PC.countZero, PC.countPos, PC.inEnter, PC.hasSavedThread, PC.hasSavedCount, PC.acking, PC.notifying] <;> omega) | simp_all [Sys.holds, PC.inside, PC.outside, PC.ownerSelf, PC.countZero, PC.countPos, PC.inEnter, PC.hasSavedThread, PC.hasSavedCount, PC.acking, PC.notifying])

theorem MInv.step_all_assert {b : Backend} {t : Nat} {s s1 : Sys} (inv : MInv s)
    (h : (s.loc t).pc = PC.all_assert) (hs : Monitor.step b t s = some s1) : MInv s1 := by
  have g1 := inv.own.ownerSelf t
  have g2 := inv.own.countZero t
  have g3 := inv.own.countPos t
  have g4 := inv.own.setOwner t
  have g5 := inv.own.currEnter t
  have g6 := inv.own.savedThread t
  have g7 := inv.own.savedCount t
  have g8 := inv.own.savedEq t
  have g9 := inv.own.restored t
  have g10 := inv.own.countNonneg
  simp only [h, PC.ownerSelf, PC.countZero, PC.countPos, PC.inEnter, PC.hasSavedThread,
    PC.hasSavedCount] at g1 g2 g3 g4 g5 g6 g7 g8 g9
  simp [Monitor.step, h, acquireThen_eq, releaseThen_eq, FW_ASSERT, Sys.goto] at hs
  split_ifs at hs with hc <;> (try simp only [Option.some.injEq] at hs) <;> subst hs
  all_goals refine ⟨OwnInv.own_frame inv.own t _ _ rfl ?_ ?_ ?_ ?_ ?_ ?_ ?_ ?_ ?_ ?_ ?_ ?_,
    ShakeInv.shake_frame inv.shake t _ _ rfl rfl ?_ ?_ ?_⟩
  all_goals (first | omega | (simp_all [Sys.holds, PC.inside, PC.outside, PC.ownerSelf, PC.countZero, PC.countPos, PC.inEnter, PC.hasSavedThread, PC.hasSavedCount, PC.acking, PC.notifying] <;> omega) | simp_all [Sys.holds, PC.inside, PC.outside, PC.ownerSelf, PC.countZero, PC.countPos, PC.inEnter, PC.hasSavedThread, PC.hasSavedCount, PC.acking, PC.notifying])

theorem MInv.step_all_test {b : Backend} {t : Nat} {s s1 : Sys} (inv : MInv s)
    (h : (s.loc t).pc = PC.all_test) (hs : Monitor.step b t s = some s1) : MInv s1 := by
  have g1 := inv.own.ownerSelf t
  have g2 := inv.own.countZero t
  have g3 := inv.own.countPos t
  have g4 := inv.own.setOwner t
  have g5 := inv.own.currEnter t
  have g6 := inv.own.savedThread t
  have g7 := inv.own.savedCount t
  have g8 := inv.own.savedEq t
  have g9 := inv.own.restored t
  have g10 := inv.own.countNonneg
  simp only [h, PC.ownerSelf, PC.countZero, PC.countPos, PC.inEnter, PC.hasSavedThread,
    PC.hasSavedCount] at g1 g2 g3 g4 g5 g6 g7 g8 g9
  simp [Monitor.step, h, acquireThen_eq, releaseThen_eq, FW_ASSERT, Sys.goto] at hs
  split_ifs at hs with hc <;> (try simp only [Option.some.injEq] at hs) <;> subst hs
  all_goals refine ⟨OwnInv.own_frame inv.own t _ _ rfl ?_ ?_ ?_ ?_ ?_ ?_ ?_ ?_ ?_ ?_ ?_ ?_,
    ShakeInv.shake_frame inv.shake t _ _ rfl rfl ?_ ?_ ?_⟩
  all_goals (first | omega | (simp_all [Sys.holds, PC.inside, PC.outside, PC.ownerSelf, PC.countZero, PC.countPos, PC.inEnter, PC.hasSavedThread, PC.hasSavedCount, PC.acking, PC.notifying] <;> omega) | simp_all [Sys.holds, PC.inside, PC.outside, PC.ownerSelf, PC.countZero, PC.countPos, PC.inEnter, PC.hasSavedThread, PC.hasSavedCount, PC.acking, PC.notifying])

theorem MInv.step_all_releaseWait {b : Backend} {t : Nat} {s s1 : Sys} (inv : MInv s)
    (h : (s.loc t).pc = PC.all_releaseWait) (hs : Monitor.step b t s = some s1) : MInv s1 := by
  have g1 := inv.own.ownerSelf t
  have g2 := inv.own.countZero t
  have g3 := inv.own.countPos t
  have g4 := inv.own.setOwner t
  have g5 := inv.own.currEnter t
  have g6 := inv.own.savedThread t
  have g7 := inv.own.savedCount t
  have g8 := inv.own.savedEq t
  have g9 := inv.own.restored t
  have g10 := inv.own.countNonneg
  simp only [h, PC.ownerSelf, PC.countZero, PC.countPos, PC.inEnter, PC.hasSavedThread,
    PC.hasSavedCount] at g1 g2 g3 g4 g5 g6 g7 g8 g9
  have hin : (s.loc t).pc.inside = true := by rw [h]; rfl
  have hnn : (s.loc t).pc.notifying = false := by rw [h]; rfl
  obtain ⟨q1, q2, q3⟩ := MInv.quiet_inside inv t hin hnn
  have hm := inv.shake.waitMax
  simp [Monitor.step, h, acquireThen_eq, releaseThen_eq, FW_ASSERT, Sys.goto] at hs
  split_ifs at hs with hc
  · simp only [Option.some.injEq] at hs
    subst hs
    refine ⟨OwnInv.own_frame inv.own t _ _ rfl ?_ ?_ ?_ ?_ ?_ ?_ ?_ ?_ ?_ ?_ ?_ ?_,
      ShakeInv.wake inv t _ _ hin hnn rfl rfl ?_ ?_ ?_⟩
    all_goals (first | omega | (simp_all [Sys.holds, PC.inside, PC.outside, PC.ownerSelf, PC.countZero, PC.countPos, PC.inEnter, PC.hasSavedThread, PC.hasSavedCount, PC.acking, PC.notifying] <;> omega) | simp_all [Sys.holds, PC.inside, PC.outside, PC.ownerSelf, PC.countZero, PC.countPos, PC.inEnter, PC.hasSavedThread, PC.hasSavedCount, PC.acking, PC.notifying])
  · exact absurd (Or.inr (by omega)) hc

theorem MInv.step_all_acquireNotify {b : Backend} {t : Nat} {s s1 : Sys} (inv : MInv s)
    (h : (s.loc t).pc = PC.all_acquireNotify) (hs : Monitor.step b t s = some s1) : MInv s1 := by
  have g1 := inv.own.ownerSelf t
  have g2 := inv.own.countZero t
  have g3 := inv.own.countPos t
  have g4 := inv.own.setOwner t
  have g5 := inv.own.currEnter t
  have g6 := inv.own.savedThread t
  have g7 := inv.own.savedCount t
  have g8 := inv.own.savedEq t
  have g9 := inv.own.restored t
  have g10 := inv.own.countNonneg
  simp only [h, PC.ownerSelf, PC.countZero, PC.countPos, PC.inEnter, PC.hasSavedThread,
    PC.hasSavedCount] at g1 g2 g3 g4 g5 g6 g7 g8 g9
  simp [Monitor.step, h, acquireThen_eq, releaseThen_eq, FW_ASSERT, Sys.goto] at hs
  obtain ⟨hc, rfl⟩ := hs
  refine ⟨OwnInv.own_frame inv.own t _ _ rfl ?_ ?_ ?_ ?_ ?_ ?_ ?_ ?_ ?_ ?_ ?_ ?_,
    ShakeInv.done inv.shake t _ _ hc rfl rfl ?_ ?_⟩
  all_goals (first | omega | (simp_all [Sys.holds, PC.inside, PC.outside, PC.ownerSelf, PC.countZero, PC.countPos, PC.inEnter, PC.hasSavedThread, PC.hasSavedCount, PC.acking, PC.notifying] <;> omega) | simp_all [Sys.holds, PC.inside, PC.outside, PC.ownerSelf, PC.countZero, PC.countPos, PC.inEnter, PC.hasSavedThread, PC.hasSavedCount, PC.acking, PC.notifying])

/-- Every statement keeps the invariant of the monitor. -/
theorem MInv.keep_step {b : Backend} {t : Nat} {s s1 : Sys} (inv : MInv s)
    (hs : Monitor.step b t s = some s1) : MInv s1 := by
  cases h : (s.loc t).pc
  case idle => simp [Monitor.step, h] at hs
  case assertFailed => simp [Monitor.step, h] at hs
  case fatalError => simp [Monitor.step, h] at hs
  case enter_lock => exact MInv.step_enter_lock inv h hs
  case enter_test => exact MInv.step_enter_test inv h hs
  case enter_unlock => exact MInv.step_enter_unlock inv h hs
  case enter_acquire => exact MInv.step_enter_acquire inv h hs
  case enter_relock => exact MInv.step_enter_relock inv h hs
  case enter_setOwner => exact MInv.step_enter_setOwner inv h hs
  case enter_incr => exact MInv.step_enter_incr inv h hs
  case enter_ret => exact MInv.step_enter_ret inv h hs
  case leave_assert => exact MInv.step_leave_assert inv h hs
  case leave_decr => exact MInv.step_leave_decr inv h hs
  case leave_test => exact MInv.step_leave_test inv h hs
  case leave_release => exact MInv.step_leave_release inv h hs
  case wait_assert => exact MInv.step_wait_assert inv h hs
  case wait_saveThread => exact MInv.step_wait_saveThread inv h hs
  case wait_saveCount => exact MInv.step_wait_saveCount inv h hs
  case wait_incrWait => exact MInv.step_wait_incrWait inv h hs
  case wait_zeroEnter => exact MInv.step_wait_zeroEnter inv h hs
  case wait_releaseOwner => exact MInv.step_wait_releaseOwner inv h hs
  case wait_acquireWait => exact MInv.step_wait_acquireWait inv h hs
  case wait_decrWait => exact MInv.step_wait_decrWait inv h hs
  case wait_releaseNotify => exact MInv.step_wait_releaseNotify inv h hs
  case wait_acquireOwner => exact MInv.step_wait_acquireOwner inv h hs
  case wait_lock => exact MInv.step_wait_lock inv h hs
  case wait_setOwner => exact MInv.step_wait_setOwner inv h hs
  case wait_setEnter => exact MInv.step_wait_setEnter inv h hs
  case wait_ret => exact MInv.step_wait_ret inv h hs
  case notify_assert => exact MInv.step_notify_assert inv h hs
  case notify_test => exact MInv.step_notify_test inv h hs
  case notify_releaseWait => exact MInv.step_notify_releaseWait inv h hs
  case notify_acquireNotify => exact MInv.step_notify_acquireNotify inv h hs
  case all_assert => exact MInv.step_all_assert inv h hs
  case all_test => exact MInv.step_all_test inv h hs
  case all_releaseWait => exact MInv.step_all_releaseWait inv h hs
  case all_acquireNotify => exact MInv.step_all_acquireNotify inv h hs

/-- Calling a method keeps the invariant of the monitor. -/
theorem MInv.keep_call {op : Op} {t : Nat} {s s1 : Sys} (inv : MInv s)
    (hs : Monitor.call op t s = some s1) : MInv s1 := by
  unfold Monitor.call at hs
  split_ifs at hs with h
  cases op <;> simp only [Option.some.injEq, Sys.goto, Op.entry] at hs <;> subst hs
  all_goals refine ⟨OwnInv.own_frame inv.own t _ _ rfl ?_ ?_ ?_ ?_ ?_ ?_ ?_ ?_ ?_ ?_ ?_ ?_,
    ShakeInv.shake_frame inv.shake t _ _ rfl rfl ?_ ?_ ?_⟩
  all_goals first
    | exact inv.own.countNonneg
    | simp_all [Sys.holds, PC.inside, PC.outside, PC.ownerSelf, PC.countZero, PC.countPos,
        PC.inEnter, PC.hasSavedThread, PC.hasSavedCount, PC.acking, PC.notifying]

/-- Every transition keeps the invariant of the monitor. -/
theorem MInv.keep_next {b : Backend} {lab : Label} {s s1 : Sys} (inv : MInv s)
    (hs : Monitor.next b lab s = some s1) : MInv s1 := by
  unfold Monitor.next at hs
  cases hact : lab.act with
  | call op =>
    rw [hact] at hs
    exact MInv.keep_call inv hs
  | exec pc =>
    rw [hact] at hs
    simp only at hs
    split_ifs at hs
    exact MInv.keep_step inv hs

/-- Every execution keeps the invariant of the monitor. -/
theorem MInv.keep_run {b : Backend} (tr : List Label) {s s1 : Sys} (inv : MInv s)
    (hs : Monitor.run b tr s = some s1) : MInv s1 := by
  induction tr generalizing s with
  | nil =>
    simp only [Monitor.run, Option.some.injEq] at hs
    exact hs ▸ inv
  | cons lab rest ih =>
    simp only [Monitor.run] at hs
    cases hn : Monitor.next b lab s with
    | none => simp [hn] at hs
    | some s2 =>
      rw [hn] at hs
      exact ih (MInv.keep_next inv hn) hs

/-- The freshly constructed monitor satisfies the invariant. -/
theorem MInv.start : MInv (Sys.start ⟨false, ⟨1, 1⟩, ⟨0, 1⟩, ⟨0, 1⟩, 0, 0, 0⟩) := by
  refine ⟨⟨?_, ?_, ?_, ?_, ?_, ?_, ?_, ?_, ?_, ?_, ?_, ?_, ?_, ?_, ?_⟩,
    ⟨?_, ?_, ?_, ?_, ?_, ?_, ?_, ?_, ?_⟩⟩
  all_goals simp [Sys.start, Sys.holds, PC.inside, PC.outside, PC.ownerSelf, PC.countZero,
    PC.countPos, PC.inEnter, PC.hasSavedThread, PC.hasSavedCount, PC.acking, PC.notifying]

/-- The invariant of the monitor holds in every reachable state. -/
theorem Reachable.inv {b : Backend} {T : Finset Nat} {s : Sys} (h : Reachable b T s) :
    MInv s := by
  obtain ⟨m, tr, hm, -, hrun⟩ := h
  rw [Monitor.new_eq] at hm
  simp only [Res.ret.injEq, and_true] at hm
  subst hm
  exact MInv.keep_run tr MInv.start hrun

/-! ## Monitor: `m_waitCount` counts the waiters -/

theorem Finset.card_filter_put (T : Finset Nat) (s : Sys) (t : Nat) (m1 : Monitor) (l1 : Local)
    (c : PC → Bool) (ht : t ∈ T) :
    (T.filter (fun u => c ((s.put t m1 l1).loc u).pc = true)).card +
        (if c (s.loc t).pc = true then 1 else 0) =
      (T.filter (fun u => c (s.loc u).pc = true)).card +
        (if c l1.pc = true then 1 else 0) := by
  rw [Finset.card_filter, Finset.card_filter, ← Finset.add_sum_erase T _ ht,
    ← Finset.add_sum_erase T (fun u => if c (s.loc u).pc = true then 1 else 0) ht]
  have hrest : ∑ u in T.erase t, (if c ((s.put t m1 l1).loc u).pc = true then 1 else 0) =
      ∑ u in T.erase t, (if c (s.loc u).pc = true then 1 else 0) := by
    apply Finset.sum_congr rfl
    intro u hu
    rw [Sys.put_loc_ne s t u m1 l1 (Finset.ne_of_mem_erase hu)]
  rw [hrest, Sys.put_loc_self]
  omega

theorem WaitInv.put {T : Finset Nat} {s : Sys} (inv : WaitInv T s) {t : Nat} (ht : t ∈ T)
    (m1 : Monitor) (l1 : Local)
    (hcount : m1.m_waitCount + (if (s.loc t).pc.waiting = true then 1 else 0) =
      s.mon.m_waitCount + (if l1.pc.waiting = true then 1 else 0)) :
    WaitInv T (s.put t m1 l1) := by
  constructor
  · have h1 := Finset.card_filter_put T s t m1 l1 PC.waiting ht
    have h2 := inv.count
    rw [Sys.put_mon]
    split_ifs at hcount h1 <;> omega
  · intro u hu
    have hut : u ≠ t := fun e => hu (e ▸ ht)
    rw [Sys.put_loc_ne s t u m1 l1 hut]
    exact inv.others u hu

set_option maxHeartbeats 1000000 in
/-- Every statement keeps the count of the waiters. -/
theorem WaitInv.count_step {b : Backend} {T : Finset Nat} {t : Nat} {s s1 : Sys} (minv : MInv s)
    (inv : WaitInv T s) (ht : t ∈ T) (hs : Monitor.step b t s = some s1) : WaitInv T s1 := by
  have hnf := (MInv.keep_step minv hs).shake.noFatal t
  cases h : (s.loc t).pc <;>
    simp [Monitor.step, h, acquireThen_eq, releaseThen_eq, FW_ASSERT, Sys.goto] at hs
  all_goals try split_ifs at hs
  all_goals try simp only [Option.some.injEq] at hs
  all_goals first | subst hs | (obtain ⟨_, rfl⟩ := hs)
  all_goals first
    | (exfalso; simp [Sys.put] at hnf; done)
    | (apply WaitInv.put inv ht; simp [h, PC.waiting])

/-- Calling a method keeps the count of the waiters. -/
theorem WaitInv.count_call {op : Op} {T : Finset Nat} {t : Nat} {s s1 : Sys}
    (inv : WaitInv T s) (ht : t ∈ T) (hs : Monitor.call op t s = some s1) : WaitInv T s1 := by
  unfold Monitor.call at hs
  split_ifs at hs with h
  cases op <;> simp only [Option.some.injEq, Sys.goto, Op.entry] at hs <;> subst hs <;>
    (apply WaitInv.put inv ht; simp [h, PC.waiting])

/-- Every execution of threads of `T` keeps the invariant and the count of the waiters. -/
theorem WaitInv.count_run {b : Backend} {T : Finset Nat} (tr : List Label) {s s1 : Sys}
    (minv : MInv s) (inv : WaitInv T s) (hT : ∀ lab ∈ tr, lab.tid ∈ T)
    (hs : Monitor.run b tr s = some s1) : WaitInv T s1 := by
  induction tr generalizing s with
  | nil =>
    simp only [Monitor.run, Option.some.injEq] at hs
    exact hs ▸ inv
  | cons lab rest ih =>
    simp only [Monitor.run] at hs
    cases hn : Monitor.next b lab s with
    | none => simp [hn] at hs
    | some s2 =>
      rw [hn] at hs
      have ht : lab.tid ∈ T := hT lab (List.mem_cons_self _ _)
      refine ih (MInv.keep_next minv hn) ?_ (fun l hl => hT l (List.mem_cons_of_mem _ hl)) hs
      unfold Monitor.next at hn
      cases hact : lab.act with
      | call op =>
        rw [hact] at hn
        exact WaitInv.count_call inv ht hn
      | exec pc =>
        rw [hact] at hn
        simp only at hn
        split_ifs at hn
        exact WaitInv.count_step minv inv ht hn

/-- In every reachable state `m_waitCount` is the number of waiters. -/
theorem Reachable.waitInv {b : Backend} {T : Finset Nat} {s : Sys} (h : Reachable b T s) :
    WaitInv T s := by
  obtain ⟨m, tr, hm, hT, hrun⟩ := h
  rw [Monitor.new_eq] at hm
  simp only [Res.ret.injEq, and_true] at hm
  subst hm
  refine WaitInv.count_run tr MInv.start ⟨?_, ?_⟩ hT hrun
  · simp [Sys.start, PC.waiting]
  · intro t _
    rfl
/-! ## Monitor: what a transition of another thread can change -/

theorem Monitor.run_append (b : Backend) (tr1 tr2 : List Label) (s : Sys) :
    Monitor.run b (tr1 ++ tr2) s = (Monitor.run b tr1 s).bind (Monitor.run b tr2) := by
  induction tr1 generalizing s with
  | nil => rfl
  | cons lab rest ih =>
    simp only [List.cons_append, Monitor.run]
    cases Monitor.next b lab s with
    | none => rfl
    | some s1 => exact ih s1

theorem Monitor.run_snoc {b : Backend} {tr : List Label} {lab : Label} {s s2 : Sys}
    (h : Monitor.run b (tr ++ [lab]) s = some s2) :
    ∃ s1, Monitor.run b tr s = some s1 ∧ Monitor.next b lab s1 = some s2 := by
  rw [Monitor.run_append] at h
  cases h1 : Monitor.run b tr s with
  | none => simp [h1] at h
  | some s1 =>
    refine ⟨s1, rfl, ?_⟩
    simp only [h1, Option.some_bind, Monitor.run] at h
    cases h2 : Monitor.next b lab s1 with
    | none => simp [h2] at h
    | some s3 =>
      simp only [h2, Option.some.injEq] at h
      rw [h]

theorem Monitor.run_cons {b : Backend} {tr : List Label} {lab : Label} {s s2 : Sys}
    (h : Monitor.run b (lab :: tr) s = some s2) :
    ∃ s1, Monitor.next b lab s = some s1 ∧ Monitor.run b tr s1 = some s2 := by
  simp only [Monitor.run] at h
  cases h1 : Monitor.next b lab s with
  | none => simp [h1] at h
  | some s1 => exact ⟨s1, rfl, by simpa [h1] using h⟩

/-- An execution from a reachable state ends in a reachable state. -/
theorem Reachable.extend {b : Backend} {T : Finset Nat} {s s1 : Sys} (h : Reachable b T s)
    (tr : List Label) (hT : ∀ lab ∈ tr, lab.tid ∈ T) (hs : Monitor.run b tr s = some s1) :
    Reachable b T s1 := by
  obtain ⟨m, pre, hm, hpre, hrun⟩ := h
  refine ⟨m, pre ++ tr, hm, ?_, ?_⟩
  · intro lab hl
    rcases List.mem_append.mp hl with hl | hl
    · exact hpre lab hl
    · exact hT lab hl
  · rw [Monitor.run_append, hrun]
    exact hs

/-- A transition of thread `u` leaves the locals of the other threads alone. -/
theorem Monitor.next_loc_ne {b : Backend} {lab : Label} {s s1 : Sys}
    (hs : Monitor.next b lab s = some s1) (t : Nat) (ht : t ≠ lab.tid) :
    s1.loc t = s.loc t := by
  unfold Monitor.next at hs
  cases hact : lab.act with
  | call op =>
    rw [hact] at hs
    simp only [Monitor.call] at hs
    split_ifs at hs
    cases op <;> simp only [Option.some.injEq, Sys.goto] at hs <;> subst hs <;>
      exact Sys.put_loc_ne _ _ _ _ _ ht
  | exec pc =>
    rw [hact] at hs
    simp only at hs
    split_ifs at hs with h
    subst h
    cases h : (s.loc lab.tid).pc <;>
      simp [Monitor.step, h, acquireThen_eq, releaseThen_eq, FW_ASSERT, Sys.goto] at hs
    all_goals try split_ifs at hs
    all_goals try simp only [Option.some.injEq] at hs
    all_goals first | subst hs | (obtain ⟨_, rfl⟩ := hs)
    all_goals exact Sys.put_loc_ne _ _ _ _ _ ht

/-- The transition enabled for a label of thread `t` is the statement at the program
point of `t`, or a call when `t` is outside any method. -/
theorem Monitor.next_self {b : Backend} {lab : Label} {s s1 : Sys}
    (hs : Monitor.next b lab s = some s1) :
    (lab.act = Act.exec (s.loc lab.tid).pc ∧ Monitor.step b lab.tid s = some s1) ∨
    (∃ op, lab.act = Act.call op ∧ (s.loc lab.tid).pc = PC.idle ∧
      Monitor.call op lab.tid s = some s1) := by
  unfold Monitor.next at hs
  cases hact : lab.act with
  | call op =>
    rw [hact] at hs
    refine Or.inr ⟨op, rfl, ?_, hs⟩
    simp only [Monitor.call] at hs
    split_ifs at hs with h
    exact h
  | exec pc =>
    rw [hact] at hs
    simp only at hs
    split_ifs at hs with h
    subst h
    exact Or.inl ⟨rfl, hs⟩

set_option maxHeartbeats 1000000 in
/-- While thread `o` holds the monitor, a transition of another thread changes neither
`m_ownerSem` nor the owner fields, and it touches the handshake only as a waiter that
takes `m_waitSem`, decrements `m_waitCount` or releases `m_notifySem`. -/
theorem Monitor.next_other {b : Backend} {lab : Label} {s s1 : Sys} (inv : MInv s)
    (hs : Monitor.next b lab s = some s1) (o : Nat) (ho : s.holds o) (hne : lab.tid ≠ o) :
    s1.mon.m_ownerSem = s.mon.m_ownerSem ∧ s1.mon.m_ownerThread = s.mon.m_ownerThread ∧
    s1.mon.m_enterCount = s.mon.m_enterCount ∧
    (((s.loc lab.tid).pc = PC.wait_acquireWait ∧ lab.act = Act.exec PC.wait_acquireWait ∧
        0 < s.mon.m_waitSem.count ∧ s1.mon.m_waitSem.count = s.mon.m_waitSem.count - 1 ∧
        s1.mon.m_notifySem = s.mon.m_notifySem ∧ s1.mon.m_waitCount = s.mon.m_waitCount ∧
        (s1.loc lab.tid).pc = PC.wait_decrWait) ∨
      ((s.loc lab.tid).pc = PC.wait_decrWait ∧ lab.act = Act.exec PC.wait_decrWait ∧
        s1.mon.m_waitSem = s.mon.m_waitSem ∧
        s1.mon.m_notifySem = s.mon.m_notifySem ∧ s1.mon.m_waitCount = s.mon.m_waitCount - 1 ∧
        (s1.loc lab.tid).pc = PC.wait_releaseNotify) ∨
      ((s.loc lab.tid).pc = PC.wait_releaseNotify ∧ lab.act = Act.exec PC.wait_releaseNotify ∧
        s1.mon.m_waitSem = s.mon.m_waitSem ∧
        s1.mon.m_notifySem.count = s.mon.m_notifySem.count + 1 ∧
        s1.mon.m_waitCount = s.mon.m_waitCount ∧
        (s1.loc lab.tid).pc = PC.wait_acquireOwner) ∨
      ((s.loc lab.tid).pc.shaking = false ∧ lab.isShake = false ∧
        (s1.loc lab.tid).pc.shaking = false ∧
        s1.mon.m_waitSem = s.mon.m_waitSem ∧ s1.mon.m_notifySem = s.mon.m_notifySem ∧
        s1.mon.m_waitCount = s.mon.m_waitCount)) := by
  have hz := inv.own.holdsSem o ho
  have hni : (s.loc lab.tid).pc.inside = false := by
    by_contra hc
    have hc1 : (s.loc lab.tid).pc.inside = true := by simpa using hc
    exact hne (inv.own.holdsUnique _ _ (Or.inl hc1) ho)
  have hnf := (MInv.keep_next inv hs).shake.noFatal lab.tid
  rcases Monitor.next_self hs with ⟨hact, hstep⟩ | ⟨op, hact, hidle, hcall⟩
  · cases h : (s.loc lab.tid).pc <;> simp only [h, PC.inside] at hni <;>
      simp [Monitor.step, h, acquireThen_eq, releaseThen_eq, FW_ASSERT, Sys.goto, hz] at hstep
    all_goals try split_ifs at hstep
    all_goals try simp only [Option.some.injEq] at hstep
    all_goals first | subst hstep | (obtain ⟨hc, rfl⟩ := hstep)
    all_goals first
      | (exfalso; simp [Sys.put] at hnf; done)
      | simp_all [Sys.put, Label.isShake, PC.shaking]
  · simp only [Monitor.call, hidle, if_true] at hcall
    cases op <;> simp only [Option.some.injEq, Sys.goto, Op.entry] at hcall <;> subst hcall <;>
      simp [Sys.put, hact, hidle, Label.isShake, PC.shaking]

set_option maxHeartbeats 1000000 in
/-- A transition changes the owner fields only when its thread is inside afterwards. -/
theorem Monitor.next_fields {b : Backend} {lab : Label} {s s1 : Sys}
    (hs : Monitor.next b lab s = some s1) :
    (s1.mon.m_ownerThread = s.mon.m_ownerThread ∧ s1.mon.m_enterCount = s.mon.m_enterCount) ∨
      (s1.loc lab.tid).pc.inside = true := by
  rcases Monitor.next_self hs with ⟨-, hstep⟩ | ⟨op, -, hidle, hcall⟩
  · cases h : (s.loc lab.tid).pc <;>
      simp [Monitor.step, h, acquireThen_eq, releaseThen_eq, FW_ASSERT, Sys.goto] at hstep
    all_goals try split_ifs at hstep
    all_goals try simp only [Option.some.injEq] at hstep
    all_goals first | subst hstep | (obtain ⟨hc, rfl⟩ := hstep)
    all_goals simp [Sys.put, PC.inside]
  · simp only [Monitor.call, hidle, if_true] at hcall
    cases op <;> simp only [Option.some.injEq, Sys.goto, Op.entry] at hcall <;> subst hcall <;>
      simp [Sys.put]

/-- A transition of another thread does not make thread `t` hold the monitor. -/
theorem Monitor.next_holds_mono {b : Backend} {lab : Label} {s s1 : Sys} (inv : MInv s)
    (hs : Monitor.next b lab s = some s1) (t : Nat) (ht : t ≠ lab.tid) (h1 : s1.holds t) :
    s.holds t := by
  rcases Monitor.next_fields hs with ⟨e1, e2⟩ | hin
  · simpa [Sys.holds, Monitor.next_loc_ne hs t ht, e1, e2] using h1
  · exact absurd ((MInv.keep_next inv hs).own.holdsUnique t lab.tid h1 (Or.inl hin)) ht

/-- While thread `t` holds the monitor, a transition of another thread keeps it so. -/
theorem Monitor.next_holds_keep {b : Backend} {lab : Label} {s s1 : Sys} (inv : MInv s)
    (hs : Monitor.next b lab s = some s1) (t : Nat) (ht : lab.tid ≠ t) (h : s.holds t) :
    s1.holds t := by
  obtain ⟨-, e1, e2, -⟩ := Monitor.next_other inv hs t h ht
  simpa [Sys.holds, Monitor.next_loc_ne hs t (Ne.symm ht), e1, e2] using h

/-! ## Monitor: `enter` in every interleaving -/

theorem Monitor.run_induction {b : Backend} {s0 : Sys} (P : List Label → Sys → Prop)
    (h0 : P [] s0)
    (hstep : ∀ tr lab s s1, Monitor.run b tr s0 = some s → P tr s →
      Monitor.next b lab s = some s1 → P (tr ++ [lab]) s1)
    (tr : List Label) (s : Sys) (hrun : Monitor.run b tr s0 = some s) : P tr s := by
  induction tr using List.reverseRecOn generalizing s with
  | nil =>
    simp only [Monitor.run, Option.some.injEq] at hrun
    exact hrun ▸ h0
  | append_singleton tr lab ih =>
    obtain ⟨s1, h1, h2⟩ := Monitor.run_snoc hrun
    exact hstep tr lab s1 s h1 (ih s1 h1) h2

theorem Monitor.enterPhase_other {b : Backend} {t : Nat} {s0 s s1 : Sys} {tr : List Label}
    {lab : Label} (inv : MInv s) (hp : Monitor.enterPhase t s0 tr s)
    (hn : Monitor.next b lab s = some s1) (hne : lab.tid ≠ t) :
    Monitor.enterPhase t s0 (tr ++ [lab]) s1 := by
  have hloc := Monitor.next_loc_ne hn t (Ne.symm hne)
  have hlab : lab ≠ ⟨t, Act.exec PC.enter_acquire⟩ := fun e => hne (by rw [e])
  have hcnt : (tr ++ [lab]).count ⟨t, Act.exec PC.enter_acquire⟩ =
      tr.count ⟨t, Act.exec PC.enter_acquire⟩ := by
    rw [List.count_append, List.count_singleton]
    simp [hlab]
  unfold Monitor.enterPhase at hp ⊢
  split_ifs at hp ⊢ with hf
  · obtain ⟨h1, h2, h3, h4⟩ := hp
    have hh : s.holds t := by
      rcases h4 with ⟨hpc, hc⟩ | ⟨hpc, hc⟩
      · refine Or.inr ⟨?_, h3, by omega⟩
        rcases hpc with e | e | e | e <;> rw [e] <;> rfl
      · exact Or.inl (by rw [hpc]; rfl)
    obtain ⟨e0, e1, e2, -⟩ := Monitor.next_other inv hn t hh hne
    refine ⟨?_, by rw [e0, h2], by rw [e1, h3], ?_⟩
    · intro hmem
      rcases List.mem_append.mp hmem with hm | hm
      · exact h1 hm
      · exact hlab (List.mem_singleton.mp hm).symm
    · rw [hloc, e2]
      exact h4
  · rw [hcnt, hloc]
    rcases hp with ⟨hpc, hh, hc⟩ | ⟨hpc, hc⟩ | ⟨hpc, hz, hc⟩ | ⟨hpc, hz, hc⟩
    · exact Or.inl ⟨hpc, fun h => hh (Monitor.next_holds_mono inv hn t (Ne.symm hne) h), hc⟩
    · exact Or.inr (Or.inl ⟨hpc, hc⟩)
    · have hh : s.holds t := Or.inl (by rcases hpc with e | e | e <;> rw [e] <;> rfl)
      obtain ⟨-, -, e2, -⟩ := Monitor.next_other inv hn t hh hne
      exact Or.inr (Or.inr (Or.inl ⟨hpc, by rw [e2, hz], hc⟩))
    · have hh : s.holds t := Or.inl (by rw [hpc]; rfl)
      obtain ⟨-, -, e2, -⟩ := Monitor.next_other inv hn t hh hne
      exact Or.inr (Or.inr (Or.inr ⟨hpc, by rw [e2, hz], hc⟩))
set_option maxHeartbeats 2000000 in
theorem Monitor.enterPhase_self {b : Backend} {t : Nat} {s0 s s1 : Sys} {tr : List Label}
    {act : Act} (inv : MInv s) (hp : Monitor.enterPhase t s0 tr s)
    (hn : Monitor.next b ⟨t, act⟩ s = some s1) (hnr : act ≠ Act.exec PC.enter_ret) :
    Monitor.enterPhase t s0 (tr ++ [⟨t, act⟩]) s1 := by
  have hcur := inv.own.currEnter t
  have hfz : 0 < s.mon.m_ownerSem.count → s.mon.m_enterCount = 0 := fun h =>
    inv.own.freeZero (by have := inv.own.ownerLe; omega)
  have hnn := inv.own.countNonneg
  have hcnt : ∀ a : Act, (tr ++ [(⟨t, a⟩ : Label)]).count ⟨t, Act.exec PC.enter_acquire⟩ =
      tr.count ⟨t, Act.exec PC.enter_acquire⟩ +
        (if a = Act.exec PC.enter_acquire then 1 else 0) := by
    intro a
    rw [List.count_append, List.count_singleton]
    by_cases ha : a = Act.exec PC.enter_acquire <;> simp [ha]
  rcases Monitor.next_self hn with ⟨hact, hstep⟩ | ⟨op, hact, hidle, -⟩
  · simp only at hact hstep
    subst hact
    unfold Monitor.enterPhase at hp ⊢
    split_ifs at hp ⊢ with hf
    · obtain ⟨h1, h2, h3, h4⟩ := hp
      rcases h4 with ⟨e | e | e | e, hc⟩ | ⟨e, hc⟩ <;>
        simp only [e, PC.inEnter, forall_true_left] at hcur hnr <;>
        simp [Monitor.step, e, acquireThen_eq, releaseThen_eq, FW_ASSERT, Sys.goto, hcur, h3]
          at hstep
      all_goals try split_ifs at hstep
      all_goals try simp only [Option.some.injEq] at hstep
      all_goals first | subst hstep | (obtain ⟨hc1, rfl⟩ := hstep) | skip
      all_goals first
        | (exfalso; omega)
        | simp_all [Sys.put, List.mem_append]
    · rw [hcnt]
      rcases hp with ⟨e | e, hh, hc⟩ | ⟨e | e, hc⟩ | ⟨e | e | e, hz, hc⟩ | ⟨e, hz, hc⟩ <;>
        simp only [e, PC.inEnter, forall_true_left] at hcur hnr <;>
        simp [Monitor.step, e, acquireThen_eq, releaseThen_eq, FW_ASSERT, Sys.goto, hcur]
          at hstep
      all_goals try split_ifs at hstep
      all_goals try simp only [Option.some.injEq] at hstep
      all_goals first | subst hstep | (obtain ⟨hc1, rfl⟩ := hstep) | skip
      all_goals first
        | (exfalso; omega)
        | simp_all [Sys.put, Sys.holds, PC.inside, PC.outside]
  · exfalso
    simp only at hidle
    unfold Monitor.enterPhase at hp
    split_ifs at hp
    · rcases hp with ⟨-, -, -, ⟨e | e | e | e, -⟩ | ⟨e, -⟩⟩ <;> rw [e] at hidle <;> cases hidle
    · rcases hp with ⟨e | e, -⟩ | ⟨e | e, -⟩ | ⟨e | e | e, -⟩ | ⟨e, -⟩ <;>
        rw [e] at hidle <;> cases hidle
theorem Monitor.enterPhase_run {b : Backend} {t : Nat} {s0 sc : Sys} (inv : MInv sc)
    (h0 : Monitor.enterPhase t s0 [] sc) (tr : List Label) (s : Sys)
    (hrun : Monitor.run b tr sc = some s) (hfirst : ⟨t, Act.exec PC.enter_ret⟩ ∉ tr) :
    MInv s ∧ Monitor.enterPhase t s0 tr s := by
  refine Monitor.run_induction
    (fun tr s => ⟨t, Act.exec PC.enter_ret⟩ ∉ tr → MInv s ∧ Monitor.enterPhase t s0 tr s)
    (fun _ => ⟨inv, h0⟩) ?_ tr s hrun hfirst
  intro tr lab s s1 _ ih hn hnot
  have hnot1 : ⟨t, Act.exec PC.enter_ret⟩ ∉ tr := fun h => hnot (List.mem_append_left _ h)
  have hlab : lab ≠ ⟨t, Act.exec PC.enter_ret⟩ := fun h =>
    hnot (List.mem_append_right _ (by rw [h]; exact List.mem_singleton_self _))
  obtain ⟨inv1, hp⟩ := ih hnot1
  refine ⟨MInv.keep_next inv1 hn, ?_⟩
  by_cases he : lab.tid = t
  · obtain ⟨tid, act⟩ := lab
    simp only at he
    subst he
    exact Monitor.enterPhase_self inv1 hp hn (fun h => hlab (by rw [h]))
  · exact Monitor.enterPhase_other inv1 hp hn he

/-- C2. Postcondition of `Monitor::enter` in every interleaving.  Let `s0` be a
reachable state in which thread `t` calls `enter()`, and let the call return with the
last transition of the execution.  If in `s0` the owning-thread-id is `t` and the
enter-count is positive, then `t` has not executed `m_ownerSem.acquire()`, `m_ownerSem`
is as it was, and the enter-count has grown by exactly 1.  Otherwise `t` has executed
`m_ownerSem.acquire()` exactly once and on return the owning-thread-id is `t` and the
enter-count is 1.  A call made while nobody else is running does return: on the
reentrant path always, on the other path when `m_ownerSem` is free. -/
theorem Monitor.enter_post (b : Backend) (T : Finset Nat) (t : Nat) (s0 s1 : Sys)
    (tr : List Label) (hreach : Reachable b T s0)
    (hrun : Monitor.run b (⟨t, Act.call Op.enter⟩ :: (tr ++ [⟨t, Act.exec PC.enter_ret⟩])) s0 =
      some s1)
    (hfirst : ⟨t, Act.exec PC.enter_ret⟩ ∉ tr) :
    (s1.loc t).pc = PC.idle ∧
    (s0.mon.m_ownerThread = t ∧ 0 < s0.mon.m_enterCount →
      ⟨t, Act.exec PC.enter_acquire⟩ ∉ tr ∧ s1.mon.m_ownerSem = s0.mon.m_ownerSem ∧
      s1.mon.m_ownerThread = t ∧ s1.mon.m_enterCount = s0.mon.m_enterCount + 1) ∧
    (¬ (s0.mon.m_ownerThread = t ∧ 0 < s0.mon.m_enterCount) →
      tr.count ⟨t, Act.exec PC.enter_acquire⟩ = 1 ∧ s1.mon.m_ownerSem.count = 0 ∧
      s1.mon.m_ownerThread = t ∧ s1.mon.m_enterCount = 1) ∧
    (∀ s : Sys, s.mon.m_lock = false → (s.loc t).pc = PC.idle →
      (s.mon.m_ownerThread = t ∧ s.mon.m_enterCount ≠ 0 →
        (Monitor.enter b t s).outcome = Outcome.returned ∧
        (Monitor.enter b t s).final.mon.m_enterCount = s.mon.m_enterCount + 1) ∧
      (s.mon.m_ownerSem = ⟨1, 1⟩ ∧ s.mon.m_enterCount = 0 →
        (Monitor.enter b t s).outcome = Outcome.returned ∧
        (Monitor.enter b t s).final.mon.m_ownerThread = t ∧
        (Monitor.enter b t s).final.mon.m_enterCount = 1)) := by
  have inv0 := Reachable.inv hreach
  obtain ⟨sc, hcall, hrest⟩ := Monitor.run_cons hrun
  obtain ⟨s, hmid, hlast⟩ := Monitor.run_snoc hrest
  have invc := MInv.keep_next inv0 hcall
  have hidle : (s0.loc t).pc = PC.idle := by
    simp only [Monitor.next, Monitor.call] at hcall
    split_ifs at hcall with h
    exact h
  have hsc : sc = s0.put t s0.mon { s0.loc t with pc := PC.enter_lock, currThread := t } := by
    simp only [Monitor.next, Monitor.call, hidle, if_true, Option.some.injEq] at hcall
    exact hcall.symm
  have h0 : Monitor.enterPhase t s0 [] sc := by
    have hnn := inv0.own.countNonneg
    unfold Monitor.enterPhase
    split_ifs with hf
    · simp [hsc, Sys.put, hf.1]
    · refine Or.inl ⟨by simp [hsc, Sys.put], ?_, by simp⟩
      intro hh
      apply hf
      simp only [hsc, Sys.holds, Sys.put_loc_self, Sys.put_mon, PC.inside, PC.outside] at hh
      rcases hh with hh | ⟨-, h1, h2⟩
      · exact absurd hh (by decide)
      · exact ⟨h1, by omega⟩
  obtain ⟨inv, hp⟩ := Monitor.enterPhase_run invc h0 tr s hmid hfirst
  have inv1 := MInv.keep_next inv hlast
  rcases Monitor.next_self hlast with ⟨hact, hstep⟩ | ⟨op, hact, -⟩
  · simp only [Act.exec.injEq] at hact hstep
    have hown := inv.own.ownerSelf t
    have hsem := inv.own.holdsSem t (Or.inl (by rw [← hact]; rfl))
    simp only [← hact, PC.ownerSelf, forall_true_left] at hown
    simp [Monitor.step, ← hact, Sys.goto] at hstep
    subst hstep
    refine ⟨by simp [Sys.put], ?_, ?_, ?_⟩
    · intro hf
      unfold Monitor.enterPhase at hp
      rw [if_pos hf] at hp
      obtain ⟨h1, h2, h3, h4⟩ := hp
      rcases h4 with ⟨e | e | e | e, -⟩ | ⟨-, hc⟩
      · rw [e] at hact; cases hact
      · rw [e] at hact; cases hact
      · rw [e] at hact; cases hact
      · rw [e] at hact; cases hact
      · exact ⟨h1, by simpa [Sys.put] using h2, by simpa [Sys.put] using h3,
          by simpa [Sys.put] using hc⟩
    · intro hf
      unfold Monitor.enterPhase at hp
      rw [if_neg hf] at hp
      rcases hp with ⟨e | e, -⟩ | ⟨e | e, -⟩ | ⟨e | e | e, -⟩ | ⟨-, hz, hc⟩
      · rw [e] at hact; cases hact
      · rw [e] at hact; cases hact
      · rw [e] at hact; cases hact
      · rw [e] at hact; cases hact
      · rw [e] at hact; cases hact
      · rw [e] at hact; cases hact
      · rw [e] at hact; cases hact
      · exact ⟨hc, by simpa [Sys.put] using hsem, by simpa [Sys.put] using hown,
          by simpa [Sys.put] using hz⟩
    · intro s hl hi
      constructor
      · rintro ⟨h1, h2⟩
        have := Monitor.enter_owned b t s hl hi h1 h2
        exact ⟨this.1, by rw [this.2.1]⟩
      · rintro ⟨h1, h2⟩
        have := Monitor.enter_free b t s hl hi h1 h2
        exact ⟨this.1, by rw [this.2.1], by rw [this.2.1]⟩
  · simp at hact

theorem Reachable.example (b : Backend) (T : Finset Nat) (tr : List Label)
    (hT : ∀ lab ∈ tr, lab.tid ∈ T)
    (h : (Monitor.run b tr Monitor.exampleStart).isSome = true) :
    Reachable b T (Monitor.exampleAfter b tr) := by
  refine ⟨_, tr, Monitor.new_eq b, hT, ?_⟩
  unfold Monitor.exampleAfter
  change Monitor.run b tr Monitor.exampleStart = _
  cases hr : Monitor.run b tr Monitor.exampleStart with
  | none => simp [hr] at h
  | some s => rfl

/-- Witness of C2: thread 1 holds the monitor once and enters again while thread 2
calls `enter()` as well; the reentrant call returns with the enter-count 2. -/
theorem Monitor.enter_post_witness :
    Monitor.run Backend.qt
      (⟨1, Act.call Op.enter⟩ ::
        ([⟨1, Act.exec PC.enter_lock⟩, ⟨2, Act.call Op.enter⟩, ⟨1, Act.exec PC.enter_test⟩,
          ⟨1, Act.exec PC.enter_setOwner⟩, ⟨1, Act.exec PC.enter_incr⟩] ++
          [⟨1, Act.exec PC.enter_ret⟩]))
      (Monitor.exampleAfter Backend.qt (Monitor.enterSlow 1)) =
      some (Monitor.exampleAfter Backend.qt (Monitor.enterSlow 1 ++
        [⟨1, Act.call Op.enter⟩, ⟨1, Act.exec PC.enter_lock⟩, ⟨2, Act.call Op.enter⟩,
          ⟨1, Act.exec PC.enter_test⟩, ⟨1, Act.exec PC.enter_setOwner⟩,
          ⟨1, Act.exec PC.enter_incr⟩, ⟨1, Act.exec PC.enter_ret⟩])) ∧
    (Monitor.exampleAfter Backend.qt (Monitor.enterSlow 1)).mon.m_enterCount = 1 ∧
    (Monitor.exampleAfter Backend.qt (Monitor.enterSlow 1 ++
        [⟨1, Act.call Op.enter⟩, ⟨1, Act.exec PC.enter_lock⟩, ⟨2, Act.call Op.enter⟩,
          ⟨1, Act.exec PC.enter_test⟩, ⟨1, Act.exec PC.enter_setOwner⟩,
          ⟨1, Act.exec PC.enter_incr⟩, ⟨1, Act.exec PC.enter_ret⟩])).mon.m_enterCount =
      (Monitor.exampleAfter Backend.qt (Monitor.enterSlow 1)).mon.m_enterCount + 1 :=
  ⟨rfl, rfl,
    ((Monitor.enter_post Backend.qt {1, 2} 1 _ _ _
      (Reachable.example Backend.qt {1, 2} (Monitor.enterSlow 1) (by decide) rfl)
      (show Monitor.run Backend.qt
        (⟨1, Act.call Op.enter⟩ ::
          ([⟨1, Act.exec PC.enter_lock⟩, ⟨2, Act.call Op.enter⟩, ⟨1, Act.exec PC.enter_test⟩,
            ⟨1, Act.exec PC.enter_setOwner⟩, ⟨1, Act.exec PC.enter_incr⟩] ++
            [⟨1, Act.exec PC.enter_ret⟩]))
        (Monitor.exampleAfter Backend.qt (Monitor.enterSlow 1)) =
        some (Monitor.exampleAfter Backend.qt (Monitor.enterSlow 1 ++
          [⟨1, Act.call Op.enter⟩, ⟨1, Act.exec PC.enter_lock⟩, ⟨2, Act.call Op.enter⟩,
            ⟨1, Act.exec PC.enter_test⟩, ⟨1, Act.exec PC.enter_setOwner⟩,
            ⟨1, Act.exec PC.enter_incr⟩, ⟨1, Act.exec PC.enter_ret⟩])) from rfl)
      (by decide)).2.1 ⟨rfl, by decide⟩).2.2.2⟩

/-! ## Monitor: `wait` in every interleaving -/

theorem Label.ofThread_snoc_other (t : Nat) (tr : List Label) (lab : Label) (h : lab.tid ≠ t) :
    Label.ofThread t (tr ++ [lab]) = Label.ofThread t tr := by
  simp [Label.ofThread, List.filter_append, h]

theorem Label.ofThread_snoc_self (t : Nat) (tr : List Label) (act : Act) :
    Label.ofThread t (tr ++ [⟨t, act⟩]) = Label.ofThread t tr ++ [⟨t, act⟩] := by
  simp [Label.ofThread, List.filter_append]

theorem Monitor.waitPhase_other {b : Backend} {t : Nat} {n : Int} {s s1 : Sys}
    {tr : List Label} {lab : Label} (inv : MInv s) (hn0 : n ≠ 0)
    (hp : Monitor.waitPhase t n tr s)
    (hn : Monitor.next b lab s = some s1) (hne : lab.tid ≠ t) :
    Monitor.waitPhase t n (tr ++ [lab]) s1 := by
  have hloc := Monitor.next_loc_ne hn t (Ne.symm hne)
  obtain ⟨h1, h2, h3, h4⟩ := hp
  refine ⟨by rw [hloc]; exact h1, by rw [hloc, Label.ofThread_snoc_other t tr lab hne]; exact h2,
    ?_, by rw [hloc]; exact h4⟩
  rw [hloc]
  intro hs
  obtain ⟨e1, e2⟩ := h3 hs
  have hh : s.holds t := by
    by_cases hin : (s.loc t).pc.inside = true
    · exact Or.inl hin
    · refine Or.inr ⟨?_, e1, by rw [e2]; exact hn0⟩
      cases hpc : (s.loc t).pc <;> simp_all [PC.waitRest, PC.outside, PC.hasSavedCount]
  obtain ⟨-, f1, f2, -⟩ := Monitor.next_other inv hn t hh hne
  exact ⟨by rw [f1, e1], by rw [f2, e2]⟩

set_option maxHeartbeats 2000000 in
theorem Monitor.waitPhase_self {b : Backend} {t : Nat} {n : Int} {s s1 : Sys}
    {tr : List Label} {act : Act} (inv : MInv s) (hn0 : n ≠ 0)
    (hp : Monitor.waitPhase t n tr s)
    (hn : Monitor.next b ⟨t, act⟩ s = some s1) (hnr : act ≠ Act.exec PC.wait_ret) :
    Monitor.waitPhase t n (tr ++ [⟨t, act⟩]) s1 := by
  have hnf := (MInv.keep_next inv hn).shake.noFatal t
  obtain ⟨h1, h2, h3, h4⟩ := hp
  rcases Monitor.next_self hn with ⟨hact, hstep⟩ | ⟨op, hact, hidle, -⟩
  · simp only at hact hstep
    subst hact
    unfold Monitor.waitPhase
    rw [Label.ofThread_snoc_self]
    cases hpc : (s.loc t).pc <;> simp only [hpc, PC.waitRest, ne_eq, not_true_eq_false] at h1 <;>
      simp only [hpc, PC.hasSavedCount, forall_true_left, Bool.false_eq_true, false_implies,
        implies_true] at h3 h4 hnr <;>
      simp [Monitor.step, hpc, acquireThen_eq, releaseThen_eq, FW_ASSERT, Sys.goto, h3, hn0]
        at hstep
    all_goals try split_ifs at hstep
    all_goals try simp only [Option.some.injEq] at hstep
    all_goals first | subst hstep | (obtain ⟨hc1, rfl⟩ := hstep) | skip
    all_goals first
      | (exfalso; simp [Sys.put] at hnf; done)
      | (simp only [hpc, PC.waitRest, Monitor.waitPath] at h2
         simp_all [Sys.put, PC.waitRest, Monitor.waitPath, PC.hasSavedCount])
  · exfalso
    simp only at hidle
    rw [hidle] at h1
    exact h1 rfl
theorem Monitor.waitPhase_run {b : Backend} {t : Nat} {n : Int} {sc : Sys} (inv : MInv sc)
    (hn0 : n ≠ 0) (h0 : Monitor.waitPhase t n [] sc) (tr : List Label) (s : Sys)
    (hrun : Monitor.run b tr sc = some s) (hfirst : ⟨t, Act.exec PC.wait_ret⟩ ∉ tr) :
    MInv s ∧ Monitor.waitPhase t n tr s := by
  refine Monitor.run_induction
    (fun tr s => ⟨t, Act.exec PC.wait_ret⟩ ∉ tr → MInv s ∧ Monitor.waitPhase t n tr s)
    (fun _ => ⟨inv, h0⟩) ?_ tr s hrun hfirst
  intro tr lab s s1 _ ih hn hnot
  have hnot1 : ⟨t, Act.exec PC.wait_ret⟩ ∉ tr := fun h => hnot (List.mem_append_left _ h)
  have hlab : lab ≠ ⟨t, Act.exec PC.wait_ret⟩ := fun h =>
    hnot (List.mem_append_right _ (by rw [h]; exact List.mem_singleton_self _))
  obtain ⟨inv1, hp⟩ := ih hnot1
  refine ⟨MInv.keep_next inv1 hn, ?_⟩
  by_cases he : lab.tid = t
  · obtain ⟨tid, act⟩ := lab
    simp only at he
    subst he
    exact Monitor.waitPhase_self inv1 hn0 hp hn (fun h => hlab (by rw [h]))
  · exact Monitor.waitPhase_other inv1 hn0 hp hn he

/-- C4. `Monitor::wait` restores ownership.  Let thread `t` own the monitor with
enter-count `n ≥ 1` in a reachable state and call `wait()`.  In every execution in which
the call returns, on return the owning-thread-id is `t`, the enter-count is `n`,
`m_ownerSem` is held (count 0), and `t` has executed the statements of `wait` once each
in program order; in particular it has incremented `m_waitCount` once, before releasing
`m_ownerSem`, and decremented it once, after `m_waitSem.acquire()`. -/
theorem Monitor.wait_restores (b : Backend) (T : Finset Nat) (t : Nat) (n : Int)
    (s0 s1 : Sys) (tr : List Label) (hreach : Reachable b T s0)
    (hown : s0.mon.m_ownerThread = t) (hcount : s0.mon.m_enterCount = n) (hpos : 1 ≤ n)
    (hrun : Monitor.run b (⟨t, Act.call Op.wait⟩ :: (tr ++ [⟨t, Act.exec PC.wait_ret⟩])) s0 =
      some s1)
    (hfirst : ⟨t, Act.exec PC.wait_ret⟩ ∉ tr) :
    (s1.loc t).pc = PC.idle ∧ s1.mon.m_ownerThread = t ∧ s1.mon.m_enterCount = n ∧
    s1.mon.m_ownerSem.count = 0 ∧
    Label.ofThread t (tr ++ [⟨t, Act.exec PC.wait_ret⟩]) = Label.execs t Monitor.waitPath ∧
    tr.count ⟨t, Act.exec PC.wait_incrWait⟩ = 1 ∧
    tr.count ⟨t, Act.exec PC.wait_decrWait⟩ = 1 := by
  have inv0 := Reachable.inv hreach
  have hn0 : n ≠ 0 := by omega
  obtain ⟨sc, hcall, hrest⟩ := Monitor.run_cons hrun
  obtain ⟨s, hmid, hlast⟩ := Monitor.run_snoc hrest
  have invc := MInv.keep_next inv0 hcall
  have hidle : (s0.loc t).pc = PC.idle := by
    simp only [Monitor.next, Monitor.call] at hcall
    split_ifs at hcall with h
    exact h
  have hsc : sc = s0.put t s0.mon { s0.loc t with pc := PC.wait_assert } := by
    simp only [Monitor.next, Monitor.call, hidle, if_true, Option.some.injEq, Sys.goto,
      Op.entry] at hcall
    exact hcall.symm
  have h0 : Monitor.waitPhase t n [] sc := by
    subst hsc
    simp [Monitor.waitPhase, Sys.put, PC.waitRest, Monitor.waitPath, Label.ofThread,
      PC.hasSavedCount, hown, hcount]
  obtain ⟨inv, hp⟩ := Monitor.waitPhase_run invc hn0 h0 tr s hmid hfirst
  obtain ⟨-, h2, -, h4⟩ := hp
  have hproj : Label.ofThread t (tr ++ [⟨t, Act.exec PC.wait_ret⟩]) =
      Label.execs t Monitor.waitPath := by
    rcases Monitor.next_self hlast with ⟨hact, -⟩ | ⟨op, hact, -⟩
    · simp only [Act.exec.injEq] at hact
      rw [Label.ofThread_snoc_self]
      rw [← hact] at h2
      simpa [PC.waitRest, Monitor.waitPath, Label.execs] using h2
    · simp at hact
  have hcnt : ∀ p : PC, p ≠ PC.wait_ret →
      tr.count ⟨t, Act.exec p⟩ = (Label.execs t Monitor.waitPath).count ⟨t, Act.exec p⟩ := by
    intro p hpr
    rw [← hproj, Label.ofThread, List.count_filter (by simp), List.count_append,
      List.count_singleton]
    simp [Ne.symm hpr]
  rcases Monitor.next_self hlast with ⟨hact, hstep⟩ | ⟨op, hact, -⟩
  · simp only [Act.exec.injEq] at hact hstep
    have hown1 := inv.own.ownerSelf t
    have hres := inv.own.restored t
    have hsem := inv.own.holdsSem t (Or.inl (by rw [← hact]; rfl))
    simp only [← hact, PC.ownerSelf, PC.hasSavedCount, forall_true_left] at hown1 hres h4
    simp [Monitor.step, ← hact, Sys.goto] at hstep
    subst hstep
    refine ⟨by simp [Sys.put], by simpa [Sys.put] using hown1, ?_, by simpa [Sys.put] using hsem,
      hproj, ?_, ?_⟩
    · simp only [Sys.put_mon]
      rw [hres, h4]
    · rw [hcnt _ (by decide)]
      simp [Label.execs, Monitor.waitPath, List.count_cons]
    · rw [hcnt _ (by decide)]
      simp [Label.execs, Monitor.waitPath, List.count_cons]
  · simp at hact

theorem Monitor.exampleAfter_run (b : Backend) (pre tr : List Label)
    (h : (Monitor.run b (pre ++ tr) Monitor.exampleStart).isSome = true) :
    Monitor.run b tr (Monitor.exampleAfter b pre) = some (Monitor.exampleAfter b (pre ++ tr)) := by
  unfold Monitor.exampleAfter
  rw [Monitor.run_append] at h ⊢
  cases h1 : Monitor.run b pre Monitor.exampleStart with
  | none => simp [h1] at h
  | some s =>
    simp only [h1, Option.some_bind, Option.getD_some] at h ⊢
    cases h2 : Monitor.run b tr s with
    | none => simp [h2] at h
    | some s2 => rfl

/-- Witness of C4: thread 1 holds the fresh monitor once and waits; thread 2 enters,
notifies and leaves; the `wait()` of thread 1 returns with the enter-count 1 again. -/
theorem Monitor.wait_restores_witness :
    (Monitor.exampleAfter Backend.win32 (Monitor.enterSlow 1)).mon.m_enterCount = 1 ∧
    (Monitor.exampleAfter Backend.win32 (Monitor.enterSlow 1 ++ ⟨1, Act.call Op.wait⟩ ::
      (Monitor.exampleWaitRun ++ [⟨1, Act.exec PC.wait_ret⟩]))).mon.m_ownerThread = 1 ∧
    (Monitor.exampleAfter Backend.win32 (Monitor.enterSlow 1 ++ ⟨1, Act.call Op.wait⟩ ::
      (Monitor.exampleWaitRun ++ [⟨1, Act.exec PC.wait_ret⟩]))).mon.m_enterCount = 1 :=
  ⟨rfl,
    (Monitor.wait_restores Backend.win32 {1, 2} 1 1 _ _ Monitor.exampleWaitRun
      (Reachable.example Backend.win32 {1, 2} (Monitor.enterSlow 1) (by decide) rfl)
      rfl rfl (by decide)
      (Monitor.exampleAfter_run Backend.win32 (Monitor.enterSlow 1) _ (by decide))
      (by decide)).2.1,
    (Monitor.wait_restores Backend.win32 {1, 2} 1 1 _ _ Monitor.exampleWaitRun
      (Reachable.example Backend.win32 {1, 2} (Monitor.enterSlow 1) (by decide) rfl)
      rfl rfl (by decide)
      (Monitor.exampleAfter_run Backend.win32 (Monitor.enterSlow 1) _ (by decide))
      (by decide)).2.2.1⟩

/-! ## Monitor: the handshake of `notify` in every interleaving -/

/-- While the thread that holds the monitor is not between the `release` and the
`acquire` of a notification, no handshake is in flight. -/
theorem MInv.quiet_holds {s : Sys} (inv : MInv s) (o : Nat) (ho : s.holds o)
    (hnn : (s.loc o).pc.notifying = false) :
    s.mon.m_waitSem.count = 0 ∧ s.mon.m_notifySem.count = 0 ∧
      ∀ w, (s.loc w).pc.acking = false := by
  apply inv.shake.quiet
  intro x
  by_cases hx : x = o
  · rw [hx]; exact hnn
  · by_contra h
    have h1 : (s.loc x).pc.notifying = true := by simpa using h
    exact hx (inv.own.holdsUnique x o (Or.inl (PC.inside_of_notifying _ h1)) ho)

theorem Label.eta (lab : Label) : (⟨lab.tid, lab.act⟩ : Label) = lab := by
  cases lab
  rfl

theorem Label.filter_snoc (tr : List Label) (lab : Label) :
    (tr ++ [lab]).filter Label.isShake =
      tr.filter Label.isShake ++ (if lab.isShake = true then [lab] else []) := by
  rw [List.filter_append]
  by_cases h : lab.isShake = true <;> simp [List.filter, h]

/-- A transition of another thread while the quiet owner `o` holds the monitor is not
a transition of the handshake and leaves the wait-count alone. -/
theorem Monitor.next_other_quiet {b : Backend} {lab : Label} {s s1 : Sys} (inv : MInv s)
    (hs : Monitor.next b lab s = some s1) (o : Nat) (ho : s.holds o) (hne : lab.tid ≠ o)
    (hnn : (s.loc o).pc.notifying = false) :
    lab.isShake = false ∧ s1.mon.m_waitCount = s.mon.m_waitCount := by
  obtain ⟨q1, q2, q3⟩ := MInv.quiet_holds inv o ho hnn
  obtain ⟨-, -, -, h⟩ := Monitor.next_other inv hs o ho hne
  have hq := q3 lab.tid
  rcases h with ⟨-, -, hpos, -⟩ | ⟨hpc, -⟩ | ⟨hpc, -⟩ | ⟨-, h1, -, -, -, h2⟩
  · omega
  · rw [hpc] at hq
    exact absurd hq (by decide)
  · rw [hpc] at hq
    exact absurd hq (by decide)
  · exact ⟨h1, h2⟩

theorem Monitor.shakePhase_other {b : Backend} {o : Nat} {s s1 : Sys} {tr : List Label}
    {lab : Label} (inv : MInv s) (hpc : (s.loc o).pc = PC.notify_acquireNotify ∨
      (s.loc o).pc = PC.all_acquireNotify)
    (hp : Monitor.shakePhase o tr s)
    (hn : Monitor.next b lab s = some s1) (hne : lab.tid ≠ o) :
    Monitor.shakePhase o (tr ++ [lab]) s1 := by
  have hh : s.holds o := Or.inl (by rcases hpc with e | e <;> rw [e] <;> rfl)
  have hwl := inv.shake.waitLe
  have hnl := inv.shake.notifyLe
  have hw1 := inv.shake.waitOne
  have hn1 := inv.shake.notifyOne
  have hau := inv.shake.ackUnique
  obtain ⟨-, -, -, h⟩ := Monitor.next_other inv hn o hh hne
  have hloc : ∀ w, w ≠ lab.tid → s1.loc w = s.loc w := fun w hw => Monitor.next_loc_ne hn w hw
  have hack : ∀ w, (s.loc w).pc.acking = true → s.mon.m_waitSem.count = 0 ∧
      s.mon.m_notifySem.count = 0 := by
    intro w hw
    constructor
    · by_contra hc
      have := (hw1 (by omega)).2 w
      rw [hw] at this
      exact absurd this (by decide)
    · by_contra hc
      have := hn1 (by omega) w
      rw [hw] at this
      exact absurd this (by decide)
  unfold Monitor.shakePhase at hp ⊢
  rw [Label.filter_snoc]
  rcases h with ⟨hu, hact, hpos, e1, e2, e3, hu1⟩ | ⟨hu, hact, e1, e2, e3, hu1⟩ |
      ⟨hu, hact, e1, e2, e3, hu1⟩ | ⟨hu, hsh, hu1, e1, e2, e3⟩
  · -- a waiter takes `m_waitSem`
    have hlab : lab = ⟨lab.tid, Act.exec PC.wait_acquireWait⟩ := by
      rw [← hact]
    have hsh : lab.isShake = true := by rw [hlab]; rfl
    rw [if_pos hsh]
    rcases hp with ⟨hc, hf⟩ | ⟨w, -, hw, -⟩ | ⟨w, -, hw, -⟩ | ⟨w, -, hc, -⟩
    · refine Or.inr (Or.inl ⟨lab.tid, hne, hu1, ?_⟩)
      rw [hf, List.nil_append]
      exact congrArg (fun x => [x]) hlab
    · have := (hack w (by rw [hw]; rfl)).1
      omega
    · have := (hack w (by rw [hw]; rfl)).1
      omega
    · have := (hw1 (by omega)).1
      omega
  · -- the waiter decrements `m_waitCount`
    have hlab : lab = ⟨lab.tid, Act.exec PC.wait_decrWait⟩ := by
      rw [← hact]
    have hsh : lab.isShake = true := by rw [hlab]; rfl
    have hua : (s.loc lab.tid).pc.acking = true := by rw [hu]; rfl
    rw [if_pos hsh]
    rcases hp with ⟨hc, hf⟩ | ⟨w, hwo, hw, hf⟩ | ⟨w, -, hw, -⟩ | ⟨w, -, hc, -⟩
    · have := (hack _ hua).1
      omega
    · have hwu : w = lab.tid := hau w lab.tid (by rw [hw]; rfl) hua
      refine Or.inr (Or.inr (Or.inl ⟨w, hwo, by rw [hwu]; exact hu1, ?_⟩))
      rw [hf, hwu]
      exact congrArg (fun x => [_, x]) hlab
    · have hwu : w = lab.tid := hau w lab.tid (by rw [hw]; rfl) hua
      rw [hwu, hu] at hw
      cases hw
    · have := (hack _ hua).2
      omega
  · -- the waiter releases `m_notifySem`
    have hlab : lab = ⟨lab.tid, Act.exec PC.wait_releaseNotify⟩ := by
      rw [← hact]
    have hsh : lab.isShake = true := by rw [hlab]; rfl
    have hua : (s.loc lab.tid).pc.acking = true := by rw [hu]; rfl
    rw [if_pos hsh]
    rcases hp with ⟨hc, hf⟩ | ⟨w, -, hw, -⟩ | ⟨w, hwo, hw, hf⟩ | ⟨w, -, hc, -⟩
    · have := (hack _ hua).1
      omega
    · have hwu : w = lab.tid := hau w lab.tid (by rw [hw]; rfl) hua
      rw [hwu, hu] at hw
      cases hw
    · have hwu : w = lab.tid := hau w lab.tid (by rw [hw]; rfl) hua
      refine Or.inr (Or.inr (Or.inr ⟨w, hwo, ?_, ?_⟩))
      · rw [e2, (hack _ hua).2]
      · rw [hf, hwu]
        exact congrArg (fun x => [_, _, x]) hlab
    · have := (hack _ hua).2
      omega
  · -- any other transition
    rw [if_neg (by rw [hsh]; decide), List.append_nil]
    have hkeep : ∀ w, (s.loc w).pc.shaking = true → s1.loc w = s.loc w := by
      intro w hw
      apply hloc
      intro e
      rw [e, hu] at hw
      exact absurd hw (by decide)
    rcases hp with ⟨hc, hf⟩ | ⟨w, hwo, hw, hf⟩ | ⟨w, hwo, hw, hf⟩ | ⟨w, hwo, hc, hf⟩
    · exact Or.inl ⟨by rw [e1]; exact hc, hf⟩
    · exact Or.inr (Or.inl ⟨w, hwo, by rw [hkeep w (by rw [hw]; rfl)]; exact hw, hf⟩)
    · exact Or.inr (Or.inr (Or.inl ⟨w, hwo, by rw [hkeep w (by rw [hw]; rfl)]; exact hw, hf⟩))
    · exact Or.inr (Or.inr (Or.inr ⟨w, hwo, by rw [e2]; exact hc, hf⟩))
theorem Monitor.notifyPhase_other {b : Backend} {o : Nat} {k : Int} {s s1 : Sys}
    {tr : List Label} {lab : Label} (inv : MInv s) (hp : Monitor.notifyPhase o k tr s)
    (hn : Monitor.next b lab s = some s1) (hne : lab.tid ≠ o) :
    Monitor.notifyPhase o k (tr ++ [lab]) s1 := by
  have hloc := Monitor.next_loc_ne hn o (Ne.symm hne)
  unfold Monitor.notifyPhase at hp ⊢
  rw [hloc]
  rcases hp with hpc | ⟨hpc, h1, h2, h3, h4⟩ | ⟨hpc, h4⟩ | ⟨hpc, h4⟩
  · exact Or.inl hpc
  · have hh : s.holds o :=
      Or.inr ⟨by rcases hpc with e | e <;> rw [e] <;> rfl, h1, h2⟩
    have hnn : (s.loc o).pc.notifying = false := by rcases hpc with e | e <;> rw [e] <;> rfl
    obtain ⟨-, e1, e2, -⟩ := Monitor.next_other inv hn o hh hne
    obtain ⟨f1, f2⟩ := Monitor.next_other_quiet inv hn o hh hne hnn
    refine Or.inr (Or.inl ⟨hpc, by rw [e1, h1], by rw [e2]; exact h2, by rw [f2, h3], ?_⟩)
    rw [Label.filter_snoc, h4, if_neg (by rw [f1]; decide)]
    rfl
  · have hh : s.holds o := Or.inl (by rw [hpc]; rfl)
    have hnn : (s.loc o).pc.notifying = false := by rw [hpc]; rfl
    obtain ⟨f1, -⟩ := Monitor.next_other_quiet inv hn o hh hne hnn
    refine Or.inr (Or.inr (Or.inl ⟨hpc, ?_⟩))
    rw [Label.filter_snoc, h4, if_neg (by rw [f1]; decide)]
    rfl
  · exact Or.inr (Or.inr (Or.inr ⟨hpc, Monitor.shakePhase_other inv (Or.inl hpc) h4 hn hne⟩))

theorem Monitor.notifyPhase_self {b : Backend} {o : Nat} {k : Int} {s s1 : Sys}
    {tr : List Label} {act : Act} (inv : MInv s) (hp : Monitor.notifyPhase o k tr s)
    (hn : Monitor.next b ⟨o, act⟩ s = some s1) (hcall : ∀ op, act ≠ Act.call op) :
    Monitor.notifyPhase o k (tr ++ [⟨o, act⟩]) s1 := by
  have hnf := (MInv.keep_next inv hn).shake.noFatal o
  rcases Monitor.next_self hn with ⟨hact, hstep⟩ | ⟨op, hact, -⟩
  · simp only at hact hstep
    subst hact
    unfold Monitor.notifyPhase at hp ⊢
    rw [Label.filter_snoc]
    rcases hp with hpc | ⟨hpc | hpc, h1, h2, h3, h4⟩ | ⟨hpc, h4⟩ | ⟨hpc, h4⟩
    · simp [Monitor.step, hpc] at hstep
    · simp [Monitor.step, hpc, FW_ASSERT, Sys.goto, h1, h2] at hstep
      subst hstep
      simp [Sys.put, hpc, Label.isShake, PC.shaking, h1, h2, h3, h4]
    · simp [Monitor.step, hpc, Sys.goto] at hstep
      split_ifs at hstep <;> simp only [Option.some.injEq] at hstep <;> subst hstep <;>
        simp [Sys.put, hpc, Label.isShake, PC.shaking, h4]
    · have hq := (MInv.quiet_holds inv o (Or.inl (by rw [hpc]; rfl)) (by rw [hpc]; rfl)).1
      simp [Monitor.step, hpc, releaseThen_eq, Sys.goto, hq] at hstep
      split_ifs at hstep <;> simp only [Option.some.injEq] at hstep <;> subst hstep
      · simp [Sys.put, hpc, Label.isShake, PC.shaking, h4, Monitor.shakePhase]
      · simp [Sys.put] at hnf
    · simp [Monitor.step, hpc, acquireThen_eq, Sys.goto] at hstep
      obtain ⟨-, rfl⟩ := hstep
      simp [Sys.put]
  · exact absurd hact (hcall op)

theorem Monitor.notifyPhase_run {b : Backend} {o : Nat} {k : Int} {sc : Sys} (inv : MInv sc)
    (h0 : Monitor.notifyPhase o k [] sc) (tr : List Label) (s : Sys)
    (hrun : Monitor.run b tr sc = some s) (hcalls : ∀ op, ⟨o, Act.call op⟩ ∉ tr) :
    MInv s ∧ Monitor.notifyPhase o k tr s := by
  refine Monitor.run_induction
    (fun tr s => (∀ op, ⟨o, Act.call op⟩ ∉ tr) → MInv s ∧ Monitor.notifyPhase o k tr s)
    (fun _ => ⟨inv, h0⟩) ?_ tr s hrun hcalls
  intro tr lab s s1 _ ih hn hnot
  have hnot1 : ∀ op, ⟨o, Act.call op⟩ ∉ tr := fun op h => hnot op (List.mem_append_left _ h)
  have hlab : ∀ op, lab ≠ ⟨o, Act.call op⟩ := fun op h =>
    hnot op (List.mem_append_right _ (by rw [h]; exact List.mem_singleton_self _))
  obtain ⟨inv1, hp⟩ := ih hnot1
  refine ⟨MInv.keep_next inv1 hn, ?_⟩
  by_cases he : lab.tid = o
  · obtain ⟨tid, act⟩ := lab
    simp only at he
    subst he
    exact Monitor.notifyPhase_self inv1 hp hn (fun op h => hlab op (by rw [h]))
  · exact Monitor.notifyPhase_other inv1 hp hn he

/-- C6. The handshake of `notify`.  Let the owner `o` call `notify()` in a reachable
state with a positive wait-count, and let the call return with the last transition of
an execution (in which `o` makes no other call).  Then the returning transition is
`m_notifySem.acquire()`, and the transitions of waiters between the call and the return
are exactly three, made in this order by one waiter `w`: it has passed
`m_waitSem.acquire()`, decremented `m_waitCount` and released `m_notifySem`.  So in every
interleaving the return of `notify()` is preceded by exactly one acknowledgement. -/
theorem Monitor.notify_handshake (b : Backend) (T : Finset Nat) (o : Nat) (s0 s1 : Sys)
    (tr : List Label) (lab : Label) (hreach : Reachable b T s0)
    (hown : s0.mon.m_ownerThread = o) (hcount : s0.mon.m_enterCount ≠ 0)
    (hwait : 0 < s0.mon.m_waitCount)
    (hrun : Monitor.run b (⟨o, Act.call Op.notify⟩ :: (tr ++ [lab])) s0 = some s1)
    (hlab : lab.tid = o) (hret : (s1.loc o).pc = PC.idle)
    (hcalls : ∀ op, ⟨o, Act.call op⟩ ∉ tr) :
    lab = ⟨o, Act.exec PC.notify_acquireNotify⟩ ∧
    ∃ w, w ≠ o ∧ tr.filter Label.isShake =
      [⟨w, Act.exec PC.wait_acquireWait⟩, ⟨w, Act.exec PC.wait_decrWait⟩,
        ⟨w, Act.exec PC.wait_releaseNotify⟩] := by
  have inv0 := Reachable.inv hreach
  obtain ⟨sc, hcall, hrest⟩ := Monitor.run_cons hrun
  obtain ⟨s, hmid, hlast⟩ := Monitor.run_snoc hrest
  have invc := MInv.keep_next inv0 hcall
  have hidle : (s0.loc o).pc = PC.idle := by
    simp only [Monitor.next, Monitor.call] at hcall
    split_ifs at hcall with h
    exact h
  have hsc : sc = s0.put o s0.mon { s0.loc o with pc := PC.notify_assert } := by
    simp only [Monitor.next, Monitor.call, hidle, if_true, Option.some.injEq, Sys.goto,
      Op.entry] at hcall
    exact hcall.symm
  have h0 : Monitor.notifyPhase o s0.mon.m_waitCount [] sc := by
    subst hsc
    simp [Monitor.notifyPhase, Sys.put, hown, hcount]
  obtain ⟨inv, hp⟩ := Monitor.notifyPhase_run invc h0 tr s hmid hcalls
  have hnf := (MInv.keep_next inv hlast).shake.noFatal o
  obtain ⟨tid, act⟩ := lab
  simp only at hlab
  subst hlab
  have hwl := inv.shake.waitLe
  have hnl := inv.shake.notifyLe
  rcases Monitor.next_self hlast with ⟨hact, hstep⟩ | ⟨op, hact, hi, hc⟩
  · simp only at hact hstep
    subst hact
    unfold Monitor.notifyPhase at hp
    rcases hp with hpc | ⟨hpc | hpc, h1, h2, h3, h4⟩ | ⟨hpc, h4⟩ | ⟨hpc, h4⟩
    · simp [Monitor.step, hpc] at hstep
    · simp [Monitor.step, hpc, FW_ASSERT, Sys.goto, h1, h2] at hstep
      subst hstep
      simp [Sys.put] at hret
    · have hk : s.mon.m_waitCount ≠ 0 := by omega
      simp [Monitor.step, hpc, Sys.goto, hk] at hstep
      subst hstep
      simp [Sys.put] at hret
    · simp [Monitor.step, hpc, releaseThen_eq, Sys.goto] at hstep
      split_ifs at hstep <;> simp only [Option.some.injEq] at hstep <;> subst hstep <;>
        simp [Sys.put] at hret
    · simp [Monitor.step, hpc, acquireThen_eq, Sys.goto] at hstep
      obtain ⟨hpos, -⟩ := hstep
      refine ⟨by rw [hpc], ?_⟩
      unfold Monitor.shakePhase at h4
      rcases h4 with ⟨hc, -⟩ | ⟨w, -, hw, -⟩ | ⟨w, -, hw, -⟩ | ⟨w, hwo, -, hf⟩
      · have := (inv.shake.waitOne hc).1
        omega
      · have := inv.shake.notifyOne (by omega) w
        rw [hw] at this
        exact absurd this (by decide)
      · have := inv.shake.notifyOne (by omega) w
        rw [hw] at this
        exact absurd this (by decide)
      · exact ⟨w, hwo, hf⟩
  · simp only at hi hc
    simp only [Monitor.call, hi, if_true] at hc
    cases op <;> simp only [Option.some.injEq, Sys.goto, Op.entry] at hc <;> subst hc <;>
      simp [Sys.put] at hret
/-- Witness of C6: thread 1 waits, thread 2 owns the monitor and notifies; between the
call and the return of `notify()` the waiter makes its three transitions. -/
theorem Monitor.notify_handshake_witness :
    0 < (Monitor.exampleAfter Backend.qt Monitor.exampleWaiting).mon.m_waitCount ∧
    ((⟨2, Act.exec PC.notify_acquireNotify⟩ : Label) = ⟨2, Act.exec PC.notify_acquireNotify⟩ ∧
      ∃ w, w ≠ 2 ∧ Monitor.exampleShake.filter Label.isShake =
        [⟨w, Act.exec PC.wait_acquireWait⟩, ⟨w, Act.exec PC.wait_decrWait⟩,
          ⟨w, Act.exec PC.wait_releaseNotify⟩]) :=
  ⟨by decide,
    Monitor.notify_handshake Backend.qt {1, 2} 2 _ _ Monitor.exampleShake
      ⟨2, Act.exec PC.notify_acquireNotify⟩
      (Reachable.example Backend.qt {1, 2} Monitor.exampleWaiting (by decide) (by decide))
      rfl (by decide) (by decide)
      (Monitor.exampleAfter_run Backend.qt Monitor.exampleWaiting _ (by decide))
      rfl (by decide) (by intro op; cases op <;> decide)⟩

/-! ## Monitor: `notifyAll` in every interleaving -/

theorem Label.count_snoc (tr : List Label) (lab a : Label) :
    (tr ++ [lab]).count a = tr.count a + (if lab = a then 1 else 0) := by
  rw [List.count_append, List.count_singleton]
  by_cases h : lab = a <;> simp [h]

/-- While another thread holds the monitor, a thread at the `m_ownerSem.acquire()` of
`wait` cannot move. -/
theorem Monitor.next_blocked {b : Backend} {lab : Label} {s s1 : Sys} (inv : MInv s)
    (hs : Monitor.next b lab s = some s1) (o : Nat) (ho : s.holds o)
    (hpc : (s.loc lab.tid).pc = PC.wait_acquireOwner) : False := by
  have hz := inv.own.holdsSem o ho
  rcases Monitor.next_self hs with ⟨-, hstep⟩ | ⟨op, -, hidle, -⟩
  · simp [Monitor.step, hpc, acquireThen_eq, hz] at hstep
  · rw [hpc] at hidle
    cases hidle

theorem PC.stage_shaking (p : PC) (h1 : p.stage ≤ 3) (h2 : p.shaking = false) :
    p = PC.wait_acquireOwner := by
  cases p <;> simp_all [PC.stage, PC.shaking]

theorem Label.count_snoc_act (tr : List Label) (lab : Label) (a : Act) :
    (tr ++ [lab]).count ⟨lab.tid, a⟩ = tr.count ⟨lab.tid, a⟩ + (if lab.act = a then 1 else 0) := by
  rw [Label.count_snoc]
  have : (lab = ⟨lab.tid, a⟩) ↔ lab.act = a := by
    constructor
    · intro h
      rw [h]
    · intro h
      rw [← h]
  simp only [this]

theorem Monitor.wokenPhase_other {b : Backend} {o : Nat} {s0 s s1 : Sys} {tr : List Label}
    {lab : Label} (inv : MInv s) (ho : s.holds o) (hne : lab.tid ≠ o)
    (hn : Monitor.next b lab s = some s1) (w : Nat)
    (hp : Monitor.wokenPhase s0 tr s w) :
    Monitor.wokenPhase s0 (tr ++ [lab]) s1 w := by
  by_cases hw : w = lab.tid
  · subst hw
    obtain ⟨-, -, -, h⟩ := Monitor.next_other inv hn o ho hne
    unfold Monitor.wokenPhase at hp ⊢
    simp only [Label.count_snoc_act]
    rcases h with ⟨hu, hact, -, -, -, -, hu1⟩ | ⟨hu, hact, -, -, -, hu1⟩ |
        ⟨hu, hact, -, -, -, hu1⟩ | ⟨hu, hsh, hu1, -, -, -⟩
    · rw [hu] at hp
      rw [hu1, hact]
      by_cases hc : (s0.loc lab.tid).pc = PC.wait_acquireWait
      · rw [if_pos hc] at hp ⊢
        simp [PC.stage] at hp ⊢
        omega
      · rw [if_neg hc] at hp
        simp [PC.shaking] at hp
    · rw [hu] at hp
      rw [hu1, hact]
      by_cases hc : (s0.loc lab.tid).pc = PC.wait_acquireWait
      · rw [if_pos hc] at hp ⊢
        simp [PC.stage] at hp ⊢
        omega
      · rw [if_neg hc] at hp
        simp [PC.shaking] at hp
    · rw [hu] at hp
      rw [hu1, hact]
      by_cases hc : (s0.loc lab.tid).pc = PC.wait_acquireWait
      · rw [if_pos hc] at hp ⊢
        simp [PC.stage] at hp ⊢
        omega
      · rw [if_neg hc] at hp
        simp [PC.shaking] at hp
    · have hl : ∀ p : PC, p.shaking = true → lab.act ≠ Act.exec p := by
        intro p hp1 e
        simp [Label.isShake, e, hp1] at hsh
      rw [if_neg (hl PC.wait_acquireWait rfl), if_neg (hl PC.wait_decrWait rfl),
        if_neg (hl PC.wait_releaseNotify rfl)]
      by_cases hc : (s0.loc lab.tid).pc = PC.wait_acquireWait
      · rw [if_pos hc] at hp
        exfalso
        exact Monitor.next_blocked inv hn o ho (PC.stage_shaking _ hp.1 hu)
      · rw [if_neg hc] at hp ⊢
        exact ⟨hu1, hp.2⟩
  · have hloc := Monitor.next_loc_ne hn w hw
    have hl : ∀ a : Act, lab ≠ ⟨w, a⟩ := fun a e => hw (by rw [e])
    unfold Monitor.wokenPhase at hp ⊢
    simp only [Label.count_snoc, hloc, if_neg (hl _), Nat.add_zero]
    exact hp
theorem Monitor.wokenPhase_frame {b : Backend} {s0 s s1 : Sys} {tr : List Label}
    {lab : Label} (hn : Monitor.next b lab s = some s1) (w : Nat) (hw : w ≠ lab.tid)
    (hp : Monitor.wokenPhase s0 tr s w) :
    Monitor.wokenPhase s0 (tr ++ [lab]) s1 w := by
  have hloc := Monitor.next_loc_ne hn w hw
  have hl : ∀ a : Act, lab ≠ ⟨w, a⟩ := fun a e => hw (by rw [e])
  unfold Monitor.wokenPhase at hp ⊢
  simp only [Label.count_snoc, hloc, if_neg (hl _), Nat.add_zero]
  exact hp

theorem Monitor.allShake_other {b : Backend} {o : Nat} {k : Int} {a : Nat} {s s1 : Sys}
    {lab : Label} (inv : MInv s) (hpc : (s.loc o).pc = PC.all_acquireNotify)
    (hp : Monitor.allShake k a s)
    (hn : Monitor.next b lab s = some s1) (hne : lab.tid ≠ o) :
    Monitor.allShake k a s1 := by
  have hh : s.holds o := Or.inl (by rw [hpc]; rfl)
  have hwl := inv.shake.waitLe
  have hnl := inv.shake.notifyLe
  have hw1 := inv.shake.waitOne
  have hn1 := inv.shake.notifyOne
  have hau := inv.shake.ackUnique
  obtain ⟨-, -, -, h⟩ := Monitor.next_other inv hn o hh hne
  have hloc : ∀ w, w ≠ lab.tid → s1.loc w = s.loc w := fun w hw => Monitor.next_loc_ne hn w hw
  have hack : ∀ w, (s.loc w).pc.acking = true → s.mon.m_waitSem.count = 0 ∧
      s.mon.m_notifySem.count = 0 := by
    intro w hw
    constructor
    · by_contra hc
      have := (hw1 (by omega)).2 w
      rw [hw] at this
      exact absurd this (by decide)
    · by_contra hc
      have := hn1 (by omega) w
      rw [hw] at this
      exact absurd this (by decide)
  unfold Monitor.allShake at hp ⊢
  rcases h with ⟨hu, -, hpos, e1, e2, e3, hu1⟩ | ⟨hu, -, e1, e2, e3, hu1⟩ |
      ⟨hu, -, e1, e2, e3, hu1⟩ | ⟨hu, -, hu1, e1, e2, e3⟩
  · rcases hp with ⟨hc, hf⟩ | ⟨w, hw, -⟩ | ⟨w, hw, -⟩ | ⟨hc, -⟩
    · exact Or.inr (Or.inl ⟨lab.tid, hu1, by rw [e3]; exact hf⟩)
    · have := (hack w (by rw [hw]; rfl)).1
      omega
    · have := (hack w (by rw [hw]; rfl)).1
      omega
    · have := (hw1 (by omega)).1
      omega
  · have hua : (s.loc lab.tid).pc.acking = true := by rw [hu]; rfl
    rcases hp with ⟨hc, hf⟩ | ⟨w, hw, hf⟩ | ⟨w, hw, -⟩ | ⟨hc, -⟩
    · have := (hack _ hua).1
      omega
    · exact Or.inr (Or.inr (Or.inl ⟨lab.tid, hu1, by rw [e3, hf]⟩))
    · have hwu : w = lab.tid := hau w lab.tid (by rw [hw]; rfl) hua
      rw [hwu, hu] at hw
      cases hw
    · have := (hack _ hua).2
      omega
  · have hua : (s.loc lab.tid).pc.acking = true := by rw [hu]; rfl
    rcases hp with ⟨hc, hf⟩ | ⟨w, hw, -⟩ | ⟨w, hw, hf⟩ | ⟨hc, -⟩
    · have := (hack _ hua).1
      omega
    · have hwu : w = lab.tid := hau w lab.tid (by rw [hw]; rfl) hua
      rw [hwu, hu] at hw
      cases hw
    · exact Or.inr (Or.inr (Or.inr ⟨by rw [e2, (hack _ hua).2], by rw [e3]; exact hf⟩))
    · have := (hack _ hua).2
      omega
  · have hkeep : ∀ w, (s.loc w).pc.shaking = true → s1.loc w = s.loc w := by
      intro w hw
      apply hloc
      intro e
      rw [e, hu] at hw
      exact absurd hw (by decide)
    rcases hp with ⟨hc, hf⟩ | ⟨w, hw, hf⟩ | ⟨w, hw, hf⟩ | ⟨hc, hf⟩
    · exact Or.inl ⟨by rw [e1]; exact hc, by rw [e3]; exact hf⟩
    · exact Or.inr (Or.inl ⟨w, by rw [hkeep w (by rw [hw]; rfl)]; exact hw, by rw [e3]; exact hf⟩)
    · exact Or.inr (Or.inr (Or.inl
        ⟨w, by rw [hkeep w (by rw [hw]; rfl)]; exact hw, by rw [e3]; exact hf⟩))
    · exact Or.inr (Or.inr (Or.inr ⟨by rw [e2]; exact hc, by rw [e3]; exact hf⟩))

theorem Monitor.allPhase_holds {o : Nat} {s0 s : Sys} {tr : List Label}
    (hi : (s.loc o).pc ≠ PC.idle) (hp : Monitor.allPhase o s0 tr s) : s.holds o := by
  rcases hp with hpc | ⟨-, -, ⟨hpc, h1, h2, -⟩ | ⟨hpc, -⟩⟩
  · exact absurd hpc hi
  · exact Or.inr ⟨by rcases hpc with e | e | e <;> rw [e] <;> rfl, h1, h2⟩
  · exact Or.inl (by rw [hpc]; rfl)

theorem Monitor.allPhase_other {b : Backend} {o : Nat} {s0 s s1 : Sys}
    {tr : List Label} {lab : Label} (inv : MInv s) (hp : Monitor.allPhase o s0 tr s)
    (hn : Monitor.next b lab s = some s1) (hne : lab.tid ≠ o) :
    Monitor.allPhase o s0 (tr ++ [lab]) s1 := by
  have hloc := Monitor.next_loc_ne hn o (Ne.symm hne)
  by_cases hi : (s.loc o).pc = PC.idle
  · exact Or.inl (by rw [hloc]; exact hi)
  have hh := Monitor.allPhase_holds hi hp
  have hl : ∀ a : Act, lab ≠ ⟨o, a⟩ := fun a e => hne (by rw [e])
  unfold Monitor.allPhase at hp ⊢
  rw [hloc]
  rcases hp with hpc | ⟨hA, hC, hB⟩
  · exact absurd hpc hi
  refine Or.inr ⟨fun w hw => Monitor.wokenPhase_other inv hh hne hn w (hA w hw), ?_, ?_⟩
  · intro p hp1
    rw [Label.count_snoc, if_neg (hl _), Nat.add_zero]
    exact hC p hp1
  · simp only [Label.count_snoc, if_neg (hl _), Nat.add_zero]
    rcases hB with ⟨hpc, h1, h2, h3, h4⟩ | ⟨hpc, h3, h4⟩
    · have hnn : (s.loc o).pc.notifying = false := by
        rcases hpc with e | e | e <;> rw [e] <;> rfl
      obtain ⟨-, e1, e2, -⟩ := Monitor.next_other inv hn o hh hne
      obtain ⟨-, f2⟩ := Monitor.next_other_quiet inv hn o hh hne hnn
      exact Or.inl ⟨hpc, by rw [e1, h1], by rw [e2]; exact h2, h3, by rw [f2, h4]⟩
    · exact Or.inr ⟨hpc, h3, Monitor.allShake_other inv hpc h4 hn hne⟩
set_option maxHeartbeats 1000000 in
theorem Monitor.allPhase_self {b : Backend} {o : Nat} {s0 s s1 : Sys}
    {tr : List Label} {act : Act} (inv : MInv s) (hp : Monitor.allPhase o s0 tr s)
    (hn : Monitor.next b ⟨o, act⟩ s = some s1) (hcall : ∀ op, act ≠ Act.call op) :
    Monitor.allPhase o s0 (tr ++ [⟨o, act⟩]) s1 := by
  have hnf := (MInv.keep_next inv hn).shake.noFatal o
  have hwl := inv.shake.waitLe
  have hnl := inv.shake.notifyLe
  rcases Monitor.next_self hn with ⟨hact, hstep⟩ | ⟨op, hact, -⟩
  · simp only at hact hstep
    subst hact
    unfold Monitor.allPhase at hp ⊢
    rcases hp with hpc | ⟨hA, hC, hB⟩
    · simp [Monitor.step, hpc] at hstep
    have hA1 : ∀ w, w ≠ o → Monitor.wokenPhase s0 (tr ++ [⟨o, Act.exec (s.loc o).pc⟩]) s1 w :=
      fun w hw => Monitor.wokenPhase_frame hn w hw (hA w hw)
    have hC1 : (s.loc o).pc.shaking = false →
        ∀ p : PC, p.shaking = true →
          (tr ++ [(⟨o, Act.exec (s.loc o).pc⟩ : Label)]).count ⟨o, Act.exec p⟩ = 0 := by
      intro hsh p hp1
      rw [Label.count_snoc, hC p hp1, if_neg]
      intro e
      simp only [Label.mk.injEq, Act.exec.injEq, true_and] at e
      rw [e, hp1] at hsh
      exact absurd hsh (by decide)
    have hcnt : ∀ p : PC, (tr ++ [(⟨o, Act.exec (s.loc o).pc⟩ : Label)]).count ⟨o, Act.exec p⟩ =
        tr.count ⟨o, Act.exec p⟩ + (if (s.loc o).pc = p then 1 else 0) := by
      intro p
      rw [Label.count_snoc]
      simp only [Label.mk.injEq, Act.exec.injEq, true_and]
    rcases hB with ⟨hpc | hpc | hpc, h1, h2, h3, h4⟩ | ⟨hpc, h3, h4⟩
    · refine Or.inr ⟨hA1, hC1 (by rw [hpc]; rfl), ?_⟩
      simp [Monitor.step, hpc, FW_ASSERT, Sys.goto, h1, h2] at hstep
      subst hstep
      simp [hcnt, Sys.put, hpc, h1, h2, h3, h4]
    · by_cases hk : s.mon.m_waitCount = 0
      · simp [Monitor.step, hpc, Sys.goto, hk] at hstep
        subst hstep
        exact Or.inl (by simp [Sys.put])
      · refine Or.inr ⟨hA1, hC1 (by rw [hpc]; rfl), ?_⟩
        simp [Monitor.step, hpc, Sys.goto, hk] at hstep
        subst hstep
        simp [hcnt, Sys.put, hpc, h1, h2, h3, h4]
    · refine Or.inr ⟨hA1, hC1 (by rw [hpc]; rfl), ?_⟩
      have hq := (MInv.quiet_holds inv o (Or.inl (by rw [hpc]; rfl)) (by rw [hpc]; rfl)).1
      have hm := inv.shake.waitMax
      simp [Monitor.step, hpc, releaseThen_eq, Sys.goto, hq, hm] at hstep
      subst hstep
      simp [hcnt, Sys.put, hpc, h3, h4, Monitor.allShake]
    · refine Or.inr ⟨hA1, hC1 (by rw [hpc]; rfl), ?_⟩
      have hown := inv.own.ownerSelf o (by rw [hpc]; rfl)
      have hcp := inv.own.countPos o (by rw [hpc]; rfl)
      simp [Monitor.step, hpc, acquireThen_eq, Sys.goto] at hstep
      obtain ⟨hpos, rfl⟩ := hstep
      unfold Monitor.allShake at h4
      rcases h4 with ⟨hc, -⟩ | ⟨w, hw, -⟩ | ⟨w, hw, -⟩ | ⟨hc, hf⟩
      · have := (inv.shake.waitOne hc).1
        omega
      · have := inv.shake.notifyOne (by omega) w
        rw [hw] at this
        exact absurd this (by decide)
      · have := inv.shake.notifyOne (by omega) w
        rw [hw] at this
        exact absurd this (by decide)
      · simp [hcnt, Sys.put, hpc, hown, hcp, h3, hf]
        omega
  · exact absurd hact (hcall op)

theorem Monitor.allPhase_run {b : Backend} {o : Nat} {s0 sc : Sys} (inv : MInv sc)
    (h0 : Monitor.allPhase o s0 [] sc) (tr : List Label) (s : Sys)
    (hrun : Monitor.run b tr sc = some s) (hcalls : ∀ op, ⟨o, Act.call op⟩ ∉ tr) :
    MInv s ∧ Monitor.allPhase o s0 tr s := by
  refine Monitor.run_induction
    (fun tr s => (∀ op, ⟨o, Act.call op⟩ ∉ tr) → MInv s ∧ Monitor.allPhase o s0 tr s)
    (fun _ => ⟨inv, h0⟩) ?_ tr s hrun hcalls
  intro tr lab s s1 _ ih hn hnot
  have hnot1 : ∀ op, ⟨o, Act.call op⟩ ∉ tr := fun op h => hnot op (List.mem_append_left _ h)
  have hlab : ∀ op, lab ≠ ⟨o, Act.call op⟩ := fun op h =>
    hnot op (List.mem_append_right _ (by rw [h]; exact List.mem_singleton_self _))
  obtain ⟨inv1, hp⟩ := ih hnot1
  refine ⟨MInv.keep_next inv1 hn, ?_⟩
  by_cases he : lab.tid = o
  · obtain ⟨tid, act⟩ := lab
    simp only at he
    subst he
    exact Monitor.allPhase_self inv1 hp hn (fun op h => hlab op (by rw [h]))
  · exact Monitor.allPhase_other inv1 hp hn he
theorem WaitInv.none_waiting {T : Finset Nat} {s : Sys} (inv : WaitInv T s)
    (h0 : s.mon.m_waitCount = 0) (w : Nat) : (s.loc w).pc.waiting = false := by
  by_cases hw : w ∈ T
  · have hc := inv.count
    rw [h0] at hc
    have hcard : (T.filter (fun t => (s.loc t).pc.waiting = true)).card = 0 := by omega
    rw [Finset.card_eq_zero, Finset.filter_eq_empty_iff] at hcard
    simpa using hcard hw
  · rw [inv.others w hw]
    rfl

theorem PC.waiting_cases (p : PC) (h : p.waiting = true) (h1 : p.inside = false)
    (h2 : p.acking = false) : p = PC.wait_acquireWait := by
  cases p <;> simp_all [PC.waiting, PC.inside, PC.acking]

/-- C7. `notifyAll()` wakes exactly the waiters present at call time.  Let the owner
`o` call `notifyAll()` in a reachable state `s0` with wait-count `k`, and let the call
return with the last transition of an execution (in which `o` makes no other call).
Then `o` has performed exactly `k` times `m_waitSem.release()` and exactly `k` times
`m_notifySem.acquire()`; every thread that was blocked in `wait()` at `m_waitSem` in
`s0` has taken `m_waitSem`, decremented `m_waitCount` and released `m_notifySem`
exactly once, and no other thread has done any of these; there are exactly `k` such
threads; on return the wait-count is 0 and no thread is left at `m_waitSem.acquire()`. -/
theorem Monitor.notifyAll_wakes (b : Backend) (T : Finset Nat) (o : Nat) (s0 s1 : Sys)
    (tr : List Label) (lab : Label) (hreach : Reachable b T s0) (hoT : o ∈ T)
    (hT : ∀ l ∈ tr, l.tid ∈ T)
    (hown : s0.mon.m_ownerThread = o) (hcount : s0.mon.m_enterCount ≠ 0)
    (hrun : Monitor.run b (⟨o, Act.call Op.notifyAll⟩ :: (tr ++ [lab])) s0 = some s1)
    (hlab : lab.tid = o) (hret : (s1.loc o).pc = PC.idle)
    (hcalls : ∀ op, ⟨o, Act.call op⟩ ∉ tr) :
    lab = ⟨o, Act.exec PC.all_test⟩ ∧
    (tr.count ⟨o, Act.exec PC.all_releaseWait⟩ : Int) = s0.mon.m_waitCount ∧
    (tr.count ⟨o, Act.exec PC.all_acquireNotify⟩ : Int) = s0.mon.m_waitCount ∧
    s1.mon.m_waitCount = 0 ∧
    (∀ w, tr.count ⟨w, Act.exec PC.wait_acquireWait⟩ =
        (if (s0.loc w).pc = PC.wait_acquireWait then 1 else 0) ∧
      tr.count ⟨w, Act.exec PC.wait_decrWait⟩ =
        (if (s0.loc w).pc = PC.wait_acquireWait then 1 else 0) ∧
      tr.count ⟨w, Act.exec PC.wait_releaseNotify⟩ =
        (if (s0.loc w).pc = PC.wait_acquireWait then 1 else 0)) ∧
    (∀ w, (s1.loc w).pc ≠ PC.wait_acquireWait) ∧
    s0.mon.m_waitCount =
      ((T.filter (fun w => (s0.loc w).pc = PC.wait_acquireWait)).card : Int) := by
  have inv0 := Reachable.inv hreach
  have winv0 := Reachable.waitInv hreach
  obtain ⟨sc, hcall, hrest⟩ := Monitor.run_cons hrun
  obtain ⟨s, hmid, hlast⟩ := Monitor.run_snoc hrest
  have invc := MInv.keep_next inv0 hcall
  have hidle : (s0.loc o).pc = PC.idle := by
    simp only [Monitor.next, Monitor.call] at hcall
    split_ifs at hcall with h
    exact h
  have hsc : sc = s0.put o s0.mon { s0.loc o with pc := PC.all_assert } := by
    simp only [Monitor.next, Monitor.call, hidle, if_true, Option.some.injEq, Sys.goto,
      Op.entry] at hcall
    exact hcall.symm
  have hh0 : s0.holds o := Or.inr ⟨by rw [hidle]; rfl, hown, hcount⟩
  obtain ⟨-, -, q3⟩ := MInv.quiet_holds inv0 o hh0 (by rw [hidle]; rfl)
  -- the waiters of `s0` are the threads at `m_waitSem.acquire()`
  have hwait0 : ∀ w, (s0.loc w).pc.waiting = true ↔ (s0.loc w).pc = PC.wait_acquireWait := by
    intro w
    constructor
    · intro hw
      refine PC.waiting_cases _ hw ?_ (q3 w)
      by_contra hin
      have hin1 : (s0.loc w).pc.inside = true := by simpa using hin
      have := inv0.own.holdsUnique w o (Or.inl hin1) hh0
      rw [this, hidle] at hin1
      exact absurd hin1 (by decide)
    · intro hw
      rw [hw]
      rfl
  have hcard : s0.mon.m_waitCount =
      ((T.filter (fun w => (s0.loc w).pc = PC.wait_acquireWait)).card : Int) := by
    rw [winv0.count]
    congr 2
    exact Finset.filter_congr (fun w _ => hwait0 w)
  have h0 : Monitor.allPhase o s0 [] sc := by
    subst hsc
    refine Or.inr ⟨?_, fun p _ => rfl, Or.inl ?_⟩
    · intro w hw
      unfold Monitor.wokenPhase
      rw [Sys.put_loc_ne _ _ _ _ _ hw]
      by_cases hc : (s0.loc w).pc = PC.wait_acquireWait
      · rw [if_pos hc, hc]
        simp [PC.stage]
      · rw [if_neg hc]
        refine ⟨?_, rfl, rfl, rfl⟩
        have a2 := q3 w
        revert a2 hc
        cases (s0.loc w).pc <;> simp [PC.shaking, PC.acking]
    · simp [Sys.put, hown, hcount]
  obtain ⟨inv, hp⟩ := Monitor.allPhase_run invc h0 tr s hmid hcalls
  have hreach_s : Reachable b T s := by
    refine Reachable.extend hreach (⟨o, Act.call Op.notifyAll⟩ :: tr) ?_ ?_
    · intro l hl
      rcases List.mem_cons.mp hl with e | hl
      · rw [e]; exact hoT
      · exact hT l hl
    · simp only [Monitor.run, hcall]
      exact hmid
  have winv := Reachable.waitInv hreach_s
  obtain ⟨tid, act⟩ := lab
  have hlab1 : o = tid := hlab.symm
  subst hlab1
  rcases Monitor.next_self hlast with ⟨hact, hstep⟩ | ⟨op, hact, hi, hc⟩
  · simp only at hact hstep
    subst hact
    unfold Monitor.allPhase at hp
    rcases hp with hpc | ⟨hA, hC, ⟨hpc | hpc | hpc, h1, h2, h3, h4⟩ | ⟨hpc, h3, h4⟩⟩
    · simp [Monitor.step, hpc] at hstep
    · simp [Monitor.step, hpc, FW_ASSERT, Sys.goto, h1, h2] at hstep
      subst hstep
      simp [Sys.put] at hret
    · by_cases hk : s.mon.m_waitCount = 0
      · simp [Monitor.step, hpc, Sys.goto, hk] at hstep
        subst hstep
        have hnw := WaitInv.none_waiting winv hk
        obtain ⟨-, -, r3⟩ := MInv.quiet_holds inv o (Or.inl (by rw [hpc]; rfl))
          (by rw [hpc]; rfl)
        refine ⟨by rw [hpc], by omega, by omega, by simpa [Sys.put] using hk, ?_, ?_, hcard⟩
        · intro w
          by_cases hwo : w = o
          · subst hwo
            rw [hC PC.wait_acquireWait rfl, hC PC.wait_decrWait rfl,
              hC PC.wait_releaseNotify rfl, hidle]
            simp
          · have hAw := hA w hwo
            unfold Monitor.wokenPhase at hAw
            by_cases hc : (s0.loc w).pc = PC.wait_acquireWait
            · rw [if_pos hc] at hAw ⊢
              have hst : (s.loc w).pc.stage = 3 := by
                have a1 := hnw w
                have a2 := r3 w
                have a3 := hAw.1
                cases hpw : (s.loc w).pc <;>
                  simp_all [PC.stage, PC.waiting, PC.acking]
              rw [hst] at hAw
              simpa using hAw.2
            · rw [if_neg hc] at hAw ⊢
              exact hAw.2
        · intro w hw
          have a1 := hnw w
          by_cases hwo : w = o
          · subst hwo
            simp [Sys.put] at hw
          · rw [Sys.put_loc_ne _ _ _ _ _ hwo] at hw
            rw [hw] at a1
            exact absurd a1 (by decide)
      · simp [Monitor.step, hpc, Sys.goto, hk] at hstep
        subst hstep
        simp [Sys.put] at hret
    · simp [Monitor.step, hpc, releaseThen_eq, Sys.goto] at hstep
      split_ifs at hstep <;> simp only [Option.some.injEq] at hstep <;> subst hstep <;>
        simp [Sys.put] at hret
    · simp [Monitor.step, hpc, acquireThen_eq, Sys.goto] at hstep
      obtain ⟨-, rfl⟩ := hstep
      simp [Sys.put] at hret
  · simp only at hi hc
    simp only [Monitor.call, hi, if_true] at hc
    cases op <;> simp only [Option.some.injEq, Sys.goto, Op.entry] at hc <;> subst hc <;>
      simp [Sys.put] at hret

/-- Witness of C7: threads 1 and 2 wait, thread 3 owns the monitor and calls
`notifyAll()`; it performs two handshakes and returns with the wait-count 0. -/
theorem Monitor.notifyAll_wakes_witness :
    (Monitor.exampleAfter Backend.win32 Monitor.exampleTwoWaiting).mon.m_waitCount = 2 ∧
    (Monitor.exampleWakeAll.count ⟨3, Act.exec PC.all_releaseWait⟩ : Int) =
      (Monitor.exampleAfter Backend.win32 Monitor.exampleTwoWaiting).mon.m_waitCount ∧
    (Monitor.exampleAfter Backend.win32 (Monitor.exampleTwoWaiting ++
      ⟨3, Act.call Op.notifyAll⟩ :: (Monitor.exampleWakeAll ++
        [⟨3, Act.exec PC.all_test⟩]))).mon.m_waitCount = 0 :=
  ⟨by decide,
    (Monitor.notifyAll_wakes Backend.win32 {1, 2, 3} 3 _ _ Monitor.exampleWakeAll
      ⟨3, Act.exec PC.all_test⟩
      (Reachable.example Backend.win32 {1, 2, 3} Monitor.exampleTwoWaiting (by decide)
        (by decide))
      (by decide) (by decide) rfl (by decide)
      (Monitor.exampleAfter_run Backend.win32 Monitor.exampleTwoWaiting _ (by decide))
      rfl (by decide) (by intro op; cases op <;> decide)).2.1,
    (Monitor.notifyAll_wakes Backend.win32 {1, 2, 3} 3 _ _ Monitor.exampleWakeAll
      ⟨3, Act.exec PC.all_test⟩
      (Reachable.example Backend.win32 {1, 2, 3} Monitor.exampleTwoWaiting (by decide)
        (by decide))
      (by decide) (by decide) rfl (by decide)
      (Monitor.exampleAfter_run Backend.win32 Monitor.exampleTwoWaiting _ (by decide))
      rfl (by decide) (by intro op; cases op <;> decide)).2.2.2.1⟩

/-! ## Thread: the registry container -/

theorem Hash.search_cons {K V : Type} [DecidableEq K] (e : K × V) (rest : Hash K V)
    (k : K) :
    Hash.search (e :: rest) k = if e.1 = k then some e.2 else Hash.search rest k := by
  by_cases he : e.1 = k <;> simp [Hash.search, List.find?_cons, he]

theorem Hash.remove_cons {K V : Type} [DecidableEq K] (e : K × V) (rest : Hash K V)
    (key : K) :
    Hash.remove (e :: rest) key =
      if e.1 = key then Hash.remove rest key else e :: Hash.remove rest key := by
  by_cases he : e.1 = key <;> simp [Hash.remove, List.filter_cons, he]

theorem Hash.contains_remove {K V : Type} [DecidableEq K] (h : Hash K V) (key : K) :
    Hash.contains (Hash.remove h key) key = false := by
  simp [Hash.contains, Hash.remove]

theorem Hash.search_remove_ne {K V : Type} [DecidableEq K] (h : Hash K V) (key k : K)
    (hk : k ≠ key) : Hash.search (Hash.remove h key) k = Hash.search h k := by
  induction h with
  | nil => rfl
  | cons e rest ih =>
    rw [Hash.remove_cons, Hash.search_cons]
    by_cases he : e.1 = key
    · have hek : ¬ e.1 = k := fun h1 => hk (h1.symm.trans he)
      rw [if_pos he, if_neg hek, ih]
    · rw [if_neg he, Hash.search_cons, ih]

theorem Hash.search_remove {K V : Type} [DecidableEq K] (h : Hash K V) (key : K) :
    Hash.search (Hash.remove h key) key = none := by
  induction h with
  | nil => rfl
  | cons e rest ih =>
    rw [Hash.remove_cons]
    by_cases he : e.1 = key
    · rw [if_pos he, ih]
    · rw [if_neg he, Hash.search_cons, if_neg he, ih]

theorem Hash.contains_eq_isSome {K V : Type} [DecidableEq K] (h : Hash K V) (key : K) :
    Hash.contains h key = (Hash.search h key).isSome := by
  induction h with
  | nil => rfl
  | cons e rest ih =>
    by_cases he : e.1 = key
    · simp [Hash.search, Hash.contains, List.find?_cons, he]
    · simpa [Hash.search, Hash.contains, List.find?_cons, he] using ih

theorem Hash.search_eq_none {K V : Type} [DecidableEq K] (h : Hash K V) (key : K) :
    Hash.search h key = none ↔ Hash.contains h key = false := by
  rw [Hash.contains_eq_isSome]
  cases Hash.search h key <;> simp

/-- The registry after the cleanup `exited()` of an object with the live handle
`handle`, in terms of the id `(w.objs self).m_id` the object had. -/
theorem Thread.exited_live (self : Nat) (w : World) (handle : Nat)
    (hh : (w.objs self).m_handle = some handle) :
    ((Thread.exited self w).objs self).m_handle = none ∧
    ((Thread.exited self w).objs self).m_id = 0 ∧
    Hash.search (Thread.exited self w).s_threads (w.objs self).m_id = none ∧
    (∀ k, k ≠ (w.objs self).m_id →
      Hash.search (Thread.exited self w).s_threads k = Hash.search w.s_threads k) ∧
    (∀ o, o ≠ self → (Thread.exited self w).objs o = w.objs o) ∧
    (Thread.exited self w).s_mainThread =
      (if w.s_mainThread = some self then none else w.s_mainThread) ∧
    ((Thread.exited self w).objs self).m_userData = (w.objs self).m_userData ∧
    ((Thread.exited self w).objs self).m_priority = (w.objs self).m_priority ∧
    (Thread.exited self w).log = w.log ++ [Event.exited self, Event.closeHandle handle] := by
  have hrm : ∀ (h : Hash Nat Nat) (key k : Nat),
      Hash.search (if Hash.getSize (if Hash.contains h key then Hash.remove h key else h) = 0
        then Hash.reset (if Hash.contains h key then Hash.remove h key else h)
        else (if Hash.contains h key then Hash.remove h key else h)) k =
      if k = key then none else Hash.search h k := by
    intro h key k
    have h1 : Hash.search (if Hash.contains h key then Hash.remove h key else h) k =
        if k = key then none else Hash.search h k := by
      by_cases hc : Hash.contains h key = true
      · rw [if_pos hc]
        by_cases hk : k = key
        · rw [if_pos hk, hk, Hash.search_remove]
        · rw [if_neg hk, Hash.search_remove_ne h key k hk]
      · rw [if_neg hc]
        by_cases hk : k = key
        · rw [if_pos hk, hk, Hash.search_eq_none]
          simpa using hc
        · rw [if_neg hk]
    rw [← h1]
    cases (if Hash.contains h key then Hash.remove h key else h) <;>
      simp [Hash.getSize, Hash.reset]
  unfold Thread.exited
  simp only [hh]
  refine ⟨by simp, by simp, ?_, ?_, ?_, by simp, by simp, by simp, by simp⟩
  · simp only [hrm]
    simp
  · intro k hk
    simp only [hrm]
    simp [hk]
  · intro o ho
    simp [Function.update, ho]

/-- C11. `Thread::unrefer` decrements the reference count by 1 and invokes the cleanup
`exited()` exactly when the new count is 0 and the exited flag is set (the number of
`exited()` calls grows by 1 in that case and not at all otherwise).  After such a
cleanup on an object with a live handle the handle is `NULL`, the native thread id is
0, the registry has no entry for the id the object had, the exited flag is false, and
the registry entry of every other id is what it was. -/
theorem Thread.unrefer_cleanup (self : Nat) (w : World) :
    ((Thread.unrefer self w).objs self).m_refCount = (w.objs self).m_refCount - 1 ∧
    (Thread.unrefer self w).exitedCalls self = w.exitedCalls self +
      (if (w.objs self).m_refCount - 1 = 0 ∧ (w.objs self).m_exited = true then 1 else 0) ∧
    ((w.objs self).m_refCount - 1 = 0 ∧ (w.objs self).m_exited = true →
      ∀ handle, (w.objs self).m_handle = some handle →
        ((Thread.unrefer self w).objs self).m_handle = none ∧
        ((Thread.unrefer self w).objs self).m_id = 0 ∧
        Hash.contains (Thread.unrefer self w).s_threads (w.objs self).m_id = false ∧
        ((Thread.unrefer self w).objs self).m_exited = false ∧
        ∀ k, k ≠ (w.objs self).m_id →
          Hash.search (Thread.unrefer self w).s_threads k = Hash.search w.s_threads k) := by
  rw [Thread.unrefer_eq]
  by_cases hc : (w.objs self).m_refCount - 1 = 0 ∧ (w.objs self).m_exited = true
  · rw [if_pos hc]
    refine ⟨?_, ?_, ?_⟩
    · rw [(Thread.exited_refCount self _).1]
      simp [World.setObj]
    · rw [(Thread.exited_refCount self _).2.2, if_pos hc]
      simp [World.setObj, World.exitedCalls]
    · intro _ handle hh
      have hl := Thread.exited_live self (w.setObj self
        { w.objs self with m_refCount := (w.objs self).m_refCount - 1, m_exited := false })
        handle (by simpa [World.setObj] using hh)
      refine ⟨hl.1, hl.2.1, ?_, ?_, ?_⟩
      · rw [← Hash.search_eq_none]
        simpa [World.setObj] using hl.2.2.1
      · rw [(Thread.exited_refCount self _).2.1]
        simp [World.setObj]
      · intro k hk
        simpa [World.setObj] using hl.2.2.2.1 k (by simpa [World.setObj] using hk)
  · rw [if_neg hc]
    refine ⟨by simp [World.setObj], by simp [World.setObj, World.exitedCalls, hc], ?_⟩
    intro h
    exact absurd h hc

/-- Witness of C11: the object at address 100, registered under the id 7 beside the
object 200 with id 8, holds one reference and is marked exited; `unrefer()` cleans it
up and keeps the entry of id 8. -/
theorem Thread.unrefer_cleanup_witness :
    ((Thread.unrefer 100 ⟨fun _ => ⟨1, true, 7, some 1, 0, []⟩, [(7, 100), (8, 200)],
      some 200, []⟩).objs 100).m_handle = none ∧
    Hash.search (Thread.unrefer 100 ⟨fun _ => ⟨1, true, 7, some 1, 0, []⟩,
      [(7, 100), (8, 200)], some 200, []⟩).s_threads 8 = some 200 :=
  ⟨((Thread.unrefer_cleanup 100 ⟨fun _ => ⟨1, true, 7, some 1, 0, []⟩, [(7, 100), (8, 200)],
      some 200, []⟩).2.2 (by decide) 1 rfl).1,
    by decide⟩

/-! ## Thread: `getCurrent`, `getMain` and `isMain` -/

theorem Hash.search_add {K V : Type} [DecidableEq K] (h : Hash K V) (key k : K) (v : V) :
    Hash.search (Hash.add h key v) k =
      match Hash.search h k with
      | some x => some x
      | none => if key = k then some v else none := by
  induction h with
  | nil =>
    by_cases hk : key = k <;> simp [Hash.add, Hash.search, List.find?_cons, hk]
  | cons e rest ih =>
    have hadd : Hash.add (e :: rest) key v = e :: Hash.add rest key v := rfl
    rw [hadd, Hash.search_cons, Hash.search_cons]
    by_cases he : e.1 = k
    · simp [he]
    · simp only [if_neg he]
      exact ih

theorem Thread.getCurrent_found (b : Backend) (c : Caller) (w : World) (thread : Nat)
    (h : Hash.search w.s_threads c.id = some thread) :
    Thread.getCurrent b c w = Res.ret thread w := by
  simp [Thread.getCurrent, h]

theorem Thread.getCurrent_fresh (b : Backend) (c : Caller) (w : World) (handle : Nat)
    (h : Hash.search w.s_threads c.id = none) (hh : c.handle = some handle) :
    Thread.getCurrent b c w = Res.ret c.fresh (World.wrap c handle w) := by
  have hc : Hash.contains w.s_threads c.id = false := (Hash.search_eq_none _ _).1 h
  simp [Thread.getCurrent, h, Thread.started, Thread.new, World.setObj, hh, Res.bind,
    World.wrap, hc]

theorem Thread.getCurrent_fatal (b : Backend) (c : Caller) (w : World)
    (h : Hash.search w.s_threads c.id = none) (hh : c.handle = none) :
    Res.returned (Thread.getCurrent b c w) = false := by
  cases b <;> simp [Thread.getCurrent, h, Thread.started, hh, Res.bind, Res.returned]

/-- Every way `getCurrent()` returns: the registry entry of the caller, or the new
wrapper. -/
theorem Thread.getCurrent_cases (b : Backend) (c : Caller) (w : World) (curr : Nat)
    (w1 : World) (h : Thread.getCurrent b c w = Res.ret curr w1) :
    (Hash.search w.s_threads c.id = some curr ∧ w1 = w) ∨
    (Hash.search w.s_threads c.id = none ∧ curr = c.fresh ∧
      ∃ handle, c.handle = some handle ∧ w1 = World.wrap c handle w) := by
  cases hs : Hash.search w.s_threads c.id with
  | some thread =>
    rw [Thread.getCurrent_found b c w thread hs] at h
    injection h with h1 h2
    exact Or.inl ⟨by rw [h1], h2.symm⟩
  | none =>
    cases hh : c.handle with
    | none =>
      have := Thread.getCurrent_fatal b c w hs hh
      rw [h] at this
      simp [Res.returned] at this
    | some handle =>
      rw [Thread.getCurrent_fresh b c w handle hs hh] at h
      injection h with h1 h2
      exact Or.inr ⟨rfl, h1.symm, handle, rfl, h2.symm⟩

/-- After `getCurrent()` has returned, the registry maps the caller's id to the object
returned. -/
theorem Thread.getCurrent_registered (b : Backend) (c : Caller) (w : World) (curr : Nat)
    (w1 : World) (h : Thread.getCurrent b c w = Res.ret curr w1) :
    Hash.search w1.s_threads c.id = some curr := by
  rcases Thread.getCurrent_cases b c w curr w1 h with ⟨hs, rfl⟩ | ⟨hs, rfl, handle, _, rfl⟩
  · exact hs
  · simp [World.wrap, Hash.search_add, hs]

theorem Thread.getCurrent_log (b : Backend) (c : Caller) (w : World) (curr : Nat)
    (w1 : World) (h : Thread.getCurrent b c w = Res.ret curr w1) :
    w1.log = w.log ∧ ∀ o, o ≠ c.fresh → w1.objs o = w.objs o := by
  rcases Thread.getCurrent_cases b c w curr w1 h with ⟨_, rfl⟩ | ⟨_, _, handle, _, rfl⟩
  · exact ⟨rfl, fun _ _ => rfl⟩
  · exact ⟨rfl, fun o ho => by simp [World.wrap, Function.update, ho]⟩

theorem Thread.getMain_eq (b : Backend) (c : Caller) (w : World) (curr : Nat) (w1 : World)
    (h : Thread.getCurrent b c w = Res.ret curr w1) :
    Thread.getMain b c w = Res.ret w1.s_mainThread w1 := by
  simp [Thread.getMain, h, Res.bind]

/-! ## Thread: join -/

/-- What `join()` is once the values of `getMain()` and `getCurrent()` are known. -/
theorem Thread.join_eq (b : Backend) (c : Caller) (res : Option WaitResult) (self : Nat)
    (w : World) (curr : Nat) (w1 : World)
    (h : Thread.getCurrent b c w = Res.ret curr w1) :
    Thread.join b c res self w =
      if w1.s_mainThread = some self then
        Res.fatal (w1.record (Event.assertFailed "this != getMain()"))
      else if curr = self then
        Res.fatal (w1.record (Event.assertFailed "this != getCurrent()"))
      else Thread.joinBody b res self w1 := by
  have h2 : Thread.getCurrent b c w1 = Res.ret curr w1 :=
    Thread.getCurrent_found b c w1 curr (Thread.getCurrent_registered b c w curr w1 h)
  unfold Thread.join
  rw [Thread.getMain_eq b c w curr w1 h]
  simp only [Res.bind, World.FW_ASSERT, h2]
  by_cases hm : w1.s_mainThread = some self
  · have : ¬ (some self ≠ w1.s_mainThread) := fun hne => hne hm.symm
    simp [hm]
  · have : some self ≠ w1.s_mainThread := fun he => hm he.symm
    by_cases hcs : curr = self
    · simp [hm, this, hcs]
    · have : self ≠ curr := fun he => hcs he.symm
      simp [hm, hcs, *]

theorem count_singleton_ne {α : Type} [DecidableEq α] (e x : α) (h : e ≠ x) :
    List.count e [x] = 0 := by
  rw [List.count_singleton]
  simp [h.symm]

theorem count_pair_ne {α : Type} [DecidableEq α] (e x y : α) (hx : e ≠ x) (hy : e ≠ y) :
    List.count e [x, y] = 0 := by
  rw [List.count_cons, count_singleton_ne e y hy]
  simp [hx.symm]

/-- The cleanup records only its own call and the release of the handle. -/
theorem Thread.exited_count (self : Nat) (w : World) (e : Event)
    (h1 : ∀ o, e ≠ Event.exited o) (h2 : ∀ h, e ≠ Event.closeHandle h) :
    (Thread.exited self w).log.count e = w.log.count e := by
  unfold Thread.exited
  cases hh : (w.objs self).m_handle with
  | none => simp [hh, List.count_append, count_singleton_ne e _ (h1 self)]
  | some handle =>
    simp [hh, List.count_append, count_pair_ne e _ _ (h1 self) (h2 handle)]

theorem Thread.unrefer_count (self : Nat) (w : World) (e : Event)
    (h1 : ∀ o, e ≠ Event.exited o) (h2 : ∀ h, e ≠ Event.closeHandle h) :
    (Thread.unrefer self w).log.count e = w.log.count e := by
  rw [Thread.unrefer_eq]
  split_ifs
  · rw [Thread.exited_count self _ e h1 h2]
    simp [World.setObj]
  · simp [World.setObj]

theorem Thread.joinBody_none (b : Backend) (res : Option WaitResult) (self : Nat) (w : World)
    (hh : (w.objs self).m_handle = none) :
    Thread.joinBody b res self w = Res.ret () (Thread.unrefer self (w.referExited self)) := by
  simp [Thread.joinBody, Thread.refer, World.setObj, hh, World.referExited]

theorem Thread.joinBody_some (b : Backend) (r : WaitResult) (self : Nat) (w : World)
    (handle : Nat) (hh : (w.objs self).m_handle = some handle) :
    Thread.joinBody b (some r) self w =
      if b = Backend.win32 ∧ r = WaitResult.WAIT_FAILED then
        Res.fatal (((Thread.refer self w).record (Event.wait handle)).record
          (Event.fail "WaitForSingleObject"))
      else Res.ret ()
        (Thread.unrefer self ((w.referExited self).record (Event.wait handle))) := by
  simp [Thread.joinBody, Thread.refer, World.setObj, hh, World.referExited, World.record]

theorem Thread.joinBody_blocks (b : Backend) (self : Nat) (w : World)
    (handle : Nat) (hh : (w.objs self).m_handle = some handle) :
    Thread.joinBody b none self w =
      Res.blocks ((Thread.refer self w).record (Event.wait handle)) := by
  simp [Thread.joinBody, Thread.refer, World.setObj, hh]

/-- The part of `join()` after the assertions records the wait, a failure of the wait,
and what the cleanup records. -/
theorem Thread.joinBody_count (b : Backend) (res : Option WaitResult) (self : Nat)
    (w : World) (e : Event)
    (h1 : ∀ o, e ≠ Event.exited o) (h2 : ∀ h, e ≠ Event.closeHandle h)
    (h3 : ∀ h, e ≠ Event.wait h) (h4 : ∀ s, e ≠ Event.fail s) :
    (Res.state (Thread.joinBody b res self w)).log.count e = w.log.count e := by
  cases hh : (w.objs self).m_handle with
  | none =>
    rw [Thread.joinBody_none b res self w hh]
    simp only [Res.state]
    rw [Thread.unrefer_count self _ e h1 h2]
    simp [World.setObj, World.referExited]
  | some handle =>
    cases res with
    | none =>
      rw [Thread.joinBody_blocks b self w handle hh]
      simp [Res.state, World.record, Thread.refer, World.setObj, List.count_append,
        count_singleton_ne e _ (h3 handle)]
    | some r =>
      rw [Thread.joinBody_some b r self w handle hh]
      split_ifs
      · simp [Res.state, World.record, Thread.refer, World.setObj, List.count_append,
          count_pair_ne e _ _ (h3 handle) (h4 _)]
      · simp only [Res.state]
        rw [Thread.unrefer_count self _ e h1 h2]
        simp [World.setObj, World.referExited, World.record, List.count_append,
          count_singleton_ne e _ (h3 handle)]

/-- C12. With `curr` the value `getCurrent()` returns to the calling thread and
`w1.s_mainThread` the value of `getMain()`: `join()` ends in the failed assertion
`this != getMain()` when the object is the main object, in the failed assertion
`this != getCurrent()` when it is the caller's own object, in both cases in the state
the two lookups left, before `refer()` or any wait (the record of calls has only gained
the failed assertion, the object's fields are untouched); for every other object
`join()` is the rest of its body and records no failed assertion.  The backend is
arbitrary. -/
theorem Thread.join_assert (b : Backend) (c : Caller) (res : Option WaitResult) (self : Nat)
    (w : World) (curr : Nat) (w1 : World)
    (hcur : Thread.getCurrent b c w = Res.ret curr w1) :
    Thread.getMain b c w = Res.ret w1.s_mainThread w1 ∧
    Thread.getCurrent b c w1 = Res.ret curr w1 ∧
    w1.log = w.log ∧ (c.fresh ≠ self → w1.objs self = w.objs self) ∧
    (w1.s_mainThread = some self →
      Thread.join b c res self w =
        Res.fatal (w1.record (Event.assertFailed "this != getMain()"))) ∧
    (w1.s_mainThread ≠ some self → curr = self →
      Thread.join b c res self w =
        Res.fatal (w1.record (Event.assertFailed "this != getCurrent()"))) ∧
    (w1.s_mainThread ≠ some self → curr ≠ self →
      Thread.join b c res self w = Thread.joinBody b res self w1 ∧
      ∀ text, (Res.state (Thread.join b c res self w)).log.count (Event.assertFailed text) =
        w.log.count (Event.assertFailed text)) := by
  have hj := Thread.join_eq b c res self w curr w1 hcur
  have hl := Thread.getCurrent_log b c w curr w1 hcur
  refine ⟨Thread.getMain_eq b c w curr w1 hcur,
    Thread.getCurrent_found b c w1 curr (Thread.getCurrent_registered b c w curr w1 hcur),
    hl.1, fun hf => hl.2 self (fun h => hf h.symm), ?_, ?_, ?_⟩
  · intro hm
    rw [hj, if_pos hm]
  · intro hm hc
    rw [hj, if_neg hm, if_pos hc]
  · intro hm hc
    rw [hj, if_neg hm, if_neg hc]
    refine ⟨rfl, fun text => ?_⟩
    rw [Thread.joinBody_count b res self w1 _ (by simp) (by simp) (by simp) (by simp), hl.1]

/-- Witness of C12: the main thread calls `join()` on its own wrapper, which is the
main object. -/
theorem Thread.join_assert_witness :
    Thread.join Backend.qt ⟨1, 60, some 9⟩ none 50
        ⟨fun _ => ⟨0, false, 1, some 2, 0, []⟩, [(1, 50)], some 50, []⟩ =
      Res.fatal (World.record ⟨fun _ => ⟨0, false, 1, some 2, 0, []⟩, [(1, 50)], some 50, []⟩
        (Event.assertFailed "this != getMain()")) :=
  (Thread.join_assert Backend.qt ⟨1, 60, some 9⟩ none 50
    ⟨fun _ => ⟨0, false, 1, some 2, 0, []⟩, [(1, 50)], some 50, []⟩ 50
    ⟨fun _ => ⟨0, false, 1, some 2, 0, []⟩, [(1, 50)], some 50, []⟩ rfl).2.2.2.2.1 rfl

theorem Hash.mem_remove {K V : Type} [DecidableEq K] (h : Hash K V) (key : K) (e : K × V)
    (he : e ∈ Hash.remove h key) : e ∈ h ∧ e.1 ≠ key := by
  simpa [Hash.remove] using he

theorem Hash.mem_of_search {K V : Type} [DecidableEq K] (h : Hash K V) (key : K) (v : V)
    (hs : Hash.search h key = some v) : (key, v) ∈ h := by
  induction h with
  | nil => simp [Hash.search] at hs
  | cons e rest ih =>
    rw [Hash.search_cons] at hs
    by_cases he : e.1 = key
    · rw [if_pos he] at hs
      injection hs with hv
      have : e = (key, v) := by
        rw [← he, ← hv]
      rw [this]
      exact List.mem_cons_self _ _
    · rw [if_neg he] at hs
      exact List.mem_cons_of_mem _ (ih hs)

/-- The registry entries that remain after the cleanup of an object with a live
handle: none of them has the id of the object. -/
theorem Thread.exited_mem (self : Nat) (w : World) (handle : Nat)
    (hh : (w.objs self).m_handle = some handle) (e : Nat × Nat)
    (he : e ∈ (Thread.exited self w).s_threads) :
    e ∈ w.s_threads ∧ e.1 ≠ (w.objs self).m_id := by
  have hsub : ∀ (m : Hash Nat Nat), e ∈ (if Hash.getSize m = 0 then Hash.reset m else m) →
      e ∈ m := by
    intro m hm
    split_ifs at hm
    · simp [Hash.reset] at hm
    · exact hm
  unfold Thread.exited at he
  simp only [hh] at he
  have h1 := hsub _ he
  by_cases hc : Hash.contains w.s_threads (w.objs self).m_id = true
  · rw [if_pos hc] at h1
    exact Hash.mem_remove _ _ _ h1
  · rw [if_neg hc] at h1
    refine ⟨h1, fun hk => hc ?_⟩
    simp only [Hash.contains, List.any_eq_true]
    exact ⟨e, h1, by simpa using hk⟩

theorem World.started_iff {w : World} {self : Nat} :
    w.started self = true ↔ ∃ handle, (w.objs self).m_handle = some handle ∧
      ∀ e ∈ w.s_threads, e.2 = self → e.1 = (w.objs self).m_id := by
  unfold World.started
  cases hh : (w.objs self).m_handle with
  | none => simp
  | some handle =>
    simp only [Option.isSome_some, Bool.true_and, List.all_eq_true, decide_eq_true_eq,
      Option.some.injEq, exists_eq_left']

theorem Thread.started_eq (b : Backend) (c : Caller) (self : Nat) (w : World)
    (handle : Nat) (hh : c.handle = some handle) :
    Thread.started b c self w = Res.ret ()
      { objs := Function.update w.objs self
          { w.objs self with m_id := c.id, m_handle := some handle }
        s_threads := if Hash.contains w.s_threads c.id then w.s_threads
          else Hash.add w.s_threads c.id self
        s_mainThread := if w.s_mainThread = none then some self else w.s_mainThread
        log := w.log } := by
  simp [Thread.started, hh, World.setObj]

/-- The method `started()` makes an object started when the registry does not hold the
object yet and the platform gives a handle. -/
theorem Thread.started_started (b : Backend) (c : Caller) (self : Nat) (w : World)
    (handle : Nat) (hh : c.handle = some handle) (hnew : ∀ e ∈ w.s_threads, e.2 ≠ self) :
    ∃ w1, Thread.started b c self w = Res.ret () w1 ∧ w1.started self = true := by
  refine ⟨_, Thread.started_eq b c self w handle hh, ?_⟩
  rw [World.started_iff]
  refine ⟨handle, by simp, ?_⟩
  intro e he hself
  simp only at he
  split_ifs at he with hc
  · exact absurd hself (hnew e he)
  · simp only [Hash.add, List.mem_append, List.mem_singleton] at he
    rcases he with he | he
    · exact absurd hself (hnew e he)
    · simp [he]

/-- A legal call of `join()`: the lookups of the calling thread return, the object is
neither the main object nor the caller's own.  The state `w1` the lookups leave is the
given one when the caller has a registry entry, and else has the caller's new wrapper
in it. -/
theorem Thread.getCurrent_legal (b : Backend) (c : Caller) (self : Nat) (w : World)
    (hmain : w.s_mainThread ≠ some self)
    (hcur : Hash.search w.s_threads c.id ≠ some self) (hfresh : c.fresh ≠ self)
    (hopen : Hash.search w.s_threads c.id = none → c.handle ≠ none) :
    ∃ curr w1, Thread.getCurrent b c w = Res.ret curr w1 ∧
      w1.s_mainThread ≠ some self ∧ curr ≠ self ∧ w1.objs self = w.objs self ∧
      (∀ e ∈ w1.s_threads, e.2 = self → e ∈ w.s_threads) ∧ w1.log = w.log ∧
      (Hash.search w.s_threads c.id ≠ none → w1 = w) := by
  cases hs : Hash.search w.s_threads c.id with
  | some thread =>
    refine ⟨thread, w, Thread.getCurrent_found b c w thread hs, hmain, ?_, rfl,
      fun e he _ => he, rfl, fun _ => rfl⟩
    intro h
    exact hcur (by rw [hs, h])
  | none =>
    cases hh : c.handle with
    | none => exact absurd hh (hopen hs)
    | some handle =>
      refine ⟨c.fresh, World.wrap c handle w, Thread.getCurrent_fresh b c w handle hs hh,
        ?_, hfresh, ?_, ?_, rfl, fun h => absurd rfl h⟩
      · simp only [World.wrap]
        split_ifs with hm
        · intro h
          injection h with h
          exact hfresh h
        · exact hmain
      · simp [World.wrap, Function.update, hfresh.symm]
      · intro e he hself
        simp only [World.wrap, Hash.add, List.mem_append, List.mem_singleton] at he
        rcases he with he | he
        · exact he
        · rw [he] at hself
          exact absurd hself hfresh

/-- The end of `join()` on an object without a handle: `refer()`, `m_exited = true`,
`unrefer()` leave the reference count as it was; with the count 0 the flag is cleared
again and `exited()` is invoked, which returns at once. -/
theorem Thread.unrefer_referExited (self : Nat) (w : World)
    (hh : (w.objs self).m_handle = none) :
    (Thread.unrefer self (w.referExited self)).objs = Function.update w.objs self
      { w.objs self with m_exited := decide ((w.objs self).m_refCount ≠ 0) } ∧
    (Thread.unrefer self (w.referExited self)).s_threads = w.s_threads ∧
    (Thread.unrefer self (w.referExited self)).s_mainThread = w.s_mainThread ∧
    (Thread.unrefer self (w.referExited self)).log =
      w.log ++ (if (w.objs self).m_refCount = 0 then [Event.exited self] else []) := by
  rw [Thread.unrefer_eq]
  by_cases hc : (w.objs self).m_refCount = 0
  · have hcond : ((w.referExited self).objs self).m_refCount - 1 = 0 ∧
        ((w.referExited self).objs self).m_exited = true := by
      simp [World.referExited, World.setObj, hc]
    rw [if_pos hcond]
    simp [Thread.exited, World.referExited, World.setObj, hh, hc]
  · have hcond : ¬ (((w.referExited self).objs self).m_refCount - 1 = 0 ∧
        ((w.referExited self).objs self).m_exited = true) := by
      simp [World.referExited, World.setObj, hc]
    rw [if_neg hcond]
    simp [World.referExited, World.setObj, hc]

/-- C14, as amended.  A legal `join()` (the object is neither the main object nor the
caller's own) on an object without a live handle returns whatever the wait would give,
so it waits on no handle: the record of calls gains no wait, only the `exited()` call
that returns at once when the reference count is 0.  The object keeps its reference
count, id, handle, priority and user data; its exited flag is false on return when the
reference count is 0 and true when a reference is held.  When the calling thread has a
registry entry, the registry, the main pointer and every other object are unchanged
(otherwise `getCurrent()` has registered the caller's new wrapper).  A second `join()`
changes nothing more. -/
theorem Thread.join_no_handle (b : Backend) (c : Caller) (res : Option WaitResult)
    (self : Nat) (w : World)
    (hnone : (w.objs self).m_handle = none)
    (hmain : w.s_mainThread ≠ some self)
    (hcur : Hash.search w.s_threads c.id ≠ some self) (hfresh : c.fresh ≠ self)
    (hopen : Hash.search w.s_threads c.id = none → c.handle ≠ none) :
    ∃ w1, Thread.join b c res self w = Res.ret () w1 ∧
      w1.objs self =
        { w.objs self with m_exited := decide ((w.objs self).m_refCount ≠ 0) } ∧
      w1.log = w.log ++ (if (w.objs self).m_refCount = 0 then [Event.exited self] else []) ∧
      (Hash.search w.s_threads c.id ≠ none →
        w1.s_threads = w.s_threads ∧ w1.s_mainThread = w.s_mainThread ∧
        ∀ o, o ≠ self → w1.objs o = w.objs o) ∧
      ∃ w2, Thread.join b c res self w1 = Res.ret () w2 ∧ World.same w2 w1 := by
  obtain ⟨curr, w0, hg, hm0, hc0, hobj, _, hlog, hsame⟩ :=
    Thread.getCurrent_legal b c self w hmain hcur hfresh hopen
  have hh0 : (w0.objs self).m_handle = none := by rw [hobj, hnone]
  obtain ⟨ho, ht, hm, hl⟩ := Thread.unrefer_referExited self w0 hh0
  rw [Thread.join_eq b c res self w curr w0 hg, if_neg hm0, if_neg hc0,
    Thread.joinBody_none b res self w0 hh0]
  refine ⟨_, rfl, ?_, ?_, ?_, ?_⟩
  · rw [ho, hobj]
    simp
  · rw [hl, hobj, hlog]
  · intro hreg
    have := hsame hreg
    subst this
    refine ⟨ht, hm, fun o hne => ?_⟩
    rw [ho]
    simp [Function.update, hne]
  · -- the second call: the caller is registered now, and the object still has no handle
    have hreg1 : Hash.search (Thread.unrefer self (w0.referExited self)).s_threads c.id
        = some curr := by
      rw [ht]
      exact Thread.getCurrent_registered b c w curr w0 hg
    have hg1 := Thread.getCurrent_found b c _ curr hreg1
    have hh1 : ((Thread.unrefer self (w0.referExited self)).objs self).m_handle = none := by
      rw [ho]
      simp [hh0]
    obtain ⟨ho1, ht1, hm1, _⟩ := Thread.unrefer_referExited self _ hh1
    rw [Thread.join_eq b c res self _ curr _ hg1, hm, if_neg hm0, if_neg hc0,
      Thread.joinBody_none b res self _ hh1]
    refine ⟨_, rfl, ?_, ht1, hm1⟩
    rw [ho1, ho]
    funext o
    by_cases hos : o = self
    · subst hos
      simp
    · simp [Function.update, hos]

/-- Witness of C14: a thread that is registered joins an object that was never
started. -/
theorem Thread.join_no_handle_witness :
    ∃ w1, Thread.join Backend.qt ⟨1, 60, some 9⟩ none 100
        ⟨fun o => if o = 100 then ⟨0, false, 0, none, 0, []⟩ else ⟨0, false, 1, some 2, 0, []⟩,
          [(1, 50)], some 50, []⟩ = Res.ret () w1 ∧
      w1.s_threads = [(1, 50)] ∧ w1.s_mainThread = some 50 :=
  (Thread.join_no_handle Backend.qt ⟨1, 60, some 9⟩ none 100
    ⟨fun o => if o = 100 then ⟨0, false, 0, none, 0, []⟩ else ⟨0, false, 1, some 2, 0, []⟩,
      [(1, 50)], some 50, []⟩
    rfl (by decide) (by decide) (by decide) (by decide)).imp
    fun _ h => ⟨h.1, (h.2.2.2.1 (by decide)).1, (h.2.2.2.1 (by decide)).2.1⟩

/-- C14 as stated fails.  On an empty registry the thread with id 1, which has no
wrapper yet, joins the never-started object at 100: `join()` returns, and the registry
has gained the entry of the caller's new wrapper, which is also the main object now.
And on an object without handle on which another thread holds a reference, `join()`
returns with the exited flag set, which was clear before. -/
theorem Thread.join_no_handle_changes :
    ((World.objs ⟨fun _ => ⟨0, false, 0, none, 0, []⟩, [], none, []⟩ 100).m_handle = none ∧
      Res.returned (Thread.join Backend.win32 ⟨1, 50, some 9⟩ none 100
        ⟨fun _ => ⟨0, false, 0, none, 0, []⟩, [], none, []⟩) = true ∧
      (Res.state (Thread.join Backend.win32 ⟨1, 50, some 9⟩ none 100
        ⟨fun _ => ⟨0, false, 0, none, 0, []⟩, [], none, []⟩)).s_threads = [(1, 50)] ∧
      (Res.state (Thread.join Backend.win32 ⟨1, 50, some 9⟩ none 100
        ⟨fun _ => ⟨0, false, 0, none, 0, []⟩, [], none, []⟩)).s_mainThread = some 50) ∧
    ((World.objs ⟨fun o => if o = 100 then ⟨1, false, 0, none, 0, []⟩
        else ⟨0, false, 1, some 2, 0, []⟩, [(1, 50)], some 50, []⟩ 100).m_exited = false ∧
      Res.returned (Thread.join Backend.win32 ⟨1, 60, some 9⟩ none 100
        ⟨fun o => if o = 100 then ⟨1, false, 0, none, 0, []⟩
          else ⟨0, false, 1, some 2, 0, []⟩, [(1, 50)], some 50, []⟩) = true ∧
      ((Res.state (Thread.join Backend.win32 ⟨1, 60, some 9⟩ none 100
        ⟨fun o => if o = 100 then ⟨1, false, 0, none, 0, []⟩
          else ⟨0, false, 1, some 2, 0, []⟩, [(1, 50)], some 50, []⟩)).objs 100).m_exited
        = true) := by
  decide

/-- C16. `getCurrent()` returns the registry entry of the calling thread's id when
there is one, and leaves the state as it is.  Otherwise, the platform giving a handle,
it constructs a wrapper at the address `new` returns (reference count 0, the caller's
id, the handle, normal priority, no user data), registers it under the caller's id,
leaves the entries of all other ids alone, and returns it.  Hence whenever
`getCurrent()` returns, the registry maps the caller's id to the object returned, and
the next `getCurrent()` of the same thread returns the same object and changes
nothing. -/
theorem Thread.getCurrent_spec (b : Backend) (c : Caller) (w : World) :
    (∀ thread, Hash.search w.s_threads c.id = some thread →
      Thread.getCurrent b c w = Res.ret thread w) ∧
    (Hash.search w.s_threads c.id = none → ∀ handle, c.handle = some handle →
      ∃ w1, Thread.getCurrent b c w = Res.ret c.fresh w1 ∧
        w1.objs c.fresh = { w.objs c.fresh with
          m_refCount := 0, m_id := c.id, m_handle := some handle,
          m_priority := Priority_Normal, m_userData := [] } ∧
        Hash.search w1.s_threads c.id = some c.fresh ∧
        ∀ k, k ≠ c.id → Hash.search w1.s_threads k = Hash.search w.s_threads k) ∧
    (∀ curr w1, Thread.getCurrent b c w = Res.ret curr w1 →
      Hash.search w1.s_threads c.id = some curr ∧
      ∀ c2 : Caller, c2.id = c.id → Thread.getCurrent b c2 w1 = Res.ret curr w1) := by
  refine ⟨fun thread h => Thread.getCurrent_found b c w thread h, ?_, ?_⟩
  · intro hs handle hh
    refine ⟨_, Thread.getCurrent_fresh b c w handle hs hh, by simp [World.wrap], ?_, ?_⟩
    · simp [World.wrap, Hash.search_add, hs]
    · intro k hk
      have hk2 : ¬ c.id = k := fun h => hk h.symm
      simp only [World.wrap, Hash.search_add, hk2, if_false]
      cases Hash.search w.s_threads k <;> rfl
  · intro curr w1 h
    have hreg := Thread.getCurrent_registered b c w curr w1 h
    refine ⟨hreg, fun c2 hc2 => Thread.getCurrent_found b c2 w1 curr ?_⟩
    rw [hc2]
    exact hreg

/-- Witness of C16: the thread with id 7 has no wrapper; `getCurrent()` constructs one
at address 60 and registers it beside the entry of id 1. -/
theorem Thread.getCurrent_spec_witness :
    ∃ w1, Thread.getCurrent Backend.win32 ⟨7, 60, some 9⟩
        ⟨fun _ => ⟨0, false, 1, some 2, 0, []⟩, [(1, 50)], some 50, []⟩ = Res.ret 60 w1 ∧
      Hash.search w1.s_threads 7 = some 60 :=
  ((Thread.getCurrent_spec Backend.win32 ⟨7, 60, some 9⟩
    ⟨fun _ => ⟨0, false, 1, some 2, 0, []⟩, [(1, 50)], some 50, []⟩).2.1 rfl 9 rfl).imp
    fun _ h => ⟨h.1, h.2.2.1⟩

/-! ## Thread: the main-thread designation -/

theorem World.regStep_main (b : Backend) (a : Nat) (op : RegOp) (w w1 : World)
    (hmain : w.s_mainThread = some a) (hop : op.spares a = true)
    (hstep : w.regStep b op = some w1) : w1.s_mainThread = some a := by
  cases op with
  | started c obj =>
    simp only [World.regStep] at hstep
    cases hh : c.handle with
    | none =>
      cases b <;> simp [Thread.started, hh] at hstep
    | some handle =>
      rw [Thread.started_eq b c obj w handle hh] at hstep
      injection hstep with hstep
      subst hstep
      simp [hmain]
  | getCurrent c =>
    simp only [World.regStep] at hstep
    cases hg : Thread.getCurrent b c w with
    | ret curr w2 =>
      rw [hg] at hstep
      injection hstep with hstep
      subst hstep
      rcases Thread.getCurrent_cases b c w curr w2 hg with ⟨_, rfl⟩ | ⟨_, _, handle, _, rfl⟩
      · exact hmain
      · simp [World.wrap, hmain]
    | blocks _ => rw [hg] at hstep; simp at hstep
    | fatal _ => rw [hg] at hstep; simp at hstep
  | exited obj =>
    have hne : obj ≠ a := by simpa [RegOp.spares] using hop
    simp only [World.regStep] at hstep
    injection hstep with hstep
    subst hstep
    have : ¬ (some a = some obj) := fun h => hne (Option.some.inj h).symm
    unfold Thread.exited
    cases hh : (w.objs obj).m_handle with
    | none => simp [hh, hmain]
    | some handle => simp [hh, hmain, this]

theorem World.regRun_main (b : Backend) (a : Nat) (ops : List RegOp) (w w1 : World)
    (hmain : w.s_mainThread = some a) (hops : ops.all (RegOp.spares a) = true)
    (hrun : World.regRun b ops w = some w1) : w1.s_mainThread = some a := by
  induction ops generalizing w with
  | nil =>
    simp only [World.regRun] at hrun
    injection hrun with hrun
    rw [← hrun]
    exact hmain
  | cons op rest ih =>
    simp only [List.all_cons, Bool.and_eq_true] at hops
    simp only [World.regRun] at hrun
    cases hstep : w.regStep b op with
    | none => rw [hstep] at hrun; simp at hrun
    | some w2 =>
      rw [hstep] at hrun
      exact ih w2 (World.regStep_main b a op w w2 hmain hops.1 hstep) hops.2 hrun

/-- C17. From an empty registry with no main recorded, the first object `a` that
executes `started()` becomes the main object and is registered under its thread's id.
After any later operations on the registry that return and are not run on `a` itself
(`started()` of other objects, lookups that construct wrappers, cleanups of other
objects), the main pointer is still `a`; `getMain()` returns `a`, and `isMain()`
returns true exactly when the registry entry of the calling thread is `a`. -/
theorem Thread.main_designation (b : Backend) (ca : Caller) (a : Nat) (w0 w1 w : World)
    (ops : List RegOp)
    (hempty : w0.s_threads = []) (hnomain : w0.s_mainThread = none)
    (hfirst : Thread.started b ca a w0 = Res.ret () w1)
    (hops : ops.all (RegOp.spares a) = true)
    (hrun : World.regRun b ops w1 = some w) :
    w1.s_mainThread = some a ∧ w1.s_threads = [(ca.id, a)] ∧
    w.s_mainThread = some a ∧
    ∀ c : Caller, c.fresh ≠ a → (Hash.search w.s_threads c.id = none → c.handle ≠ none) →
      ∃ w2, Thread.getMain b c w = Res.ret (some a) w2 ∧
        Thread.isMain b c w =
          Res.ret (decide (Hash.search w.s_threads c.id = some a)) w2 := by
  have h1 : w1.s_mainThread = some a ∧ w1.s_threads = [(ca.id, a)] := by
    cases hh : ca.handle with
    | none => cases b <;> simp [Thread.started, hh] at hfirst
    | some handle =>
      rw [Thread.started_eq b ca a w0 handle hh] at hfirst
      injection hfirst with _ hfirst
      subst hfirst
      simp [hnomain, hempty, Hash.contains, Hash.add]
  have hmain := World.regRun_main b a ops w1 w h1.1 hops hrun
  refine ⟨h1.1, h1.2, hmain, ?_⟩
  intro c hfresh hopen
  cases hs : Hash.search w.s_threads c.id with
  | some thread =>
    have hg := Thread.getCurrent_found b c w thread hs
    refine ⟨w, by simp [Thread.getMain, hg, Res.bind, hmain], ?_⟩
    simp only [Thread.isMain, hg, Res.bind, hmain]
  | none =>
    obtain ⟨handle, hh⟩ := Option.ne_none_iff_exists'.1 (hopen hs)
    have hg := Thread.getCurrent_fresh b c w handle hs hh
    have hm : (World.wrap c handle w).s_mainThread = some a := by
      simp [World.wrap, hmain]
    refine ⟨World.wrap c handle w, by simp [Thread.getMain, hg, Res.bind, hm], ?_⟩
    have : ¬ (c.fresh = a) := hfresh
    simp [Thread.isMain, hg, Res.bind, hm, this]

/-- Witness of C17: the thread 1 starts the object 50, the thread 7 the object 70, and
the thread 9 looks itself up; 50 stays main, and `isMain()` is true in the thread 1. -/
theorem Thread.main_designation_witness :
    ∃ w2, Thread.getMain Backend.qt ⟨1, 90, some 2⟩
        ((World.regRun Backend.qt [RegOp.started ⟨7, 0, some 3⟩ 70,
          RegOp.getCurrent ⟨9, 80, some 4⟩]
          ((Thread.started Backend.qt ⟨1, 0, some 2⟩ 50
            ⟨fun _ => ⟨0, false, 0, none, 0, []⟩, [], none, []⟩).state)).getD
          ⟨fun _ => ⟨0, false, 0, none, 0, []⟩, [], none, []⟩) = Res.ret (some 50) w2 ∧
      Thread.isMain Backend.qt ⟨1, 90, some 2⟩
        ((World.regRun Backend.qt [RegOp.started ⟨7, 0, some 3⟩ 70,
          RegOp.getCurrent ⟨9, 80, some 4⟩]
          ((Thread.started Backend.qt ⟨1, 0, some 2⟩ 50
            ⟨fun _ => ⟨0, false, 0, none, 0, []⟩, [], none, []⟩).state)).getD
          ⟨fun _ => ⟨0, false, 0, none, 0, []⟩, [], none, []⟩) =
        Res.ret (decide (Hash.search (World.s_threads
          ((World.regRun Backend.qt [RegOp.started ⟨7, 0, some 3⟩ 70,
            RegOp.getCurrent ⟨9, 80, some 4⟩]
            ((Thread.started Backend.qt ⟨1, 0, some 2⟩ 50
              ⟨fun _ => ⟨0, false, 0, none, 0, []⟩, [], none, []⟩).state)).getD
            ⟨fun _ => ⟨0, false, 0, none, 0, []⟩, [], none, []⟩)) 1 = some 50)) w2 :=
  (Thread.main_designation Backend.qt ⟨1, 0, some 2⟩ 50
    ⟨fun _ => ⟨0, false, 0, none, 0, []⟩, [], none, []⟩ _ _
    [RegOp.started ⟨7, 0, some 3⟩ 70, RegOp.getCurrent ⟨9, 80, some 4⟩]
    rfl rfl rfl (by decide) rfl).2.2.2 ⟨1, 90, some 2⟩ (by decide) (by decide)

/-! ## Thread: user data -/

theorem Hash.assign_cons {K V : Type} [DecidableEq K] (e : K × V) (rest : Hash K V)
    (key : K) (v : V) :
    Hash.assign (e :: rest) key v =
      if e.1 = key then (e.1, v) :: rest else e :: Hash.assign rest key v := rfl

theorem Hash.search_assign {K V : Type} [DecidableEq K] (h : Hash K V) (key k : K) (v : V) :
    Hash.search (Hash.assign h key v) k =
      if k = key then (Hash.search h key).map (fun _ => v) else Hash.search h k := by
  induction h with
  | nil => simp [Hash.assign, Hash.search]
  | cons e rest ih =>
    rw [Hash.assign_cons]
    by_cases he : e.1 = key
    · rw [if_pos he, Hash.search_cons, Hash.search_cons, Hash.search_cons]
      by_cases hk : k = key
      · subst hk
        simp [he]
      · have : ¬ e.1 = k := fun h => hk (h.symm.trans he)
        simp [hk, this]
    · rw [if_neg he, Hash.search_cons, Hash.search_cons, Hash.search_cons, ih]
      by_cases hk : k = key
      · subst hk
        simp [he]
      · simp [hk]

/-- The user-data map that `setUserData(id, data, deinitFunc)` leaves. -/
theorem Thread.setUserData_map (self : Nat) (id : String) (data deinitFunc : Option Nat)
    (w : World) :
    ((Thread.setUserData self id data deinitFunc w).objs self).m_userData =
      match Hash.search (w.objs self).m_userData id with
      | some _ =>
        if data.isSome || deinitFunc.isSome then
          Hash.assign (w.objs self).m_userData id ⟨data, deinitFunc⟩
        else Hash.remove (Hash.assign (w.objs self).m_userData id ⟨data, deinitFunc⟩) id
      | none =>
        if data.isSome || deinitFunc.isSome then
          Hash.add (w.objs self).m_userData id ⟨data, deinitFunc⟩
        else (w.objs self).m_userData := by
  unfold Thread.setUserData
  cases hs : Hash.search (w.objs self).m_userData id with
  | none =>
    cases data <;> cases deinitFunc <;> simp [World.setObj]
  | some old =>
    cases data <;> cases deinitFunc <;> cases hf : old.deinitFunc <;>
      simp [World.setObj, World.record, hf]

/-- The record of calls that `setUserData(id, data, deinitFunc)` leaves. -/
theorem Thread.setUserData_log (self : Nat) (id : String) (data deinitFunc : Option Nat)
    (w : World) :
    (Thread.setUserData self id data deinitFunc w).log =
      w.log ++ match Hash.search (w.objs self).m_userData id with
        | some old =>
          (match old.deinitFunc with
            | some f => [Event.deinit f old.data]
            | none => [])
        | none => [] := by
  unfold Thread.setUserData
  cases hs : Hash.search (w.objs self).m_userData id with
  | none => simp [World.setObj]
  | some old =>
    cases hf : old.deinitFunc <;> simp [World.setObj, World.record, hf]

/-- C18. The user-data round trip: after `setUserData(id, data, deinitFunc)`, whatever
the state of the object and whether or not `data` or `deinitFunc` is `NULL`,
`getUserData(id)` returns `data`, and `getUserData(k)` returns what it returned before
for every key `k` other than `id`. -/
theorem Thread.userData_roundtrip (self : Nat) (id : String) (data deinitFunc : Option Nat)
    (w : World) :
    Thread.getUserData self id (Thread.setUserData self id data deinitFunc w) = data ∧
    ∀ k, k ≠ id →
      Thread.getUserData self k (Thread.setUserData self id data deinitFunc w) =
        Thread.getUserData self k w := by
  constructor
  · unfold Thread.getUserData
    rw [Thread.setUserData_map]
    cases hs : Hash.search (w.objs self).m_userData id with
    | none =>
      by_cases hn : (data.isSome || deinitFunc.isSome) = true
      · simp [hn, Hash.search_add, hs]
      · have hd : data = none ∧ deinitFunc = none := by
          cases data <;> cases deinitFunc <;> simp_all
        simp [hs, hd.1, hd.2]
    | some old =>
      by_cases hn : (data.isSome || deinitFunc.isSome) = true
      · simp [hn, Hash.search_assign, hs]
      · have hd : data = none ∧ deinitFunc = none := by
          cases data <;> cases deinitFunc <;> simp_all
        simp [Hash.search_remove, hd.1, hd.2]
  · intro k hk
    unfold Thread.getUserData
    rw [Thread.setUserData_map]
    have hki : ¬ id = k := fun h => hk h.symm
    cases hs : Hash.search (w.objs self).m_userData id with
    | none =>
      by_cases hn : (data.isSome || deinitFunc.isSome) = true
      · simp only [hn, if_true, Hash.search_add, hki, if_false]
        cases Hash.search (w.objs self).m_userData k <;> rfl
      · simp [hn]
    | some old =>
      by_cases hn : (data.isSome || deinitFunc.isSome) = true
      · simp [hn, Hash.search_assign, hk]
      · simp [hn, Hash.search_remove_ne _ _ _ hk, Hash.search_assign, hk]

/-- Witness of C18: the key "b" is rewritten with a `NULL` callback; "a" keeps its
data. -/
theorem Thread.userData_roundtrip_witness :
    Thread.getUserData 100 "b" (Thread.setUserData 100 "b" (some 5) none
      ⟨fun _ => ⟨0, false, 0, none, 0, [("a", ⟨some 1, some 2⟩), ("b", ⟨some 3, some 4⟩)]⟩,
        [], none, []⟩) = some 5 ∧
    Thread.getUserData 100 "a" (Thread.setUserData 100 "b" (some 5) none
      ⟨fun _ => ⟨0, false, 0, none, 0, [("a", ⟨some 1, some 2⟩), ("b", ⟨some 3, some 4⟩)]⟩,
        [], none, []⟩) = some 1 :=
  ⟨(Thread.userData_roundtrip 100 "b" (some 5) none
      ⟨fun _ => ⟨0, false, 0, none, 0, [("a", ⟨some 1, some 2⟩), ("b", ⟨some 3, some 4⟩)]⟩,
        [], none, []⟩).1,
    by decide⟩

/-- C19. When the key `id` holds the pair `old`, `setUserData(id, NULL, NULL)` removes
the slot of `id`, and every `setUserData(id, data, deinitFunc)` makes exactly the call
`old.deinitFunc(old.data)` when `old.deinitFunc` is not `NULL` and no call when it is
`NULL`; the new callback is not part of what is called.  When `id` has no slot,
`setUserData` calls nothing. -/
theorem Thread.setUserData_deinit (self : Nat) (id : String) (data deinitFunc : Option Nat)
    (w : World) :
    (∀ old, Hash.search (w.objs self).m_userData id = some old →
      Hash.contains ((Thread.setUserData self id none none w).objs self).m_userData id
        = false ∧
      (∀ f, old.deinitFunc = some f →
        (Thread.setUserData self id data deinitFunc w).log =
          w.log ++ [Event.deinit f old.data]) ∧
      (old.deinitFunc = none →
        (Thread.setUserData self id data deinitFunc w).log = w.log)) ∧
    (Hash.search (w.objs self).m_userData id = none →
      (Thread.setUserData self id data deinitFunc w).log = w.log) := by
  refine ⟨fun old hs => ⟨?_, ?_, ?_⟩, ?_⟩
  · rw [Thread.setUserData_map, hs]
    simp [Hash.contains_remove]
  · intro f hf
    rw [Thread.setUserData_log, hs]
    simp [hf]
  · intro hf
    rw [Thread.setUserData_log, hs]
    simp [hf]
  · intro hs
    rw [Thread.setUserData_log, hs]
    simp

/-- Witness of C19: the slot of "b" holds data 3 with the callback 4; replacing it
calls 4 on 3, and not the new callback 6. -/
theorem Thread.setUserData_deinit_witness :
    (Thread.setUserData 100 "b" (some 5) (some 6)
      ⟨fun _ => ⟨0, false, 0, none, 0, [("a", ⟨some 1, some 2⟩), ("b", ⟨some 3, some 4⟩)]⟩,
        [], none, []⟩).log = [] ++ [Event.deinit 4 (some 3)] :=
  ((Thread.setUserData_deinit 100 "b" (some 5) (some 6)
    ⟨fun _ => ⟨0, false, 0, none, 0, [("a", ⟨some 1, some 2⟩), ("b", ⟨some 3, some 4⟩)]⟩,
      [], none, []⟩).1 ⟨some 3, some 4⟩ rfl).2.1 4 rfl

/-! ## Thread: the destructor and the user data -/

theorem Hash.count_add {K V : Type} [DecidableEq V] (h : Hash K V) (key : K) (v u : V) :
    ((Hash.add h key v).map Prod.snd).count u =
      (h.map Prod.snd).count u + (if v = u then 1 else 0) := by
  simp [Hash.add, List.count_append, List.count_singleton]

theorem Hash.count_assign {K V : Type} [DecidableEq K] [DecidableEq V] (h : Hash K V)
    (key : K) (v u old : V) (hs : Hash.search h key = some old) :
    ((Hash.assign h key v).map Prod.snd).count u + (if old = u then 1 else 0) =
      (h.map Prod.snd).count u + (if v = u then 1 else 0) := by
  induction h with
  | nil => simp [Hash.search] at hs
  | cons e rest ih =>
    rw [Hash.search_cons] at hs
    rw [Hash.assign_cons]
    by_cases he : e.1 = key
    · rw [if_pos he] at hs
      injection hs with hs
      rw [if_pos he]
      simp only [List.map_cons, List.count_cons, hs, beq_iff_eq]
      omega
    · rw [if_neg he] at hs
      rw [if_neg he]
      have := ih hs
      simp only [List.map_cons, List.count_cons]
      omega

theorem Hash.keys_assign {K V : Type} [DecidableEq K] (h : Hash K V) (key : K) (v : V) :
    (Hash.assign h key v).map Prod.fst = h.map Prod.fst := by
  induction h with
  | nil => rfl
  | cons e rest ih =>
    rw [Hash.assign_cons]
    by_cases he : e.1 = key
    · rw [if_pos he]
      rfl
    · rw [if_neg he, List.map_cons, ih]
      rfl

theorem Hash.not_mem_keys {K V : Type} [DecidableEq K] (h : Hash K V) (key : K)
    (hs : Hash.search h key = none) : key ∉ h.map Prod.fst := by
  induction h with
  | nil => simp
  | cons e rest ih =>
    rw [Hash.search_cons] at hs
    by_cases he : e.1 = key
    · rw [if_pos he] at hs
      simp at hs
    · rw [if_neg he] at hs
      simp only [List.map_cons, List.mem_cons, not_or]
      exact ⟨fun h => he h.symm, ih hs⟩

theorem Hash.remove_of_not_mem {K V : Type} [DecidableEq K] (h : Hash K V) (key : K)
    (hk : key ∉ h.map Prod.fst) : Hash.remove h key = h := by
  induction h with
  | nil => rfl
  | cons e rest ih =>
    simp only [List.map_cons, List.mem_cons, not_or] at hk
    have he : ¬ e.1 = key := fun h => hk.1 h.symm
    rw [Hash.remove_cons, if_neg he, ih hk.2]

theorem Hash.count_remove {K V : Type} [DecidableEq K] [DecidableEq V] (h : Hash K V)
    (key : K) (u old : V) (hnd : (h.map Prod.fst).Nodup)
    (hs : Hash.search h key = some old) :
    ((Hash.remove h key).map Prod.snd).count u + (if old = u then 1 else 0) =
      (h.map Prod.snd).count u := by
  induction h with
  | nil => simp [Hash.search] at hs
  | cons e rest ih =>
    rw [Hash.search_cons] at hs
    rw [Hash.remove_cons]
    simp only [List.map_cons, List.nodup_cons] at hnd
    by_cases he : e.1 = key
    · rw [if_pos he] at hs
      injection hs with hs
      rw [if_pos he, Hash.remove_of_not_mem rest key (he ▸ hnd.1)]
      simp only [List.map_cons, List.count_cons, hs, beq_iff_eq]
    · rw [if_neg he] at hs
      rw [if_neg he]
      have := ih hnd.2 hs
      simp only [List.map_cons, List.count_cons]
      omega

theorem Hash.nodup_remove {K V : Type} [DecidableEq K] (h : Hash K V) (key : K)
    (hnd : (h.map Prod.fst).Nodup) : ((Hash.remove h key).map Prod.fst).Nodup := by
  have hsub : List.Sublist ((Hash.remove h key).map Prod.fst) (h.map Prod.fst) :=
    List.Sublist.map _ (List.filter_sublist _)
  exact List.Nodup.sublist hsub hnd

theorem Hash.nodup_add {K V : Type} [DecidableEq K] (h : Hash K V) (key : K) (v : V)
    (hnd : (h.map Prod.fst).Nodup) (hs : Hash.search h key = none) :
    ((Hash.add h key v).map Prod.fst).Nodup := by
  have hk := Hash.not_mem_keys h key hs
  simp only [Hash.add, List.map_append, List.map_cons, List.map_nil]
  rw [List.nodup_append]
  refine ⟨hnd, List.nodup_singleton _, ?_⟩
  intro a ha hb
  rw [List.mem_singleton] at hb
  exact hk (hb ▸ ha)

theorem Thread.setUserData_deinitCalls (self : Nat) (id : String)
    (data deinitFunc : Option Nat) (w : World) (f : Nat) (d : Option Nat) :
    (Thread.setUserData self id data deinitFunc w).deinitCalls f d =
      w.deinitCalls f d + match Hash.search (w.objs self).m_userData id with
        | some old => if old = ⟨d, some f⟩ then 1 else 0
        | none => 0 := by
  unfold World.deinitCalls
  rw [Thread.setUserData_log]
  cases hs : Hash.search (w.objs self).m_userData id with
  | none => simp
  | some old =>
    obtain ⟨od, ofn⟩ := old
    cases ofn with
    | none => simp
    | some g =>
      simp only [List.count_append, List.count_singleton, beq_iff_eq, Event.deinit.injEq,
        UserData.mk.injEq, Option.some.injEq]
      congr 1
      by_cases h1 : g = f <;> by_cases h2 : od = d <;> simp [h1, h2]

/-- One `setUserData` call keeps the keys of the map distinct, and every pair with a
callback that it stores is one more that is either in a slot or has been passed to its
callback. -/
theorem Thread.setUserData_inv (self : Nat) (s : SetCall) (w : World)
    (hnd : ((w.objs self).m_userData.map Prod.fst).Nodup) :
    (((Thread.setUserData self s.id s.data s.deinitFunc w).objs self).m_userData.map
      Prod.fst).Nodup ∧
    ∀ f d, (Thread.setUserData self s.id s.data s.deinitFunc w).deinitCalls f d +
        Thread.slotsWith self (Thread.setUserData self s.id s.data s.deinitFunc w) f d =
      w.deinitCalls f d + Thread.slotsWith self w f d +
        (if s.stores f d = true then 1 else 0) := by
  have hst : ∀ f d, (s.stores f d = true) ↔ (⟨s.data, s.deinitFunc⟩ : UserData) = ⟨d, some f⟩ := by
    intro f d
    simp only [SetCall.stores, decide_eq_true_eq, UserData.mk.injEq]
    exact And.comm
  cases hs : Hash.search (w.objs self).m_userData s.id with
  | none =>
    by_cases hn : (s.data.isSome || s.deinitFunc.isSome) = true
    · constructor
      · rw [Thread.setUserData_map, hs]
        simp only [hn, if_true]
        exact Hash.nodup_add _ _ _ hnd hs
      · intro f d
        rw [Thread.setUserData_deinitCalls, hs]
        unfold Thread.slotsWith
        rw [Thread.setUserData_map, hs]
        simp only [hn, if_true, Hash.count_add, hst]
        omega
    · constructor
      · rw [Thread.setUserData_map, hs]
        simpa [hn] using hnd
      · intro f d
        rw [Thread.setUserData_deinitCalls, hs]
        unfold Thread.slotsWith
        rw [Thread.setUserData_map, hs]
        have hno : ¬ (s.stores f d = true) := by
          rw [hst]
          intro h
          injection h with h1 h2
          rw [h2] at hn
          simp at hn
        simp [hn, hno]
  | some old =>
    by_cases hn : (s.data.isSome || s.deinitFunc.isSome) = true
    · constructor
      · rw [Thread.setUserData_map, hs]
        simp only [hn, if_true, Hash.keys_assign]
        exact hnd
      · intro f d
        rw [Thread.setUserData_deinitCalls, hs]
        unfold Thread.slotsWith
        rw [Thread.setUserData_map, hs]
        simp only [hn, if_true]
        have := Hash.count_assign (w.objs self).m_userData s.id ⟨s.data, s.deinitFunc⟩
          ⟨d, some f⟩ old hs
        simp only [hst]
        omega
    · constructor
      · rw [Thread.setUserData_map, hs]
        simp only [hn]
        apply Hash.nodup_remove
        rw [Hash.keys_assign]
        exact hnd
      · intro f d
        rw [Thread.setUserData_deinitCalls, hs]
        unfold Thread.slotsWith
        rw [Thread.setUserData_map, hs]
        simp only [hn]
        have h1 := Hash.count_assign (w.objs self).m_userData s.id ⟨s.data, s.deinitFunc⟩
          ⟨d, some f⟩ old hs
        have hs2 : Hash.search (Hash.assign (w.objs self).m_userData s.id
            ⟨s.data, s.deinitFunc⟩) s.id = some ⟨s.data, s.deinitFunc⟩ := by
          rw [Hash.search_assign, hs]
          simp
        have h2 := Hash.count_remove _ s.id ⟨d, some f⟩ _
          (by rw [Hash.keys_assign]; exact hnd) hs2
        have hne : ¬ ((⟨s.data, s.deinitFunc⟩ : UserData) = ⟨d, some f⟩) := by
          intro h
          injection h with h1 h2
          rw [h2] at hn
          simp at hn
        simp only [hst, hne, if_false] at h1 h2 ⊢
        simp only [Bool.false_eq_true, if_false]
        omega

theorem Thread.setAll_inv (self : Nat) (calls : List SetCall) (w : World)
    (hnd : ((w.objs self).m_userData.map Prod.fst).Nodup) :
    (((Thread.setAll self calls w).objs self).m_userData.map Prod.fst).Nodup ∧
    ∀ f d, (Thread.setAll self calls w).deinitCalls f d +
        Thread.slotsWith self (Thread.setAll self calls w) f d =
      w.deinitCalls f d + Thread.slotsWith self w f d +
        calls.countP (SetCall.stores f d) := by
  induction calls generalizing w with
  | nil => simpa [Thread.setAll] using hnd
  | cons s rest ih =>
    obtain ⟨h1, h2⟩ := Thread.setUserData_inv self s w hnd
    obtain ⟨h3, h4⟩ := ih (Thread.setUserData self s.id s.data s.deinitFunc w) h1
    have hcons : Thread.setAll self (s :: rest) w =
        Thread.setAll self rest (Thread.setUserData self s.id s.data s.deinitFunc w) := rfl
    rw [hcons]
    refine ⟨h3, fun f d => ?_⟩
    rw [h4 f d, h2 f d, List.countP_cons]
    omega

theorem Thread.exited_userData (self : Nat) (w : World) :
    ((Thread.exited self w).objs self).m_userData = (w.objs self).m_userData := by
  unfold Thread.exited
  cases hh : (w.objs self).m_handle <;> simp [hh]

theorem Thread.unrefer_userData (self : Nat) (w : World) :
    ((Thread.unrefer self w).objs self).m_userData = (w.objs self).m_userData := by
  rw [Thread.unrefer_eq]
  split_ifs
  · rw [Thread.exited_userData]
    simp [World.setObj]
  · simp [World.setObj]

/-- The part of `join()` after the assertions keeps the user data and calls no
callback. -/
theorem Thread.joinBody_userData (b : Backend) (res : Option WaitResult) (self : Nat)
    (w w2 : World) (h : Thread.joinBody b res self w = Res.ret () w2) :
    (w2.objs self).m_userData = (w.objs self).m_userData ∧
    ∀ f d, w2.deinitCalls f d = w.deinitCalls f d := by
  have hcount : ∀ f d, w2.deinitCalls f d = w.deinitCalls f d := by
    intro f d
    have := Thread.joinBody_count b res self w (Event.deinit f d) (by simp) (by simp)
      (by simp) (by simp)
    rw [h] at this
    exact this
  refine ⟨?_, hcount⟩
  cases hh : (w.objs self).m_handle with
  | none =>
    rw [Thread.joinBody_none b res self w hh] at h
    injection h with _ h
    rw [← h, Thread.unrefer_userData]
    simp [World.referExited, World.setObj]
  | some handle =>
    cases res with
    | none =>
      rw [Thread.joinBody_blocks b self w handle hh] at h
      simp at h
    | some r =>
      rw [Thread.joinBody_some b r self w handle hh] at h
      split_ifs at h
      injection h with _ h
      rw [← h, Thread.unrefer_userData]
      simp [World.referExited, World.setObj, World.record]

/-- The first block of the destructor keeps the user data and calls no callback. -/
theorem Thread.waitAndExit_userData (b : Backend) (c : Caller) (res : Option WaitResult)
    (hasError : Bool) (self : Nat) (w w2 : World) (hfresh : c.fresh ≠ self)
    (h : Thread.waitAndExit b c res hasError self w = Res.ret () w2) :
    (w2.objs self).m_userData = (w.objs self).m_userData ∧
    ∀ f d, w2.deinitCalls f d = w.deinitCalls f d := by
  unfold Thread.waitAndExit at h
  cases hg : Thread.getCurrent b c w with
  | blocks _ => rw [hg] at h; simp [Res.bind] at h
  | fatal _ => rw [hg] at h; simp [Res.bind] at h
  | ret curr w1 =>
    rw [hg] at h
    simp only [Res.bind] at h
    obtain ⟨hlog, hobjs⟩ := Thread.getCurrent_log b c w curr w1 hg
    have hobj : w1.objs self = w.objs self := hobjs self (fun h => hfresh h.symm)
    have hcalls : ∀ f d, w1.deinitCalls f d = w.deinitCalls f d := by
      intro f d
      simp [World.deinitCalls, hlog]
    by_cases hsc : self = curr
    · have hnn : ¬ (self ≠ curr) := fun h => h hsc
      rw [if_neg hnn] at h
      unfold failIfError at h
      cases hasError with
      | true => simp at h
      | false =>
        simp only [Bool.false_eq_true, if_false] at h
        injection h with _ h
        subst h
        refine ⟨?_, fun f d => ?_⟩
        · rw [Thread.unrefer_userData]
          simp [World.setObj, Thread.refer, hobj]
        · unfold World.deinitCalls
          rw [Thread.unrefer_count self _ _ (by simp) (by simp)]
          have := hcalls f d
          simpa [World.setObj, Thread.refer, World.deinitCalls] using this
    · rw [if_pos hsc] at h
      have hg1 : Thread.getCurrent b c w1 = Res.ret curr w1 :=
        Thread.getCurrent_found b c w1 curr (Thread.getCurrent_registered b c w curr w1 hg)
      rw [Thread.join_eq b c res self w1 curr w1 hg1] at h
      split_ifs at h
      obtain ⟨h1, h2⟩ := Thread.joinBody_userData b res self w1 w2 h
      exact ⟨by rw [h1, hobj], fun f d => by rw [h2, hcalls]⟩

theorem Thread.deinitUserData_fold (slots : Hash String UserData) (w : World) :
    (slots.foldl (fun w slot =>
      match slot.2.deinitFunc with
      | some f => w.record (Event.deinit f slot.2.data)
      | none => w) w).log = w.log ++ Thread.deinitEvents slots := by
  induction slots generalizing w with
  | nil => simp [Thread.deinitEvents]
  | cons e rest ih =>
    rw [List.foldl_cons, ih]
    cases hf : e.2.deinitFunc <;> simp [Thread.deinitEvents, List.filterMap_cons, hf, World.record]

theorem Thread.deinitUserData_log (self : Nat) (w : World) :
    (Thread.deinitUserData self w).log =
      w.log ++ Thread.deinitEvents (w.objs self).m_userData :=
  Thread.deinitUserData_fold _ w

theorem Thread.deinitEvents_count (slots : Hash String UserData) (f : Nat) (d : Option Nat) :
    (Thread.deinitEvents slots).count (Event.deinit f d) =
      (slots.map Prod.snd).count ⟨d, some f⟩ := by
  induction slots with
  | nil => rfl
  | cons e rest ih =>
    obtain ⟨k, ⟨ed, ef⟩⟩ := e
    cases ef with
    | none =>
      simp only [Thread.deinitEvents, List.filterMap_cons, Option.map_none', List.map_cons,
        List.count_cons] at ih ⊢
      simp [ih]
    | some g =>
      simp only [Thread.deinitEvents, List.filterMap_cons, Option.map_some', List.map_cons,
        List.count_cons] at ih ⊢
      rw [ih]
      congr 1
      by_cases h1 : g = f <;> by_cases h2 : ed = d <;> simp [h1, h2]

/-! ## Thread: the handshake of `start` in every interleaving -/

theorem StartSys.trace_append (env : StartEnv) (tr1 tr2 : List StartLabel) (s : StartSys) :
    StartSys.run env (tr1 ++ tr2) s =
      (StartSys.run env tr1 s).bind (StartSys.run env tr2) := by
  induction tr1 generalizing s with
  | nil => rfl
  | cons lab rest ih =>
    simp only [List.cons_append, StartSys.run]
    cases StartSys.next env lab s with
    | none => rfl
    | some s1 => exact ih s1

theorem StartSys.trace_split (env : StartEnv) (tr1 tr2 : List StartLabel) (s s2 : StartSys)
    (h : StartSys.run env (tr1 ++ tr2) s = some s2) :
    ∃ s1, StartSys.run env tr1 s = some s1 ∧ StartSys.run env tr2 s1 = some s2 := by
  rw [StartSys.trace_append] at h
  cases h1 : StartSys.run env tr1 s with
  | none => rw [h1] at h; simp at h
  | some s1 =>
    rw [h1] at h
    exact ⟨s1, rfl, h⟩

theorem StartSys.trace_single (env : StartEnv) (lab : StartLabel) (s : StartSys) :
    StartSys.run env [lab] s = StartSys.next env lab s := by
  simp only [StartSys.run]
  cases StartSys.next env lab s <;> rfl

theorem StartSys.trace_cons (env : StartEnv) (lab : StartLabel) (tr : List StartLabel)
    (s s2 : StartSys) (h : StartSys.run env (lab :: tr) s = some s2) :
    ∃ s1, StartSys.next env lab s = some s1 ∧ StartSys.run env tr s1 = some s2 := by
  simp only [StartSys.run] at h
  cases h1 : StartSys.next env lab s with
  | none => rw [h1] at h; simp at h
  | some s1 =>
    rw [h1] at h
    exact ⟨s1, rfl, h⟩

theorem StartSys.trace_induction (env : StartEnv) (P : List StartLabel → StartSys → Prop)
    (s0 : StartSys) (h0 : P [] s0)
    (hstep : ∀ tr s lab s1, StartSys.run env tr s0 = some s → P tr s →
      StartSys.next env lab s = some s1 → P (tr ++ [lab]) s1)
    (tr : List StartLabel) (s : StartSys) (h : StartSys.run env tr s0 = some s) : P tr s := by
  induction tr using List.reverseRecOn generalizing s with
  | nil =>
    simp only [StartSys.run] at h
    injection h with h
    rw [← h]
    exact h0
  | append_singleton tr lab ih =>
    obtain ⟨s1, h1, h2⟩ := StartSys.trace_split env tr [lab] s0 s h
    rw [StartSys.trace_single] at h2
    exact hstep tr s1 lab s h1 (ih s1 h1) h2

/-- After a fatal error no transition is enabled. -/
theorem StartSys.trace_ended (env : StartEnv) (tr : List StartLabel) (s s1 : StartSys)
    (he : s.ended = true) (h : StartSys.run env tr s = some s1) : tr = [] ∧ s1 = s := by
  cases tr with
  | nil =>
    simp only [StartSys.run] at h
    injection h with h
    exact ⟨rfl, h.symm⟩
  | cons lab rest =>
    obtain ⟨s2, h2, _⟩ := StartSys.trace_cons env lab rest s s1 h
    simp [StartSys.next, he] at h2

theorem Semaphore.new_ready (b : Backend) : Semaphore.new b 1 1 = Res.ret ⟨1, 1⟩ () := by
  cases b <;> rfl

theorem Semaphore.acquire_ready (b : Backend) :
    Semaphore.acquire b ⟨1, 1⟩ (-1) none = Res.ret true ⟨0, 1⟩ := by
  cases b <;> rfl

theorem Semaphore.acquire_drained (b : Backend) :
    Semaphore.acquire b ⟨0, 1⟩ (-1) none = Res.blocks ⟨0, 1⟩ := by
  cases b <;> rfl

theorem Semaphore.release_drained (b : Backend) :
    Semaphore.release b ⟨0, 1⟩ = Res.ret () ⟨1, 1⟩ := by
  cases b <;> rfl

theorem StartSys.filter_snoc_key (tr : List StartLabel) (lab : StartLabel) (n : Nat)
    (hk : tr.filter StartLabel.isKey = StartSys.handshake.take n)
    (hlab : StartSys.handshake.take (n + 1) = StartSys.handshake.take n ++ [lab])
    (hkey : lab.isKey = true) :
    (tr ++ [lab]).filter StartLabel.isKey = StartSys.handshake.take (n + 1) := by
  rw [List.filter_append, hk, hlab]
  simp [List.filter_cons, hkey]

theorem StartSys.filter_snoc_other (tr : List StartLabel) (lab : StartLabel) (n : Nat)
    (hk : tr.filter StartLabel.isKey = StartSys.handshake.take n)
    (hkey : lab.isKey = false) :
    (tr ++ [lab]).filter StartLabel.isKey = StartSys.handshake.take n := by
  rw [List.filter_append, hk]
  simp [List.filter_cons, hkey]

theorem StartSys.progress_caller (cpc : StartPC) (ch : Option ProcPC) (n : Nat)
    (r : Option Semaphore) (h : StartSys.progress cpc ch = some (n, r)) :
    (cpc = StartPC.lock ∧ ch = none ∧ n = 0 ∧ r = none) ∨
    (cpc = StartPC.join ∧ ch = none ∧ n = 0 ∧ r = none) ∨
    (cpc = StartPC.params ∧ ch = none ∧ n = 0 ∧ r = none) ∨
    (cpc = StartPC.acquire1 ∧ ch = none ∧ n = 0 ∧ r = some ⟨1, 1⟩) ∨
    (cpc = StartPC.spawn ∧ ch = none ∧ n = 1 ∧ r = some ⟨0, 1⟩) ∨
    (cpc = StartPC.acquire2 ∧ ch = none ∧ n = 2 ∧ r = some ⟨0, 1⟩) ∨
    (cpc = StartPC.acquire2 ∧ ch = some ProcPC.started ∧ n = 2 ∧ r = some ⟨0, 1⟩) ∨
    (cpc = StartPC.acquire2 ∧ ch = some ProcPC.setPriority ∧ n = 3 ∧ r = some ⟨0, 1⟩) ∨
    (cpc = StartPC.acquire2 ∧ ch = some ProcPC.release ∧ n = 4 ∧ r = some ⟨0, 1⟩) ∨
    (cpc = StartPC.acquire2 ∧ ch = some ProcPC.userFunc ∧ n = 5 ∧ r = some ⟨1, 1⟩) ∨
    (cpc = StartPC.unlock ∧ ch = some ProcPC.userFunc ∧ n = 6 ∧ r = some ⟨0, 1⟩) ∨
    (cpc = StartPC.ret ∧ ch = some ProcPC.userFunc ∧ n = 6 ∧ r = some ⟨0, 1⟩) ∨
    (cpc = StartPC.done ∧ ch = some ProcPC.userFunc ∧ n = 7 ∧ r = some ⟨0, 1⟩) := by
  cases cpc <;> cases ch with
  | none =>
    first
      | (exfalso; simp [StartSys.progress] at h; done)
      | (simp only [StartSys.progress, Option.some.injEq, Prod.mk.injEq] at h
         obtain ⟨rfl, rfl⟩ := h
         simp)
  | some p =>
    cases p <;> first
      | (exfalso; simp [StartSys.progress] at h; done)
      | (simp only [StartSys.progress, Option.some.injEq, Prod.mk.injEq] at h
         obtain ⟨rfl, rfl⟩ := h
         simp)

theorem StartSys.progress_started (cpc : StartPC) (n : Nat) (r : Option Semaphore)
    (h : StartSys.progress cpc (some ProcPC.started) = some (n, r)) :
    cpc = StartPC.acquire2 ∧ n = 2 ∧ r = some ⟨0, 1⟩ := by
  cases cpc <;> simp [StartSys.progress] at h
  exact ⟨rfl, h.1.symm, h.2.symm⟩

theorem StartSys.progress_setPriority (cpc : StartPC) (n : Nat) (r : Option Semaphore)
    (h : StartSys.progress cpc (some ProcPC.setPriority) = some (n, r)) :
    cpc = StartPC.acquire2 ∧ n = 3 ∧ r = some ⟨0, 1⟩ := by
  cases cpc <;> simp [StartSys.progress] at h
  exact ⟨rfl, h.1.symm, h.2.symm⟩

theorem StartSys.progress_release (cpc : StartPC) (n : Nat) (r : Option Semaphore)
    (h : StartSys.progress cpc (some ProcPC.release) = some (n, r)) :
    cpc = StartPC.acquire2 ∧ n = 4 ∧ r = some ⟨0, 1⟩ := by
  cases cpc <;> simp [StartSys.progress] at h
  exact ⟨rfl, h.1.symm, h.2.symm⟩

theorem StartSys.progress_done (ch : Option ProcPC) (n : Nat) (r : Option Semaphore)
    (h : StartSys.progress StartPC.done ch = some (n, r)) : n = 7 := by
  cases ch with
  | none => simp [StartSys.progress] at h
  | some p =>
    cases p <;> simp [StartSys.progress] at h
    exact h.1.symm

theorem StartSys.progress_acquire1 (ch : Option ProcPC) (n : Nat) (r : Option Semaphore)
    (h : StartSys.progress StartPC.acquire1 ch = some (n, r)) : r = some ⟨1, 1⟩ := by
  cases ch with
  | none =>
    simp [StartSys.progress] at h
    exact h.2.symm
  | some p => cases p <;> simp [StartSys.progress] at h

theorem StartSys.progress_spawn (ch : Option ProcPC) (n : Nat) (r : Option Semaphore)
    (h : StartSys.progress StartPC.spawn ch = some (n, r)) : r = some ⟨0, 1⟩ := by
  cases ch with
  | none =>
    simp [StartSys.progress] at h
    exact h.2.symm
  | some p => cases p <;> simp [StartSys.progress] at h

set_option maxHeartbeats 1000000 in
/-- Every transition keeps the invariant of the handshake. -/
theorem StartSys.phase_next (env : StartEnv) (tr : List StartLabel) (s s1 : StartSys)
    (lab : StartLabel) (hph : StartSys.phase tr s)
    (hn : StartSys.next env lab s = some s1) : StartSys.phase (tr ++ [lab]) s1 := by
  intro he1
  have he : s.ended = false := by
    cases h : s.ended with
    | false => rfl
    | true => simp [StartSys.next, h] at hn
  obtain ⟨n, hp, hk⟩ := hph he
  obtain ⟨w, r, l, cpc, ch⟩ := s
  simp only at hp hk
  cases lab with
  | other w1 =>
    simp only [StartSys.next, he, Bool.false_eq_true, if_false] at hn
    injection hn with hn
    subst hn
    exact ⟨n, hp, StartSys.filter_snoc_other tr _ n hk rfl⟩
  | rest w1 =>
    simp only [StartSys.next, he, Bool.false_eq_true, if_false] at hn
    split_ifs at hn
    injection hn with hn
    subst hn
    exact ⟨n, hp, StartSys.filter_snoc_other tr _ n hk rfl⟩
  | caller pc =>
    simp only [StartSys.next, he, Bool.false_eq_true, if_false] at hn
    split_ifs at hn with hpc
    subst hpc
    rcases StartSys.progress_caller cpc ch n r hp with
      ⟨rfl, rfl, rfl, rfl⟩ | ⟨rfl, rfl, rfl, rfl⟩ | ⟨rfl, rfl, rfl, rfl⟩ |
      ⟨rfl, rfl, rfl, rfl⟩ | ⟨rfl, rfl, rfl, rfl⟩ | ⟨rfl, rfl, rfl, rfl⟩ |
      ⟨rfl, rfl, rfl, rfl⟩ | ⟨rfl, rfl, rfl, rfl⟩ | ⟨rfl, rfl, rfl, rfl⟩ |
      ⟨rfl, rfl, rfl, rfl⟩ | ⟨rfl, rfl, rfl, rfl⟩ | ⟨rfl, rfl, rfl, rfl⟩ |
      ⟨rfl, rfl, rfl, rfl⟩
    · -- lock
      simp only [StartSys.callerStep] at hn
      split_ifs at hn
      injection hn with hn
      subst hn
      exact ⟨0, rfl, StartSys.filter_snoc_other tr _ 0 hk rfl⟩
    · -- join
      simp only [StartSys.callerStep] at hn
      cases hj : Thread.join env.b env.caller env.joined env.self w with
      | ret v w1 =>
        rw [hj] at hn
        injection hn with hn
        subst hn
        exact ⟨0, rfl, StartSys.filter_snoc_other tr _ 0 hk rfl⟩
      | blocks w1 => rw [hj] at hn; simp at hn
      | fatal w1 =>
        rw [hj] at hn
        injection hn with hn
        subst hn
        simp [StartSys.ended] at he1
    · -- params
      simp only [StartSys.callerStep, Semaphore.new_ready] at hn
      injection hn with hn
      subst hn
      exact ⟨0, rfl, StartSys.filter_snoc_other tr _ 0 hk rfl⟩
    · -- acquire1
      simp only [StartSys.callerStep, StartSys.acquire, Semaphore.acquire_ready] at hn
      injection hn with hn
      subst hn
      exact ⟨1, rfl, StartSys.filter_snoc_key tr _ 0 hk rfl rfl⟩
    · -- spawn
      simp only [StartSys.callerStep] at hn
      by_cases hsp : env.spawned = true
      · rw [if_pos hsp] at hn
        injection hn with hn
        subst hn
        exact ⟨2, rfl, StartSys.filter_snoc_key tr _ 1 hk rfl rfl⟩
      · rw [if_neg hsp] at hn
        cases hb : env.b with
        | qt =>
          rw [hb] at hn
          injection hn with hn
          subst hn
          exact ⟨2, rfl, StartSys.filter_snoc_key tr _ 1 hk rfl rfl⟩
        | win32 =>
          rw [hb] at hn
          injection hn with hn
          subst hn
          simp [StartSys.ended] at he1
    · -- acquire2, no thread spawned
      simp [StartSys.callerStep, StartSys.acquire, Semaphore.acquire_drained] at hn
    · simp [StartSys.callerStep, StartSys.acquire, Semaphore.acquire_drained] at hn
    · simp [StartSys.callerStep, StartSys.acquire, Semaphore.acquire_drained] at hn
    · simp [StartSys.callerStep, StartSys.acquire, Semaphore.acquire_drained] at hn
    · -- acquire2 after the release
      simp only [StartSys.callerStep, StartSys.acquire, Semaphore.acquire_ready] at hn
      injection hn with hn
      subst hn
      exact ⟨6, rfl, StartSys.filter_snoc_key tr _ 5 hk rfl rfl⟩
    · -- unlock
      simp only [StartSys.callerStep] at hn
      injection hn with hn
      subst hn
      exact ⟨6, rfl, StartSys.filter_snoc_other tr _ 6 hk rfl⟩
    · -- ret
      simp only [StartSys.callerStep] at hn
      injection hn with hn
      subst hn
      exact ⟨7, rfl, StartSys.filter_snoc_key tr _ 6 hk rfl rfl⟩
    · simp [StartSys.callerStep] at hn
  | child pc =>
    simp only [StartSys.next, he, Bool.false_eq_true, if_false] at hn
    split_ifs at hn with hpc
    subst hpc
    cases pc with
    | started =>
      obtain ⟨rfl, rfl, rfl⟩ := StartSys.progress_started cpc n r hp
      simp only [StartSys.childStep] at hn
      cases hj : Thread.started env.b env.child env.self w with
      | ret v w1 =>
        rw [hj] at hn
        injection hn with hn
        subst hn
        exact ⟨3, rfl, StartSys.filter_snoc_key tr _ 2 hk rfl rfl⟩
      | blocks w1 => rw [hj] at hn; simp at hn
      | fatal w1 =>
        rw [hj] at hn
        injection hn with hn
        subst hn
        simp [StartSys.ended] at he1
    | setPriority =>
      obtain ⟨rfl, rfl, rfl⟩ := StartSys.progress_setPriority cpc n r hp
      simp only [StartSys.childStep] at hn
      cases hj : Thread.setPriority env.b env.priorityOk env.self (w.objs env.self).m_priority w with
      | ret v w1 =>
        rw [hj] at hn
        injection hn with hn
        subst hn
        exact ⟨4, rfl, StartSys.filter_snoc_key tr _ 3 hk rfl rfl⟩
      | blocks w1 => rw [hj] at hn; simp at hn
      | fatal w1 =>
        rw [hj] at hn
        injection hn with hn
        subst hn
        simp [StartSys.ended] at he1
    | release =>
      obtain ⟨rfl, rfl, rfl⟩ := StartSys.progress_release cpc n r hp
      simp only [StartSys.childStep, Semaphore.release_drained] at hn
      injection hn with hn
      subst hn
      exact ⟨5, rfl, StartSys.filter_snoc_key tr _ 4 hk rfl rfl⟩
    | userFunc => simp [StartSys.childStep] at hn
    | failed => simp [StartSys.childStep] at hn

/-- The invariant of the handshake holds after every trace from the call of
`start()`. -/
theorem StartSys.phase_run (env : StartEnv) (w : World) (tr : List StartLabel)
    (s : StartSys) (h : StartSys.run env tr (StartSys.init w) = some s) :
    StartSys.phase tr s := by
  refine StartSys.trace_induction env StartSys.phase (StartSys.init w) ?_ ?_ tr s h
  · intro _
    exact ⟨0, rfl, rfl⟩
  · intro tr s lab s1 _ hph hn
    exact StartSys.phase_next env tr s s1 lab hph hn

theorem StartSys.after_run (env : StartEnv) (w : World) (tr : List StartLabel)
    (h : (StartSys.run env tr (StartSys.init w)).isSome = true) :
    StartSys.run env tr (StartSys.init w) = some (StartSys.after env w tr) := by
  unfold StartSys.after
  cases hr : StartSys.run env tr (StartSys.init w) with
  | none => rw [hr] at h; simp at h
  | some s => rfl

/-- What `started()` has done to the registry when it returns: the registry has an
entry for the id of the executing thread; the entry is the object when the id had no
entry before, and the registry is unchanged when it had one. -/
theorem Thread.started_registers (b : Backend) (c : Caller) (self : Nat) (w w1 : World)
    (h : Thread.started b c self w = Res.ret () w1) :
    Hash.contains w1.s_threads c.id = true ∧
    (Hash.contains w.s_threads c.id = false → Hash.search w1.s_threads c.id = some self) ∧
    (Hash.contains w.s_threads c.id = true → w1.s_threads = w.s_threads) := by
  cases hh : c.handle with
  | none => cases b <;> simp [Thread.started, hh] at h
  | some handle =>
    rw [Thread.started_eq b c self w handle hh] at h
    injection h with _ h
    subst h
    by_cases hc : Hash.contains w.s_threads c.id = true
    · simp [hc]
    · have hs : Hash.search w.s_threads c.id = none := by
        rw [Hash.search_eq_none]
        simpa using hc
      simp only [hc, if_false, Bool.false_eq_true]
      refine ⟨?_, fun _ => ?_, fun h => absurd h (by simp)⟩
      · rw [Hash.contains_eq_isSome, Hash.search_add, hs]
        simp
      · rw [Hash.search_add, hs]
        simp

/-- The spawned thread can only fail while `start()` waits in its second acquire. -/
theorem StartSys.failed_waiting (env : StartEnv) (w : World) (tr : List StartLabel)
    (s : StartSys) (h : StartSys.run env tr (StartSys.init w) = some s)
    (hf : s.child = some ProcPC.failed) : s.caller = StartPC.acquire2 := by
  revert hf
  refine StartSys.trace_induction env
    (fun _ s => s.child = some ProcPC.failed → s.caller = StartPC.acquire2)
    (StartSys.init w) ?_ ?_ tr s h
  · intro hf
    simp [StartSys.init] at hf
  · intro tr s lab s1 hrun _ hn hf
    have he : s.ended = false := by
      cases h : s.ended with
      | false => rfl
      | true => simp [StartSys.next, h] at hn
    have hnf : s.child ≠ some ProcPC.failed := by
      intro h
      simp [StartSys.ended, h] at he
    obtain ⟨n, hp, _⟩ := StartSys.phase_run env w tr s hrun he
    simp only [StartSys.next, he, Bool.false_eq_true, if_false] at hn
    cases lab with
    | other w1 =>
      simp only at hn
      injection hn with hn
      subst hn
      exact absurd hf hnf
    | rest w1 =>
      simp only at hn
      split_ifs at hn
      injection hn with hn
      subst hn
      exact absurd hf hnf
    | caller pc =>
      simp only at hn
      split_ifs at hn with hpc
      have hch : s1.child = s.child ∨ s1.child = some ProcPC.started := by
        unfold StartSys.callerStep at hn
        unfold StartSys.acquire at hn
        split at hn <;> (try split at hn) <;> (try split at hn) <;>
          first
            | (simp at hn; done)
            | (injection hn with hn; subst hn; simp; done)
      rcases hch with hch | hch
      · rw [hch] at hf
        exact absurd hf hnf
      · rw [hch] at hf
        simp at hf
    | child pc =>
      simp only at hn
      split_ifs at hn with hpc
      rw [hpc] at hp
      have hc : s.caller = StartPC.acquire2 := by
        cases pc with
        | started => exact (StartSys.progress_started _ n _ hp).1
        | setPriority => exact (StartSys.progress_setPriority _ n _ hp).1
        | release => exact (StartSys.progress_release _ n _ hp).1
        | userFunc => simp [StartSys.childStep, hpc] at hn
        | failed => simp [StartSys.childStep, hpc] at hn
      have hsame : s1.caller = s.caller := by
        unfold StartSys.childStep at hn
        split at hn <;> (try split at hn) <;> (try split at hn) <;>
          first
            | (simp at hn; done)
            | (injection hn with hn; subst hn; rfl)
      rw [hsame, hc]

/-- When `start()` has returned, the process has not ended in a fatal error. -/
theorem StartSys.done_running (env : StartEnv) (w : World) (tr : List StartLabel)
    (s : StartSys) (h : StartSys.run env tr (StartSys.init w) = some s)
    (hret : s.caller = StartPC.done) : s.ended = false := by
  cases hf : s.ended with
  | false => rfl
  | true =>
    simp only [StartSys.ended, hret, Bool.or_eq_true, decide_eq_true_eq] at hf
    rcases hf with hf | hf
    · simp at hf
    · have := StartSys.failed_waiting env w tr s h hf
      rw [hret] at this
      simp at this

/-- A trace that leads to the return of `start()`, cut at one of its transitions: the
states before and after the transition, neither of them ended in a fatal error, and the
invariant of the handshake before it. -/
theorem StartSys.trace_cut (env : StartEnv) (w : World) (tr pre post : List StartLabel)
    (lab : StartLabel) (s : StartSys)
    (hrun : StartSys.run env tr (StartSys.init w) = some s) (hret : s.caller = StartPC.done)
    (htr : tr = pre ++ lab :: post) :
    StartSys.run env pre (StartSys.init w) = some (StartSys.after env w pre) ∧
    StartSys.next env lab (StartSys.after env w pre) =
      some (StartSys.after env w (pre ++ [lab])) ∧
    (StartSys.after env w pre).ended = false ∧
    (StartSys.after env w (pre ++ [lab])).ended = false ∧
    ∃ n, StartSys.progress (StartSys.after env w pre).caller (StartSys.after env w pre).child
      = some (n, (StartSys.after env w pre).ready) := by
  subst htr
  obtain ⟨s1, h1, h2⟩ := StartSys.trace_split env pre (lab :: post) _ s hrun
  obtain ⟨s2, h3, h4⟩ := StartSys.trace_cons env lab post s1 s h2
  have ha1 : StartSys.after env w pre = s1 := by
    simp [StartSys.after, h1]
  have ha2 : StartSys.after env w (pre ++ [lab]) = s2 := by
    simp [StartSys.after, StartSys.trace_append, h1, StartSys.trace_single, h3]
  rw [ha1, ha2]
  have he1 : s1.ended = false := by
    cases h : s1.ended with
    | false => rfl
    | true => simp [StartSys.next, h] at h3
  have he2 : s2.ended = false := by
    cases h : s2.ended with
    | false => rfl
    | true =>
      obtain ⟨_, hs⟩ := StartSys.trace_ended env post s2 s h h4
      subst hs
      rw [StartSys.done_running env w _ s hrun hret] at h
      simp at h
  obtain ⟨n, hp, _⟩ := StartSys.phase_run env w pre s1 h1 he1
  exact ⟨h1, h3, he1, he2, n, hp⟩

/-- C15, as amended.  In every trace of `start()` and the thread procedure, interleaved
with each other and with any other threads, that leads to the return of `start()`, the
transitions of the handshake occur exactly once each and in this order: the first
`ready.acquire()`, the spawn, `started()`, `setPriority(m_priority)`, the
`ready.release()` of the new thread, the second `ready.acquire()`, the return.
`ready` has the count 1 before the first acquire and 0 when the thread is spawned;
`started()` has returned before the release, which leaves the registry with an entry
for the id of the new thread, and this entry is the object when the id had no entry
before (`started()` does not touch an entry that exists); `setPriority` has been
called with the value of `m_priority` and has returned. -/
theorem Thread.start_handshake (env : StartEnv) (w : World) (tr : List StartLabel)
    (s : StartSys)
    (hrun : StartSys.run env tr (StartSys.init w) = some s)
    (hret : s.caller = StartPC.done) :
    tr.filter StartLabel.isKey = StartSys.handshake ∧
    (∀ pre post, tr = pre ++ StartLabel.caller StartPC.acquire1 :: post →
      (StartSys.after env w pre).ready = some ⟨1, 1⟩) ∧
    (∀ pre post, tr = pre ++ StartLabel.caller StartPC.spawn :: post →
      (StartSys.after env w pre).ready = some ⟨0, 1⟩) ∧
    (∀ pre post, tr = pre ++ StartLabel.child ProcPC.started :: post →
      Thread.started env.b env.child env.self (StartSys.after env w pre).world =
        Res.ret () (StartSys.after env w (pre ++ [StartLabel.child ProcPC.started])).world ∧
      Hash.contains (StartSys.after env w
        (pre ++ [StartLabel.child ProcPC.started])).world.s_threads env.child.id = true ∧
      (Hash.contains (StartSys.after env w pre).world.s_threads env.child.id = false →
        Hash.search (StartSys.after env w
          (pre ++ [StartLabel.child ProcPC.started])).world.s_threads env.child.id
          = some env.self)) ∧
    (∀ pre post, tr = pre ++ StartLabel.child ProcPC.setPriority :: post →
      Thread.setPriority env.b env.priorityOk env.self
          ((StartSys.after env w pre).world.objs env.self).m_priority
          (StartSys.after env w pre).world =
        Res.ret () (StartSys.after env w
          (pre ++ [StartLabel.child ProcPC.setPriority])).world) := by
  refine ⟨?_, ?_, ?_, ?_, ?_⟩
  · have hne : s.ended = false := StartSys.done_running env w tr s hrun hret
    obtain ⟨n, hp, hk⟩ := StartSys.phase_run env w tr s hrun hne
    rw [hret] at hp
    rw [hk, StartSys.progress_done _ n _ hp]
    rfl
  · intro pre post htr
    obtain ⟨_, h3, he1, _, n, hp⟩ := StartSys.trace_cut env w tr pre post _ s hrun hret htr
    simp only [StartSys.next, he1, Bool.false_eq_true, if_false] at h3
    split_ifs at h3 with hpc
    rw [hpc] at hp
    exact StartSys.progress_acquire1 _ n _ hp
  · intro pre post htr
    obtain ⟨_, h3, he1, _, n, hp⟩ := StartSys.trace_cut env w tr pre post _ s hrun hret htr
    simp only [StartSys.next, he1, Bool.false_eq_true, if_false] at h3
    split_ifs at h3 with hpc
    rw [hpc] at hp
    exact StartSys.progress_spawn _ n _ hp
  · intro pre post htr
    obtain ⟨_, h3, he1, he2, _⟩ := StartSys.trace_cut env w tr pre post _ s hrun hret htr
    simp only [StartSys.next, he1, Bool.false_eq_true, if_false] at h3
    split_ifs at h3 with hpc
    simp only [StartSys.childStep, hpc] at h3
    have hst : Thread.started env.b env.child env.self (StartSys.after env w pre).world =
        Res.ret () (StartSys.after env w (pre ++ [StartLabel.child ProcPC.started])).world := by
      cases hj : Thread.started env.b env.child env.self (StartSys.after env w pre).world with
      | ret v w1 =>
        rw [hj] at h3
        injection h3 with h3
        rw [← h3]
      | blocks w1 => rw [hj] at h3; simp at h3
      | fatal w1 =>
        rw [hj] at h3
        injection h3 with h3
        rw [← h3] at he2
        simp [StartSys.ended] at he2
    obtain ⟨hc1, hc2, _⟩ := Thread.started_registers _ _ _ _ _ hst
    exact ⟨hst, hc1, hc2⟩
  · intro pre post htr
    obtain ⟨_, h3, he1, he2, _⟩ := StartSys.trace_cut env w tr pre post _ s hrun hret htr
    simp only [StartSys.next, he1, Bool.false_eq_true, if_false] at h3
    split_ifs at h3 with hpc
    simp only [StartSys.childStep, hpc] at h3
    cases hj : Thread.setPriority env.b env.priorityOk env.self
        ((StartSys.after env w pre).world.objs env.self).m_priority
        (StartSys.after env w pre).world with
    | ret v w1 =>
      rw [hj] at h3
      injection h3 with h3
      rw [← h3]
    | blocks w1 => rw [hj] at h3; simp at h3
    | fatal w1 =>
      rw [hj] at h3
      injection h3 with h3
      rw [← h3] at he2
      simp [StartSys.ended] at he2

/-- Witness of C15: the example trace on the example world. -/
theorem Thread.start_handshake_witness :
    StartSys.exampleTrace.filter StartLabel.isKey = StartSys.handshake ∧
    Hash.search (StartSys.after StartSys.exampleEnv StartSys.exampleWorld
      StartSys.exampleTrace).world.s_threads 7 = some 100 :=
  ⟨(Thread.start_handshake StartSys.exampleEnv StartSys.exampleWorld StartSys.exampleTrace _
      (StartSys.after_run StartSys.exampleEnv StartSys.exampleWorld StartSys.exampleTrace
        (by decide)) (by decide)).1,
    by decide⟩

/-- C15 as stated fails.  The registry still holds, under the id 7, the wrapper 70 of a
thread that has ended, and the platform gives the id 7 to the thread that `start()`
spawns for the object at 100.  `start()` returns, and in no state of the trace does the
registry hold the object: `started()` finds the id 7 taken and inserts nothing, and the
registry maps 7 to the old wrapper throughout. -/
theorem Thread.start_not_registered :
    (StartSys.after StartSys.exampleEnv StartSys.exampleStale StartSys.exampleTrace).caller
      = StartPC.done ∧
    (StartSys.run StartSys.exampleEnv StartSys.exampleTrace
      (StartSys.init StartSys.exampleStale)).isSome = true ∧
    ∀ pre ∈ StartSys.exampleTrace.inits,
      Hash.search (StartSys.after StartSys.exampleEnv StartSys.exampleStale pre).world.s_threads
        7 = some 70 ∧
      ∀ e ∈ (StartSys.after StartSys.exampleEnv StartSys.exampleStale pre).world.s_threads,
        e.2 ≠ 100 := by
  decide

/-! ## Thread: suspendAll -/

theorem World.settled_iff (w : World) (a : Nat) :
    w.settled a = true ↔ ¬ ((w.objs a).m_refCount = 0 ∧ (w.objs a).m_exited = true) := by
  simp only [World.settled, Bool.not_eq_true', Bool.and_eq_false_iff, decide_eq_false_iff_not,
    not_and, Bool.not_eq_true]
  tauto

/-- A `refer()`/`unrefer()` pair around the recording of calls leaves an object on
which no cleanup is pending, and everything else, as it was. -/
theorem Thread.unrefer_refer (a : Nat) (w : World) (events : List Event)
    (h : w.settled a = true) :
    Thread.unrefer a { Thread.refer a w with log := w.log ++ events } =
      { w with log := w.log ++ events } := by
  rw [World.settled_iff] at h
  rw [Thread.unrefer_eq]
  have hc : ¬ ((({ Thread.refer a w with log := w.log ++ events } : World).objs a).m_refCount
      - 1 = 0 ∧
      (({ Thread.refer a w with log := w.log ++ events } : World).objs a).m_exited = true) := by
    simpa [Thread.refer, World.setObj] using h
  rw [if_neg hc]
  simp [Thread.refer, World.setObj]

/-- The events that `suspendAll` has for the registered objects. -/
theorem Thread.mem_suspendEvents (b : Backend) (id : Nat) (w : World) (ev : Event) :
    ev ∈ Thread.suspendEvents b id w ↔
      ∃ slot ∈ w.s_threads, ∃ handle, (w.objs slot.2).m_handle = some handle ∧
        (w.objs slot.2).m_id ≠ id ∧
        ev = (match b with
          | Backend.qt => Event.setError "Thread::suspendAll isn't implemented with FW_QT"
          | Backend.win32 => Event.suspend handle) := by
  unfold Thread.suspendEvents
  rw [List.mem_filterMap]
  constructor
  · rintro ⟨slot, hs, hev⟩
    cases hh : (w.objs slot.2).m_handle with
    | none => simp [hh] at hev
    | some handle =>
      by_cases hid : (w.objs slot.2).m_id = id
      · simp [hh, hid] at hev
      · simp only [hh, ne_eq, hid, not_false_eq_true, if_true, Option.some.injEq] at hev
        exact ⟨slot, hs, handle, hh, hid, hev.symm⟩
  · rintro ⟨slot, hs, handle, hh, hid, hev⟩
    refine ⟨slot, hs, ?_⟩
    simp only [hh, ne_eq, hid, not_false_eq_true, if_true, hev]
    all_goals (cases b <;> rfl)

/-! ## Thread: priority -/

theorem Thread.setPriority_none (b : Backend) (ok : Bool) (self : Nat) (p : Int) (w : World)
    (hh : (w.objs self).m_handle = none) :
    Thread.setPriority b ok self p w = Res.ret () (Thread.unrefer self
      ((Thread.refer self w).setObj self { (Thread.refer self w).objs self with
        m_priority := p })) := by
  simp [Thread.setPriority, Thread.refer, World.setObj, hh]

/-- What `unrefer()` leaves of an object that has no handle. -/
theorem Thread.unrefer_none (self : Nat) (w : World) (hh : (w.objs self).m_handle = none) :
    (Thread.unrefer self w).objs = Function.update w.objs self
      { w.objs self with
        m_refCount := (w.objs self).m_refCount - 1
        m_exited := (w.objs self).m_exited && !decide ((w.objs self).m_refCount - 1 = 0) } ∧
    (Thread.unrefer self w).s_threads = w.s_threads ∧
    (Thread.unrefer self w).s_mainThread = w.s_mainThread ∧
    (Thread.unrefer self w).log = w.log ++
      (if (w.objs self).m_refCount - 1 = 0 ∧ (w.objs self).m_exited = true
        then [Event.exited self] else []) := by
  rw [Thread.unrefer_eq]
  by_cases hc : (w.objs self).m_refCount - 1 = 0 ∧ (w.objs self).m_exited = true
  · rw [if_pos hc, if_pos hc]
    simp [Thread.exited, World.setObj, hh, hc.1, hc.2]
  · rw [if_neg hc, if_neg hc]
    refine ⟨?_, rfl, rfl, by simp [World.setObj]⟩
    simp only [World.setObj]
    by_cases h1 : (w.objs self).m_refCount - 1 = 0
    · have h2 : (w.objs self).m_exited = false := by
        cases h3 : (w.objs self).m_exited
        · rfl
        · exact absurd ⟨h1, h3⟩ hc
      simp [h1, h2]
    · simp [h1]

/-- The call `getPriority()` on an object without handle and without pending cleanup
returns the cached field and changes nothing, unless the field holds the error value of
`GetThreadPriority` on the native backend. -/
theorem Thread.getPriority_none (b : Backend) (native : Int) (self : Nat) (w : World)
    (hh : (w.objs self).m_handle = none) (hs : w.settled self = true)
    (hp : b = Backend.win32 → (w.objs self).m_priority ≠ THREAD_PRIORITY_ERROR_RETURN) :
    Thread.getPriority b native self w = Res.ret (w.objs self).m_priority w := by
  have h1 := Thread.unrefer_refer self w [] hs
  have h2 : ({ Thread.refer self w with log := w.log ++ [] } : World) = Thread.refer self w := by
    simp [Thread.refer, World.setObj]
  have h3 : ({ w with log := w.log ++ [] } : World) = w := by simp
  rw [h2, h3] at h1
  have h4 : ((Thread.refer self w).objs self).m_handle = none := by
    simp [Thread.refer, World.setObj, hh]
  unfold Thread.getPriority
  simp only [h4, h1]
  cases b with
  | qt => rfl
  | win32 => simp [hp rfl]

/-- The two statements `started()` and `setPriority(m_priority)` of the thread
procedure: the first records no call, the second records `SetThreadPriority` once, with
the handle of the new thread and the value of the cached field. -/
theorem StartSys.trampoline_priority (env : StartEnv) (s : StartSys) (handle : Nat)
    (he : s.ended = false) (hc : s.child = some ProcPC.started)
    (hh : env.child.handle = some handle) :
    ∃ s1 s2, StartSys.next env (StartLabel.child ProcPC.started) s = some s1 ∧
      StartSys.next env (StartLabel.child ProcPC.setPriority) s1 = some s2 ∧
      s1.world.log = s.world.log ∧
      (s1.world.objs env.self).m_priority = (s.world.objs env.self).m_priority ∧
      ∀ h q, s2.world.log.count (Event.setPriority h q) =
        s.world.log.count (Event.setPriority h q) +
          if h = handle ∧ q = (s.world.objs env.self).m_priority then 1 else 0 := by
  have hcp : s.caller ≠ StartPC.failed := by
    intro hf
    simp [StartSys.ended, hf] at he
  have h1 : StartSys.next env (StartLabel.child ProcPC.started) s =
      some { s with world := Res.state (Thread.started env.b env.child env.self s.world),
                    child := some ProcPC.setPriority } := by
    simp [StartSys.next, he, hc, StartSys.childStep, Thread.started_eq _ _ _ _ handle hh,
      Res.state]
  refine ⟨_, { s with
      world := Res.state (Thread.setPriority env.b env.priorityOk env.self
        (s.world.objs env.self).m_priority
        (Res.state (Thread.started env.b env.child env.self s.world))),
      child := some (if env.b = Backend.win32 ∧ env.priorityOk = false then ProcPC.failed
        else ProcPC.release) }, h1, ?_, ?_, ?_, ?_⟩
  rotate_left
  · simp [Thread.started_eq _ _ _ _ handle hh, Res.state]
  · simp [Thread.started_eq _ _ _ _ handle hh, Res.state]
  rotate_left
  · by_cases hf : env.b = Backend.win32 ∧ env.priorityOk = false
    · simp [StartSys.next, StartSys.ended, hcp, StartSys.childStep, Thread.setPriority,
        Thread.started_eq _ _ _ _ handle hh, Res.state, Thread.refer, World.setObj, hf]
    · simp [StartSys.next, StartSys.ended, hcp, StartSys.childStep, Thread.setPriority,
        Thread.started_eq _ _ _ _ handle hh, Res.state, Thread.refer, World.setObj, hf]
  · intro h q
    by_cases hf : env.b = Backend.win32 ∧ env.priorityOk = false
    · simp [Thread.setPriority, Thread.started_eq _ _ _ _ handle hh, Res.state, Thread.refer,
        World.setObj, hf, World.record, List.count_append, List.count_cons, List.count_nil]
      simp only [eq_comm]
    · simp only [Thread.setPriority, Thread.started_eq _ _ _ _ handle hh, Res.state,
        Thread.refer, World.setObj, Function.update_same, hf, if_false]
      rw [Thread.unrefer_count _ _ _ (by intro o; simp) (by intro h; simp)]
      simp [World.record, List.count_append, List.count_cons, List.count_nil]
      simp only [eq_comm]

/-! ## Thread: isAlive -/

theorem Thread.isAlive_none (b : Backend) (exitCode : Option Nat) (finished : Bool)
    (self : Nat) (w : World) (hh : (w.objs self).m_handle = none) :
    Thread.isAlive b exitCode finished self w =
      Res.ret false (Thread.unrefer self (Thread.refer self w)) := by
  simp [Thread.isAlive, Thread.refer, World.setObj, hh]

theorem Thread.isAlive_some (b : Backend) (exitCode : Option Nat) (finished : Bool)
    (self : Nat) (w : World) (handle : Nat) (hh : (w.objs self).m_handle = some handle) :
    Thread.isAlive b exitCode finished self w =
      if b = Backend.win32 ∧ exitCode = none then
        Res.fatal ((Thread.refer self w).record (Event.fail "GetExitCodeThread"))
      else if stillRunning b exitCode finished then
        Res.ret true (Thread.unrefer self (Thread.refer self w))
      else Res.ret false (Thread.unrefer self ((Thread.refer self w).setObj self
        { (Thread.refer self w).objs self with m_exited := true })) := by
  simp [Thread.isAlive, Thread.refer, World.setObj, hh]

/-! ## Thread: the exited flag of a new object -/

/-- C29 fails on the code.  The constructor leaves `m_exited` as the memory held it.  A
thread with the id 1 that calls `getCurrent()` gets a wrapper at the address 100, whose
memory held a nonzero byte in the place of `m_exited`: the new object is registered and
has a handle, the reference count 0, and the exited flag set.  The balanced pair
`refer()`/`unrefer()` of the following `getPriority()` then runs `exited()`: the handle
is closed and the object is removed from the registry, although the thread runs. -/
theorem Thread.exited_flag_uninitialised :
    ((Thread.new 100 ⟨fun _ => ⟨0, true, 0, none, 0, []⟩, [], none, []⟩).objs 100).m_refCount
      = 0 ∧
    ((Thread.new 100 ⟨fun _ => ⟨0, true, 0, none, 0, []⟩, [], none, []⟩).objs 100).m_exited
      = true ∧
    (∃ w1, Thread.getCurrent Backend.win32 ⟨1, 100, some 2⟩
        ⟨fun _ => ⟨0, true, 0, none, 0, []⟩, [], none, []⟩ = Res.ret 100 w1 ∧
      w1.objs 100 = ⟨0, true, 1, some 2, 0, []⟩ ∧ w1.s_threads = [(1, 100)] ∧
      w1.s_mainThread = some 100 ∧ w1.log = [] ∧
      ∃ w2, Thread.getPriority Backend.win32 0 100 w1 = Res.ret 0 w2 ∧
        w2.objs 100 = ⟨0, false, 0, none, 0, []⟩ ∧ w2.s_threads = [] ∧
        w2.s_mainThread = none ∧
        w2.log = [Event.exited 100, Event.closeHandle 2]) := by
  refine ⟨by simp [Thread.new, World.setObj], by simp [Thread.new, World.setObj], ?_⟩
  refine ⟨_, Thread.getCurrent_fresh _ _ _ 2 rfl rfl, ?_, ?_, ?_, ?_, ?_⟩
  · simp [World.wrap, Thread.new, World.setObj, Priority_Normal]
  · simp [World.wrap, Hash.add, Hash.contains, Hash.search]
  · simp [World.wrap]
  · simp [World.wrap]
  · refine ⟨⟨Function.update (fun _ => ⟨0, true, 0, none, 0, []⟩) 100
        ⟨0, false, 0, none, 0, []⟩, [], none, [Event.exited 100, Event.closeHandle 2]⟩,
      ?_, by simp, rfl, rfl, rfl⟩
    simp [Thread.getPriority, World.wrap, Thread.refer, Thread.unrefer, Thread.exited,
      World.setObj, Thread.new, Priority_Normal, Hash.add, Hash.contains, Hash.search,
      Hash.remove, Hash.getSize, Hash.reset, THREAD_PRIORITY_ERROR_RETURN]

/-! ## Thread: the Qt priority normalisation -/

theorem s_priorityX_eq : s_priorityX = 1 / 5 := by
  norm_num [s_priorityX, QThread.TimeCriticalPriority, QThread.IdlePriority, Priority_Max,
    Priority_Min]

theorem s_priorityY_eq : s_priorityY = 3 := by
  rw [s_priorityY, s_priorityX_eq]
  norm_num [QThread.IdlePriority, Priority_Min]

/-- The rounding `qRound` of Qt is the floor of `d + 1/2`. -/
theorem qRound_eq (d : ℚ) : qRound d = ⌊d + 1 / 2⌋ := by
  unfold qRound truncToInt
  by_cases hd : d ≥ 0
  · have h1 : (0 : ℚ) ≤ d + 1 / 2 := by linarith
    simp only [hd, h1, if_true]
  · have hd1 : d < 0 := not_le.1 hd
    have h1 : ¬ (0 : ℚ) ≤ d - 1 := by linarith
    have h2 : ((⌈d - 1⌉ : Int) : ℚ) < d := by
      have := Int.ceil_lt_add_one (d - 1)
      linarith
    have h3 : (0 : ℚ) ≤ d - ((⌈d - 1⌉ : Int) : ℚ) + 1 / 2 := by linarith
    simp only [hd, h1, h3, if_true, if_false]
    have h4 : d - ((⌈d - 1⌉ : Int) : ℚ) + 1 / 2 = (d + 1 / 2) - ((⌈d - 1⌉ : Int) : ℚ) := by ring
    rw [h4, Int.floor_sub_int]
    ring

theorem fwToQt_eq (p : Int) : fwToQt p = max 0 (min 6 ((2 * p + 35) / 10)) := by
  unfold fwToQt qBound
  rw [qRound_eq, s_priorityX_eq, s_priorityY_eq]
  have h : (1 / 5 * (p : ℚ) + 3 + 1 / 2 : ℚ) = ((2 * p + 35 : Int) : ℚ) / ((10 : Nat) : ℚ) := by
    push_cast
    ring
  rw [h, Rat.floor_intCast_div_natCast]
  simp [QThread.IdlePriority, QThread.TimeCriticalPriority]

theorem qtToFw_eq (q : Int) : qtToFw q = max (-15) (min 15 (5 * q - 15)) := by
  unfold qtToFw qBound
  rw [qRound_eq, s_priorityX_eq, s_priorityY_eq]
  have h : (((q : ℚ) - 3) / (1 / 5) + 1 / 2 : ℚ) = ((10 * q - 29 : Int) : ℚ) / ((2 : Nat) : ℚ) := by
    push_cast
    ring
  rw [h, Rat.floor_intCast_div_natCast]
  have h2 : (10 * q - 29) / ((2 : Nat) : Int) = 5 * q - 15 := by
    push_cast
    omega
  rw [h2]
  simp [Priority_Min, Priority_Max]

/-- C28. The Qt priority normalisation, with the factors `s_priorityX = 1/5` and
`s_priorityY = 3` computed exactly: `fwToQt` maps every integer into
`[IdlePriority, TimeCriticalPriority] = [0, 6]`, `qtToFw` maps every integer into
`[Priority_Min, Priority_Max] = [-15, 15]`, both maps are monotone, `fwToQt` maps
`Priority_Min`, `Priority_Normal` and `Priority_Max` to 0, 3 and 6, and
`fwToQt (qtToFw q) = q` for every `q` from 0 to 6. -/
theorem fwToQt_qtToFw :
    (s_priorityX = 1 / 5 ∧ s_priorityY = 3) ∧
    (QThread.IdlePriority = 0 ∧ QThread.TimeCriticalPriority = 6 ∧ Priority_Min = -15 ∧
      Priority_Max = 15) ∧
    (∀ p, QThread.IdlePriority ≤ fwToQt p ∧ fwToQt p ≤ QThread.TimeCriticalPriority) ∧
    (∀ q, Priority_Min ≤ qtToFw q ∧ qtToFw q ≤ Priority_Max) ∧
    (∀ p p1, p ≤ p1 → fwToQt p ≤ fwToQt p1) ∧
    (∀ q q1, q ≤ q1 → qtToFw q ≤ qtToFw q1) ∧
    (fwToQt Priority_Min = 0 ∧ fwToQt Priority_Normal = 3 ∧ fwToQt Priority_Max = 6) ∧
    (∀ q, 0 ≤ q → q ≤ 6 → fwToQt (qtToFw q) = q) := by
  refine ⟨⟨s_priorityX_eq, s_priorityY_eq⟩, ⟨rfl, rfl, rfl, rfl⟩, ?_, ?_, ?_, ?_, ?_, ?_⟩
  · intro p
    rw [fwToQt_eq]
    simp only [QThread.IdlePriority, QThread.TimeCriticalPriority]
    omega
  · intro q
    rw [qtToFw_eq]
    simp only [Priority_Min, Priority_Max]
    omega
  · intro p p1 h
    rw [fwToQt_eq, fwToQt_eq]
    omega
  · intro q q1 h
    rw [qtToFw_eq, qtToFw_eq]
    omega
  · simp only [fwToQt_eq, Priority_Min, Priority_Normal, Priority_Max]
    decide
  · intro q h0 h6
    rw [qtToFw_eq, fwToQt_eq]
    omega

/-- Witness of C28: the Qt priority 4 (`HighPriority`) survives the round trip. -/
theorem fwToQt_qtToFw_witness : fwToQt (qtToFw 4) = 4 :=
  fwToQt_qtToFw.2.2.2.2.2.2.2 4 (by decide) (by decide)
/-! ## Keys: names of Unicode keys -/

/-- In the range of the code points the shift and the addition of `keyToUnicode` stay
inside the `S32` range. -/
theorem wrapS32_shiftAdd (cp d : Int) (h0 : 0 ≤ cp) (h1 : cp ≤ 0x10FFFF) (hd0 : 0 ≤ d)
    (hd1 : d ≤ 15) :
    wrapS32 (cp * 16) = cp * 16 ∧ wrapS32 (cp * 16 + d) = cp * 16 + d ∧
      cp * 16 + d < 2 ^ 31 := by
  unfold wrapS32
  refine ⟨?_, ?_, ?_⟩ <;> omega

/-- What `keyToUnicode` does with each digit that `%X` prints. -/
theorem hexChar_spec (d : Nat) (hd : d < 16) :
    (hexChar d).toNat ≠ 0 ∧
    (d < 10 → ('0'.toNat ≤ (hexChar d).toNat ∧ (hexChar d).toNat ≤ '9'.toNat) ∧
      ((hexChar d).toNat : Int) - ('0'.toNat : Int) = d) ∧
    (¬ d < 10 → ¬ ('0'.toNat ≤ (hexChar d).toNat ∧ (hexChar d).toNat ≤ '9'.toNat) ∧
      ('A'.toNat ≤ (hexChar d).toNat ∧ (hexChar d).toNat ≤ 'F'.toNat) ∧
      ((hexChar d).toNat : Int) - (('A'.toNat : Int) - 10) = d) := by
  interval_cases d <;> decide

/-- One round of the loop of `keyToUnicode` on a digit that `%X` prints. -/
theorem keyToUnicode.loop_hexChar (d : Nat) (hd : d < 16) (rest : List Char) (cp : Int)
    (h0 : 0 ≤ cp) (h1 : cp ≤ 0x10FFFF) :
    keyToUnicode.loop (hexChar d :: rest) cp =
      if cp * 16 + d > 0x10FFFF then 0 else keyToUnicode.loop rest (cp * 16 + d) := by
  obtain ⟨hz, hlo, hhi⟩ := hexChar_spec d hd
  obtain ⟨hw1, hw2, _⟩ := wrapS32_shiftAdd cp d h0 h1 (by omega) (by omega)
  rw [keyToUnicode.loop]
  rw [if_neg hz]
  by_cases hlt : d < 10
  · obtain ⟨hr, hv⟩ := hlo hlt
    simp only [hr, and_self, if_true, hv, hw1, hw2]
  · obtain ⟨hn, hr, hv⟩ := hhi hlt
    simp only [hn, if_false, hr, and_self, if_true, hv, hw1, hw2]

/-- The loop of `keyToUnicode` on digits printed by `%X`, most significant first, as
long as the value stays a code point. -/
theorem keyToUnicode.loop_digits (ds : List Nat) (rest : List Char) (acc : Nat)
    (hds : ∀ d ∈ ds, d < 16)
    (hb : ds.foldl (fun a d => a * 16 + d) acc ≤ 0x10FFFF) :
    keyToUnicode.loop (ds.map hexChar ++ rest) (acc : Int) =
      keyToUnicode.loop rest ((ds.foldl (fun a d => a * 16 + d) acc : Nat) : Int) := by
  have hmono : ∀ (l : List Nat) (a : Nat), a ≤ l.foldl (fun a d => a * 16 + d) a := by
    intro l
    induction l with
    | nil => intro a; exact le_refl a
    | cons d l ih =>
      intro a
      exact le_trans (by omega) (ih (a * 16 + d))
  induction ds generalizing acc with
  | nil => rfl
  | cons d ds ih =>
    have hstep : acc * 16 + d ≤ 0x10FFFF := le_trans (hmono ds (acc * 16 + d)) hb
    rw [List.map_cons, List.cons_append,
      keyToUnicode.loop_hexChar d (hds d (List.mem_cons_self _ _)) _ _ (by omega) (by omega)]
    have hno : ¬ ((acc : Int) * 16 + (d : Int) > 0x10FFFF) := by omega
    rw [if_neg hno]
    have hc : ((acc : Int) * 16 + (d : Int)) = ((acc * 16 + d : Nat) : Int) := by push_cast; ring
    rw [hc, ih (acc * 16 + d) (fun x hx => hds x (List.mem_cons_of_mem _ hx)) hb]
    rfl

/-- The text of `%04X` is made of digits, and read most significant first it is worth
the number printed. -/
theorem sprintf04X_digits (n : Nat) :
    sprintf04X n = (List.replicate (4 - (Nat.digits 16 n).length) 0 ++
      (Nat.digits 16 n).reverse).map hexChar ∧
    (∀ d ∈ List.replicate (4 - (Nat.digits 16 n).length) 0 ++ (Nat.digits 16 n).reverse,
      d < 16) ∧
    (List.replicate (4 - (Nat.digits 16 n).length) 0 ++ (Nat.digits 16 n).reverse).foldl
      (fun a d => a * 16 + d) 0 = n := by
  refine ⟨?_, ?_, ?_⟩
  · simp [sprintf04X, hexChar]
  · intro d hd
    rcases List.mem_append.1 hd with h | h
    · rw [List.eq_of_mem_replicate h]
      decide
    · exact Nat.digits_lt_base (by decide) (List.mem_reverse.1 h)
  · have hz : ∀ k : Nat, (List.replicate k 0).foldl (fun a d => a * 16 + d) 0 = 0 := by
      intro k
      induction k with
      | zero => rfl
      | succ k ih => rw [List.replicate_succ, List.foldl_cons]; exact ih
    have hf : ∀ l : List Nat, l.foldr (fun x y => y * 16 + x) 0 =
        l.foldr (fun x y => x + 16 * y) 0 := by
      intro l
      congr 1
      funext x y
      ring
    have h := Nat.ofDigits_digits 16 n
    rw [Nat.ofDigits_eq_foldr] at h
    simp only [Nat.cast_id, Nat.cast_ofNat] at h
    rw [List.foldl_append, hz, List.foldl_reverse]
    exact (hf _).trans h

/-- The range of the loop of `keyToUnicode`. -/
theorem keyToUnicode.loop_range (key : List Char) (cp : Int) (h0 : 0 ≤ cp)
    (h1 : cp ≤ 0x10FFFF) :
    0 ≤ keyToUnicode.loop key cp ∧ keyToUnicode.loop key cp ≤ 0x10FFFF := by
  induction key generalizing cp with
  | nil => exact ⟨h0, h1⟩
  | cons c rest ih =>
    rw [keyToUnicode.loop]
    have hw : wrapS32 (cp * 16) = cp * 16 := (wrapS32_shiftAdd cp 0 h0 h1 (by omega) (by omega)).1
    simp only [hw]
    split_ifs with hz hr hover hr2 hover2
    · exact ⟨h0, h1⟩
    · decide
    · have hd : ((c.toNat : Int) - ('0'.toNat : Int)) ≤ 15 ∧
          0 ≤ ((c.toNat : Int) - ('0'.toNat : Int)) := by
        have e0 : '0'.toNat = 48 := by decide
        have e9 : '9'.toNat = 57 := by decide
        rw [e0, e9] at hr
        rw [e0]
        omega
      rw [(wrapS32_shiftAdd cp _ h0 h1 hd.2 hd.1).2.1] at hover ⊢
      exact ih _ (by omega) (by omega)
    · decide
    · have hd : ((c.toNat : Int) - (('A'.toNat : Int) - 10)) ≤ 15 ∧
          0 ≤ ((c.toNat : Int) - (('A'.toNat : Int) - 10)) := by
        have eA : 'A'.toNat = 65 := by decide
        have eF : 'F'.toNat = 70 := by decide
        rw [eA, eF] at hr2
        rw [eA]
        omega
      rw [(wrapS32_shiftAdd cp _ h0 h1 hd.2 hd.1).2.1] at hover2 ⊢
      exact ih _ (by omega) (by omega)
    · decide

/-- The loop of `keyToUnicode` gives 0 when a character that is not a digit precedes the
terminator. -/
theorem keyToUnicode.loop_reject (key : List Char) (cp : Int)
    (hnul : ∀ c ∈ key, c.toNat ≠ 0) (hbad : ∃ c ∈ key, isKeyDigit c = false) :
    keyToUnicode.loop key cp = 0 := by
  induction key generalizing cp with
  | nil => simp at hbad
  | cons c rest ih =>
    rw [keyToUnicode.loop]
    rw [if_neg (hnul c (List.mem_cons_self _ _))]
    by_cases hc : isKeyDigit c = false
    · have hc1 : ¬ (('0'.toNat ≤ c.toNat ∧ c.toNat ≤ '9'.toNat) ∨
          ('A'.toNat ≤ c.toNat ∧ c.toNat ≤ 'F'.toNat)) := by
        simpa [isKeyDigit] using hc
      have h1 : ¬ ('0'.toNat ≤ c.toNat ∧ c.toNat ≤ '9'.toNat) := fun h => hc1 (Or.inl h)
      have h2 : ¬ ('A'.toNat ≤ c.toNat ∧ c.toNat ≤ 'F'.toNat) := fun h => hc1 (Or.inr h)
      simp only [h1, h2, if_false]
    · have hrest : ∃ c1 ∈ rest, isKeyDigit c1 = false := by
        obtain ⟨c1, hm, hb⟩ := hbad
        rcases List.mem_cons.1 hm with rfl | hm
        · exact absurd hb hc
        · exact ⟨c1, hm, hb⟩
      have hn : ∀ c1 ∈ rest, c1.toNat ≠ 0 := fun c1 hm => hnul c1 (List.mem_cons_of_mem _ hm)
      simp only []
      split_ifs
      · rfl
      · exact ih _ hn hrest
      · rfl
      · exact ih _ hn hrest
      · rfl

/-- C30. Key-name round trip: for every code point `cp` with `0 ≤ cp ≤ 0x10FFFF`,
`unicodeToKey` returns the text `U+` followed by the digits of `%04X`, which are at
least four upper-case hexadecimal digits, and `keyToUnicode` of that text is `cp`.  For
every string `keyToUnicode` is in `[0, 0x10FFFF]`; it is 0 when the string does not
start with `U+`, and when a character other than `0`-`9` and `A`-`F` follows that
prefix (before the terminator).  While the accumulator is a code point, the shift by
four bits and the addition of a digit do not leave the 32-bit signed range. -/
theorem keyToUnicode_unicodeToKey :
    (∀ cp : Int, 0 ≤ cp → cp ≤ 0x10FFFF →
      unicodeToKey cp = some ('U' :: '+' :: sprintf04X cp.toNat) ∧
      4 ≤ (sprintf04X cp.toNat).length ∧
      (∀ c ∈ sprintf04X cp.toNat, isKeyDigit c = true) ∧
      keyToUnicode ('U' :: '+' :: sprintf04X cp.toNat) = cp) ∧
    (∀ key, 0 ≤ keyToUnicode key ∧ keyToUnicode key ≤ 0x10FFFF) ∧
    (∀ key, (¬ ∃ rest, key = 'U' :: '+' :: rest) → keyToUnicode key = 0) ∧
    (∀ rest, (∀ c ∈ rest, c.toNat ≠ 0) → (∃ c ∈ rest, isKeyDigit c = false) →
      keyToUnicode ('U' :: '+' :: rest) = 0) ∧
    (∀ cp d : Int, 0 ≤ cp → cp ≤ 0x10FFFF → 0 ≤ d → d ≤ 15 →
      wrapS32 (cp * 16) = cp * 16 ∧ wrapS32 (cp * 16 + d) = cp * 16 + d ∧
        cp * 16 + d < 2 ^ 31) := by
  refine ⟨?_, ?_, ?_, ?_, wrapS32_shiftAdd⟩
  · intro cp h0 h1
    obtain ⟨hs, hlt, hval⟩ := sprintf04X_digits cp.toNat
    have hcp : ((cp.toNat : Nat) : Int) = cp := Int.toNat_of_nonneg h0
    refine ⟨by simp [unicodeToKey, h0, h1], ?_, ?_, ?_⟩
    · simp only [sprintf04X, List.length_append, List.length_replicate, List.length_map,
        List.length_reverse]
      omega
    · intro c hc
      rw [hs] at hc
      obtain ⟨d, hd, rfl⟩ := List.mem_map.1 hc
      have h16 := hlt d hd
      obtain ⟨_, hlo, hhi⟩ := hexChar_spec d h16
      by_cases h10 : d < 10
      · simp only [isKeyDigit, decide_eq_true_eq]
        exact Or.inl (hlo h10).1
      · simp only [isKeyDigit, decide_eq_true_eq]
        exact Or.inr (hhi h10).2.1
    · have hb : (List.replicate (4 - (Nat.digits 16 cp.toNat).length) 0 ++
          (Nat.digits 16 cp.toNat).reverse).foldl (fun a d => a * 16 + d) 0 ≤ 0x10FFFF := by
        rw [hval]
        omega
      have hl := keyToUnicode.loop_digits _ [] 0 hlt hb
      rw [List.append_nil, ← hs, hval] at hl
      simp only [keyToUnicode, ne_eq, not_true_eq_false, if_false]
      rw [show (0 : Int) = ((0 : Nat) : Int) from rfl, hl]
      simp [keyToUnicode.loop, hcp]
  · intro key
    unfold keyToUnicode
    split
    · decide
    · split_ifs
      · decide
      · split
        · decide
        · split_ifs
          · decide
          · exact keyToUnicode.loop_range _ 0 (by decide) (by decide)
  · intro key hne
    unfold keyToUnicode
    split
    · rfl
    · rename_i c rest
      split_ifs with hc
      · rfl
      · split
        · rfl
        · rename_i c1 rest1
          split_ifs with hc1
          · rfl
          · exfalso
            apply hne
            simp only [ne_eq, not_not] at hc hc1
            exact ⟨rest1, by rw [hc, hc1]⟩
  · intro rest hnul hbad
    simp only [keyToUnicode, ne_eq, not_true_eq_false, if_false]
    exact keyToUnicode.loop_reject rest 0 hnul hbad

/-- Witness of C30: the key name of the code point `0x1F600` is `U+1F600`, and it is
read back. -/
theorem keyToUnicode_unicodeToKey_witness :
    unicodeToKey 0x1F600 = some ('U' :: '+' :: sprintf04X (0x1F600 : Int).toNat) ∧
    keyToUnicode ('U' :: '+' :: sprintf04X (0x1F600 : Int).toNat) = 0x1F600 :=
  ⟨(keyToUnicode_unicodeToKey.1 0x1F600 (by decide) (by decide)).1,
   (keyToUnicode_unicodeToKey.1 0x1F600 (by decide) (by decide)).2.2.2⟩

/-! ## Thread: user data and the private lock -/

/-- The statements of `setUserData` up to the call of the old callback: the state in
which the callback is called, or in which the method returns when there is none. -/
theorem Locked.setUserData_eq (callback : Nat → Option Nat → Locked → Option Locked)
    (self : Nat) (id : String) (data deinitFunc : Option Nat) (s : Locked)
    (hfree : s.m_lock = false) :
    Locked.setUserData callback self id data deinitFunc s =
      match (Hash.search (s.world.objs self).m_userData id).bind
          (fun old => old.deinitFunc.map (fun f => (f, old.data))) with
      | some (f, d) =>
        callback f d ⟨Thread.setUserData self id data deinitFunc s.world, false,
          s.trace ++ [LockEvent.enter, LockEvent.leave, LockEvent.call f d]⟩
      | none =>
        some ⟨Thread.setUserData self id data deinitFunc s.world, false,
          s.trace ++ [LockEvent.enter, LockEvent.leave]⟩ := by
  unfold Locked.setUserData Thread.setUserData
  simp only [hfree, Bool.false_eq_true, if_false]
  cases hs : Hash.search (s.world.objs self).m_userData id with
  | none => simp
  | some old =>
    cases hf : old.deinitFunc with
    | none => simp [hf]
    | some f => simp [hf]

theorem Locked.getUserData_eq (self : Nat) (id : String) (s : Locked)
    (hfree : s.m_lock = false) :
    Locked.getUserData self id s = some (Thread.getUserData self id s.world,
      ⟨s.world, false, s.trace ++ [LockEvent.enter, LockEvent.leave]⟩) := by
  simp only [Locked.getUserData, Thread.getUserData, hfree, Bool.false_eq_true, if_false,
    List.append_assoc, List.singleton_append]
  all_goals (cases Hash.search (s.world.objs self).m_userData id <;> rfl)

/-- The slot of `id` after `setUserData(id, data, deinitFunc)`. -/
theorem Thread.getUserData_set (self : Nat) (id : String) (data deinitFunc : Option Nat)
    (w : World) :
    Thread.getUserData self id (Thread.setUserData self id data deinitFunc w) = data := by
  unfold Thread.getUserData
  rw [Thread.setUserData_map]
  cases hs : Hash.search (w.objs self).m_userData id with
  | none =>
    by_cases hn : (data.isSome || deinitFunc.isSome) = true
    · simp [hn, Hash.search_add, hs]
    · have hd : data = none ∧ deinitFunc = none := by
        cases data <;> cases deinitFunc <;> simp_all
      simp [hs, hd.1, hd.2]
  | some old =>
    by_cases hn : (data.isSome || deinitFunc.isSome) = true
    · simp [hn, Hash.search_assign, hs]
    · have hd : data = none ∧ deinitFunc = none := by
        cases data <;> cases deinitFunc <;> simp_all
      simp [Hash.search_remove, hd.1, hd.2]

/-- C27. The deinit callback is called outside the private lock.  A call
`setUserData(id, data, deinitFunc)` that finds `m_lock` free takes the lock, updates the
map and releases the lock; when the slot of `id` held a callback `f` with the data `d`,
it then calls `f(d)`, and that is the only call of user code; otherwise it returns.  In
the state in which `f(d)` is called the lock is free, the events of the call are
`enter, leave, call` in this order, and the map is the updated one (the state is what
`setUserData` leaves when the callback does nothing): a `getUserData(id)` made by the
callback proceeds and returns the new `data`, and a `setUserData` made by the callback
proceeds as well.  A call that finds the lock held does not proceed. -/
theorem Locked.setUserData_outside (callback : Nat → Option Nat → Locked → Option Locked)
    (self : Nat) (id : String) (data deinitFunc : Option Nat) (s : Locked) :
    (s.m_lock = true → Locked.setUserData callback self id data deinitFunc s = none) ∧
    (s.m_lock = false →
      (∀ f d old, Hash.search (s.world.objs self).m_userData id = some old →
        old.deinitFunc = some f → old.data = d →
        Locked.setUserData callback self id data deinitFunc s =
          callback f d ⟨Thread.setUserData self id data deinitFunc s.world, false,
            s.trace ++ [LockEvent.enter, LockEvent.leave, LockEvent.call f d]⟩ ∧
        Locked.getUserData self id ⟨Thread.setUserData self id data deinitFunc s.world, false,
            s.trace ++ [LockEvent.enter, LockEvent.leave, LockEvent.call f d]⟩ =
          some (data, ⟨Thread.setUserData self id data deinitFunc s.world, false,
            s.trace ++ [LockEvent.enter, LockEvent.leave, LockEvent.call f d] ++
              [LockEvent.enter, LockEvent.leave]⟩) ∧
        ∀ k data1 deinitFunc1, (Locked.setUserData (fun _ _ t => some t) self k data1 deinitFunc1
          ⟨Thread.setUserData self id data deinitFunc s.world, false,
            s.trace ++ [LockEvent.enter, LockEvent.leave, LockEvent.call f d]⟩).isSome = true) ∧
      ((∀ old, Hash.search (s.world.objs self).m_userData id = some old →
          old.deinitFunc = none) →
        Locked.setUserData callback self id data deinitFunc s =
          some ⟨Thread.setUserData self id data deinitFunc s.world, false,
            s.trace ++ [LockEvent.enter, LockEvent.leave]⟩)) := by
  refine ⟨fun hheld => by simp [Locked.setUserData, hheld], fun hfree => ⟨?_, ?_⟩⟩
  · intro f d old hs hf hd
    refine ⟨?_, ?_, ?_⟩
    · rw [Locked.setUserData_eq _ _ _ _ _ _ hfree, hs]
      simp [hf, hd]
    · rw [Locked.getUserData_eq _ _ _ rfl, Thread.getUserData_set]
    · intro k data1 deinitFunc1
      rw [Locked.setUserData_eq _ _ _ _ _ _ rfl]
      split <;> rfl
  · intro hnone
    rw [Locked.setUserData_eq _ _ _ _ _ _ hfree]
    cases hs : Hash.search (s.world.objs self).m_userData id with
    | none => rfl
    | some old => simp [hnone old hs]

/-- Witness of C27: the key "b" holds the callback 4 with the data 3; the callback asks
for the user data of "b" when it is called, and gets the new data 5. -/
theorem Locked.setUserData_outside_witness :
    Locked.setUserData (fun _ _ t => (Locked.getUserData 100 "b" t).map Prod.snd) 100 "b"
        (some 5) none
        ⟨⟨fun _ => ⟨0, false, 0, none, 0, [("b", ⟨some 3, some 4⟩)]⟩, [], none, []⟩, false, []⟩ =
      (Locked.getUserData 100 "b" ⟨Thread.setUserData 100 "b" (some 5) none
          ⟨fun _ => ⟨0, false, 0, none, 0, [("b", ⟨some 3, some 4⟩)]⟩, [], none, []⟩, false,
        [] ++ [LockEvent.enter, LockEvent.leave, LockEvent.call 4 (some 3)]⟩).map Prod.snd :=
  (((Locked.setUserData_outside (fun _ _ t => (Locked.getUserData 100 "b" t).map Prod.snd) 100
    "b" (some 5) none
    ⟨⟨fun _ => ⟨0, false, 0, none, 0, [("b", ⟨some 3, some 4⟩)]⟩, [], none, []⟩, false, []⟩).2
      rfl).1 4 (some 3) ⟨some 3, some 4⟩ rfl rfl rfl).1

/-! ## Monitor: the owner is the thread that has acquired `m_ownerSem` -/

theorem Monitor.holders_snoc (b : Backend) (tr : List Label) (lab : Label) (s0 s s1 : Sys)
    (acq : Nat → Bool) (hrun : Monitor.run b tr s0 = some s)
    (hnext : Monitor.next b lab s = some s1) :
    Monitor.holders b (tr ++ [lab]) s0 acq =
      Monitor.acquired s s1 lab.tid (Monitor.holders b tr s0 acq) := by
  induction tr generalizing s0 acq with
  | nil =>
    simp only [Monitor.run, Option.some.injEq] at hrun
    subst hrun
    simp [Monitor.holders, hnext]
  | cons x rest ih =>
    simp only [Monitor.run] at hrun
    cases hx : Monitor.next b x s0 with
    | none => simp [hx] at hrun
    | some s2 =>
      rw [hx] at hrun
      simp only [List.cons_append, Monitor.holders, hx]
      exact ih s2 _ hrun

/-- At a program point inside, `m_ownerThread` is the thread itself or `m_enterCount`
is zero. -/
theorem OwnInv.inside_owner {s : Sys} (inv : OwnInv s) (t : Nat)
    (hin : (s.loc t).pc.inside = true) (hc : s.mon.m_enterCount ≠ 0) :
    s.mon.m_ownerThread = t := by
  have h1 := inv.ownerSelf t
  have h2 := inv.countZero t
  have h3 := inv.setOwner t
  cases h : (s.loc t).pc <;> simp [h, PC.inside, PC.ownerSelf, PC.countZero] at hin h1 h2 h3
  all_goals first
    | exact h1
    | exact absurd h2 hc
    | exact h3.resolve_right hc

/-- A thread that holds the monitor while `m_enterCount` is not zero is the owner. -/
theorem OwnInv.holds_owner {s : Sys} (inv : OwnInv s) (t : Nat) (h : s.holds t)
    (hc : s.mon.m_enterCount ≠ 0) : s.mon.m_ownerThread = t := by
  rcases h with hin | ⟨-, ho, -⟩
  · exact inv.inside_owner t hin hc
  · exact ho

/-- The transitions that change the count of `m_ownerSem`: an acquire leads inside, a
release is made from inside at a point where `m_enterCount` is zero. -/
theorem Monitor.next_ownerSem {b : Backend} {lab : Label} {s s1 : Sys}
    (hs : Monitor.next b lab s = some s1) :
    (s1.mon.m_ownerSem.count < s.mon.m_ownerSem.count → (s1.loc lab.tid).pc.inside = true) ∧
    (s.mon.m_ownerSem.count < s1.mon.m_ownerSem.count →
      (s.loc lab.tid).pc.inside = true ∧ (s.loc lab.tid).pc.countZero = true) := by
  rcases Monitor.next_self hs with ⟨-, hstep⟩ | ⟨op, -, hidle, hcall⟩
  · cases h : (s.loc lab.tid).pc <;>
      simp [Monitor.step, h, acquireThen_eq, releaseThen_eq, FW_ASSERT, Sys.goto] at hstep
    all_goals try split_ifs at hstep
    all_goals try simp only [Option.some.injEq] at hstep
    all_goals first | subst hstep | (obtain ⟨hc, rfl⟩ := hstep)
    all_goals simp [Sys.put, PC.inside, PC.countZero]
  · simp only [Monitor.call, hidle, if_true] at hcall
    cases op <;> simp only [Option.some.injEq, Sys.goto, Op.entry] at hcall <;> subst hcall <;>
      simp [Sys.put]
/-- A transition of thread `t` that leaves the count of `m_ownerSem` as it is does not
change whether `t` holds the monitor. -/
theorem Monitor.next_holds_self {b : Backend} {lab : Label} {s s1 : Sys} (inv : MInv s)
    (hs : Monitor.next b lab s = some s1)
    (hsem : s1.mon.m_ownerSem.count = s.mon.m_ownerSem.count) :
    s1.holds lab.tid ↔ s.holds lab.tid := by
  have h1 := inv.own.ownerSelf lab.tid
  have h2 := inv.own.countZero lab.tid
  have h3 := inv.own.countPos lab.tid
  have h4 := inv.own.currEnter lab.tid
  have h5 := (MInv.keep_next inv hs).shake.noFatal lab.tid
  rcases Monitor.next_self hs with ⟨-, hstep⟩ | ⟨op, -, hidle, hcall⟩
  · cases h : (s.loc lab.tid).pc <;>
      simp [Monitor.step, h, acquireThen_eq, releaseThen_eq, FW_ASSERT, Sys.goto] at hstep
    all_goals try split_ifs at hstep
    all_goals try simp only [Option.some.injEq] at hstep
    all_goals first | subst hstep | (obtain ⟨hc, rfl⟩ := hstep)
    all_goals simp [Sys.holds, Sys.put, h, PC.inside, PC.outside, PC.ownerSelf, PC.countZero,
      PC.countPos, PC.inEnter] at hsem h1 h2 h3 h4 h5 ⊢
    all_goals first
      | done
      | omega
  · simp only [Monitor.call, hidle, if_true] at hcall
    cases op <;> simp only [Option.some.injEq, Sys.goto, Op.entry] at hcall <;> subst hcall <;>
      simp [Sys.holds, Sys.put, hidle, PC.inside, PC.outside]
/-- One transition keeps the two facts about the owner: the threads that have acquired
`m_ownerSem` and not released it are those that hold the monitor, and while
`m_enterCount` is not zero the owner holds the monitor. -/
theorem Monitor.owner_next {b : Backend} {lab : Label} {s s1 : Sys} (acq : Nat → Bool)
    (inv : MInv s) (hs : Monitor.next b lab s = some s1)
    (hacq : ∀ u, acq u = true ↔ s.holds u)
    (hown : s.mon.m_enterCount ≠ 0 → s.holds s.mon.m_ownerThread) :
    (∀ u, Monitor.acquired s s1 lab.tid acq u = true ↔ s1.holds u) ∧
    (s1.mon.m_enterCount ≠ 0 → s1.holds s1.mon.m_ownerThread) := by
  have inv1 := MInv.keep_next inv hs
  obtain ⟨htake, hgive⟩ := Monitor.next_ownerSem hs
  constructor
  · intro u
    unfold Monitor.acquired
    by_cases hlt : s1.mon.m_ownerSem.count < s.mon.m_ownerSem.count
    · rw [if_pos hlt]
      have hin : s1.holds lab.tid := Or.inl (htake hlt)
      by_cases hu : u = lab.tid
      · subst hu
        simp [hin]
      · rw [Function.update_noteq hu]
        constructor
        · intro h
          have h0 := inv.own.holdsSem u ((hacq u).1 h)
          omega
        · intro h
          exact absurd (inv1.own.holdsUnique u lab.tid h hin) hu
    · rw [if_neg hlt]
      by_cases hgt : s.mon.m_ownerSem.count < s1.mon.m_ownerSem.count
      · rw [if_pos hgt]
        have hnone : ∀ v, ¬ s1.holds v := by
          intro v hv
          have h0 := inv1.own.holdsSem v hv
          omega
        have hin : s.holds lab.tid := Or.inl (hgive hgt).1
        by_cases hu : u = lab.tid
        · subst hu
          simp [hnone]
        · rw [Function.update_noteq hu]
          constructor
          · intro h
            exact absurd (inv.own.holdsUnique u lab.tid ((hacq u).1 h) hin) hu
          · intro h
            exact absurd h (hnone u)
      · rw [if_neg hgt, hacq u]
        by_cases hu : u = lab.tid
        · subst hu
          exact (Monitor.next_holds_self inv hs (by omega)).symm
        · exact ⟨fun h => Monitor.next_holds_keep inv hs u (Ne.symm hu) h,
            fun h => Monitor.next_holds_mono inv hs u hu h⟩
  · intro hc
    rcases Monitor.next_fields hs with ⟨e1, e2⟩ | hin
    · rw [e2] at hc
      rw [e1]
      have hold := hown hc
      by_cases ht : lab.tid = s.mon.m_ownerThread
      · rw [← ht] at hold ⊢
        by_cases hlt : s1.mon.m_ownerSem.count < s.mon.m_ownerSem.count
        · exact Or.inl (htake hlt)
        · by_cases hgt : s.mon.m_ownerSem.count < s1.mon.m_ownerSem.count
          · exact absurd (inv.own.countZero lab.tid (hgive hgt).2) hc
          · exact (Monitor.next_holds_self inv hs (by omega)).2 hold
      · exact Monitor.next_holds_keep inv hs _ ht hold
    · rw [inv1.own.inside_owner lab.tid hin hc]
      exact Or.inl hin

/-- The two facts about the owner at the end of every execution from a fresh monitor. -/
theorem Monitor.owner_run (b : Backend) (tr : List Label) (s : Sys)
    (hrun : Monitor.run b tr (Sys.start ⟨false, ⟨1, 1⟩, ⟨0, 1⟩, ⟨0, 1⟩, 0, 0, 0⟩) = some s) :
    (∀ u, Monitor.holders b tr (Sys.start ⟨false, ⟨1, 1⟩, ⟨0, 1⟩, ⟨0, 1⟩, 0, 0, 0⟩)
      (fun _ => false) u = true ↔ s.holds u) ∧
    (s.mon.m_enterCount ≠ 0 → s.holds s.mon.m_ownerThread) := by
  refine Monitor.run_induction
    (fun tr s => (∀ u, Monitor.holders b tr (Sys.start ⟨false, ⟨1, 1⟩, ⟨0, 1⟩, ⟨0, 1⟩, 0, 0, 0⟩)
      (fun _ => false) u = true ↔ s.holds u) ∧
      (s.mon.m_enterCount ≠ 0 → s.holds s.mon.m_ownerThread)) ?_ ?_ tr s hrun
  · simp [Monitor.holders, Sys.start, Sys.holds, PC.inside]
  · intro pre lab s2 s3 hpre hP hnext
    rw [Monitor.holders_snoc b pre lab _ s2 s3 _ hpre hnext]
    exact Monitor.owner_next _ (MInv.keep_run pre MInv.start hpre) hnext hP.1 hP.2

/-- C25. Monitor ownership invariant.  In every state reached from a freshly
constructed monitor by `enter`, `leave`, `wait`, `notify` and `notifyAll` statements of
any threads, in any interleaving: when `m_enterCount` is positive, the count of
`m_ownerSem` is 0, the thread `m_ownerThread` holds the monitor, and it is the one
thread that has acquired `m_ownerSem` and not released it since; `m_enterCount` and
`m_waitCount` are not negative. -/
theorem Monitor.owner_invariant (b : Backend) (T : Finset Nat) (m : Monitor)
    (tr : List Label) (s : Sys) (hm : Monitor.new b = Res.ret m ())
    (hT : ∀ lab ∈ tr, lab.tid ∈ T) (hrun : Monitor.run b tr (Sys.start m) = some s) :
    (0 < s.mon.m_enterCount →
      s.mon.m_ownerSem.count = 0 ∧ s.holds s.mon.m_ownerThread ∧
      ∀ u, Monitor.holders b tr (Sys.start m) (fun _ => false) u = true ↔
        u = s.mon.m_ownerThread) ∧
    0 ≤ s.mon.m_enterCount ∧ 0 ≤ s.mon.m_waitCount := by
  have hreach : Reachable b T s := ⟨m, tr, hm, hT, hrun⟩
  have inv := Reachable.inv hreach
  have hw := (Reachable.waitInv hreach).count
  rw [Monitor.new_eq] at hm
  simp only [Res.ret.injEq, and_true] at hm
  subst hm
  obtain ⟨hacq, hown⟩ := Monitor.owner_run b tr s hrun
  refine ⟨fun hpos => ?_, inv.own.countNonneg, by rw [hw]; exact Int.natCast_nonneg _⟩
  have hc : s.mon.m_enterCount ≠ 0 := by omega
  have hold := hown hc
  refine ⟨inv.own.holdsSem _ hold, hold, fun u => ?_⟩
  rw [hacq u]
  exact ⟨fun h => (inv.own.holds_owner u h hc).symm, fun h => h ▸ hold⟩

/-- Witness of C25: thread 1 has entered and waits, thread 2 has entered; thread 2 is
the owner and the only thread that has `m_ownerSem`. -/
theorem Monitor.owner_invariant_witness :
    (Monitor.exampleAfter Backend.qt Monitor.exampleWaiting).mon.m_ownerSem.count = 0 ∧
    (Monitor.exampleAfter Backend.qt Monitor.exampleWaiting).holds
      (Monitor.exampleAfter Backend.qt Monitor.exampleWaiting).mon.m_ownerThread ∧
    ∀ u, Monitor.holders Backend.qt Monitor.exampleWaiting
        (Sys.start ⟨false, ⟨1, 1⟩, ⟨0, 1⟩, ⟨0, 1⟩, 0, 0, 0⟩) (fun _ => false) u = true ↔
      u = (Monitor.exampleAfter Backend.qt Monitor.exampleWaiting).mon.m_ownerThread :=
  (Monitor.owner_invariant Backend.qt {1, 2} ⟨false, ⟨1, 1⟩, ⟨0, 1⟩, ⟨0, 1⟩, 0, 0, 0⟩
    Monitor.exampleWaiting (Monitor.exampleAfter Backend.qt Monitor.exampleWaiting) rfl
    (by decide) (Monitor.exampleAfter_run Backend.qt [] Monitor.exampleWaiting rfl)).1
    (by decide)

/-! ## Thread: the handle and the registry in every reachable state -/

theorem World.touched_refl (a : Nat) (w : World) : World.touched a w w :=
  ⟨fun _ _ => rfl, Or.inl ⟨rfl, rfl, rfl, rfl⟩⟩

theorem World.touched_trans {a : Nat} {w w1 w2 : World} (h1 : World.touched a w w1)
    (h2 : World.touched a w1 w2) : World.touched a w w2 := by
  obtain ⟨ho1, hc1⟩ := h1
  obtain ⟨ho2, hc2⟩ := h2
  refine ⟨fun o ho => by rw [ho2 o ho, ho1 o ho], ?_⟩
  rcases hc1 with ⟨a1, a2, a3, a4⟩ | ⟨a1, a2, a3, a4⟩
  · rcases hc2 with ⟨b1, b2, b3, b4⟩ | ⟨b1, b2, b3, b4⟩
    · exact Or.inl ⟨by rw [b1, a1], by rw [b2, a2], by rw [b3, a3], by rw [b4, a4]⟩
    · refine Or.inr ⟨by rw [← a1]; exact b1, b2, ?_, by rw [b4, a4]⟩
      intro e he
      have := b3 e he
      rw [a3, a2] at this
      exact this
  · rcases hc2 with ⟨b1, b2, b3, b4⟩ | ⟨b1, b2, b3, b4⟩
    · refine Or.inr ⟨a1, by rw [b1, a2], ?_, by rw [b4, a4]⟩
      intro e he
      rw [b3] at he
      exact a3 e he
    · exact absurd a2 b1

/-- A change of the reference count and of the exited flag of the object, and a record
other than that of a closed handle. -/
theorem World.touched_fields (a : Nat) (w : World) (th : Thread) (events : List Event)
    (hh : th.m_handle = (w.objs a).m_handle) (hi : th.m_id = (w.objs a).m_id)
    (he : ∀ e ∈ events, Event.isClose e = false) :
    World.touched a w { w.setObj a th with log := w.log ++ events } := by
  refine ⟨fun o ho => by simp [World.setObj, Function.update_noteq ho],
    Or.inl ⟨by simp [World.setObj, hh], by simp [World.setObj, hi], rfl, ?_⟩⟩
  simp only [World.closes, List.countP_append, add_right_eq_self, List.countP_eq_zero]
  intro e hm
  simp [he e hm]

theorem World.touched_exited (a : Nat) (w : World) : World.touched a w (Thread.exited a w) := by
  cases hh : (w.objs a).m_handle with
  | none =>
    have h := World.touched_fields a w (w.objs a) [Event.exited a] rfl rfl
      (by intro e he; rw [List.mem_singleton.1 he]; rfl)
    have heq : Thread.exited a w = { w.setObj a (w.objs a) with log := w.log ++ [Event.exited a] } := by
      simp [Thread.exited, hh, World.setObj]
    rw [heq]
    exact h
  | some handle =>
    obtain ⟨h1, _, _, _, h5, _, _, _, h9⟩ := Thread.exited_live a w handle hh
    refine ⟨h5, Or.inr ⟨by simp [hh], h1, fun e he => Thread.exited_mem a w handle hh e he, ?_⟩⟩
    simp [World.closes, h9, List.countP_append, List.countP_cons, Event.isClose]

theorem World.touched_refer (a : Nat) (w : World) : World.touched a w (Thread.refer a w) := by
  have h := World.touched_fields a w
    { w.objs a with m_refCount := (w.objs a).m_refCount + 1 } [] rfl rfl (by simp)
  simpa [Thread.refer, World.setObj] using h

theorem World.touched_unrefer (a : Nat) (w : World) :
    World.touched a w (Thread.unrefer a w) := by
  rw [Thread.unrefer_eq]
  split_ifs
  · refine World.touched_trans ?_ (World.touched_exited a _)
    have h := World.touched_fields a w
      { w.objs a with m_refCount := (w.objs a).m_refCount - 1, m_exited := false } [] rfl rfl
      (by simp)
    simpa [World.setObj] using h
  · have h := World.touched_fields a w
      { w.objs a with m_refCount := (w.objs a).m_refCount - 1 } [] rfl rfl (by simp)
    simpa [World.setObj] using h

theorem World.touched_mark (a : Nat) (w : World) (events : List Event)
    (he : ∀ e ∈ events, Event.isClose e = false) :
    World.touched a w { w.setObj a { w.objs a with m_exited := true } with
      log := w.log ++ events } :=
  World.touched_fields a w _ events rfl rfl he

theorem World.touched_joinBody (b : Backend) (res : Option WaitResult) (a : Nat)
    (w w1 : World) (h : Thread.joinBody b res a w = Res.ret () w1) :
    World.touched a w w1 := by
  cases hh : (w.objs a).m_handle with
  | none =>
    rw [Thread.joinBody_none b res a w hh] at h
    injection h with _ h
    rw [← h]
    refine World.touched_trans ?_ (World.touched_unrefer a _)
    have h2 := World.touched_fields a w
      { w.objs a with m_refCount := (w.objs a).m_refCount + 1, m_exited := true } [] rfl rfl
      (by simp)
    simpa [World.referExited, World.setObj] using h2
  | some handle =>
    cases res with
    | none =>
      rw [Thread.joinBody_blocks b a w handle hh] at h
      exact absurd h (by simp)
    | some r =>
      rw [Thread.joinBody_some b r a w handle hh] at h
      split_ifs at h
      injection h with _ h
      rw [← h]
      refine World.touched_trans ?_ (World.touched_unrefer a _)
      have h2 := World.touched_fields a w
        { w.objs a with m_refCount := (w.objs a).m_refCount + 1, m_exited := true }
        [Event.wait handle] rfl rfl (by intro e he; rw [List.mem_singleton.1 he]; rfl)
      simpa [World.referExited, World.setObj, World.record] using h2

theorem World.touched_isAlive (b : Backend) (exitCode : Option Nat) (finished : Bool)
    (a : Nat) (w w1 : World) (r : Bool)
    (h : Thread.isAlive b exitCode finished a w = Res.ret r w1) :
    World.touched a w w1 := by
  cases hh : (w.objs a).m_handle with
  | none =>
    rw [Thread.isAlive_none b exitCode finished a w hh] at h
    injection h with _ h
    rw [← h]
    exact World.touched_trans (World.touched_refer a w) (World.touched_unrefer a _)
  | some handle =>
    rw [Thread.isAlive_some b exitCode finished a w handle hh] at h
    split_ifs at h
    · injection h with _ h
      rw [← h]
      exact World.touched_trans (World.touched_refer a w) (World.touched_unrefer a _)
    · injection h with _ h
      rw [← h]
      refine World.touched_trans (World.touched_refer a w)
        (World.touched_trans ?_ (World.touched_unrefer a _))
      have h2 := World.touched_mark a (Thread.refer a w) [] (by simp)
      simpa [World.setObj] using h2
theorem ObjSys.handlesOk_after {s : ObjSys} {a : Nat} {w1 : World} (h : s.handlesOk)
    (ha : a ∈ s.made) (ht : World.touched a s.world w1) : (s.after a w1).handlesOk := by
  intro o ho
  obtain ⟨hother, hcase⟩ := ht
  have hold := h o ho
  simp only [ObjSys.after] at ho ⊢
  rcases hcase with ⟨h1, _, _, h4⟩ | ⟨_, h2, _, h4⟩
  · rw [if_neg (by omega)]
    by_cases hoa : o = a
    · subst hoa
      rw [h1]
      exact hold
    · rw [hother o hoa]
      exact hold
  · rw [if_pos (by omega)]
    by_cases hoa : o = a
    · subst hoa
      simp [h2]
    · rw [Function.update_noteq hoa, hother o hoa]
      exact hold

theorem ObjSys.entriesOk_after {s : ObjSys} {a : Nat} {w1 : World} (h : s.entriesOk)
    (ht : World.touched a s.world w1) : (s.after a w1).entriesOk := by
  intro e he
  obtain ⟨hother, hcase⟩ := ht
  simp only [ObjSys.after] at he ⊢
  rcases hcase with ⟨h1, h2, h3, _⟩ | ⟨_, _, h3, _⟩
  · rw [h3] at he
    obtain ⟨m1, m2, m3⟩ := h e he
    by_cases hea : e.2 = a
    · rw [hea] at m2 m3 ⊢
      exact ⟨hea ▸ m1, by rw [h2]; exact m2, by rw [h1]; exact m3⟩
    · rw [hother e.2 hea]
      exact ⟨m1, m2, m3⟩
  · obtain ⟨hin, hne⟩ := h3 e he
    obtain ⟨m1, m2, m3⟩ := h e hin
    have hea : e.2 ≠ a := by
      intro hea
      rw [hea] at m2
      exact hne m2.symm
    rw [hother e.2 hea]
    exact ⟨m1, m2, m3⟩

/-- The lookup `getCurrent()` keeps both facts, with the wrapper it may construct. -/
theorem ObjSys.ok_wrapped (b : Backend) {s : ObjSys} {c : Caller} {curr : Nat} {w1 : World}
    (hf : c.fresh ∉ s.made) (hg : Thread.getCurrent b c s.world = Res.ret curr w1) :
    (s.handlesOk → ({ s.wrapped c with world := w1 } : ObjSys).handlesOk) ∧
    (s.entriesOk → ({ s.wrapped c with world := w1 } : ObjSys).entriesOk) ∧
    (∀ a ∈ s.made, a ∈ (s.wrapped c).made) ∧ w1.closes = s.world.closes := by
  rcases Thread.getCurrent_cases b c s.world curr w1 hg with ⟨hs, rfl⟩ | ⟨hs, -, handle, -, rfl⟩
  · have hw : s.wrapped c = s := by
      simp [ObjSys.wrapped, hs]
    rw [hw]
    exact ⟨fun h => h, fun h => h, fun a ha => ha, rfl⟩
  · have hw : s.wrapped c =
        { s with made := c.fresh :: s.made, up := Function.update s.up c.fresh true } := by
      simp [ObjSys.wrapped, hs]
    rw [hw]
    refine ⟨?_, ?_, fun a ha => List.mem_cons_of_mem _ ha, rfl⟩
    · intro h o ho
      simp only [List.mem_cons] at ho
      by_cases hoc : o = c.fresh
      · subst hoc
        simp [World.wrap]
      · have hm : o ∈ s.made := ho.resolve_left hoc
        simp only [World.wrap, Function.update_noteq hoc]
        exact h o hm
    · intro h e he
      simp only [World.wrap, Hash.add, List.mem_append, List.mem_singleton] at he
      rcases he with he | rfl
      · obtain ⟨m1, m2, m3⟩ := h e he
        have hne : e.2 ≠ c.fresh := fun hx => hf (hx ▸ m1)
        simp only [World.wrap, Function.update_noteq hne]
        exact ⟨List.mem_cons_of_mem _ m1, m2, m3⟩
      · simp [World.wrap]

theorem ObjSys.wrapped_world (s : ObjSys) (c : Caller) : (s.wrapped c).world = s.world := by
  unfold ObjSys.wrapped
  split_ifs <;> rfl

/-- A call of `join()` that returns is a lookup `getCurrent()` followed by the part
after the assertions. -/
theorem Thread.join_ret (b : Backend) (c : Caller) (res : Option WaitResult) (self : Nat)
    (w w1 : World) (h : Thread.join b c res self w = Res.ret () w1) :
    ∃ curr w2, Thread.getCurrent b c w = Res.ret curr w2 ∧
      Thread.joinBody b res self w2 = Res.ret () w1 := by
  cases hg : Thread.getCurrent b c w with
  | ret curr w2 =>
    rw [Thread.join_eq b c res self w curr w2 hg] at h
    split_ifs at h
    exact ⟨curr, w2, rfl, h⟩
  | blocks w2 => simp [Thread.join, Thread.getMain, hg, Res.bind] at h
  | fatal w2 => simp [Thread.join, Thread.getMain, hg, Res.bind] at h

theorem Thread.started_ret (b : Backend) (c : Caller) (self : Nat) (w w1 : World)
    (h : Thread.started b c self w = Res.ret () w1) :
    ∃ handle, c.handle = some handle ∧
      w1 = ⟨Function.update w.objs self { w.objs self with m_id := c.id, m_handle := some handle },
        if Hash.contains w.s_threads c.id then w.s_threads else Hash.add w.s_threads c.id self,
        if w.s_mainThread = none then some self else w.s_mainThread, w.log⟩ := by
  cases hh : c.handle with
  | none => cases b <;> simp [Thread.started, hh] at h
  | some handle =>
    rw [Thread.started_eq b c self w handle hh] at h
    injection h with _ h
    exact ⟨handle, rfl, h.symm⟩

/-- Every operation keeps the fact about the handles. -/
theorem ObjSys.handlesOk_step (b : Backend) (strict : Bool) (s s1 : ObjSys) (op : ObjOp)
    (h : s.handlesOk) (hs : ObjSys.step b strict s op = some s1) : s1.handlesOk := by
  cases op with
  | construct a =>
    simp only [ObjSys.step] at hs
    split_ifs at hs with hm
    injection hs with hs
    subst hs
    intro o ho
    simp only [List.mem_cons] at ho
    by_cases hoa : o = a
    · subst hoa
      simp [Thread.new, World.setObj]
    · simp only [Thread.new, World.setObj, Function.update_noteq hoa]
      exact h o (ho.resolve_left hoa)
  | started c a =>
    simp only [ObjSys.step] at hs
    split_ifs at hs with hm
    cases hr : Thread.started b c a s.world with
    | ret u w1 =>
      rw [hr] at hs
      injection hs with hs
      subst hs
      obtain ⟨handle, _, rfl⟩ := Thread.started_ret b c a s.world w1 hr
      intro o ho
      by_cases hoa : o = a
      · subst hoa
        simp
      · simp only [Function.update_noteq hoa]
        exact h o ho
    | blocks w1 => simp [hr] at hs
    | fatal w1 => simp [hr] at hs
  | refer a =>
    simp only [ObjSys.step] at hs
    split_ifs at hs with hm
    injection hs with hs
    subst hs
    exact ObjSys.handlesOk_after h hm (World.touched_refer a _)
  | unrefer a =>
    simp only [ObjSys.step] at hs
    split_ifs at hs with hm
    injection hs with hs
    subst hs
    exact ObjSys.handlesOk_after h hm (World.touched_unrefer a _)
  | exited a =>
    simp only [ObjSys.step] at hs
    split_ifs at hs with hm
    injection hs with hs
    subst hs
    exact ObjSys.handlesOk_after h hm (World.touched_exited a _)
  | join c res a =>
    simp only [ObjSys.step] at hs
    split_ifs at hs with hm
    cases hr : Thread.join b c res a s.world with
    | ret u w1 =>
      rw [hr] at hs
      injection hs with hs
      subst hs
      obtain ⟨curr, w2, hg, hj⟩ := Thread.join_ret b c res a s.world w1 hr
      obtain ⟨k1, _, k3, k4⟩ := ObjSys.ok_wrapped b hm.2 hg
      have := ObjSys.handlesOk_after (k1 h) (k3 a hm.1) (World.touched_joinBody b res a w2 w1 hj)
      simpa [ObjSys.after, k4, ObjSys.wrapped_world] using this
    | blocks w1 => simp [hr] at hs
    | fatal w1 => simp [hr] at hs
  | isAlive exitCode finished a =>
    simp only [ObjSys.step] at hs
    split_ifs at hs with hm
    cases hr : Thread.isAlive b exitCode finished a s.world with
    | ret r w1 =>
      rw [hr] at hs
      injection hs with hs
      subst hs
      exact ObjSys.handlesOk_after h hm (World.touched_isAlive b exitCode finished a _ w1 r hr)
    | blocks w1 => simp [hr] at hs
    | fatal w1 => simp [hr] at hs
  | getCurrent c =>
    simp only [ObjSys.step] at hs
    split_ifs at hs with hm
    cases hr : Thread.getCurrent b c s.world with
    | ret curr w1 =>
      rw [hr] at hs
      injection hs with hs
      subst hs
      exact (ObjSys.ok_wrapped b hm hr).1 h
    | blocks w1 => simp [hr] at hs
    | fatal w1 => simp [hr] at hs

/-- Every operation keeps the fact about the registry entries, when `started()` runs
only on objects without handle. -/
theorem ObjSys.entriesOk_step (b : Backend) (s s1 : ObjSys) (op : ObjOp)
    (h : s.entriesOk) (hs : ObjSys.step b true s op = some s1) : s1.entriesOk := by
  cases op with
  | construct a =>
    simp only [ObjSys.step] at hs
    split_ifs at hs with hm
    injection hs with hs
    subst hs
    intro e he
    obtain ⟨m1, m2, m3⟩ := h e (by simpa [Thread.new, World.setObj] using he)
    have hne : e.2 ≠ a := fun hx => hm (hx ▸ m1)
    simp only [Thread.new, World.setObj, Function.update_noteq hne]
    exact ⟨List.mem_cons_of_mem _ m1, m2, m3⟩
  | started c a =>
    simp only [ObjSys.step] at hs
    split_ifs at hs with hm
    cases hr : Thread.started b c a s.world with
    | ret u w1 =>
      rw [hr] at hs
      injection hs with hs
      subst hs
      obtain ⟨handle, _, rfl⟩ := Thread.started_ret b c a s.world w1 hr
      have hnone : (s.world.objs a).m_handle = none := hm.2 trivial
      have hold : ∀ e ∈ s.world.s_threads, e.2 ∈ s.made ∧
          ((Function.update s.world.objs a
            { s.world.objs a with m_id := c.id, m_handle := some handle }) e.2).m_id = e.1 ∧
          ((Function.update s.world.objs a
            { s.world.objs a with m_id := c.id, m_handle := some handle }) e.2).m_handle
            ≠ none := by
        intro e he
        obtain ⟨m1, m2, m3⟩ := h e he
        have hne : e.2 ≠ a := fun hx => m3 (hx ▸ hnone)
        simp only [Function.update_noteq hne]
        exact ⟨m1, m2, m3⟩
      intro e he
      simp only at he ⊢
      split_ifs at he
      · exact hold e he
      · simp only [Hash.add, List.mem_append, List.mem_singleton] at he
        rcases he with he | rfl
        · exact hold e he
        · simp [hm.1]
    | blocks w1 => simp [hr] at hs
    | fatal w1 => simp [hr] at hs
  | refer a =>
    simp only [ObjSys.step] at hs
    split_ifs at hs with hm
    injection hs with hs
    subst hs
    exact ObjSys.entriesOk_after h (World.touched_refer a _)
  | unrefer a =>
    simp only [ObjSys.step] at hs
    split_ifs at hs with hm
    injection hs with hs
    subst hs
    exact ObjSys.entriesOk_after h (World.touched_unrefer a _)
  | exited a =>
    simp only [ObjSys.step] at hs
    split_ifs at hs with hm
    injection hs with hs
    subst hs
    exact ObjSys.entriesOk_after h (World.touched_exited a _)
  | join c res a =>
    simp only [ObjSys.step] at hs
    split_ifs at hs with hm
    cases hr : Thread.join b c res a s.world with
    | ret u w1 =>
      rw [hr] at hs
      injection hs with hs
      subst hs
      obtain ⟨curr, w2, hg, hj⟩ := Thread.join_ret b c res a s.world w1 hr
      obtain ⟨_, k2, _, k4⟩ := ObjSys.ok_wrapped b hm.2 hg
      have := ObjSys.entriesOk_after (k2 h) (World.touched_joinBody b res a w2 w1 hj)
      simpa [ObjSys.after, k4, ObjSys.wrapped_world] using this
    | blocks w1 => simp [hr] at hs
    | fatal w1 => simp [hr] at hs
  | isAlive exitCode finished a =>
    simp only [ObjSys.step] at hs
    split_ifs at hs with hm
    cases hr : Thread.isAlive b exitCode finished a s.world with
    | ret r w1 =>
      rw [hr] at hs
      injection hs with hs
      subst hs
      exact ObjSys.entriesOk_after h (World.touched_isAlive b exitCode finished a _ w1 r hr)
    | blocks w1 => simp [hr] at hs
    | fatal w1 => simp [hr] at hs
  | getCurrent c =>
    simp only [ObjSys.step] at hs
    split_ifs at hs with hm
    cases hr : Thread.getCurrent b c s.world with
    | ret curr w1 =>
      rw [hr] at hs
      injection hs with hs
      subst hs
      exact (ObjSys.ok_wrapped b hm hr).2.1 h
    | blocks w1 => simp [hr] at hs
    | fatal w1 => simp [hr] at hs

theorem ObjSys.handlesOk_run (b : Backend) (strict : Bool) (ops : List ObjOp) (s s1 : ObjSys)
    (h : s.handlesOk) (hs : ObjSys.run b strict ops s = some s1) : s1.handlesOk := by
  induction ops generalizing s with
  | nil =>
    simp only [ObjSys.run, Option.some.injEq] at hs
    exact hs ▸ h
  | cons op rest ih =>
    simp only [ObjSys.run] at hs
    cases hn : ObjSys.step b strict s op with
    | none => simp [hn] at hs
    | some s2 =>
      rw [hn] at hs
      exact ih s2 (ObjSys.handlesOk_step b strict s s2 op h hn) hs

theorem ObjSys.entriesOk_run (b : Backend) (ops : List ObjOp) (s s1 : ObjSys)
    (h : s.entriesOk) (hs : ObjSys.run b true ops s = some s1) : s1.entriesOk := by
  induction ops generalizing s with
  | nil =>
    simp only [ObjSys.run, Option.some.injEq] at hs
    exact hs ▸ h
  | cons op rest ih =>
    simp only [ObjSys.run] at hs
    cases hn : ObjSys.step b true s op with
    | none => simp [hn] at hs
    | some s2 =>
      rw [hn] at hs
      exact ih s2 (ObjSys.entriesOk_step b s s2 op h hn) hs

/-- C26, as amended.  In every state reached from the state without objects through the
operations construct, `started()`, `refer()`, `unrefer()`, `exited()`, `join()`,
`isAlive()` and `getCurrent()`, a constructed object has a handle if and only if
`started()` has run on it and no cleanup has been completed on it since.  When
`started()` runs only on objects that have no handle, every registry entry `id -> T`
leads to a constructed object `T` with the native thread id `id` and with a handle. -/
theorem ObjSys.handle_registry (b : Backend) (mem : Nat → Thread) (ops : List ObjOp)
    (s : ObjSys) :
    (∀ strict, ObjSys.run b strict ops (ObjSys.init mem) = some s →
      ∀ a ∈ s.made, s.up a = true ↔ (s.world.objs a).m_handle ≠ none) ∧
    (ObjSys.run b true ops (ObjSys.init mem) = some s →
      ∀ e ∈ s.world.s_threads, e.2 ∈ s.made ∧ (s.world.objs e.2).m_id = e.1 ∧
        (s.world.objs e.2).m_handle ≠ none) := by
  constructor
  · intro strict hrun
    exact ObjSys.handlesOk_run b strict ops _ s (by intro a ha; simp [ObjSys.init] at ha) hrun
  · intro hrun
    exact ObjSys.entriesOk_run b ops _ s (by intro e he; simp [ObjSys.init] at he) hrun

theorem ObjSys.example_run (b : Backend) (strict : Bool) (ops : List ObjOp)
    (h : (ObjSys.run b strict ops (ObjSys.init ObjSys.exampleMem)).isSome = true) :
    ObjSys.run b strict ops (ObjSys.init ObjSys.exampleMem) =
      some (ObjSys.exampleAfter b strict ops) := by
  unfold ObjSys.exampleAfter
  cases hr : ObjSys.run b strict ops (ObjSys.init ObjSys.exampleMem) with
  | none => simp [hr] at h
  | some s => rfl

/-- Witness of C26: after the cleanup of the object at 100 the registry holds the
wrapper of the thread 1 only. -/
theorem ObjSys.handle_registry_witness :
    ∀ e ∈ (ObjSys.exampleAfter Backend.win32 true ObjSys.exampleOps).world.s_threads,
      e.2 ∈ (ObjSys.exampleAfter Backend.win32 true ObjSys.exampleOps).made ∧
      ((ObjSys.exampleAfter Backend.win32 true ObjSys.exampleOps).world.objs e.2).m_id = e.1 ∧
      ((ObjSys.exampleAfter Backend.win32 true ObjSys.exampleOps).world.objs e.2).m_handle
        ≠ none :=
  (ObjSys.handle_registry Backend.win32 ObjSys.exampleMem ObjSys.exampleOps
    (ObjSys.exampleAfter Backend.win32 true ObjSys.exampleOps)).2
    (ObjSys.example_run Backend.win32 true ObjSys.exampleOps (by decide))

/-- C26 as stated fails.  The thread 1 joins the object at 100, started in the thread 7,
while another reference to it is held: the cleanup is put off.  Then `started()` runs
on the object again, in the thread 9, and the reference is given back: the cleanup
removes the entry of the id 9 and clears the handle, and the registry keeps the entry
`7 -> 100`, which leads to an object with the id 0 and without handle. -/
theorem ObjSys.registry_stale :
    ObjSys.run Backend.win32 false ObjSys.exampleRestart (ObjSys.init ObjSys.exampleMem) =
      some (ObjSys.exampleAfter Backend.win32 false ObjSys.exampleRestart) ∧
    (ObjSys.exampleAfter Backend.win32 false ObjSys.exampleRestart).world.s_threads =
      [(1, 50), (7, 100)] ∧
    100 ∈ (ObjSys.exampleAfter Backend.win32 false ObjSys.exampleRestart).made ∧
    ((ObjSys.exampleAfter Backend.win32 false ObjSys.exampleRestart).world.objs 100).m_id = 0 ∧
    ((ObjSys.exampleAfter Backend.win32 false ObjSys.exampleRestart).world.objs 100).m_handle
      = none :=
  ⟨ObjSys.example_run Backend.win32 false ObjSys.exampleRestart (by decide), by decide,
    by decide, by decide, by decide⟩

/-! ## Thread: suspendAll in every state -/

/-- Inside `suspendAll`, a `refer()`/`unrefer()` pair around the recording of calls
leaves an object on which no cleanup is pending, and everything else, as it was. -/
theorem Thread.unreferLocked_refer (b : Backend) (a : Nat) (w : World) (events : List Event)
    (h : w.settled a = true) :
    Thread.unreferLocked b a { Thread.refer a w with log := w.log ++ events } =
      Res.ret () { w with log := w.log ++ events } := by
  rw [World.settled_iff] at h
  unfold Thread.unreferLocked
  have hc : ¬ ((({ Thread.refer a w with log := w.log ++ events } : World).objs a).m_refCount
      - 1 = 0 ∧
      (({ Thread.refer a w with log := w.log ++ events } : World).objs a).m_exited = true) := by
    simpa [Thread.refer, World.setObj] using h
  simp only [hc, if_false]
  simp [Thread.refer, World.setObj]

/-- One pass of the loop of `suspendAll` on an object without pending cleanup returns
and only records its event. -/
theorem Thread.suspendOne_settled (b : Backend) (id a : Nat) (w : World)
    (h : w.settled a = true) :
    Thread.suspendOne b id a w = Res.ret () { w with log := w.log ++
      match (w.objs a).m_handle with
      | some handle =>
        if (w.objs a).m_id ≠ id then
          [match b with
            | Backend.qt => Event.setError "Thread::suspendAll isn't implemented with FW_QT"
            | Backend.win32 => Event.suspend handle]
        else []
      | none => [] } := by
  unfold Thread.suspendOne
  cases hh : (w.objs a).m_handle with
  | none =>
    have := Thread.unreferLocked_refer b a w [] h
    simpa [Thread.refer, World.setObj, hh] using this
  | some handle =>
    by_cases hid : (w.objs a).m_id = id
    · have := Thread.unreferLocked_refer b a w [] h
      simpa [Thread.refer, World.setObj, hh, hid] using this
    · cases b with
      | qt =>
        have := Thread.unreferLocked_refer Backend.qt a w
          [Event.setError "Thread::suspendAll isn't implemented with FW_QT"] h
        simpa [Thread.refer, World.setObj, hh, hid, World.record] using this
      | win32 =>
        have := Thread.unreferLocked_refer Backend.win32 a w [Event.suspend handle] h
        simpa [Thread.refer, World.setObj, hh, hid, World.record] using this

/-- The loop of `suspendAll` over slots whose objects have no cleanup pending. -/
theorem Thread.suspendLoop_settled (b : Backend) (id : Nat) (slots : Hash Nat Nat) (w : World)
    (h : ∀ e ∈ slots, w.settled e.2 = true) :
    Thread.suspendLoop b id slots w =
      Res.ret () { w with log := w.log ++ slots.filterMap fun slot =>
        match (w.objs slot.2).m_handle with
        | some handle =>
          if (w.objs slot.2).m_id ≠ id then
            some (match b with
              | Backend.qt => Event.setError "Thread::suspendAll isn't implemented with FW_QT"
              | Backend.win32 => Event.suspend handle)
          else none
        | none => none } := by
  induction slots generalizing w with
  | nil => simp [Thread.suspendLoop]
  | cons e rest ih =>
    have he : w.settled e.2 = true := h e (List.mem_cons_self _ _)
    rw [Thread.suspendLoop, Thread.suspendOne_settled b id e.2 w he]
    simp only [Res.bind]
    rw [ih _ (fun e1 h1 => by
      have := h e1 (List.mem_cons_of_mem _ h1)
      simpa [World.settled] using this)]
    cases hh : (w.objs e.2).m_handle with
    | none => simp [List.filterMap_cons, hh]
    | some handle =>
      by_cases hid : (w.objs e.2).m_id = id
      · simp [List.filterMap_cons, hh, hid]
      · simp [List.filterMap_cons, hh, hid]

theorem Thread.suspendAll_settled (b : Backend) (id : Nat) (w : World)
    (h : ∀ e ∈ w.s_threads, w.settled e.2 = true) :
    Thread.suspendAll b id w =
      Res.ret () { w with log := w.log ++ Thread.suspendEvents b id w } :=
  Thread.suspendLoop_settled b id w.s_threads w h

theorem World.doomed_update (w : World) (a : Nat) (th : Thread) (threads : Hash Nat Nat)
    (main : Option Nat) (log : List Event)
    (h : (decide (th.m_refCount = 0) && th.m_exited && th.m_handle.isSome) = w.doomed a) :
    World.doomed ⟨Function.update w.objs a th, threads, main, log⟩ = w.doomed := by
  funext o
  by_cases ho : o = a
  · subst ho
    simp only [World.doomed, Function.update_same] at h ⊢
    exact h
  · simp [World.doomed, Function.update_noteq ho]

theorem World.foreign_update (id : Nat) (w : World) (a : Nat) (th : Thread)
    (threads : Hash Nat Nat) (main : Option Nat) (log : List Event)
    (hh : th.m_handle = (w.objs a).m_handle) (hi : th.m_id = (w.objs a).m_id) :
    World.foreign id ⟨Function.update w.objs a th, threads, main, log⟩ = World.foreign id w := by
  funext o
  by_cases ho : o = a
  · subst ho
    simp [World.foreign, hh, hi]
  · simp [World.foreign, Function.update_noteq ho]

/-- One pass of the loop of `suspendAll` on the Qt backend, in every state. -/
theorem Thread.suspendOne_qt_eq (id a : Nat) (w : World) :
    Thread.suspendOne Backend.qt id a w =
      if (w.objs a).m_refCount = 0 ∧ (w.objs a).m_exited = true then
        if (w.objs a).m_handle.isSome then
          Res.blocks ⟨Function.update w.objs a { w.objs a with m_exited := false }, w.s_threads,
            w.s_mainThread, w.log ++
              (if w.foreign id a = true then
                [Event.setError "Thread::suspendAll isn't implemented with FW_QT"] else []) ++
              [Event.exited a]⟩
        else
          Res.ret () ⟨Function.update w.objs a { w.objs a with m_exited := false }, w.s_threads,
            w.s_mainThread, w.log ++ [Event.exited a]⟩
      else
        Res.ret () { w with log := w.log ++
          (if w.foreign id a = true then
            [Event.setError "Thread::suspendAll isn't implemented with FW_QT"] else []) } := by
  by_cases hc : (w.objs a).m_refCount = 0 ∧ (w.objs a).m_exited = true
  · rw [if_pos hc]
    cases hh : (w.objs a).m_handle with
    | none =>
      simp [Thread.suspendOne, Thread.unreferLocked, Thread.refer, World.setObj, hh, hc.1, hc.2,
        Thread.exited]
    | some handle =>
      by_cases hid : (w.objs a).m_id = id
      · simp [Thread.suspendOne, Thread.unreferLocked, Thread.refer, World.setObj, hh, hc.1,
          hc.2, hid, World.foreign]
      · simp [Thread.suspendOne, Thread.unreferLocked, Thread.refer, World.setObj, hh, hc.1,
          hc.2, hid, World.foreign, World.record]
  · rw [if_neg hc, Thread.suspendOne_settled Backend.qt id a w ((World.settled_iff w a).2 hc)]
    cases hh : (w.objs a).m_handle with
    | none => simp [World.foreign, hh]
    | some handle =>
      by_cases hid : (w.objs a).m_id = id
      · simp [World.foreign, hh, hid]
      · simp [World.foreign, hh, hid]
/-- The loop of `suspendAll` on the Qt backend, in every state: it returns unless a
cleanup with a handle is pending on the object of a slot, at which it stops; it records
`setError` once for each slot that it reaches whose object has a handle and another
thread's id, and never `SuspendThread`. -/
theorem Thread.suspendLoop_qt (id : Nat) (slots : Hash Nat Nat) (w : World) :
    Res.returned (Thread.suspendLoop Backend.qt id slots w) =
      !(slots.any fun e => w.doomed e.2) ∧
    (Res.state (Thread.suspendLoop Backend.qt id slots w)).log.count
        (Event.setError "Thread::suspendAll isn't implemented with FW_QT") =
      w.log.count (Event.setError "Thread::suspendAll isn't implemented with FW_QT") +
        (Thread.suspendReach w.doomed slots).countP (fun e => w.foreign id e.2) ∧
    (∀ handle, (Res.state (Thread.suspendLoop Backend.qt id slots w)).log.count
      (Event.suspend handle) = w.log.count (Event.suspend handle)) := by
  induction slots generalizing w with
  | nil => simp [Thread.suspendLoop, Res.returned, Res.state, Thread.suspendReach]
  | cons e rest ih =>
    rw [Thread.suspendLoop, Thread.suspendOne_qt_eq]
    by_cases hc : (w.objs e.2).m_refCount = 0 ∧ (w.objs e.2).m_exited = true
    · rw [if_pos hc]
      cases hh : (w.objs e.2).m_handle with
      | some handle =>
        have hd : w.doomed e.2 = true := by simp [World.doomed, hc.1, hc.2, hh]
        refine ⟨?_, ?_, ?_⟩
        · simp [Res.bind, Res.returned, hd]
        · simp only [Option.isSome_some, if_true, Res.bind, Res.state, Thread.suspendReach, hd,
            List.countP_cons, List.countP_nil, List.count_append, zero_add]
          by_cases hf : w.foreign id e.2 = true
          · simp [hf]
          · simp [hf]
        · intro h1
          simp only [Option.isSome_some, if_true, Res.bind, Res.state, List.count_append]
          by_cases hf : w.foreign id e.2 = true
          · simp [hf]
          · simp [hf]
      | none =>
        have hd : w.doomed e.2 = false := by simp [World.doomed, hh]
        have hf : w.foreign id e.2 = false := by simp [World.foreign, hh]
        have hd1 := World.doomed_update w e.2 { w.objs e.2 with m_exited := false } w.s_threads
          w.s_mainThread (w.log ++ [Event.exited e.2]) (by simp [hd])
        have hf1 := World.foreign_update id w e.2 { w.objs e.2 with m_exited := false }
          w.s_threads w.s_mainThread (w.log ++ [Event.exited e.2]) rfl rfl
        obtain ⟨i1, i2, i3⟩ := ih ⟨Function.update w.objs e.2 { w.objs e.2 with m_exited := false },
          w.s_threads, w.s_mainThread, w.log ++ [Event.exited e.2]⟩
        rw [hd1] at i1 i2
        rw [hf1] at i2
        simp only [Option.isSome_none, Bool.false_eq_true, if_false, Res.bind]
        refine ⟨?_, ?_, ?_⟩
        · rw [i1]
          simp [hd]
        · rw [i2]
          simp [Thread.suspendReach, hd, hf, List.count_append]
        · intro h1
          rw [i3 h1]
          simp [List.count_append]
    · rw [if_neg hc]
      have hd : w.doomed e.2 = false := by
        simp only [World.doomed, Bool.and_eq_false_iff, decide_eq_false_iff_not]
        by_cases h1 : (w.objs e.2).m_refCount = 0
        · have h2 : (w.objs e.2).m_exited = false := by
            cases h3 : (w.objs e.2).m_exited
            · rfl
            · exact absurd ⟨h1, h3⟩ hc
          exact Or.inl (Or.inr h2)
        · exact Or.inl (Or.inl h1)
      obtain ⟨i1, i2, i3⟩ := ih { w with log := w.log ++
        (if w.foreign id e.2 = true then
          [Event.setError "Thread::suspendAll isn't implemented with FW_QT"] else []) }
      have hd1 : World.doomed { w with log := w.log ++
        (if w.foreign id e.2 = true then
          [Event.setError "Thread::suspendAll isn't implemented with FW_QT"] else []) } =
          w.doomed := rfl
      have hf1 : World.foreign id { w with log := w.log ++
        (if w.foreign id e.2 = true then
          [Event.setError "Thread::suspendAll isn't implemented with FW_QT"] else []) } =
          World.foreign id w := rfl
      rw [hd1] at i1 i2
      rw [hf1] at i2
      simp only [Res.bind]
      refine ⟨?_, ?_, ?_⟩
      · rw [i1]
        simp [hd]
      · rw [i2]
        by_cases hf : w.foreign id e.2 = true
        · simp [Thread.suspendReach, hd, hf, List.count_append]
          omega
        · simp [Thread.suspendReach, hd, hf, List.count_append]
      · intro h1
        rw [i3 h1]
        by_cases hf : w.foreign id e.2 = true
        · simp [hf, List.count_append]
        · simp [hf, List.count_append]
theorem Thread.suspendEvents_length (b : Backend) (id : Nat) (w : World) :
    (Thread.suspendEvents b id w).length = w.s_threads.countP (fun e => w.foreign id e.2) := by
  unfold Thread.suspendEvents
  generalize w.s_threads = slots
  induction slots with
  | nil => rfl
  | cons e rest ih =>
    rw [List.filterMap_cons, List.countP_cons]
    cases hh : (w.objs e.2).m_handle with
    | none =>
      have hf : w.foreign id e.2 = false := by simp [World.foreign, hh]
      simp only [hf, Bool.false_eq_true, if_false, add_zero]
      exact ih
    | some handle =>
      by_cases hid : (w.objs e.2).m_id = id
      · have hf : w.foreign id e.2 = false := by simp [World.foreign, hh, hid]
        simp only [hf, hid, ne_eq, not_true_eq_false, Bool.false_eq_true, if_false, add_zero]
        exact ih
      · have hf : w.foreign id e.2 = true := by simp [World.foreign, hh, hid]
        simp only [hf, hid, ne_eq, not_false_eq_true, if_true, List.length_cons]
        rw [ih]

/-- On the native backend, in a state in which no cleanup is pending on a registered
object (none has the reference count 0 with the exited flag set), `suspendAll()` called
by the thread with the id `id` returns and makes exactly the calls
`SuspendThread(handle)` for the registry slots, in order, whose object has a handle and
a native thread id other than `id`; all objects, with their reference counts, the
registry and the main pointer are then what they were. -/
theorem Thread.suspendAll_native (id : Nat) (w : World)
    (hsettled : ∀ e ∈ w.s_threads, w.settled e.2 = true) :
    Thread.suspendAll Backend.win32 id w =
      Res.ret () { w with log := w.log ++ Thread.suspendEvents Backend.win32 id w } ∧
    (∀ handle, Event.suspend handle ∈ Thread.suspendEvents Backend.win32 id w ↔
      ∃ slot ∈ w.s_threads, (w.objs slot.2).m_handle = some handle ∧
        (w.objs slot.2).m_id ≠ id) ∧
    (∀ ev ∈ Thread.suspendEvents Backend.win32 id w, ∃ handle, ev = Event.suspend handle) := by
  refine ⟨Thread.suspendAll_settled Backend.win32 id w hsettled, ?_, ?_⟩
  · intro handle
    rw [Thread.mem_suspendEvents]
    constructor
    · rintro ⟨slot, hs, h1, hh, hid, hev⟩
      injection hev with hev
      exact ⟨slot, hs, by rw [hh, hev], hid⟩
    · rintro ⟨slot, hs, hh, hid⟩
      exact ⟨slot, hs, handle, hh, hid, rfl⟩
  · intro ev hev
    rw [Thread.mem_suspendEvents] at hev
    obtain ⟨_, _, handle, _, _, hev⟩ := hev
    exact ⟨handle, hev⟩

/-- C21 fails on the code.  The thread 7 calls `getCurrent()` and gets a wrapper at the
address 70, whose memory held a nonzero byte in the place of `m_exited`, which the
constructor does not initialise: the wrapper is registered with the handle 3, the
reference count 0 and the exited flag set.  The thread 1, whose wrapper is at 50, then
calls `suspendAll()` on the native backend: the pass for the slot of 70 suspends the
handle 3, and its `unrefer()` runs `exited()`, which closes the handle and removes the
slot.  On return the registry has lost the entry of the object 70, which has no handle
and the id 0. -/
theorem Thread.suspendAll_native_cleanup :
    Thread.getCurrent Backend.win32 ⟨7, 70, some 3⟩
        ⟨fun o => if o = 50 then ⟨0, false, 1, some 2, 0, []⟩ else ⟨0, true, 0, none, 0, []⟩,
          [(1, 50)], some 50, []⟩ =
      Res.ret 70 (World.wrap ⟨7, 70, some 3⟩ 3
        ⟨fun o => if o = 50 then ⟨0, false, 1, some 2, 0, []⟩ else ⟨0, true, 0, none, 0, []⟩,
          [(1, 50)], some 50, []⟩) ∧
    (World.wrap ⟨7, 70, some 3⟩ 3
        ⟨fun o => if o = 50 then ⟨0, false, 1, some 2, 0, []⟩ else ⟨0, true, 0, none, 0, []⟩,
          [(1, 50)], some 50, []⟩).s_threads = [(1, 50), (7, 70)] ∧
    (World.wrap ⟨7, 70, some 3⟩ 3
        ⟨fun o => if o = 50 then ⟨0, false, 1, some 2, 0, []⟩ else ⟨0, true, 0, none, 0, []⟩,
          [(1, 50)], some 50, []⟩).objs 70 = ⟨0, true, 7, some 3, 0, []⟩ ∧
    Res.returned (Thread.suspendAll Backend.win32 1 (World.wrap ⟨7, 70, some 3⟩ 3
        ⟨fun o => if o = 50 then ⟨0, false, 1, some 2, 0, []⟩ else ⟨0, true, 0, none, 0, []⟩,
          [(1, 50)], some 50, []⟩)) = true ∧
    (Res.state (Thread.suspendAll Backend.win32 1 (World.wrap ⟨7, 70, some 3⟩ 3
        ⟨fun o => if o = 50 then ⟨0, false, 1, some 2, 0, []⟩ else ⟨0, true, 0, none, 0, []⟩,
          [(1, 50)], some 50, []⟩))).s_threads = [(1, 50)] ∧
    (Res.state (Thread.suspendAll Backend.win32 1 (World.wrap ⟨7, 70, some 3⟩ 3
        ⟨fun o => if o = 50 then ⟨0, false, 1, some 2, 0, []⟩ else ⟨0, true, 0, none, 0, []⟩,
          [(1, 50)], some 50, []⟩))).objs 70 = ⟨0, false, 0, none, 0, []⟩ ∧
    (Res.state (Thread.suspendAll Backend.win32 1 (World.wrap ⟨7, 70, some 3⟩ 3
        ⟨fun o => if o = 50 then ⟨0, false, 1, some 2, 0, []⟩ else ⟨0, true, 0, none, 0, []⟩,
          [(1, 50)], some 50, []⟩))).log =
      [Event.suspend 3, Event.exited 70, Event.closeHandle 3] :=
  ⟨Thread.getCurrent_fresh _ _ _ 3 (by decide) rfl, by decide, by decide, by decide, by decide,
    by decide, by decide⟩

/-- C22, as amended.  On the Qt backend every call of `suspendAll()` suspends no
thread: it records no `SuspendThread`.  When no cleanup is pending on a registered
object (none has the reference count 0 with the exited flag set), the call returns,
the objects, the registry and the main pointer are what they were, and `setError` has
been called once for each registry slot whose object has a handle and a native thread
id other than the caller's, and nothing else: so an error is reported exactly when
there is such an object, and none when the registry holds only the caller's object or
no object.  In every state the call returns unless a cleanup is pending on a registered
object that has a handle, and the number of `setError` calls is the number of such slots
among those up to the first at which the call stops. -/
theorem Thread.suspendAll_qt (id : Nat) (w : World) :
    (∀ handle, (Res.state (Thread.suspendAll Backend.qt id w)).log.count (Event.suspend handle)
      = w.log.count (Event.suspend handle)) ∧
    ((∀ e ∈ w.s_threads, w.settled e.2 = true) →
      Thread.suspendAll Backend.qt id w =
        Res.ret () { w with log := w.log ++ Thread.suspendEvents Backend.qt id w } ∧
      (∀ ev ∈ Thread.suspendEvents Backend.qt id w,
        ev = Event.setError "Thread::suspendAll isn't implemented with FW_QT") ∧
      (Thread.suspendEvents Backend.qt id w).length =
        w.s_threads.countP (fun e => decide ((w.objs e.2).m_handle ≠ none ∧
          (w.objs e.2).m_id ≠ id)) ∧
      (Thread.suspendEvents Backend.qt id w ≠ [] ↔
        ∃ slot ∈ w.s_threads, (w.objs slot.2).m_handle ≠ none ∧ (w.objs slot.2).m_id ≠ id)) ∧
    Res.returned (Thread.suspendAll Backend.qt id w) =
      !(w.s_threads.any fun e => w.doomed e.2) ∧
    (Res.state (Thread.suspendAll Backend.qt id w)).log.count
        (Event.setError "Thread::suspendAll isn't implemented with FW_QT") =
      w.log.count (Event.setError "Thread::suspendAll isn't implemented with FW_QT") +
        (Thread.suspendReach w.doomed w.s_threads).countP (fun e => w.foreign id e.2) := by
  obtain ⟨h1, h2, h3⟩ := Thread.suspendLoop_qt id w.s_threads w
  refine ⟨h3, fun hsettled => ⟨Thread.suspendAll_settled Backend.qt id w hsettled, ?_, ?_, ?_⟩,
    h1, h2⟩
  · intro ev hev
    rw [Thread.mem_suspendEvents] at hev
    obtain ⟨_, _, _, _, _, hev⟩ := hev
    exact hev
  · rw [Thread.suspendEvents_length]
    congr 1
    funext e
    cases hh : (w.objs e.2).m_handle <;> simp [World.foreign, hh]
  · constructor
    · intro hne
      obtain ⟨ev, hev⟩ := List.exists_mem_of_ne_nil _ hne
      rw [Thread.mem_suspendEvents] at hev
      obtain ⟨slot, hs, handle, hh, hid, _⟩ := hev
      exact ⟨slot, hs, by simp [hh], hid⟩
    · rintro ⟨slot, hs, hh, hid⟩
      obtain ⟨handle, hh⟩ := Option.ne_none_iff_exists'.1 hh
      have : Event.setError "Thread::suspendAll isn't implemented with FW_QT" ∈
          Thread.suspendEvents Backend.qt id w := by
        rw [Thread.mem_suspendEvents]
        exact ⟨slot, hs, handle, hh, hid, rfl⟩
      exact List.ne_nil_of_mem this

/-- Witness of C22: with another thread's object in the registry one error is
reported, and the call returns. -/
theorem Thread.suspendAll_qt_witness :
    Thread.suspendAll Backend.qt 1
      ⟨fun o => if o = 50 then ⟨0, false, 1, some 2, 0, []⟩ else ⟨0, false, 7, some 3, 0, []⟩,
        [(1, 50), (7, 70)], some 50, []⟩ =
      Res.ret () { (⟨fun o => if o = 50 then ⟨0, false, 1, some 2, 0, []⟩
          else ⟨0, false, 7, some 3, 0, []⟩, [(1, 50), (7, 70)], some 50, []⟩ : World) with
        log := [] ++ Thread.suspendEvents Backend.qt 1
          ⟨fun o => if o = 50 then ⟨0, false, 1, some 2, 0, []⟩
            else ⟨0, false, 7, some 3, 0, []⟩, [(1, 50), (7, 70)], some 50, []⟩ } :=
  ((Thread.suspendAll_qt 1
    ⟨fun o => if o = 50 then ⟨0, false, 1, some 2, 0, []⟩ else ⟨0, false, 7, some 3, 0, []⟩,
      [(1, 50), (7, 70)], some 50, []⟩).2.1 (by decide)).1

/-- C22 as stated fails.  On the Qt backend `suspendAll()` returns and reports no error
when the registry is empty, and when it holds only the object of the calling thread:
the record of calls stays empty.  And when the wrapper of the calling thread, made on
memory that held a nonzero byte in the place of `m_exited`, comes before the object of
another thread, the call stops in the cleanup of the wrapper and reports no error
either. -/
theorem Thread.suspendAll_qt_silent :
    Thread.suspendAll Backend.qt 1 ⟨fun _ => ⟨0, false, 0, none, 0, []⟩, [], none, []⟩ =
      Res.ret () ⟨fun _ => ⟨0, false, 0, none, 0, []⟩, [], none, []⟩ ∧
    Res.returned (Thread.suspendAll Backend.qt 1
      ⟨fun _ => ⟨0, false, 1, some 2, 0, []⟩, [(1, 50)], some 50, []⟩) = true ∧
    (Res.state (Thread.suspendAll Backend.qt 1
      ⟨fun _ => ⟨0, false, 1, some 2, 0, []⟩, [(1, 50)], some 50, []⟩)).log = [] ∧
    Res.returned (Thread.suspendAll Backend.qt 1
      ⟨fun o => if o = 50 then ⟨0, true, 1, some 2, 0, []⟩ else ⟨0, false, 7, some 3, 0, []⟩,
        [(1, 50), (7, 70)], some 50, []⟩) = false ∧
    (Res.state (Thread.suspendAll Backend.qt 1
      ⟨fun o => if o = 50 then ⟨0, true, 1, some 2, 0, []⟩ else ⟨0, false, 7, some 3, 0, []⟩,
        [(1, 50), (7, 70)], some 50, []⟩)).log = [Event.exited 50] :=
  ⟨rfl, by decide, by decide, by decide, by decide⟩

/-! ## Thread: the cached priority -/

theorem World.eq_of_fields (w1 w2 : World) (h1 : w1.objs = w2.objs)
    (h2 : w1.s_threads = w2.s_threads) (h3 : w1.s_mainThread = w2.s_mainThread)
    (h4 : w1.log = w2.log) : w1 = w2 := by
  cases w1
  cases w2
  simp only [World.mk.injEq]
  exact ⟨h1, h2, h3, h4⟩

/-- The call `setPriority(p)` on an object without handle, in every state: it returns,
the cached field is `p`, and the closing `unrefer()` clears the exited flag and calls
`exited()`, which returns at once, when the flag was set with the reference count 0;
nothing else changes and nothing else is recorded. -/
theorem Thread.setPriority_none_eq (b : Backend) (ok : Bool) (self : Nat) (p : Int)
    (w : World) (hh : (w.objs self).m_handle = none) :
    Thread.setPriority b ok self p w = Res.ret ()
      ⟨Function.update w.objs self { w.objs self with
          m_priority := p
          m_exited := (w.objs self).m_exited && !decide ((w.objs self).m_refCount = 0) },
        w.s_threads, w.s_mainThread,
        w.log ++ (if (w.objs self).m_refCount = 0 ∧ (w.objs self).m_exited = true
          then [Event.exited self] else [])⟩ := by
  rw [Thread.setPriority_none b ok self p w hh]
  have hh2 : (((Thread.refer self w).setObj self { (Thread.refer self w).objs self with
      m_priority := p }).objs self).m_handle = none := by
    simp [Thread.refer, World.setObj, hh]
  obtain ⟨ho, ht, hm, hl⟩ := Thread.unrefer_none self _ hh2
  congr 1
  apply World.eq_of_fields
  · rw [ho]
    simp [Thread.refer, World.setObj]
  · rw [ht]
    rfl
  · rw [hm]
    rfl
  · rw [hl]
    simp [Thread.refer, World.setObj]

/-- C23, as amended.  Priority caching: for every object without a native handle on
which no cleanup is pending (not: reference count 0 with the exited flag set) and every
integer priority `p`, `setPriority(p)` returns and changes only the cached priority
field: no native call and no error is recorded, and nothing else changes.  If `p` is not
the value `THREAD_PRIORITY_ERROR_RETURN` on the native backend, a following
`getPriority()` returns `p` and changes nothing.  When the thread is started, the thread
procedure runs `started()`, which records no call and keeps the cached field, and then
`setPriority`, which records `SetThreadPriority` exactly once, with the handle of the
new thread and the cached value.  In every state of an object without handle,
`setPriority(p)` returns with the cached field `p`; when a cleanup is pending, its
`unrefer()` also clears the exited flag and calls `exited()`, which returns at once. -/
theorem Thread.setPriority_cached (b : Backend) (ok : Bool) (native : Int) (self : Nat)
    (p : Int) (w : World) (hh : (w.objs self).m_handle = none) :
    (w.settled self = true →
      Thread.setPriority b ok self p w =
        Res.ret () (w.setObj self { w.objs self with m_priority := p }) ∧
      ((b = Backend.win32 → p ≠ THREAD_PRIORITY_ERROR_RETURN) →
        Thread.getPriority b native self (w.setObj self { w.objs self with m_priority := p }) =
          Res.ret p (w.setObj self { w.objs self with m_priority := p }))) ∧
    Thread.setPriority b ok self p w = Res.ret ()
      ⟨Function.update w.objs self { w.objs self with
          m_priority := p
          m_exited := (w.objs self).m_exited && !decide ((w.objs self).m_refCount = 0) },
        w.s_threads, w.s_mainThread,
        w.log ++ (if (w.objs self).m_refCount = 0 ∧ (w.objs self).m_exited = true
          then [Event.exited self] else [])⟩ ∧
    (∀ (env : StartEnv) (s : StartSys) (handle : Nat), s.ended = false →
      s.child = some ProcPC.started → env.child.handle = some handle →
      ∃ s1 s2, StartSys.next env (StartLabel.child ProcPC.started) s = some s1 ∧
        StartSys.next env (StartLabel.child ProcPC.setPriority) s1 = some s2 ∧
        s1.world.log = s.world.log ∧
        (s1.world.objs env.self).m_priority = (s.world.objs env.self).m_priority ∧
        ∀ h q, s2.world.log.count (Event.setPriority h q) =
          s.world.log.count (Event.setPriority h q) +
            if h = handle ∧ q = (s.world.objs env.self).m_priority then 1 else 0) := by
  refine ⟨fun hs => ?_, Thread.setPriority_none_eq b ok self p w hh,
    fun env s handle he hc hh1 => StartSys.trampoline_priority env s handle he hc hh1⟩
  have hc : ¬ ((w.objs self).m_refCount = 0 ∧ (w.objs self).m_exited = true) :=
    (World.settled_iff w self).1 hs
  constructor
  · rw [Thread.setPriority_none_eq b ok self p w hh, if_neg hc]
    congr 1
    apply World.eq_of_fields
    · simp only [World.setObj]
      by_cases h1 : (w.objs self).m_refCount = 0
      · have h2 : (w.objs self).m_exited = false := by
          cases h3 : (w.objs self).m_exited
          · rfl
          · exact absurd ⟨h1, h3⟩ hc
        simp [h1, h2]
      · simp [h1]
    · rfl
    · rfl
    · simp [World.setObj]
  · intro hp
    have h1 := Thread.getPriority_none b native self
      (w.setObj self { w.objs self with m_priority := p })
      (by simp [World.setObj, hh])
      (by simpa [World.settled, World.setObj] using hs)
      (by simpa [World.setObj] using hp)
    simpa [World.setObj] using h1

/-- Witness of C23: priority 5 is cached in an object that has not been started. -/
theorem Thread.setPriority_cached_witness :
    Thread.setPriority Backend.win32 true 100 5
        ⟨fun _ => ⟨0, false, 0, none, 0, []⟩, [], none, []⟩ =
      Res.ret () ((⟨fun _ => ⟨0, false, 0, none, 0, []⟩, [], none, []⟩ : World).setObj 100
        { (⟨fun _ => ⟨0, false, 0, none, 0, []⟩, [], none, []⟩ : World).objs 100 with
          m_priority := 5 }) ∧
    Thread.getPriority Backend.win32 0 100
        ((⟨fun _ => ⟨0, false, 0, none, 0, []⟩, [], none, []⟩ : World).setObj 100
          { (⟨fun _ => ⟨0, false, 0, none, 0, []⟩, [], none, []⟩ : World).objs 100 with
            m_priority := 5 }) =
      Res.ret 5 ((⟨fun _ => ⟨0, false, 0, none, 0, []⟩, [], none, []⟩ : World).setObj 100
        { (⟨fun _ => ⟨0, false, 0, none, 0, []⟩, [], none, []⟩ : World).objs 100 with
          m_priority := 5 }) :=
  ⟨((Thread.setPriority_cached Backend.win32 true 0 100 5
      ⟨fun _ => ⟨0, false, 0, none, 0, []⟩, [], none, []⟩ rfl).1 (by decide)).1,
   ((Thread.setPriority_cached Backend.win32 true 0 100 5
      ⟨fun _ => ⟨0, false, 0, none, 0, []⟩, [], none, []⟩ rfl).1 (by decide)).2
      (fun _ => by decide)⟩

/-- C23 as stated fails.  On the native backend the priority `0x7FFFFFFF` is the value
`THREAD_PRIORITY_ERROR_RETURN`: `setPriority` caches it in an object without handle,
and the following `getPriority()` does not return but ends in
`failWin32Error("GetThreadPriority")`.  And on an object that the constructor has left
with the exited flag set, because the memory held a nonzero byte in its place,
`setPriority(5)` changes more than the cached field: it clears the flag and calls
`exited()`. -/
theorem Thread.getPriority_cached_sentinel :
    Thread.setPriority Backend.win32 true 100 0x7FFFFFFF
        ⟨fun _ => ⟨0, false, 0, none, 0, []⟩, [], none, []⟩ =
      Res.ret () ⟨Function.update (fun _ => ⟨0, false, 0, none, 0, []⟩) 100
        ⟨0, false, 0, none, 0x7FFFFFFF, []⟩, [], none, []⟩ ∧
    Res.returned (Thread.getPriority Backend.win32 0 100
      ⟨Function.update (fun _ => ⟨0, false, 0, none, 0, []⟩) 100
        ⟨0, false, 0, none, 0x7FFFFFFF, []⟩, [], none, []⟩) = false ∧
    (Res.state (Thread.getPriority Backend.win32 0 100
      ⟨Function.update (fun _ => ⟨0, false, 0, none, 0, []⟩) 100
        ⟨0, false, 0, none, 0x7FFFFFFF, []⟩, [], none, []⟩)).log =
      [Event.fail "GetThreadPriority"] ∧
    (Thread.new 100 ⟨fun _ => ⟨0, true, 0, none, 0, []⟩, [], none, []⟩).objs 100 =
      ⟨0, true, 0, none, 0, []⟩ ∧
    (Res.state (Thread.setPriority Backend.win32 true 100 5
      (Thread.new 100 ⟨fun _ => ⟨0, true, 0, none, 0, []⟩, [], none, []⟩))).objs 100 =
      ⟨0, false, 0, none, 5, []⟩ ∧
    (Res.state (Thread.setPriority Backend.win32 true 100 5
      (Thread.new 100 ⟨fun _ => ⟨0, true, 0, none, 0, []⟩, [], none, []⟩))).log =
      [Event.exited 100] := by
  refine ⟨?_, ?_, ?_, by decide, by decide, by decide⟩
  · simp [Thread.setPriority, Thread.refer, Thread.unrefer, World.setObj]
  · simp [Thread.getPriority, Thread.refer, Thread.unrefer, World.setObj,
      THREAD_PRIORITY_ERROR_RETURN, Res.returned]
  · simp [Thread.getPriority, Thread.refer, Thread.unrefer, World.setObj,
      THREAD_PRIORITY_ERROR_RETURN, Res.state, World.record]

/-! ## Thread: isAlive and the exited flag -/

/-- The call `isAlive()` in terms of `stillRunning`: when it returns, what it returns,
the cleanup on termination, and the case without handle. -/
theorem Thread.isAlive_core (b : Backend) (exitCode : Option Nat) (finished : Bool)
    (self : Nat) (w : World) :
    (Res.returned (Thread.isAlive b exitCode finished self w) = true ↔
      ¬ ((w.objs self).m_handle ≠ none ∧ b = Backend.win32 ∧ exitCode = none)) ∧
    (∀ r w1, Thread.isAlive b exitCode finished self w = Res.ret r w1 →
      (r = true ↔ (w.objs self).m_handle ≠ none ∧ stillRunning b exitCode finished = true)) ∧
    (∀ handle, (w.objs self).m_handle = some handle →
      stillRunning b exitCode finished = false → ¬ (b = Backend.win32 ∧ exitCode = none) →
      Thread.isAlive b exitCode finished self w =
        Res.ret false (Thread.unrefer self ((Thread.refer self w).setObj self
          { (Thread.refer self w).objs self with m_exited := true })) ∧
      ((w.objs self).m_refCount = 0 →
        ((Res.state (Thread.isAlive b exitCode finished self w)).objs self).m_handle = none ∧
        ((Res.state (Thread.isAlive b exitCode finished self w)).objs self).m_id = 0 ∧
        ((Res.state (Thread.isAlive b exitCode finished self w)).objs self).m_exited = false ∧
        ((Res.state (Thread.isAlive b exitCode finished self w)).objs self).m_refCount = 0 ∧
        Hash.search (Res.state (Thread.isAlive b exitCode finished self w)).s_threads
          (w.objs self).m_id = none ∧
        (Res.state (Thread.isAlive b exitCode finished self w)).log =
          w.log ++ [Event.exited self, Event.closeHandle handle])) ∧
    ((w.objs self).m_handle = none →
      (∃ w1, Thread.isAlive b exitCode finished self w = Res.ret false w1) ∧
      (w.settled self = true → Thread.isAlive b exitCode finished self w = Res.ret false w)) := by
  refine ⟨?_, ?_, ?_, ?_⟩
  · cases hh : (w.objs self).m_handle with
    | none => simp [Thread.isAlive_none _ _ _ _ _ hh, Res.returned]
    | some handle =>
      rw [Thread.isAlive_some _ _ _ _ _ handle hh]
      by_cases hf : b = Backend.win32 ∧ exitCode = none
      · simp [hf, Res.returned]
      · rw [if_neg hf]
        have : Res.returned (if stillRunning b exitCode finished = true then
            Res.ret true (Thread.unrefer self (Thread.refer self w))
          else Res.ret false (Thread.unrefer self ((Thread.refer self w).setObj self
            { (Thread.refer self w).objs self with m_exited := true }))) = true := by
          split_ifs <;> rfl
        simp only [this, true_iff]
        rintro ⟨_, h2⟩
        exact hf h2
  · intro r w1 hr
    cases hh : (w.objs self).m_handle with
    | none =>
      rw [Thread.isAlive_none _ _ _ _ _ hh] at hr
      injection hr with hr _
      simp [← hr]
    | some handle =>
      rw [Thread.isAlive_some _ _ _ _ _ handle hh] at hr
      split_ifs at hr with h1 h2
      · injection hr with hr _
        simp [← hr, h2]
      · injection hr with hr _
        simp [← hr, h2]
  · intro handle hh hrun hf
    have heq : Thread.isAlive b exitCode finished self w =
        Res.ret false (Thread.unrefer self ((Thread.refer self w).setObj self
          { (Thread.refer self w).objs self with m_exited := true })) := by
      rw [Thread.isAlive_some _ _ _ _ _ handle hh, if_neg hf, hrun]
      rfl
    refine ⟨heq, fun hz => ?_⟩
    rw [heq]
    simp only [Res.state]
    rw [Thread.unrefer_eq]
    have hc : ((((Thread.refer self w).setObj self
        { (Thread.refer self w).objs self with m_exited := true }).objs self).m_refCount - 1 = 0 ∧
        (((Thread.refer self w).setObj self
        { (Thread.refer self w).objs self with m_exited := true }).objs self).m_exited = true) := by
      simp [Thread.refer, World.setObj, hz]
    rw [if_pos hc]
    have hh2 : ((((Thread.refer self w).setObj self
        { (Thread.refer self w).objs self with m_exited := true }).setObj self
        { ((Thread.refer self w).setObj self
            { (Thread.refer self w).objs self with m_exited := true }).objs self with
          m_refCount := (((Thread.refer self w).setObj self
            { (Thread.refer self w).objs self with m_exited := true }).objs self).m_refCount - 1,
          m_exited := false }).objs self).m_handle = some handle := by
      simp [Thread.refer, World.setObj, hh]
    obtain ⟨h1, h2, h3, _, _, _, _, _, h9⟩ := Thread.exited_live self _ handle hh2
    have hex := Thread.exited_refCount self (((Thread.refer self w).setObj self
        { (Thread.refer self w).objs self with m_exited := true }).setObj self
        { ((Thread.refer self w).setObj self
            { (Thread.refer self w).objs self with m_exited := true }).objs self with
          m_refCount := (((Thread.refer self w).setObj self
            { (Thread.refer self w).objs self with m_exited := true }).objs self).m_refCount - 1,
          m_exited := false })
    refine ⟨h1, h2, ?_, ?_, ?_, ?_⟩
    · rw [hex.2.1]
      simp [Thread.refer, World.setObj]
    · rw [hex.1]
      simp [Thread.refer, World.setObj, hz]
    · simpa [Thread.refer, World.setObj] using h3
    · simpa [Thread.refer, World.setObj] using h9
  · intro hh
    refine ⟨⟨_, Thread.isAlive_none _ _ _ _ _ hh⟩, fun hs => ?_⟩
    rw [Thread.isAlive_none _ _ _ _ _ hh]
    have h1 := Thread.unrefer_refer self w [] hs
    have h2 : ({ Thread.refer self w with log := w.log ++ [] } : World) = Thread.refer self w := by
      simp [Thread.refer, World.setObj]
    have h3 : ({ w with log := w.log ++ [] } : World) = w := by simp
    rw [h2, h3] at h1
    rw [h1]

/-- The platform reports the thread as still running when `GetExitCodeThread` gives the
exit code `STILL_ACTIVE`, which is 259, on the native backend, and when `isFinished()`
is false on the Qt backend. -/
theorem stillRunning_iff (b : Backend) (exitCode : Option Nat) (finished : Bool) :
    stillRunning b exitCode finished = true ↔
      (b = Backend.win32 ∧ exitCode = some 259) ∨ (b = Backend.qt ∧ finished = false) := by
  cases b <;> cases finished <;> simp [stillRunning, STILL_ACTIVE]

/-- The call `isAlive()` on an object on which no cleanup is pending.  It returns
unless the object has a handle and the query `GetExitCodeThread` fails.  When it
returns, the result is true if and only if the object has a handle and the platform
reports the thread as still running: the exit code is `STILL_ACTIVE` (259), Qt:
`isFinished()` is false.  When the object has a handle and the platform reports
termination, the exited flag is set between `refer()` and `unrefer()`, and if the
reference count was 0 the closing `unrefer()` performs the cleanup.  When the handle is
null and no cleanup is pending, the result is false and nothing changes. -/
theorem Thread.isAlive_settled (b : Backend) (exitCode : Option Nat) (finished : Bool)
    (self : Nat) (w : World) :
    (Res.returned (Thread.isAlive b exitCode finished self w) = true ↔
      ¬ ((w.objs self).m_handle ≠ none ∧ b = Backend.win32 ∧ exitCode = none)) ∧
    (∀ r w1, Thread.isAlive b exitCode finished self w = Res.ret r w1 →
      (r = true ↔ (w.objs self).m_handle ≠ none ∧
        ((b = Backend.win32 ∧ exitCode = some 259) ∨ (b = Backend.qt ∧ finished = false)))) ∧
    (∀ handle, (w.objs self).m_handle = some handle →
      ¬ ((b = Backend.win32 ∧ exitCode = some 259) ∨ (b = Backend.qt ∧ finished = false)) →
      ¬ (b = Backend.win32 ∧ exitCode = none) → (w.objs self).m_refCount = 0 →
      Res.returned (Thread.isAlive b exitCode finished self w) = true ∧
      ((Res.state (Thread.isAlive b exitCode finished self w)).objs self).m_handle = none ∧
      ((Res.state (Thread.isAlive b exitCode finished self w)).objs self).m_id = 0 ∧
      ((Res.state (Thread.isAlive b exitCode finished self w)).objs self).m_exited = false ∧
      Hash.search (Res.state (Thread.isAlive b exitCode finished self w)).s_threads
        (w.objs self).m_id = none ∧
      (Res.state (Thread.isAlive b exitCode finished self w)).log =
        w.log ++ [Event.exited self, Event.closeHandle handle]) ∧
    ((w.objs self).m_handle = none → w.settled self = true →
      Thread.isAlive b exitCode finished self w = Res.ret false w) := by
  obtain ⟨h1, h2, h3, h4⟩ := Thread.isAlive_core b exitCode finished self w
  refine ⟨h1, ?_, ?_, fun hh hs => (h4 hh).2 hs⟩
  · intro r w1 hr
    rw [← stillRunning_iff]
    exact h2 r w1 hr
  · intro handle hh hrun hq hz
    rw [← stillRunning_iff] at hrun
    have hrun1 : stillRunning b exitCode finished = false := by
      cases hx : stillRunning b exitCode finished
      · rfl
      · exact absurd hx hrun
    obtain ⟨k1, k2⟩ := h3 handle hh hrun1 hq
    obtain ⟨m1, m2, m3, _, m5, m6⟩ := k2 hz
    refine ⟨?_, m1, m2, m3, m5, m6⟩
    rw [k1]
    rfl

/-- C24 fails on the code.  An object is constructed at the address 100 on memory that
held a nonzero byte in the place of `m_exited`, which the constructor does not
initialise: it has no handle, the reference count 0, and the exited flag set.  The call
`isAlive()` returns false, and it does not leave the object as it was: the closing
`unrefer()` clears the exited flag and calls `exited()`.  For comparison, on the object
at 70 that has the handle 3, the call returns true when the exit code is `STILL_ACTIVE`
(259), Qt: when `isFinished()` is false, and false when the exit code is 0. -/
theorem Thread.isAlive_null_changes (b : Backend) (exitCode : Option Nat) (finished : Bool) :
    (Thread.new 100 ⟨fun _ => ⟨0, true, 0, none, 0, []⟩, [], none, []⟩).objs 100 =
      ⟨0, true, 0, none, 0, []⟩ ∧
    (Thread.new 100 ⟨fun _ => ⟨0, true, 0, none, 0, []⟩, [], none, []⟩).log = [] ∧
    ∃ w1, Thread.isAlive b exitCode finished 100
        (Thread.new 100 ⟨fun _ => ⟨0, true, 0, none, 0, []⟩, [], none, []⟩) =
        Res.ret false w1 ∧
      w1.objs 100 = ⟨0, false, 0, none, 0, []⟩ ∧ w1.log = [Event.exited 100] ∧
      (∃ w2, Thread.isAlive Backend.win32 (some 259) false 70
        ⟨fun _ => ⟨0, false, 7, some 3, 0, []⟩, [(7, 70)], some 70, []⟩ = Res.ret true w2) ∧
      (∃ w2, Thread.isAlive Backend.qt none false 70
        ⟨fun _ => ⟨0, false, 7, some 3, 0, []⟩, [(7, 70)], some 70, []⟩ = Res.ret true w2) ∧
      (∃ w2, Thread.isAlive Backend.win32 (some 0) false 70
        ⟨fun _ => ⟨1, false, 7, some 3, 0, []⟩, [(7, 70)], some 70, []⟩ = Res.ret false w2) :=
  ⟨by decide, by decide, _, Thread.isAlive_none b exitCode finished 100 _ (by decide),
    by decide, by decide, ⟨_, rfl⟩, ⟨_, rfl⟩, ⟨_, rfl⟩⟩

/-! ## Thread: the destructor at the end of the life of an object -/

theorem World.keepsData_iff (self : Nat) (w w1 : World) :
    World.keepsData self w w1 = true ↔
      (w1.objs self).m_userData = (w.objs self).m_userData ∧
      w1.log.filter Event.isDeinit = w.log.filter Event.isDeinit := by
  simp [World.keepsData]

theorem World.keepsData_refl (self : Nat) (w : World) : World.keepsData self w w = true := by
  simp [World.keepsData]

theorem World.keepsData_trans {self : Nat} {w w1 w2 : World}
    (h1 : World.keepsData self w w1 = true) (h2 : World.keepsData self w1 w2 = true) :
    World.keepsData self w w2 = true := by
  rw [World.keepsData_iff] at h1 h2 ⊢
  exact ⟨h2.1.trans h1.1, h2.2.trans h1.2⟩

/-- The calls of a callback on record are those among the records of deinit calls. -/
theorem World.deinitCalls_filter (w : World) (f : Nat) (d : Option Nat) :
    w.deinitCalls f d = (w.log.filter Event.isDeinit).count (Event.deinit f d) := by
  unfold World.deinitCalls
  rw [List.count_filter]
  rfl

/-- A change of the fields of an object other than its user data, with records other
than deinit calls, keeps the user data. -/
theorem World.keepsData_fields (self a : Nat) (w : World) (th : Thread) (events : List Event)
    (hu : th.m_userData = (w.objs a).m_userData)
    (he : ∀ e ∈ events, Event.isDeinit e = false) :
    World.keepsData self w { w.setObj a th with log := w.log ++ events } = true := by
  rw [World.keepsData_iff]
  constructor
  · by_cases hs : self = a
    · subst hs
      simp [World.setObj, hu]
    · simp [World.setObj, Function.update_noteq hs]
  · simp only [List.filter_append, List.append_right_eq_self, List.filter_eq_nil_iff]
    intro e hm
    simp [he e hm]

theorem World.keepsData_exited (self a : Nat) (w : World) :
    World.keepsData self w (Thread.exited a w) = true := by
  cases hh : (w.objs a).m_handle with
  | none =>
    have h := World.keepsData_fields self a w (w.objs a) [Event.exited a] rfl
      (by intro e he; rw [List.mem_singleton.1 he]; rfl)
    have heq : Thread.exited a w =
        { w.setObj a (w.objs a) with log := w.log ++ [Event.exited a] } := by
      simp [Thread.exited, hh, World.setObj]
    rw [heq]
    exact h
  | some handle =>
    have h := World.keepsData_fields self a w { w.objs a with m_id := 0, m_handle := none }
      [Event.exited a, Event.closeHandle handle] rfl
      (by
        intro e he
        simp only [List.mem_cons, List.mem_singleton, List.mem_nil_iff, or_false] at he
        rcases he with rfl | rfl <;> rfl)
    rw [World.keepsData_iff] at h ⊢
    constructor
    · rw [← h.1]
      simp [Thread.exited, hh, World.setObj]
    · rw [← h.2]
      simp [Thread.exited, hh, World.setObj]

theorem World.keepsData_refer (self a : Nat) (w : World) :
    World.keepsData self w (Thread.refer a w) = true := by
  have h := World.keepsData_fields self a w
    { w.objs a with m_refCount := (w.objs a).m_refCount + 1 } [] rfl (by simp)
  simpa [Thread.refer, World.setObj] using h

theorem World.keepsData_unrefer (self a : Nat) (w : World) :
    World.keepsData self w (Thread.unrefer a w) = true := by
  rw [Thread.unrefer_eq]
  split_ifs
  · refine World.keepsData_trans ?_ (World.keepsData_exited self a _)
    have h := World.keepsData_fields self a w
      { w.objs a with m_refCount := (w.objs a).m_refCount - 1, m_exited := false } [] rfl
      (by simp)
    simpa [World.setObj] using h
  · have h := World.keepsData_fields self a w
      { w.objs a with m_refCount := (w.objs a).m_refCount - 1 } [] rfl (by simp)
    simpa [World.setObj] using h

theorem World.keepsData_joinBody (self : Nat) (b : Backend) (res : Option WaitResult) (a : Nat)
    (w w1 : World) (h : Thread.joinBody b res a w = Res.ret () w1) :
    World.keepsData self w w1 = true := by
  cases hh : (w.objs a).m_handle with
  | none =>
    rw [Thread.joinBody_none b res a w hh] at h
    injection h with _ h
    rw [← h]
    refine World.keepsData_trans ?_ (World.keepsData_unrefer self a _)
    have h2 := World.keepsData_fields self a w
      { w.objs a with m_refCount := (w.objs a).m_refCount + 1, m_exited := true } [] rfl
      (by simp)
    simpa [World.referExited, World.setObj] using h2
  | some handle =>
    cases res with
    | none =>
      rw [Thread.joinBody_blocks b a w handle hh] at h
      exact absurd h (by simp)
    | some r =>
      rw [Thread.joinBody_some b r a w handle hh] at h
      split_ifs at h
      injection h with _ h
      rw [← h]
      refine World.keepsData_trans ?_ (World.keepsData_unrefer self a _)
      have h2 := World.keepsData_fields self a w
        { w.objs a with m_refCount := (w.objs a).m_refCount + 1, m_exited := true }
        [Event.wait handle] rfl (by intro e he; rw [List.mem_singleton.1 he]; rfl)
      simpa [World.referExited, World.setObj, World.record] using h2

theorem World.keepsData_isAlive (self : Nat) (b : Backend) (exitCode : Option Nat)
    (finished : Bool) (a : Nat) (w w1 : World) (r : Bool)
    (h : Thread.isAlive b exitCode finished a w = Res.ret r w1) :
    World.keepsData self w w1 = true := by
  cases hh : (w.objs a).m_handle with
  | none =>
    rw [Thread.isAlive_none b exitCode finished a w hh] at h
    injection h with _ h
    rw [← h]
    exact World.keepsData_trans (World.keepsData_refer self a w) (World.keepsData_unrefer self a _)
  | some handle =>
    rw [Thread.isAlive_some b exitCode finished a w handle hh] at h
    split_ifs at h
    · injection h with _ h
      rw [← h]
      exact World.keepsData_trans (World.keepsData_refer self a w)
        (World.keepsData_unrefer self a _)
    · injection h with _ h
      rw [← h]
      refine World.keepsData_trans (World.keepsData_refer self a w)
        (World.keepsData_trans ?_ (World.keepsData_unrefer self a _))
      have h2 := World.keepsData_fields self a (Thread.refer a w)
        { (Thread.refer a w).objs a with m_exited := true } [] rfl (by simp)
      simpa [World.setObj] using h2

theorem World.keepsData_getCurrent (self : Nat) (b : Backend) (c : Caller) (w w1 : World)
    (curr : Nat) (hf : c.fresh ≠ self) (h : Thread.getCurrent b c w = Res.ret curr w1) :
    World.keepsData self w w1 = true := by
  obtain ⟨hl, ho⟩ := Thread.getCurrent_log b c w curr w1 h
  rw [World.keepsData_iff, hl, ho self (fun hx => hf hx.symm)]
  exact ⟨rfl, rfl⟩

/-- Every operation on the thread objects, made while the object at `self` exists, is a
step in the life of that object that keeps its user data and calls no deinit
callback. -/
theorem Thread.lifeStep_objStep (b : Backend) (strict : Bool) (self : Nat) (s s1 : ObjSys)
    (op : ObjOp) (hm : self ∈ s.made) (hs : ObjSys.step b strict s op = some s1) :
    Thread.lifeStep self s.world (LifeStep.other s1.world) = some s1.world := by
  have hk : World.keepsData self s.world s1.world = true := by
    cases op with
    | construct a =>
      simp only [ObjSys.step] at hs
      split_ifs at hs with ha
      injection hs with hs
      subst hs
      have hne : self ≠ a := fun hx => ha (hx ▸ hm)
      rw [World.keepsData_iff]
      simp [Thread.new, World.setObj, Function.update_noteq hne]
    | started c a =>
      simp only [ObjSys.step] at hs
      split_ifs at hs with ha
      cases hr : Thread.started b c a s.world with
      | ret u w1 =>
        rw [hr] at hs
        injection hs with hs
        subst hs
        obtain ⟨handle, _, rfl⟩ := Thread.started_ret b c a s.world w1 hr
        rw [World.keepsData_iff]
        refine ⟨?_, rfl⟩
        by_cases hx : self = a
        · subst hx
          simp
        · simp [Function.update_noteq hx]
      | blocks w1 => simp [hr] at hs
      | fatal w1 => simp [hr] at hs
    | refer a =>
      simp only [ObjSys.step] at hs
      split_ifs at hs with ha
      injection hs with hs
      subst hs
      exact World.keepsData_refer self a _
    | unrefer a =>
      simp only [ObjSys.step] at hs
      split_ifs at hs with ha
      injection hs with hs
      subst hs
      exact World.keepsData_unrefer self a _
    | exited a =>
      simp only [ObjSys.step] at hs
      split_ifs at hs with ha
      injection hs with hs
      subst hs
      exact World.keepsData_exited self a _
    | join c res a =>
      simp only [ObjSys.step] at hs
      split_ifs at hs with ha
      cases hr : Thread.join b c res a s.world with
      | ret u w1 =>
        rw [hr] at hs
        injection hs with hs
        subst hs
        obtain ⟨curr, w2, hg, hj⟩ := Thread.join_ret b c res a s.world w1 hr
        have hne : c.fresh ≠ self := fun hx => ha.2 (hx ▸ hm)
        exact World.keepsData_trans (World.keepsData_getCurrent self b c _ w2 curr hne hg)
          (World.keepsData_joinBody self b res a w2 w1 hj)
      | blocks w1 => simp [hr] at hs
      | fatal w1 => simp [hr] at hs
    | isAlive exitCode finished a =>
      simp only [ObjSys.step] at hs
      split_ifs at hs with ha
      cases hr : Thread.isAlive b exitCode finished a s.world with
      | ret r w1 =>
        rw [hr] at hs
        injection hs with hs
        subst hs
        exact World.keepsData_isAlive self b exitCode finished a _ w1 r hr
      | blocks w1 => simp [hr] at hs
      | fatal w1 => simp [hr] at hs
    | getCurrent c =>
      simp only [ObjSys.step] at hs
      split_ifs at hs with ha
      cases hr : Thread.getCurrent b c s.world with
      | ret curr w1 =>
        rw [hr] at hs
        injection hs with hs
        subst hs
        have hne : c.fresh ≠ self := fun hx => ha (hx ▸ hm)
        exact World.keepsData_getCurrent self b c _ w1 curr hne hr
      | blocks w1 => simp [hr] at hs
      | fatal w1 => simp [hr] at hs
  simp [Thread.lifeStep, hk]

/-- One step in the life of an object keeps the keys of its map distinct, and every
pair with a callback that the step stores is one more that is either in a slot or has
been passed to its callback. -/
theorem Thread.lifeStep_inv (self : Nat) (st : LifeStep) (w w1 : World)
    (hnd : ((w.objs self).m_userData.map Prod.fst).Nodup)
    (hs : Thread.lifeStep self w st = some w1) :
    ((w1.objs self).m_userData.map Prod.fst).Nodup ∧
    ∀ f d, w1.deinitCalls f d + Thread.slotsWith self w1 f d =
      w.deinitCalls f d + Thread.slotsWith self w f d +
        (if st.stores f d = true then 1 else 0) := by
  cases st with
  | set s =>
    simp only [Thread.lifeStep, Option.some.injEq] at hs
    subst hs
    exact Thread.setUserData_inv self s w hnd
  | other w2 =>
    simp only [Thread.lifeStep] at hs
    split_ifs at hs with hk
    injection hs with hs
    subst hs
    rw [World.keepsData_iff] at hk
    refine ⟨by rw [hk.1]; exact hnd, fun f d => ?_⟩
    rw [World.deinitCalls_filter, World.deinitCalls_filter, hk.2]
    simp [Thread.slotsWith, hk.1, LifeStep.stores]

theorem Thread.life_inv (self : Nat) (steps : List LifeStep) (w w1 : World)
    (hnd : ((w.objs self).m_userData.map Prod.fst).Nodup)
    (hs : Thread.life self steps w = some w1) :
    ((w1.objs self).m_userData.map Prod.fst).Nodup ∧
    ∀ f d, w1.deinitCalls f d + Thread.slotsWith self w1 f d =
      w.deinitCalls f d + Thread.slotsWith self w f d +
        steps.countP (LifeStep.stores f d) := by
  induction steps generalizing w with
  | nil =>
    simp only [Thread.life, Option.some.injEq] at hs
    subst hs
    exact ⟨hnd, fun f d => by simp⟩
  | cons st rest ih =>
    simp only [Thread.life] at hs
    cases hn : Thread.lifeStep self w st with
    | none => simp [hn] at hs
    | some w2 =>
      rw [hn] at hs
      obtain ⟨h1, h2⟩ := Thread.lifeStep_inv self st w w2 hnd hn
      obtain ⟨h3, h4⟩ := ih w2 h1 hs
      refine ⟨h3, fun f d => ?_⟩
      rw [h4 f d, h2 f d, List.countP_cons]
      omega

/-- C20. Destruction deinitialises every remaining user-data slot.  Take an object as
its constructor leaves it, with an empty user-data map, in any world `w0`; let it live
through any sequence of steps, each a call `setUserData` on it or anything else that
keeps its map and calls no callback (`started()` on it, `refer()`, `unrefer()`, a
cleanup, `join()`, `isAlive()`, `getCurrent()`, operations on other objects), so that the
object may have been started, may be the wrapper of a thread, and may have been
cleaned up; then let a thread `c` destroy it, with a first block of the destructor
(`join()`, which may wait and run the cleanup, or the thread's own
refer/mark-exited/unrefer) that returns.  Then the destructor returns; its loop makes, in
slot order, exactly one call `deinitFunc(data)` for each slot of the map that has a
callback, and the keys of the slots are distinct; and in the whole life of the object
every pair that was stored with a callback has been passed to its callback exactly
once: the number of calls `f(d)` on record has grown by the number of `setUserData`
calls that stored `d` with `f`, so a pair that was removed or replaced earlier is not
deinitialised again. -/
theorem Thread.destructor_deinit (b : Backend) (c : Caller) (res : Option WaitResult)
    (hasError : Bool) (self : Nat) (w0 w w2 : World) (steps : List LifeStep)
    (hnew : (w0.objs self).m_userData = [])
    (hlife : Thread.life self steps w0 = some w)
    (hfresh : c.fresh ≠ self)
    (hexit : Thread.waitAndExit b c res hasError self w = Res.ret () w2) :
    Thread.destructor b c res hasError self w = Res.ret () (Thread.deinitUserData self w2) ∧
    (Thread.deinitUserData self w2).log =
      w2.log ++ Thread.deinitEvents (w.objs self).m_userData ∧
    ((w.objs self).m_userData.map Prod.fst).Nodup ∧
    (∀ f d, (Thread.deinitEvents (w.objs self).m_userData).count (Event.deinit f d) =
      ((w.objs self).m_userData.map Prod.snd).count ⟨d, some f⟩) ∧
    ∀ f d, (Thread.deinitUserData self w2).deinitCalls f d =
      w0.deinitCalls f d + steps.countP (LifeStep.stores f d) := by
  obtain ⟨hdata, hcalls⟩ := Thread.waitAndExit_userData b c res hasError self _ w2 hfresh hexit
  obtain ⟨hnd, hinv⟩ := Thread.life_inv self steps w0 w (by simp [hnew]) hlife
  refine ⟨by simp [Thread.destructor, hexit, Res.bind], ?_, hnd,
    fun f d => Thread.deinitEvents_count _ f d, fun f d => ?_⟩
  · rw [Thread.deinitUserData_log, hdata]
  · have h1 := hinv f d
    have h3 : Thread.slotsWith self w0 f d = 0 := by
      simp [Thread.slotsWith, hnew]
    unfold World.deinitCalls at *
    rw [Thread.deinitUserData_log, List.count_append, Thread.deinitEvents_count, hdata,
      hcalls f d]
    unfold Thread.slotsWith at h1 h3
    omega

theorem Res.ret_state {σ : Type} (r : Res σ Unit) (h : Res.returned r = true) :
    r = Res.ret () (Res.state r) := by
  cases r with
  | ret u s => rfl
  | blocks s => simp [Res.returned] at h
  | fatal s => simp [Res.returned] at h

theorem Thread.exampleLife_lived :
    Thread.life 100 Thread.exampleLife Thread.exampleBorn = some Thread.exampleLived := by
  unfold Thread.exampleLived
  cases h : Thread.life 100 Thread.exampleLife Thread.exampleBorn with
  | none =>
    have h1 : (Thread.life 100 Thread.exampleLife Thread.exampleBorn).isSome = true := by decide
    rw [h] at h1
    simp at h1
  | some w => rfl

/-- Witness of C20: the object at 100 is started in the thread 7 after the key "a" was
set; "a" is replaced (callback 2 runs on 1) and kept, "b" is set and removed (callback 6
runs on 5).  The main thread 1 destroys the object: `join()` waits for the handle 3 and
runs the cleanup, and the loop of the destructor calls the callback 4 on 3 and nothing
else. -/
theorem Thread.destructor_deinit_witness :
    (Res.state (Thread.destructor Backend.win32 ⟨1, 60, some 2⟩ (some WaitResult.WAIT_OBJECT_0)
      false 100 Thread.exampleLived)).log =
      [Event.deinit 2 (some 1), Event.deinit 6 (some 5), Event.wait 3, Event.exited 100,
        Event.closeHandle 3, Event.deinit 4 (some 3)] ∧
    Thread.destructor Backend.win32 ⟨1, 60, some 2⟩ (some WaitResult.WAIT_OBJECT_0) false 100
        Thread.exampleLived =
      Res.ret () (Thread.deinitUserData 100
        (Res.state (Thread.waitAndExit Backend.win32 ⟨1, 60, some 2⟩
          (some WaitResult.WAIT_OBJECT_0) false 100 Thread.exampleLived))) :=
  ⟨by decide,
    (Thread.destructor_deinit Backend.win32 ⟨1, 60, some 2⟩ (some WaitResult.WAIT_OBJECT_0)
      false 100 Thread.exampleBorn Thread.exampleLived _ Thread.exampleLife rfl
      Thread.exampleLife_lived (by decide)
      (Res.ret_state _ (by decide))).1⟩

end FW
